import Mathlib

/-!
# BPU (bounded processing unit): shallow embedding of `bpu_espidf.c`

Conventions of the embedding.

* Machine integers are natural numbers; every place where the C code can wrap
  (`uint8_t`, `uint16_t`, `uint32_t` arithmetic and casts) carries an explicit
  reduction modulo `2^8`, `2^16` or `2^32`.
* A C array, and a pointer to bytes, is a function from indices to values
  (`Nat → α`): a store `a[i] = v` is `arr_set a i v`, whatever the index, so
  an out-of-range store is visible in the model instead of being dropped.
* Pointer arguments are passed by value, hence the `NULL` guards on data
  pointers have no counterpart; the function pointers of `BpuIo` are
  `Option`s and their `NULL` guards are kept.
* The host state behind `io.ctx` is a value of an arbitrary type `σ`; each
  callback maps it to a status, an output value and the next host state.
* Loops whose trip count is fixed when they start are folds over
  `List.range`; `while (!done)` loops and the drain loop of
  `bpu_send_pending` take a fuel argument and return `none` when it runs out.
* An uninitialised local struct or array starts as all zeros.
-/

namespace BpuEspidf

/-! ## Constants and fixed-width arithmetic -/

abbrev BPU_RC_OK : Nat := 0
abbrev BPU_RC_ERR : Nat := 1

abbrev BPU_EVT_CMD : Nat := 1
abbrev BPU_EVT_SENSOR : Nat := 2
abbrev BPU_EVT_HB : Nat := 3
abbrev BPU_EVT_TELEM : Nat := 4

abbrev BPU_JOB_CMD : Nat := 1
abbrev BPU_JOB_SENSOR : Nat := 2
abbrev BPU_JOB_HB : Nat := 3
abbrev BPU_JOB_TELEM : Nat := 4

abbrev BPU_MERGE_NONE : Nat := 0
abbrev BPU_MERGE_LAST : Nat := 1

/-- Value written to `init_magic` by `bpu_init` (`0x42505531`). -/
abbrev BPU_MAGIC : Nat := 0x42505531

/-- Size of `pending_buf`: `4 + 64 + 2 + 16 + 1`. -/
abbrev PENDING_CAP : Nat := 87

/-- Store into an array: `a[i] = v`. -/
def arr_set {α : Type} (a : Nat → α) (i : Nat) (v : α) : Nat → α :=
  fun j => if j = i then v else a j

/-- The first `n` cells of an array, as a list. -/
def arr_list {α : Type} (a : Nat → α) (n : Nat) : List α :=
  (List.range n).map a

/-- The array whose first cells are the elements of `l` (zero beyond). -/
def arr_of (l : List Nat) : Nat → Nat :=
  fun i => l.getD i 0

/-- Increment of a `uint32_t` counter. -/
def u32_inc (x : Nat) : Nat := (x + 1) % 4294967296

/-- Subtraction of two `uint32_t` values, `(uint32_t)(a - b)`. -/
def u32_sub (a b : Nat) : Nat :=
  (a + (4294967296 - b % 4294967296)) % 4294967296

/-- Subtraction of two `uint16_t` values, `(uint16_t)(a - b)`. -/
def u16_sub (a b : Nat) : Nat :=
  (a + (65536 - b % 65536)) % 65536

/-! ## Data model -/

/-- Event record `BpuEvent` (payload is `uint8_t[16]`). -/
structure BpuEvent where
  type : Nat
  flags : Nat
  len : Nat
  t_ms : Nat
  payload : Nat → Nat

/-- Job record `BpuJob` (payload is `uint8_t[32]`). -/
structure BpuJob where
  type : Nat
  flags : Nat
  len : Nat
  t_ms : Nat
  payload : Nat → Nat

instance : Inhabited BpuEvent := ⟨⟨0, 0, 0, 0, fun _ => 0⟩⟩
instance : Inhabited BpuJob := ⟨⟨0, 0, 0, 0, fun _ => 0⟩⟩

/-- Counters `BpuStats`, all `uint32_t`. -/
structure BpuStats where
  tick : Nat
  ev_in : Nat
  ev_out : Nat
  ev_merge : Nat
  ev_drop : Nat
  job_in : Nat
  job_out : Nat
  job_merge : Nat
  job_drop : Nat
  tx_frame_sent : Nat
  tx_frame_partial : Nat
  tx_bytes : Nat
  tx_skip_budget : Nat
  tx_skip_backpressure : Nat
  flush_try : Nat
  flush_ok : Nat
  pick_sensor : Nat
  pick_hb : Nat
  pick_telem : Nat
  pick_aged : Nat
  aged_hit_sensor : Nat
  aged_hit_hb : Nat
  aged_hit_telem : Nat
  degrade_drop : Nat
  degrade_requeue : Nat
  pending_active : Nat
  pending_len : Nat
  pending_pos : Nat
  dirty_mask_lo : Nat
  dirty_mask_hi : Nat
  work_us_last : Nat
  work_us_max : Nat

/-- Callbacks `BpuIo`. `ctx` is the host state behind the `void *`; a callback
returns `(status, value stored through the out pointer, next host state)`, and
`tx_write_some` receives the bytes from its pointer argument on and `len`. -/
structure BpuIo (σ : Type) where
  ctx : σ
  tx_free : Option (σ → Nat × Nat × σ)
  tx_write_some : Option (σ → (Nat → Nat) → Nat → Nat × Nat × σ)
  time_us : Option (σ → Nat × Nat × σ)

/-- Configuration `BpuConfig`. -/
structure BpuConfig where
  tx_budget_bytes : Nat
  tx_min_free : Nat
  tx_chunk_max : Nat
  coalesce_window_ms : Nat
  aged_ms : Nat
  enable_degrade : Nat

/-- Event ring `BpuEvRing` (`buf` has 8 slots). -/
structure BpuEvRing where
  buf : Nat → BpuEvent
  head : Nat
  tail : Nat
  count : Nat

/-- Job ring `BpuJobRing` (`buf` has 4 slots). -/
structure BpuJobRing where
  buf : Nat → BpuJob
  head : Nat
  tail : Nat
  count : Nat

/-- One call of `io.tx_write_some`, as observed at the call site in
`bpu_send_pending`: the state the arguments were computed from, the arguments
and the answer. Instrumentation only. -/
structure TxCall where
  pos : Nat
  plen : Nat
  budget : Nat
  want : Nat
  data : List Nat
  rc : Nat
  wrote : Nat
deriving DecidableEq

/-- Aggregate state `Bpu`. `tx_log` and `frames_built` are instrumentation
that no code reads: the calls of `io.tx_write_some` made so far, oldest first,
and the number of calls of `bpu_build_frame` made so far. `stack_evt` and
`stack_job` are not part of the C object either: they stand for the stack
memory behind the locals the code declares without an initialiser and stores
whole into a ring. `stack_evt` is what the local `BpuEvent e` of
`bpu_push_event` holds on entry; `stack_job n` is what the local `BpuJob j` of
`bpu_schedule_from_events` holds at the start of the loop iteration entered
with `st.job_in = n` (every iteration increments `job_in`, a 32-bit counter,
so the iterations of one call read different entries). No code writes them, their values are
arbitrary, and between two API calls they can change (`Reachable.stack`). -/
structure Bpu (σ : Type) where
  io : BpuIo σ
  cfg : BpuConfig
  st : BpuStats
  evq : BpuEvRing
  jobq : BpuJobRing
  pending_buf : Nat → Nat
  pending_len : Nat
  pending_pos : Nat
  pending_have : Nat
  seq : Nat
  init_magic : Nat
  tx_log : List TxCall
  frames_built : Nat
  stack_evt : BpuEvent
  stack_job : Nat → BpuJob

/-! ## CRC16 -/

/-- One round of the inner loop of `bpu_crc16_ccitt`. -/
def crc_bit_step (crc : Nat) : Nat :=
  if crc &&& 0x8000 ≠ 0 then ((crc <<< 1) ^^^ 0x1021) % 65536
  else (crc <<< 1) % 65536

/-- The inner loop `while (b < 8)`, with `n` rounds left. -/
def crc_bits : Nat → Nat → Nat
  | 0, crc => crc
  | n + 1, crc => crc_bits n (crc_bit_step crc)

/-- One round of the outer loop: fold in `data[i]`, then eight bit rounds. -/
def crc_byte_step (crc : Nat) (d : Nat) : Nat :=
  crc_bits 8 ((crc ^^^ (d <<< 8)) % 65536)

/-- Source function `bpu_crc16_ccitt`. -/
def bpu_crc16_ccitt (data : Nat → Nat) (len : Nat) : Nat :=
  (List.range len).foldl (fun crc i => crc_byte_step crc (data i)) 0xFFFF

/-! ## COBS encoder -/

/-- Local variables of `bpu_cobs_encode`. -/
structure CobsSt where
  output : Nat → Nat
  read_index : Nat
  write_index : Nat
  code_index : Nat
  code : Nat
  rc : Nat

/-- Body of the loop of `bpu_cobs_encode`. -/
def cobs_step (input : Nat → Nat) (out_max : Nat) (s : CobsSt) : CobsSt :=
  if s.write_index ≥ out_max then
    { s with rc := BPU_RC_ERR }
  else if input s.read_index = 0 then
    { s with
      output := arr_set s.output s.code_index s.code
      code := 1
      code_index := s.write_index
      write_index := s.write_index + 1
      read_index := s.read_index + 1 }
  else
    let s1 : CobsSt :=
      { s with
        output := arr_set s.output s.write_index (input s.read_index)
        write_index := s.write_index + 1
        read_index := s.read_index + 1
        code := (s.code + 1) % 256 }
    if s1.code = 0xFF then
      if s1.write_index ≥ out_max then
        { s1 with rc := BPU_RC_ERR }
      else
        { s1 with
          output := arr_set s1.output s1.code_index s1.code
          code := 1
          code_index := s1.write_index
          write_index := s1.write_index + 1 }
    else s1

/-- The loop `while (read_index < length && rc == BPU_RC_OK)`. Every round
that keeps `rc` advances `read_index`, so `length` rounds of fuel are enough
(`cobs_loop_exit`). -/
def cobs_loop (input : Nat → Nat) (length out_max : Nat) : Nat → CobsSt → CobsSt
  | 0, s => s
  | fuel + 1, s =>
    if s.read_index < length ∧ s.rc = BPU_RC_OK then
      cobs_loop input length out_max fuel (cobs_step input out_max s)
    else s

/-- Source function `bpu_cobs_encode`: returns `out_len` (0 on failure) and the
output buffer after the call. -/
def bpu_cobs_encode (input : Nat → Nat) (length : Nat) (output : Nat → Nat)
    (out_max : Nat) : Nat × (Nat → Nat) :=
  if out_max = 0 then (0, output)
  else
    let s := cobs_loop input length out_max length
      { output := output, read_index := 0, write_index := 1, code_index := 0,
        code := 1, rc := BPU_RC_OK }
    if s.rc = BPU_RC_OK then
      if s.code_index ≥ out_max then (0, s.output)
      else (s.write_index, arr_set s.output s.code_index s.code)
    else (0, s.output)

/-! ## Policy tables -/

/-- Source function `bpu_policy_for`. -/
def bpu_policy_for (type : Nat) : Nat :=
  if type = BPU_EVT_SENSOR then BPU_MERGE_LAST
  else if type = BPU_EVT_HB then BPU_MERGE_LAST
  else if type = BPU_EVT_TELEM then BPU_MERGE_LAST
  else BPU_MERGE_NONE

/-- Source function `bpu_job_for_evt`. -/
def bpu_job_for_evt (evt_type : Nat) : Nat :=
  if evt_type = BPU_EVT_CMD then BPU_JOB_CMD
  else if evt_type = BPU_EVT_SENSOR then BPU_JOB_SENSOR
  else if evt_type = BPU_EVT_HB then BPU_JOB_HB
  else if evt_type = BPU_EVT_TELEM then BPU_JOB_TELEM
  else 0

/-! ## Ring buffers -/

/-- Source function `bpu_evr_push`. -/
def bpu_evr_push (r : BpuEvRing) (v : BpuEvent) : BpuEvRing × Nat :=
  if r.count ≥ 8 then (r, BPU_RC_ERR)
  else
    ({ r with
       buf := arr_set r.buf r.head v
       head := ((r.head + 1) % 8) % 65536
       count := (r.count + 1) % 65536 }, BPU_RC_OK)

/-- Source function `bpu_evr_pop`; `out` is the previous content of `*out`. -/
def bpu_evr_pop (r : BpuEvRing) (out : BpuEvent) : BpuEvRing × BpuEvent × Nat :=
  if r.count = 0 then (r, out, BPU_RC_ERR)
  else
    ({ r with
       tail := ((r.tail + 1) % 8) % 65536
       count := r.count - 1 }, r.buf r.tail, BPU_RC_OK)

/-- Source function `bpu_evr_at`: the index into `buf` of the returned slot. -/
def bpu_evr_at (r : BpuEvRing) (i : Nat) : Nat :=
  ((r.tail + i) % 8) % 65536

/-- Source function `bpu_jor_push`. -/
def bpu_jor_push (r : BpuJobRing) (v : BpuJob) : BpuJobRing × Nat :=
  if r.count ≥ 4 then (r, BPU_RC_ERR)
  else
    ({ r with
       buf := arr_set r.buf r.head v
       head := ((r.head + 1) % 4) % 65536
       count := (r.count + 1) % 65536 }, BPU_RC_OK)

/-- Source function `bpu_jor_pop`; `out` is the previous content of `*out`. -/
def bpu_jor_pop (r : BpuJobRing) (out : BpuJob) : BpuJobRing × BpuJob × Nat :=
  if r.count = 0 then (r, out, BPU_RC_ERR)
  else
    ({ r with
       tail := ((r.tail + 1) % 4) % 65536
       count := r.count - 1 }, r.buf r.tail, BPU_RC_OK)

/-- Source function `bpu_jor_at`: the index into `buf` of the returned slot. -/
def bpu_jor_at (r : BpuJobRing) (i : Nat) : Nat :=
  ((r.tail + i) % 4) % 65536

/-! ## Coalescing queues -/

/-- Body of the scan loop of `bpu_evq_push_coalesce`, for loop index `i`; the
Boolean is the local `merged`. -/
def evq_scan_step {σ : Type} (e : BpuEvent) (s : Bpu σ × Bool) (i : Nat) :
    Bpu σ × Bool :=
  let bpu := s.1
  let ex := bpu_evr_at bpu.evq i
  if (bpu.evq.buf ex).type = e.type then
    if u32_sub e.t_ms (bpu.evq.buf ex).t_ms ≤ bpu.cfg.coalesce_window_ms then
      ({ bpu with
         evq := { bpu.evq with buf := arr_set bpu.evq.buf ex e }
         st := { bpu.st with ev_merge := u32_inc bpu.st.ev_merge } }, true)
    else s
  else s

/-- Append path shared by both branches of `bpu_evq_push_coalesce`. -/
def evq_append {σ : Type} (bpu : Bpu σ) (e : BpuEvent) : Bpu σ × Nat :=
  let r := bpu_evr_push bpu.evq e
  if r.2 ≠ BPU_RC_OK then
    ({ bpu with evq := r.1, st := { bpu.st with ev_drop := u32_inc bpu.st.ev_drop } },
      BPU_RC_ERR)
  else ({ bpu with evq := r.1 }, BPU_RC_OK)

/-- Source function `bpu_evq_push_coalesce`. -/
def bpu_evq_push_coalesce {σ : Type} (bpu : Bpu σ) (e : BpuEvent) : Bpu σ × Nat :=
  let bpu := { bpu with st := { bpu.st with ev_in := u32_inc bpu.st.ev_in } }
  if bpu.cfg.coalesce_window_ms > 0 ∧ bpu_policy_for e.type = BPU_MERGE_LAST
      ∧ bpu.evq.count ≠ 0 then
    let s := (List.range bpu.evq.count).foldl (evq_scan_step e) (bpu, false)
    if !s.2 then evq_append s.1 e else (s.1, BPU_RC_OK)
  else evq_append bpu e

/-- Source function `bpu_evq_pop`. -/
def bpu_evq_pop {σ : Type} (bpu : Bpu σ) (out : BpuEvent) : Bpu σ × BpuEvent × Nat :=
  let r := bpu_evr_pop bpu.evq out
  if r.2.2 ≠ BPU_RC_OK then ({ bpu with evq := r.1 }, r.2.1, BPU_RC_ERR)
  else
    ({ bpu with evq := r.1, st := { bpu.st with ev_out := u32_inc bpu.st.ev_out } },
      r.2.1, BPU_RC_OK)

/-- Body of the scan loop of `bpu_jobq_push_coalesce`, for loop index `i`. -/
def jobq_scan_step {σ : Type} (j : BpuJob) (s : Bpu σ × Bool) (i : Nat) :
    Bpu σ × Bool :=
  let bpu := s.1
  let ex := bpu_jor_at bpu.jobq i
  if (bpu.jobq.buf ex).type = j.type then
    ({ bpu with
       jobq := { bpu.jobq with buf := arr_set bpu.jobq.buf ex j }
       st := { bpu.st with job_merge := u32_inc bpu.st.job_merge } }, true)
  else s

/-- Append path shared by both branches of `bpu_jobq_push_coalesce`. -/
def jobq_append {σ : Type} (bpu : Bpu σ) (j : BpuJob) : Bpu σ × Nat :=
  let r := bpu_jor_push bpu.jobq j
  if r.2 ≠ BPU_RC_OK then
    ({ bpu with jobq := r.1, st := { bpu.st with job_drop := u32_inc bpu.st.job_drop } },
      BPU_RC_ERR)
  else ({ bpu with jobq := r.1 }, BPU_RC_OK)

/-- Source function `bpu_jobq_push_coalesce`. -/
def bpu_jobq_push_coalesce {σ : Type} (bpu : Bpu σ) (j : BpuJob) : Bpu σ × Nat :=
  let bpu := { bpu with st := { bpu.st with job_in := u32_inc bpu.st.job_in } }
  if bpu.jobq.count ≠ 0 then
    let s := (List.range bpu.jobq.count).foldl (jobq_scan_step j) (bpu, false)
    if !s.2 then jobq_append s.1 j else (s.1, BPU_RC_OK)
  else jobq_append bpu j

/-- Source function `bpu_jobq_pop`. -/
def bpu_jobq_pop {σ : Type} (bpu : Bpu σ) (out : BpuJob) : Bpu σ × BpuJob × Nat :=
  let r := bpu_jor_pop bpu.jobq out
  if r.2.2 ≠ BPU_RC_OK then ({ bpu with jobq := r.1 }, r.2.1, BPU_RC_ERR)
  else
    ({ bpu with jobq := r.1, st := { bpu.st with job_out := u32_inc bpu.st.job_out } },
      r.2.1, BPU_RC_OK)

/-! ## Dirty mask -/

/-- Source function `bpu_bit64`. -/
def bpu_bit64 (n : Nat) : Nat :=
  if n < 64 then (1 <<< n) % 18446744073709551616 else 0

/-- Source function `bpu_dirty_mask`. -/
def bpu_dirty_mask {σ : Type} (bpu : Bpu σ) : Nat :=
  let m := (List.range bpu.jobq.count).foldl
    (fun m i =>
      let idx := ((bpu.jobq.tail + i) % 4) % 65536
      let j := bpu.jobq.buf idx
      if j.type ≥ 1 ∧ j.type ≤ 63 then m ||| bpu_bit64 j.type else m) 0
  if bpu.pending_have ≠ 0 then m ||| bpu_bit64 63 else m

/-! ## Clock -/

/-- Source function `bpu_try_time_us`: returns the state (the host state may
have moved), the value left in `*us_out` and the status. -/
def bpu_try_time_us {σ : Type} (bpu : Bpu σ) : Bpu σ × Nat × Nat :=
  match bpu.io.time_us with
  | none => (bpu, 0, BPU_RC_ERR)
  | some f =>
    let r := f bpu.io.ctx
    let bpu1 := { bpu with io := { bpu.io with ctx := r.2.2 } }
    if r.1 = BPU_RC_OK then (bpu1, r.2.1, BPU_RC_OK) else (bpu1, r.2.1, BPU_RC_ERR)

/-! ## Framer -/

/-- Local array `decoded` of `bpu_build_frame` after the header, the payload
copy and the CRC have been stored; `len` is already clamped to 64. -/
def build_decoded (type seq len : Nat) (payload : Nat → Nat) : Nat → Nat :=
  let d0 : Nat → Nat := fun _ => 0
  let d1 := arr_set (arr_set (arr_set (arr_set d0 0 0xB2) 1 type) 2 seq) 3 len
  let d2 := (List.range len).foldl (fun d i => arr_set d (4 + i) (payload i)) d1
  let crc := bpu_crc16_ccitt (fun k => d2 (1 + k)) (3 + len)
  arr_set (arr_set d2 (4 + len + 0) (crc &&& 0xFF)) (4 + len + 1) ((crc >>> 8) &&& 0xFF)

/-- Source function `bpu_build_frame`. -/
def bpu_build_frame {σ : Type} (bpu : Bpu σ) (type : Nat) (payload : Nat → Nat)
    (len : Nat) : Bpu σ × Nat :=
  let len := if len > 64 then 64 else len
  let decoded := build_decoded type bpu.seq len payload
  let bpu1 := { bpu with seq := (bpu.seq + 1) % 256, frames_built := bpu.frames_built + 1 }
  let decoded_len := 4 + len + 2
  let enc := bpu_cobs_encode decoded decoded_len bpu1.pending_buf PENDING_CAP
  let bpu2 := { bpu1 with pending_buf := enc.2 }
  if enc.1 = 0 then (bpu2, BPU_RC_ERR)
  else if enc.1 + 1 > PENDING_CAP then (bpu2, BPU_RC_ERR)
  else
    ({ bpu2 with
       pending_buf := arr_set bpu2.pending_buf enc.1 0x00
       pending_len := (enc.1 + 1) % 65536
       pending_pos := 0
       pending_have := 1 }, BPU_RC_OK)

/-! ## Paced transmit -/

/-- Local variables of `bpu_send_pending` together with the state and the
caller's `*budget_left`. -/
structure SendSt (σ : Type) where
  bpu : Bpu σ
  budget_left : Nat
  progress : Bool
  done : Bool
  rc : Nat

/-- The `want` computed at the top of the drain loop, for the current
`pending_len`, `pending_pos`, `*budget_left` and `cfg.tx_chunk_max`. -/
def send_want {σ : Type} (bpu : Bpu σ) (budget_left : Nat) : Nat :=
  let want := if budget_left ≠ 0 then bpu.pending_len - bpu.pending_pos else 0
  let want := if want > budget_left then budget_left else want
  let chunk_cap := bpu.cfg.tx_chunk_max
  if chunk_cap ≠ 0 then (if want > chunk_cap then chunk_cap else want) else want

/-- Body of the drain loop of `bpu_send_pending`, with `f` the non-`NULL`
`io.tx_write_some`. -/
def send_step {σ : Type} (f : σ → (Nat → Nat) → Nat → Nat × Nat × σ)
    (s : SendSt σ) : SendSt σ :=
  let bpu := s.bpu
  let want := send_want bpu s.budget_left
  if want = 0 then { s with done := true }
  else
    let r := f bpu.io.ctx (fun k => bpu.pending_buf (bpu.pending_pos + k)) want
    let wrote := r.2.1
    let call : TxCall :=
      { pos := bpu.pending_pos, plen := bpu.pending_len, budget := s.budget_left,
        want := want,
        data := arr_list (fun k => bpu.pending_buf (bpu.pending_pos + k)) want,
        rc := r.1, wrote := wrote }
    let bpu1 := { bpu with io := { bpu.io with ctx := r.2.2 }, tx_log := bpu.tx_log ++ [call] }
    if r.1 ≠ BPU_RC_OK then { s with bpu := bpu1, rc := BPU_RC_ERR }
    else if wrote = 0 then
      { s with
        bpu := { bpu1 with
                 st := { bpu1.st with
                         tx_skip_backpressure := u32_inc bpu1.st.tx_skip_backpressure } }
        done := true }
    else
      { s with
        bpu := { bpu1 with
                 pending_pos := (bpu1.pending_pos + wrote % 65536) % 65536
                 st := { bpu1.st with
                         tx_bytes := (bpu1.st.tx_bytes + wrote % 4294967296) % 4294967296 } }
        budget_left := u16_sub s.budget_left (wrote % 65536)
        progress := true }

/-- Condition of the drain loop of `bpu_send_pending`. -/
def send_cond {σ : Type} (s : SendSt σ) : Bool :=
  !s.done && decide (s.bpu.pending_pos < s.bpu.pending_len) && decide (s.rc = BPU_RC_OK)

/-- The drain loop of `bpu_send_pending`; `none` when the fuel runs out with the
loop condition still true. -/
def send_loop {σ : Type} (f : σ → (Nat → Nat) → Nat → Nat × Nat × σ) :
    Nat → SendSt σ → Option (SendSt σ)
  | 0, s => if send_cond s then none else some s
  | fuel + 1, s => if send_cond s then send_loop f fuel (send_step f s) else some s

/-- Result of `bpu_send_pending`: state, `*budget_left`, `*progress_out`, status. -/
structure SendRes (σ : Type) where
  bpu : Bpu σ
  budget_left : Nat
  progress : Bool
  rc : Nat

/-- The code of `bpu_send_pending` after the drain loop. -/
def send_finish {σ : Type} (s : SendSt σ) : SendRes σ :=
  let bpu := s.bpu
  if s.rc = BPU_RC_OK then
    if bpu.pending_pos ≥ bpu.pending_len then
      { bpu := { bpu with
                 pending_len := 0
                 pending_pos := 0
                 pending_have := 0
                 st := { bpu.st with
                         tx_frame_sent := u32_inc bpu.st.tx_frame_sent
                         pending_active := 0
                         pending_len := 0
                         pending_pos := 0 } }
        budget_left := s.budget_left, progress := s.progress, rc := s.rc }
    else
      let st1 := if s.progress then
          { bpu.st with tx_frame_partial := u32_inc bpu.st.tx_frame_partial }
        else bpu.st
      { bpu := { bpu with
                 st := { st1 with
                         pending_active := 1
                         pending_len := bpu.pending_len % 4294967296
                         pending_pos := bpu.pending_pos % 4294967296 } }
        budget_left := s.budget_left, progress := s.progress, rc := s.rc }
  else { bpu := bpu, budget_left := s.budget_left, progress := s.progress, rc := s.rc }

/-- Source function `bpu_send_pending`. -/
def bpu_send_pending {σ : Type} (fuel : Nat) (bpu : Bpu σ) (budget_left : Nat) :
    Option (SendRes σ) :=
  if bpu.pending_have = 0 then
    some { bpu := { bpu with pending_len := 0, pending_pos := 0 }
           budget_left := budget_left, progress := false, rc := BPU_RC_OK }
  else
    match bpu.io.tx_write_some with
    | none => some { bpu := bpu, budget_left := budget_left, progress := false,
                     rc := BPU_RC_ERR }
    | some f =>
      (send_loop f fuel
        { bpu := bpu, budget_left := budget_left, progress := false, done := false,
          rc := BPU_RC_OK }).map send_finish

/-! ## Scheduler -/

/-- The job built by `bpu_schedule_from_events` from a popped event `e`
(local `j`, lines `j.type = ...` to `j.len = ...`). The local is declared
without an initialiser: `j0` is what it holds before the first store, and the
payload cells the code does not store to keep the bytes of `j0`. -/
def sched_job (j0 : BpuJob) (e : BpuEvent) (now_ms : Nat) : BpuJob :=
  let tag :=
    if e.type = BPU_EVT_SENSOR then 0x01
    else if e.type = BPU_EVT_HB then 0x02
    else if e.type = BPU_EVT_TELEM then 0x03
    else if e.type = BPU_EVT_CMD then 0x04
    else 0x00
  let p0 : Nat → Nat := j0.payload
  let p1 := arr_set (arr_set p0 0 tag) 1 (e.len % 256)
  let copy_n := if e.len > (32 - 2) % 65536 then (32 - 2) % 65536 else e.len
  let p2 := (List.range copy_n).foldl (fun p i => arr_set p (2 + i) (e.payload i)) p1
  { j0 with
    type := bpu_job_for_evt e.type
    flags := e.flags
    t_ms := now_ms
    payload := p2
    len := (2 + copy_n) % 65536 }

/-- The counter updates of `bpu_schedule_from_events` for a popped event. -/
def sched_aged (st : BpuStats) (cfg : BpuConfig) (e : BpuEvent) (now_ms : Nat) :
    BpuStats :=
  if u32_sub now_ms e.t_ms ≥ cfg.aged_ms then
    let st := { st with pick_aged := u32_inc st.pick_aged }
    if e.type = BPU_EVT_SENSOR then
      { st with aged_hit_sensor := u32_inc st.aged_hit_sensor }
    else if e.type = BPU_EVT_HB then
      { st with aged_hit_hb := u32_inc st.aged_hit_hb }
    else if e.type = BPU_EVT_TELEM then
      { st with aged_hit_telem := u32_inc st.aged_hit_telem }
    else st
  else st

/-- Body of the loop of `bpu_schedule_from_events` once an event `e` has been
popped: counters, job construction, coalescing push. -/
def sched_event {σ : Type} (now_ms : Nat) (s : Bpu σ × Nat) (e : BpuEvent) :
    Bpu σ × Nat :=
  let bpu := { s.1 with st := sched_aged s.1.st s.1.cfg e now_ms }
  let r := bpu_jobq_push_coalesce bpu (sched_job (s.1.stack_job s.1.st.job_in) e now_ms)
  if r.2 ≠ BPU_RC_OK then (r.1, BPU_RC_ERR) else (r.1, s.2)

/-- The loop `while (!done)` of `bpu_schedule_from_events`, on the pair
(state, `rc`); `none` when the fuel runs out before a pop fails. -/
def sched_loop {σ : Type} (now_ms : Nat) : Nat → Bpu σ × Nat → Option (Bpu σ × Nat)
  | 0, _ => none
  | fuel + 1, s =>
    let p := bpu_evq_pop s.1 default
    if p.2.2 ≠ BPU_RC_OK then some (p.1, s.2)
    else sched_loop now_ms fuel (sched_event now_ms (p.1, s.2) p.2.1)

/-- Source function `bpu_schedule_from_events`. Each round pops one event, so
`evq.count + 1` rounds reach the failing pop. -/
def bpu_schedule_from_events {σ : Type} (bpu : Bpu σ) (now_ms : Nat) :
    Option (Bpu σ × Nat) :=
  sched_loop now_ms (bpu.evq.count + 1) (bpu, BPU_RC_OK)

/-! ## Flush -/

/-- Local variables of `bpu_flush_jobs` together with the state and the
caller's `*budget_left`. -/
structure FlushSt (σ : Type) where
  bpu : Bpu σ
  budget_left : Nat
  rc : Nat
  done : Bool

/-- The statement `(void)bpu_jobq_push_coalesce(bpu, &j)`. -/
def flush_requeue {σ : Type} (bpu : Bpu σ) (j : BpuJob) : Bpu σ :=
  (bpu_jobq_push_coalesce bpu j).1

/-- The statement `bpu->st.degrade_requeue++`. -/
def inc_degrade_requeue {σ : Type} (bpu : Bpu σ) : Bpu σ :=
  { bpu with st := { bpu.st with degrade_requeue := u32_inc bpu.st.degrade_requeue } }

/-- The statement `bpu->st.tx_skip_backpressure++`. -/
def inc_tx_skip_backpressure {σ : Type} (bpu : Bpu σ) : Bpu σ :=
  { bpu with st := { bpu.st with
                     tx_skip_backpressure := u32_inc bpu.st.tx_skip_backpressure } }

/-- The three stores that clear the pending buffer in `bpu_flush_jobs`. -/
def clear_pending {σ : Type} (bpu : Bpu σ) : Bpu σ :=
  { bpu with pending_len := 0, pending_pos := 0, pending_have := 0 }

/-- The worst-case on-wire size computed by `bpu_flush_jobs` for a job of
length `len`. -/
def worst_on_wire (len : Nat) : Nat :=
  let decoded_len := 4 + len + 2
  let worst_overhead := decoded_len / 254 + 2
  decoded_len + worst_overhead + 1

/-- The branch of `bpu_flush_jobs` taken when the popped job `j` does not fit
the budget. -/
def flush_skip_budget {σ : Type} (bpu : Bpu σ) (j : BpuJob) : Bpu σ :=
  let bpu := { bpu with st := { bpu.st with tx_skip_budget := u32_inc bpu.st.tx_skip_budget } }
  if bpu.cfg.enable_degrade ≠ 0 then
    if j.type = BPU_JOB_TELEM then
      { bpu with st := { bpu.st with degrade_drop := u32_inc bpu.st.degrade_drop } }
    else inc_degrade_requeue (flush_requeue bpu j)
  else flush_requeue bpu j

/-- The part of `bpu_flush_jobs` from `bpu_build_frame` on, for the popped job
`j` (budget and free-space checks passed). -/
def flush_emit {σ : Type} (fuel : Nat) (bpu : Bpu σ) (budget_left : Nat) (rc : Nat)
    (j : BpuJob) : Option (FlushSt σ) :=
  let wire_len := if j.len > 255 then 255 else j.len % 256
  let b := bpu_build_frame bpu j.type j.payload wire_len
  if b.2 ≠ BPU_RC_OK then
    some { bpu := inc_degrade_requeue (flush_requeue b.1 j), budget_left := budget_left,
           rc := rc, done := true }
  else
    let before := budget_left
    match bpu_send_pending fuel b.1 budget_left with
    | none => none
    | some r =>
      if r.rc ≠ BPU_RC_OK then
        some { bpu := inc_degrade_requeue (clear_pending (flush_requeue r.bpu j))
               budget_left := r.budget_left, rc := rc, done := true }
      else if !r.progress then
        some { bpu := inc_tx_skip_backpressure
                        (inc_degrade_requeue (clear_pending (flush_requeue r.bpu j)))
               budget_left := r.budget_left, rc := rc, done := true }
      else
        let bpu1 := { r.bpu with st := { r.bpu.st with flush_ok := u32_inc r.bpu.st.flush_ok } }
        some { bpu := bpu1, budget_left := r.budget_left, rc := rc,
               done := decide (before = r.budget_left) }

/-- The part of `bpu_flush_jobs` that handles a job queue known to be
non-empty: pop, budget check, free-space check, emit. -/
def flush_job {σ : Type} (fuel : Nat) (bpu : Bpu σ) (budget_left : Nat) (rc : Nat) :
    Option (FlushSt σ) :=
  let bpu := { bpu with st := { bpu.st with flush_try := u32_inc bpu.st.flush_try } }
  let p := bpu_jobq_pop bpu default
  if p.2.2 ≠ BPU_RC_OK then
    some { bpu := p.1, budget_left := budget_left, rc := rc, done := true }
  else
    let bpu := p.1
    let j := p.2.1
    if worst_on_wire j.len > budget_left then
      some { bpu := flush_skip_budget bpu j, budget_left := budget_left, rc := rc,
             done := true }
    else
      let fr : Bpu σ × Nat × Nat :=
        match bpu.io.tx_free with
        | none => (bpu, 0, BPU_RC_ERR)
        | some f =>
          let r := f bpu.io.ctx
          ({ bpu with io := { bpu.io with ctx := r.2.2 } }, r.2.1, r.1)
      let bpu := fr.1
      let free_sz := fr.2.1
      let have_free := fr.2.2
      if have_free ≠ BPU_RC_OK then
        some { bpu := inc_degrade_requeue (flush_requeue bpu j), budget_left := budget_left,
               rc := rc, done := true }
      else if free_sz < bpu.cfg.tx_min_free then
        some { bpu := inc_tx_skip_backpressure (inc_degrade_requeue (flush_requeue bpu j))
               budget_left := budget_left, rc := rc, done := true }
      else flush_emit fuel bpu budget_left rc j

/-- Body of the loop `while (!done)` of `bpu_flush_jobs`. -/
def flush_step {σ : Type} (fuel : Nat) (s : FlushSt σ) : Option (FlushSt σ) :=
  if s.budget_left = 0 then some { s with done := true }
  else if s.bpu.pending_have ≠ 0 then
    match bpu_send_pending fuel s.bpu s.budget_left with
    | none => none
    | some r =>
      if r.rc ≠ BPU_RC_OK then
        some { bpu := r.bpu, budget_left := r.budget_left, rc := BPU_RC_ERR, done := true }
      else if !r.progress then
        some { bpu := r.bpu, budget_left := r.budget_left, rc := s.rc, done := true }
      else some { bpu := r.bpu, budget_left := r.budget_left, rc := s.rc, done := s.done }
  else if s.bpu.jobq.count = 0 then some { s with done := true }
  else flush_job fuel s.bpu s.budget_left s.rc

/-- The loop `while (!done)` of `bpu_flush_jobs`; `inner` is the fuel handed to
each `bpu_send_pending`; `none` when a fuel runs out. -/
def flush_loop {σ : Type} (inner : Nat) : Nat → FlushSt σ → Option (FlushSt σ)
  | 0, s => if s.done then some s else none
  | fuel + 1, s =>
    if s.done then some s
    else
      match flush_step inner s with
      | none => none
      | some s1 => flush_loop inner fuel s1

/-- Source function `bpu_flush_jobs`: state, `*budget_left` and status. -/
def bpu_flush_jobs {σ : Type} (fuel : Nat) (bpu : Bpu σ) (budget_left : Nat) :
    Option (Bpu σ × Nat × Nat) :=
  (flush_loop fuel fuel
    { bpu := bpu, budget_left := budget_left, rc := BPU_RC_OK, done := false }).map
    (fun s => (s.bpu, s.budget_left, s.rc))

/-! ## Public API -/

/-- Source function `bpu_init`; `bpu` is the memory the caller hands in, whose
arrays are not cleared. -/
def bpu_init {σ : Type} (bpu : Bpu σ) (io : BpuIo σ) (cfg : BpuConfig) : Bpu σ × Nat :=
  if io.tx_free.isNone then (bpu, BPU_RC_ERR)
  else if io.tx_write_some.isNone then (bpu, BPU_RC_ERR)
  else
    ({ bpu with
       io := io
       cfg := cfg
       evq := { bpu.evq with head := 0, tail := 0, count := 0 }
       jobq := { bpu.jobq with head := 0, tail := 0, count := 0 }
       pending_len := 0
       pending_pos := 0
       pending_have := 0
       st := { tick := 0, ev_in := 0, ev_out := 0, ev_merge := 0, ev_drop := 0,
               job_in := 0, job_out := 0, job_merge := 0, job_drop := 0,
               tx_frame_sent := 0, tx_frame_partial := 0, tx_bytes := 0,
               tx_skip_budget := 0, tx_skip_backpressure := 0, flush_try := 0,
               flush_ok := 0, pick_sensor := 0, pick_hb := 0, pick_telem := 0,
               pick_aged := 0, aged_hit_sensor := 0, aged_hit_hb := 0,
               aged_hit_telem := 0, degrade_drop := 0, degrade_requeue := 0,
               pending_active := 0, pending_len := 0, pending_pos := 0,
               dirty_mask_lo := 0, dirty_mask_hi := 0, work_us_last := 0,
               work_us_max := 0 }
       seq := 0
       init_magic := BPU_MAGIC }, BPU_RC_OK)

/-- The event record built by `bpu_push_event` (local `e`). The local is
declared without an initialiser: `e0` is what it holds before the first store,
and the payload cells from the clamped `len` on keep the bytes of `e0`. -/
def push_event_record (e0 : BpuEvent) (evt_type : Nat) (payload : Nat → Nat)
    (len now_ms : Nat) : BpuEvent :=
  let len := if len > 16 then 16 else len
  { e0 with
    type := evt_type
    flags := 0
    len := len
    t_ms := now_ms
    payload := (List.range len).foldl (fun p i => arr_set p i (payload i)) e0.payload }

/-- Source function `bpu_push_event`. -/
def bpu_push_event {σ : Type} (bpu : Bpu σ) (evt_type : Nat) (payload : Nat → Nat)
    (len now_ms : Nat) : Bpu σ × Nat :=
  if bpu.init_magic ≠ BPU_MAGIC then (bpu, BPU_RC_ERR)
  else
    let st :=
      if evt_type = BPU_EVT_SENSOR then
        { bpu.st with pick_sensor := u32_inc bpu.st.pick_sensor }
      else if evt_type = BPU_EVT_HB then
        { bpu.st with pick_hb := u32_inc bpu.st.pick_hb }
      else if evt_type = BPU_EVT_TELEM then
        { bpu.st with pick_telem := u32_inc bpu.st.pick_telem }
      else bpu.st
    let r := bpu_evq_push_coalesce { bpu with st := st }
      (push_event_record bpu.stack_evt evt_type payload len now_ms)
    if r.2 ≠ BPU_RC_OK then (r.1, BPU_RC_ERR) else (r.1, BPU_RC_OK)

/-- The clock sample taken at both ends of `bpu_tick_ex`: state, sample and
whether it is available. -/
def tick_sample {σ : Type} (bpu : Bpu σ) (now_us : Nat) : Bpu σ × Nat × Bool :=
  if now_us ≠ 0 then (bpu, now_us, true)
  else
    let r := bpu_try_time_us bpu
    (r.1, r.2.1, decide (r.2.2 = BPU_RC_OK))

/-- The end of `bpu_tick_ex`: tick counter, dirty mask, work-time counters. -/
def tick_finish {σ : Type} (bpu : Bpu σ) (now_us t0 : Nat) (have_t0 : Bool) : Bpu σ :=
  let dirty := bpu_dirty_mask bpu
  let bpu := { bpu with
               st := { bpu.st with
                       tick := u32_inc bpu.st.tick
                       dirty_mask_lo := dirty &&& 0xFFFFFFFF
                       dirty_mask_hi := (dirty >>> 32) &&& 0xFFFFFFFF } }
  let s1 := tick_sample bpu now_us
  let bpu := s1.1
  let t1 := s1.2.1
  if have_t0 && s1.2.2 then
    let last := if t1 ≥ t0 then (t1 - t0) % 4294967296 else 0
    let mx := if last > bpu.st.work_us_max then last else bpu.st.work_us_max
    { bpu with st := { bpu.st with work_us_last := last, work_us_max := mx } }
  else bpu

/-- Source function `bpu_tick_ex`; `fuel` bounds the rounds of each transmit
loop, `none` when it runs out. -/
def bpu_tick_ex {σ : Type} (fuel : Nat) (bpu : Bpu σ) (now_ms now_us : Nat) :
    Option (Bpu σ × Nat) :=
  if bpu.init_magic ≠ BPU_MAGIC then some (bpu, BPU_RC_ERR)
  else
    let s0 := tick_sample bpu now_us
    let bpu := s0.1
    let budget := bpu.cfg.tx_budget_bytes
    let first : Option (Bpu σ × Nat × Nat) :=
      if bpu.pending_have ≠ 0 then
        (bpu_send_pending fuel bpu budget).map
          (fun r => (r.bpu, r.budget_left, if r.rc ≠ BPU_RC_OK then BPU_RC_ERR else BPU_RC_OK))
      else some (bpu, budget, BPU_RC_OK)
    match first with
    | none => none
    | some (bpu, budget, rc) =>
      if rc = BPU_RC_OK then
        match bpu_schedule_from_events bpu now_ms with
        | none => none
        | some sch =>
          match bpu_flush_jobs fuel sch.1 budget with
          | none => none
          | some fl => some (tick_finish fl.1 now_us s0.2.1 s0.2.2, rc)
      else some (tick_finish bpu now_us s0.2.1 s0.2.2, rc)

/-- Source function `bpu_tick`. -/
def bpu_tick {σ : Type} (fuel : Nat) (bpu : Bpu σ) (now_ms : Nat) : Option (Bpu σ × Nat) :=
  bpu_tick_ex fuel bpu now_ms 0

/-- Source function `bpu_get_stats`; `out` is the previous content of `*out`. -/
def bpu_get_stats {σ : Type} (bpu : Bpu σ) (out : BpuStats) : BpuStats × Nat :=
  if bpu.init_magic ≠ BPU_MAGIC then (out, BPU_RC_ERR) else (bpu.st, BPU_RC_OK)

/-! # Reference definitions and proof-side definitions -/

/-! ## CRC16 reference -/

/-- Reference CRC16-CCITT, one message bit: the feedback is the register's top
bit xor the message bit, the register shifts left by one within 16 bits, and
the polynomial `0x1021` is added when the feedback is set. -/
def crc16_ref_bit (crc : Nat) (bit : Bool) : Nat :=
  let fb := xor (crc.testBit 15) bit
  let shifted := (2 * crc) % 65536
  if fb then shifted ^^^ 0x1021 else shifted

/-- The eight bits of a byte, most significant first (no reflection). -/
def byte_bits_msb (d : Nat) : List Bool :=
  [d.testBit 7, d.testBit 6, d.testBit 5, d.testBit 4,
   d.testBit 3, d.testBit 2, d.testBit 1, d.testBit 0]

/-- Reference CRC16-CCITT of a message: register preset to `0xFFFF`, message
bits shifted in most significant first, no final xor. Follows the standard
description, not the source. -/
def crc16_ccitt_ref (msg : List Nat) : Nat :=
  msg.foldl (fun crc d => (byte_bits_msb d).foldl crc16_ref_bit crc) 0xFFFF

/-- The low `n` bits of `d`, most significant first. -/
def msb_bits : Nat → Nat → List Bool
  | 0, _ => []
  | n + 1, d => d.testBit n :: msb_bits n d

/-! ## COBS reference -/

/-- Reference COBS decoder, one byte at a time: `code` is the last block code
read (`0xFF` before the first), `block` the number of data bytes still to
copy, `acc` the decoded output so far. A zero is written between two blocks
unless the earlier code was `0xFF`; a zero byte in the input ends decoding.
Follows the standard decoder, not the source (the source has no decoder). -/
def cobs_decode_loop : List Nat → Nat → Nat → List Nat → List Nat
  | [], _, _, acc => acc
  | b :: bs, code, block, acc =>
    if block ≠ 0 then cobs_decode_loop bs code (block - 1) (acc ++ [b])
    else if b = 0 then acc
    else cobs_decode_loop bs b (b - 1) (if code ≠ 0xFF then acc ++ [0] else acc)

/-- Reference COBS decoder. -/
def cobs_decode (enc : List Nat) : List Nat :=
  cobs_decode_loop enc 0xFF 0 []

/-- Block structure of the encoder's output, as a function of the data bytes
`pend` already gathered in the open block and of the input still to read: a
block is closed by a zero of the input, by reaching 254 data bytes, or by the
end of the input. Used to state the loop invariant of `bpu_cobs_encode`. -/
def cobs_blocks (pend : List Nat) : List Nat → List Nat
  | [] => (pend.length + 1) :: pend
  | x :: xs =>
    if x = 0 then ((pend.length + 1) :: pend) ++ cobs_blocks [] xs
    else if pend.length + 2 = 0xFF then (0xFF :: (pend ++ [x])) ++ cobs_blocks [] xs
    else cobs_blocks (pend ++ [x]) xs

/-- The `n` cells of an array from index `i` on, as a list. -/
def arr_slice {α : Type} (a : Nat → α) (i n : Nat) : List α :=
  (List.range n).map (fun k => a (i + k))

/-- Loop invariant of `bpu_cobs_encode`: the cells below `write_index` are the
closed blocks, then the open block's code cell (still holding `hole`), then
the open block's data `pend`. -/
def CobsInv (s : CobsSt) (closed pend : List Nat) (hole out_max : Nat) : Prop :=
  s.rc = BPU_RC_OK ∧ arr_list s.output s.write_index = closed ++ hole :: pend ∧
  closed.length = s.code_index ∧ s.code = pend.length + 1 ∧ pend.length ≤ 253 ∧
  s.write_index ≤ out_max

/-! ## Framer reference -/

/-- The raw packet of the specification: start byte `0xB2`, type, sequence
number, payload length `n`, the first `n` payload bytes, then the CRC of the
bytes after the start byte, low byte first. -/
def frame_raw (type seq n : Nat) (payload : Nat → Nat) : List Nat :=
  let body := [type, seq, n] ++ arr_list payload n
  let crc := bpu_crc16_ccitt (arr_of body) (n + 3)
  [0xB2] ++ body ++ [crc % 256, crc / 256 % 256]

/-! ## Queue invariants and fixtures -/

/-- The merge test of `bpu_evq_push_coalesce` for a queued event `ex` and an
incoming event `e`: equal types and `(uint32_t)(e.t_ms - ex.t_ms)` within the
window. -/
def evq_mergeable (window : Nat) (e ex : BpuEvent) : Bool :=
  decide (ex.type = e.type) && decide (u32_sub e.t_ms ex.t_ms ≤ window)

/-- Invariant of the scan loop of `bpu_evq_push_coalesce` after the indices
below `n`, from state `b`. -/
def EvqScanInv {σ : Type} (b : Bpu σ) (e : BpuEvent) (n : Nat) (s : Bpu σ × Bool) : Prop :=
  s.1.cfg = b.cfg ∧ s.1.evq.head = b.evq.head ∧ s.1.evq.tail = b.evq.tail ∧
  s.1.evq.count = b.evq.count ∧ s.1.st.ev_drop = b.st.ev_drop ∧
  s.1.st.ev_in = b.st.ev_in ∧
  (∀ i, i < n → evq_mergeable b.cfg.coalesce_window_ms e (b.evq.buf (bpu_evr_at b.evq i)) = true →
    s.1.evq.buf (bpu_evr_at b.evq i) = e) ∧
  (∀ k, (∀ i, i < n → bpu_evr_at b.evq i = k →
      evq_mergeable b.cfg.coalesce_window_ms e (b.evq.buf (bpu_evr_at b.evq i)) = false) →
    s.1.evq.buf k = b.evq.buf k) ∧
  s.1.st.ev_merge = u32_inc^[((List.range n).filter (fun i =>
    evq_mergeable b.cfg.coalesce_window_ms e (b.evq.buf (bpu_evr_at b.evq i)))).length]
      b.st.ev_merge ∧
  (s.2 = true ↔ ∃ i, i < n ∧
    evq_mergeable b.cfg.coalesce_window_ms e (b.evq.buf (bpu_evr_at b.evq i)) = true) ∧
  ((∀ i, i < n →
      evq_mergeable b.cfg.coalesce_window_ms e (b.evq.buf (bpu_evr_at b.evq i)) = false) →
    s = (b, false))

/-- Null transport: no callback installed. -/
def io_null : BpuIo Unit :=
  { ctx := (), tx_free := none, tx_write_some := none, time_us := none }

/-- The configuration of the example application (`bpu_espidf_example.c`). -/
def cfg_example : BpuConfig :=
  { tx_budget_bytes := 200, tx_min_free := 96, tx_chunk_max := 128,
    coalesce_window_ms := 20, aged_ms := 200, enable_degrade := 1 }

/-- A zero-filled `Bpu` object, as handed to `bpu_init`; the stack memory
behind the uninitialised locals holds zeros as well. -/
def bpu_zeroed : Bpu Unit :=
  { io := io_null
    cfg := { tx_budget_bytes := 0, tx_min_free := 0, tx_chunk_max := 0,
             coalesce_window_ms := 0, aged_ms := 0, enable_degrade := 0 }
    st := { tick := 0, ev_in := 0, ev_out := 0, ev_merge := 0, ev_drop := 0,
            job_in := 0, job_out := 0, job_merge := 0, job_drop := 0,
            tx_frame_sent := 0, tx_frame_partial := 0, tx_bytes := 0,
            tx_skip_budget := 0, tx_skip_backpressure := 0, flush_try := 0,
            flush_ok := 0, pick_sensor := 0, pick_hb := 0, pick_telem := 0,
            pick_aged := 0, aged_hit_sensor := 0, aged_hit_hb := 0,
            aged_hit_telem := 0, degrade_drop := 0, degrade_requeue := 0,
            pending_active := 0, pending_len := 0, pending_pos := 0,
            dirty_mask_lo := 0, dirty_mask_hi := 0, work_us_last := 0,
            work_us_max := 0 }
    evq := { buf := fun _ => default, head := 0, tail := 0, count := 0 }
    jobq := { buf := fun _ => default, head := 0, tail := 0, count := 0 }
    pending_buf := fun _ => 0
    pending_len := 0
    pending_pos := 0
    pending_have := 0
    seq := 0
    init_magic := 0
    tx_log := []
    frames_built := 0
    stack_evt := default
    stack_job := fun _ => default }

/-- A transport that reports 4096 free bytes and accepts every byte offered. -/
def io_accept : BpuIo Unit :=
  { ctx := ()
    tx_free := some (fun c => (BPU_RC_OK, 4096, c))
    tx_write_some := some (fun c _ want => (BPU_RC_OK, want, c))
    time_us := none }

/-- A freshly initialised BPU with the example configuration. -/
def bpu_fresh : Bpu Unit :=
  (bpu_init bpu_zeroed io_accept cfg_example).1

/-- Invariant of the scan loop of `bpu_jobq_push_coalesce` after the indices
below `n`, from state `b`. -/
def JobqScanInv {σ : Type} (b : Bpu σ) (j : BpuJob) (n : Nat) (s : Bpu σ × Bool) : Prop :=
  s.1.jobq.head = b.jobq.head ∧ s.1.jobq.tail = b.jobq.tail ∧
  s.1.jobq.count = b.jobq.count ∧ s.1.st.job_drop = b.st.job_drop ∧
  s.1.st.job_in = b.st.job_in ∧
  (∀ i, i < n → (b.jobq.buf (bpu_jor_at b.jobq i)).type = j.type →
    s.1.jobq.buf (bpu_jor_at b.jobq i) = j) ∧
  (∀ k, (∀ i, i < n → bpu_jor_at b.jobq i = k →
      (b.jobq.buf (bpu_jor_at b.jobq i)).type ≠ j.type) →
    s.1.jobq.buf k = b.jobq.buf k) ∧
  s.1.st.job_merge = u32_inc^[((List.range n).filter (fun i =>
    decide ((b.jobq.buf (bpu_jor_at b.jobq i)).type = j.type))).length] b.st.job_merge ∧
  (s.2 = true ↔ ∃ i, i < n ∧ (b.jobq.buf (bpu_jor_at b.jobq i)).type = j.type) ∧
  ((∀ i, i < n → (b.jobq.buf (bpu_jor_at b.jobq i)).type ≠ j.type) → s = (b, false))

/-- A job of type `t` stamped `t_ms`, with an empty payload. -/
def job_of_type (t t_ms : Nat) : BpuJob :=
  { type := t, flags := 0, len := 2, t_ms := t_ms, payload := fun _ => 0 }

/-- The occupied slots of the event ring in pop order (oldest first). -/
def evq_contents (r : BpuEvRing) : List BpuEvent :=
  (List.range r.count).map (fun i => r.buf (bpu_evr_at r i))

/-- The state `b` with the event ring replaced by `r` and `ev_out` by `o`
(the only fields touched by `bpu_evq_pop`). -/
def with_evq {σ : Type} (b : Bpu σ) (r : BpuEvRing) (o : Nat) : Bpu σ :=
  { b with evq := r, st := { b.st with ev_out := o } }

/-- A fresh BPU after a SENSOR event `[1, 2]` at `t = 100` and a CMD event
`[9]` at `t = 105`. -/
def bpu_two_events : Bpu Unit :=
  (bpu_push_event (bpu_push_event bpu_fresh BPU_EVT_SENSOR (arr_of [1, 2]) 2 100).1
    BPU_EVT_CMD (arr_of [9]) 1 105).1

/-! ## Transmit-side invariants -/

/-- The transport contract of `tx_write_some`: a call that returns OK reports
`wrote ≤ want`. -/
def WellBehaved {σ : Type} (io : BpuIo σ) : Prop :=
  ∀ f, io.tx_write_some = some f →
    ∀ (c : σ) (p : Nat → Nat) (want : Nat), (f c p want).1 = BPU_RC_OK → (f c p want).2.1 ≤ want

/-- Bytes the transport took in one logged call (none when it failed). -/
def call_written (c : TxCall) : Nat :=
  if c.rc = BPU_RC_OK then c.wrote else 0

/-- Bytes the transport took over a list of logged calls. -/
def tx_written (log : List TxCall) : Nat :=
  (log.map call_written).sum

/-- Invariant of the pending buffer. -/
def PendInv {σ : Type} (b : Bpu σ) : Prop :=
  (b.pending_have = 1 ∧ b.pending_pos ≤ b.pending_len ∧ b.pending_len ≤ PENDING_CAP) ∨
  (b.pending_have = 0 ∧ b.pending_pos = 0 ∧ b.pending_len = 0)

/-- Invariant of the two rings. -/
def QInv {σ : Type} (b : Bpu σ) : Prop :=
  b.evq.count ≤ 8 ∧ b.jobq.count ≤ 4 ∧ b.evq.head < 8 ∧ b.evq.tail < 8 ∧
  b.jobq.head < 4 ∧ b.jobq.tail < 4

/-- What a `tx_write_some` call logged by `bpu_send_pending` must look like,
for chunk limit `chunk`, staged length `plen` and pending buffer `buf`. -/
def CallOk (chunk plen : Nat) (buf : Nat → Nat) (c : TxCall) : Prop :=
  c.plen = plen ∧ c.pos < c.plen ∧ c.budget ≠ 0 ∧ 1 ≤ c.want ∧
  c.want = (if chunk ≠ 0 then min (min (c.plen - c.pos) c.budget) chunk
            else min (c.plen - c.pos) c.budget) ∧
  (chunk ≠ 0 → c.want ≤ chunk) ∧
  c.data = arr_slice buf c.pos c.want

/-- Relation between the state and budget before (`b0`, `B0`) and after
(`b1`, `B1`) a piece of one tick: configuration, callbacks and magic are
kept, the ring invariant is kept, and under the transport contract the new
log entries account for the budget spent and for `st.tx_bytes`, no call takes
more than the budget it was given, and the pending-buffer invariant is kept. -/
structure TxStep {σ : Type} (b0 : Bpu σ) (B0 : Nat) (b1 : Bpu σ) (B1 : Nat) : Prop where
  cfg : b1.cfg = b0.cfg
  tx_write_some : b1.io.tx_write_some = b0.io.tx_write_some
  tx_free : b1.io.tx_free = b0.io.tx_free
  time_us : b1.io.time_us = b0.io.time_us
  init_magic : b1.init_magic = b0.init_magic
  queue : QInv b0 → QInv b1
  acct : WellBehaved b0.io →
    (∃ new, b1.tx_log = b0.tx_log ++ new ∧ tx_written new + B1 ≤ B0 ∧
      (b0.st.tx_bytes < 4294967296 →
        b1.st.tx_bytes = (b0.st.tx_bytes + tx_written new) % 4294967296) ∧
      (∀ c ∈ new, c.rc = BPU_RC_OK → c.wrote ≤ c.budget)) ∧
    (PendInv b0 → PendInv b1)

/-- The state `b'` differs from `b` at most in the two rings and in the
counters, `st.tx_bytes` excepted. -/
def QueueOnly {σ : Type} (b b' : Bpu σ) : Prop :=
  ∃ (eq : BpuEvRing) (jq : BpuJobRing) (st' : BpuStats),
    b' = { b with evq := eq, jobq := jq, st := st' } ∧ st'.tx_bytes = b.st.tx_bytes

/-- Relation between two states of the drain loop of `bpu_send_pending`: what
the loop keeps, the calls it logged, and, under the transport contract, the
budget accounting. -/
structure SendRel {σ : Type} (s0 s1 : SendSt σ) : Prop where
  cfg : s1.bpu.cfg = s0.bpu.cfg
  evq : s1.bpu.evq = s0.bpu.evq
  jobq : s1.bpu.jobq = s0.bpu.jobq
  pending_buf : s1.bpu.pending_buf = s0.bpu.pending_buf
  pending_len : s1.bpu.pending_len = s0.bpu.pending_len
  pending_have : s1.bpu.pending_have = s0.bpu.pending_have
  seq : s1.bpu.seq = s0.bpu.seq
  init_magic : s1.bpu.init_magic = s0.bpu.init_magic
  tx_write_some : s1.bpu.io.tx_write_some = s0.bpu.io.tx_write_some
  tx_free : s1.bpu.io.tx_free = s0.bpu.io.tx_free
  time_us : s1.bpu.io.time_us = s0.bpu.io.time_us
  log : ∃ new, s1.bpu.tx_log = s0.bpu.tx_log ++ new ∧
    (∀ c ∈ new, CallOk s0.bpu.cfg.tx_chunk_max s0.bpu.pending_len s0.bpu.pending_buf c) ∧
    (s0.budget_left = 0 → s1.budget_left = 0 ∧ new = []) ∧
    (WellBehaved s0.bpu.io →
      tx_written new + s1.budget_left ≤ s0.budget_left ∧
      (s0.bpu.st.tx_bytes < 4294967296 →
        s1.bpu.st.tx_bytes = (s0.bpu.st.tx_bytes + tx_written new) % 4294967296) ∧
      (∀ c ∈ new, c.rc = BPU_RC_OK → c.wrote ≤ c.budget) ∧
      (s0.bpu.pending_pos ≤ s0.bpu.pending_len → s1.bpu.pending_pos ≤ s1.bpu.pending_len) ∧
      (s1.progress = true → s0.progress = true ∨ s1.budget_left < s0.budget_left))

/-- What one call of `bpu_send_pending` from state `b` with budget `B`
guarantees about its result `r`. -/
structure SendOut {σ : Type} (b : Bpu σ) (B : Nat) (r : SendRes σ) : Prop where
  step : TxStep b B r.bpu r.budget_left
  evq : r.bpu.evq = b.evq
  jobq : r.bpu.jobq = b.jobq
  pending_buf : r.bpu.pending_buf = b.pending_buf
  seq : r.bpu.seq = b.seq
  calls : ∃ new, r.bpu.tx_log = b.tx_log ++ new ∧
    (∀ c ∈ new, CallOk b.cfg.tx_chunk_max b.pending_len b.pending_buf c) ∧ (B = 0 → new = [])
  progress : WellBehaved b.io → r.progress = true → r.budget_left < B

/-! ## Reachable states and fixtures -/

/-- States reachable from a successful `bpu_init` by calls of `bpu_push_event`
and `bpu_tick_ex` (with any fuel that lets the tick return); between two calls
the host may change the state behind `io.ctx`, and the stack memory the
uninitialised locals will occupy may hold anything (`stack`). -/
inductive Reachable {σ : Type} : Bpu σ → Prop
  | init (mem : Bpu σ) (io : BpuIo σ) (cfg : BpuConfig) :
      (bpu_init mem io cfg).2 = BPU_RC_OK → Reachable (bpu_init mem io cfg).1
  | push_event (b : Bpu σ) (evt_type : Nat) (payload : Nat → Nat) (len now_ms : Nat) :
      Reachable b → Reachable (bpu_push_event b evt_type payload len now_ms).1
  | tick_ex (b : Bpu σ) (fuel now_ms now_us : Nat) (r : Bpu σ × Nat) :
      Reachable b → bpu_tick_ex fuel b now_ms now_us = some r → Reachable r.1
  | host (b : Bpu σ) (c : σ) :
      Reachable b → Reachable { b with io := { b.io with ctx := c } }
  | stack (b : Bpu σ) (e0 : BpuEvent) (j0 : Nat → BpuJob) :
      Reachable b → Reachable { b with stack_evt := e0, stack_job := j0 }

/-- A zero-filled `Bpu` object over any host state, as handed to `bpu_init`;
the stack memory behind the uninitialised locals holds zeros as well. -/
def bpu_blank {σ : Type} (io : BpuIo σ) : Bpu σ :=
  { io := io
    cfg := { tx_budget_bytes := 0, tx_min_free := 0, tx_chunk_max := 0,
             coalesce_window_ms := 0, aged_ms := 0, enable_degrade := 0 }
    st := { tick := 0, ev_in := 0, ev_out := 0, ev_merge := 0, ev_drop := 0,
            job_in := 0, job_out := 0, job_merge := 0, job_drop := 0,
            tx_frame_sent := 0, tx_frame_partial := 0, tx_bytes := 0,
            tx_skip_budget := 0, tx_skip_backpressure := 0, flush_try := 0,
            flush_ok := 0, pick_sensor := 0, pick_hb := 0, pick_telem := 0,
            pick_aged := 0, aged_hit_sensor := 0, aged_hit_hb := 0,
            aged_hit_telem := 0, degrade_drop := 0, degrade_requeue := 0,
            pending_active := 0, pending_len := 0, pending_pos := 0,
            dirty_mask_lo := 0, dirty_mask_hi := 0, work_us_last := 0,
            work_us_max := 0 }
    evq := { buf := fun _ => default, head := 0, tail := 0, count := 0 }
    jobq := { buf := fun _ => default, head := 0, tail := 0, count := 0 }
    pending_buf := fun _ => 0
    pending_len := 0
    pending_pos := 0
    pending_have := 0
    seq := 0
    init_magic := 0
    tx_log := []
    frames_built := 0
    stack_evt := default
    stack_job := fun _ => default }

/-- A transport whose host state is the room left in its queue: a write takes
`min want room` bytes. It starts with room for 4 bytes. -/
def io_room : BpuIo Nat :=
  { ctx := 4
    tx_free := some (fun c => (BPU_RC_OK, 4096, c))
    tx_write_some := some (fun c _ want => (BPU_RC_OK, min want c, c - min want c))
    time_us := none }

/-- A BPU over `io_room`, initialised with the example configuration, after
one HB event `[1]` at `t = 100`. -/
def bpu_room_pushed : Bpu Nat :=
  (bpu_push_event (bpu_init (bpu_blank io_room) io_room cfg_example).1
    BPU_EVT_HB (arr_of [1]) 1 100).1

/-- The tick at `now_ms = 100` from `bpu_room_pushed`, with fuel 201. -/
def bpu_room_tick : Option (Bpu Nat × Nat) :=
  bpu_tick_ex 201 bpu_room_pushed 100 0

set_option maxRecDepth 1000000 in
/-- The state after that tick. -/
def bpu_room_after : Bpu Nat :=
  (bpu_room_tick.get (by decide)).1

/-- A fresh BPU (transport `io_accept`) after one HB event `[1]` at `t = 100`. -/
def bpu_hb_pushed : Bpu Unit :=
  (bpu_push_event bpu_fresh BPU_EVT_HB (arr_of [1]) 1 100).1

/-- A fresh BPU with a frame of type 3 and payload `[2, 1, 1]` staged. -/
def bpu_staged : Bpu Unit :=
  (bpu_build_frame bpu_fresh 3 (arr_of [2, 1, 1]) 3).1

/-- The state `b` with `cfg.coalesce_window_ms` replaced by `w`. -/
def with_window {σ : Type} (b : Bpu σ) (w : Nat) : Bpu σ :=
  { b with cfg := { b.cfg with coalesce_window_ms := w } }

/-- Ring invariant of the event queue: `head` is `count` slots after `tail`. -/
def EvRingWf (r : BpuEvRing) : Prop :=
  r.count ≤ 8 ∧ r.tail < 8 ∧ r.head = (r.tail + r.count) % 8

/-- The example configuration with event coalescing switched off. -/
def cfg_window0 : BpuConfig :=
  { cfg_example with coalesce_window_ms := 0 }

/-- A BPU initialised with `cfg_window0`, after a SENSOR event `[1, 2]` at
`t = 100`. -/
def bpu_w0_pushed : Bpu Unit :=
  (bpu_push_event (bpu_init bpu_zeroed io_accept cfg_window0).1
    BPU_EVT_SENSOR (arr_of [1, 2]) 2 100).1

/-- The incoming event `e` merges with a queued slot of `b`: the window is
non-zero, the type is SENSOR, HB or TELEM, and some occupied slot has the same
type and a timestamp within the window. -/
def evq_merges {σ : Type} (b : Bpu σ) (e : BpuEvent) : Prop :=
  b.cfg.coalesce_window_ms > 0 ∧
  (e.type = BPU_EVT_SENSOR ∨ e.type = BPU_EVT_HB ∨ e.type = BPU_EVT_TELEM) ∧
  ∃ i, i < b.evq.count ∧
    evq_mergeable b.cfg.coalesce_window_ms e (b.evq.buf (bpu_evr_at b.evq i)) = true

/-- A fresh BPU whose event queue is full: a SENSOR event `[1, 2]` at `t = 100`
followed by seven CMD events at `t = 101 .. 107`. -/
def bpu_evq_full : Bpu Unit :=
  [101, 102, 103, 104, 105, 106, 107].foldl
    (fun b t => (bpu_push_event b BPU_EVT_CMD (arr_of [9]) 1 t).1)
    (bpu_push_event bpu_fresh BPU_EVT_SENSOR (arr_of [1, 2]) 2 100).1

/-- A relation between states that is reflexive and transitive and contains
every elementary state change made by `bpu_push_event` and `bpu_tick_ex` other
than a call of `bpu_build_frame`: a new host state behind `io.ctx`, new
counters, a longer call log, new pending indices, and the four queue
operations. -/
structure QueueClosed {σ : Type} (R : Bpu σ → Bpu σ → Prop) : Prop where
  id_ok : ∀ b, R b b
  comp_ok : ∀ a b c, R a b → R b c → R a c
  ctx_ok : ∀ (b : Bpu σ) (c : σ), R b { b with io := { b.io with ctx := c } }
  stack_ok : ∀ (b : Bpu σ) (e0 : BpuEvent) (j0 : Nat → BpuJob),
    R b { b with stack_evt := e0, stack_job := j0 }
  st_ok : ∀ (b : Bpu σ) (st' : BpuStats), R b { b with st := st' }
  log_ok : ∀ (b : Bpu σ) (l : List TxCall), R b { b with tx_log := l }
  pend_ok : ∀ (b : Bpu σ) (l p h : Nat),
    R b { b with pending_len := l, pending_pos := p, pending_have := h }
  evq_push_ok : ∀ (b : Bpu σ) (e : BpuEvent), R b (bpu_evq_push_coalesce b e).1
  evq_pop_ok : ∀ (b : Bpu σ) (out : BpuEvent), R b (bpu_evq_pop b out).1
  jobq_push_ok : ∀ (b : Bpu σ) (j : BpuJob), R b (bpu_jobq_push_coalesce b j).1
  jobq_pop_ok : ∀ (b : Bpu σ) (out : BpuJob), R b (bpu_jobq_pop b out).1

/-- A relation that contains every elementary state change of a tick, a call
of `bpu_build_frame` included. -/
structure StepClosed {σ : Type} (R : Bpu σ → Bpu σ → Prop) extends QueueClosed R : Prop where
  build_ok : ∀ (b : Bpu σ) (t : Nat) (p : Nat → Nat) (l : Nat), R b (bpu_build_frame b t p l).1

/-- Ring invariant of the job queue: `head` is `count` slots after `tail`. -/
def JobRingWf (r : BpuJobRing) : Prop :=
  r.count ≤ 4 ∧ r.tail < 4 ∧ r.head = (r.tail + r.count) % 4

/-- Both rings are well formed. -/
def RingWf {σ : Type} (b : Bpu σ) : Prop :=
  EvRingWf b.evq ∧ JobRingWf b.jobq

/-- Calling `bpu_evq_pop` `n` times: the events returned, first pop first, and
the state left; `none` when one of the pops fails. -/
def evq_pop_n {σ : Type} : Nat → Bpu σ → Option (List BpuEvent × Bpu σ)
  | 0, b => some ([], b)
  | n + 1, b =>
    if (bpu_evq_pop b default).2.2 ≠ BPU_RC_OK then none
    else (evq_pop_n n (bpu_evq_pop b default).1).map
      (fun r => ((bpu_evq_pop b default).2.1 :: r.1, r.2))

/-- Calling `bpu_evq_push_coalesce` for each event of a list, in order. -/
def evq_push_all {σ : Type} (b : Bpu σ) (es : List BpuEvent) : Bpu σ :=
  es.foldl (fun b e => (bpu_evq_push_coalesce b e).1) b

/-- A BPU initialised with `cfg_window0` (event coalescing off), empty queues. -/
def bpu_w0 : Bpu Unit :=
  (bpu_init bpu_zeroed io_accept cfg_window0).1

/-- Three events: SENSOR `[1]` at 100, SENSOR `[2]` at 101, HB `[3]` at 102. -/
def evs_three : List BpuEvent :=
  [push_event_record default BPU_EVT_SENSOR (arr_of [1]) 1 100,
   push_event_record default BPU_EVT_SENSOR (arr_of [2]) 1 101,
   push_event_record default BPU_EVT_HB (arr_of [3]) 1 102]

/-- The occupied slots of the job ring in pop order (oldest first). -/
def jobq_contents (r : BpuJobRing) : List BpuJob :=
  (List.range r.count).map (fun i => r.buf (bpu_jor_at r i))

/-- State of `bpu_flush_jobs` right after it has popped a job from a non-empty
queue: `flush_try` and `job_out` incremented, the ring's tail advanced. -/
def flush_popped {σ : Type} (b : Bpu σ) : Bpu σ :=
  { b with
    jobq := { b.jobq with tail := ((b.jobq.tail + 1) % 4) % 65536, count := b.jobq.count - 1 }
    st := { b.st with flush_try := u32_inc b.st.flush_try, job_out := u32_inc b.st.job_out } }

/-- The job at the front of the job queue. -/
def jobq_front {σ : Type} (b : Bpu σ) : BpuJob :=
  b.jobq.buf b.jobq.tail

/-- The free-space query of `bpu_flush_jobs`: state, `free_sz`, `have_free`. -/
def tx_free_query {σ : Type} (b : Bpu σ) : Bpu σ × Nat × Nat :=
  match b.io.tx_free with
  | none => (b, 0, BPU_RC_ERR)
  | some f => ({ b with io := { b.io with ctx := (f b.io.ctx).2.2 } }, (f b.io.ctx).2.1,
      (f b.io.ctx).1)

/-- Requeue through the coalescing path, on the queue as a list in pop order:
queued jobs of the type of `j` are replaced by `j` in place; when there is
none, `j` goes to the end. Follows the specification ("re-admitted via the
coalescing path, not restored to its original slot"). -/
def jobq_requeued (l : List BpuJob) (j : BpuJob) : List BpuJob :=
  if ∃ x ∈ l, x.type = j.type then l.map (fun x => if x.type = j.type then j else x)
  else l ++ [j]

/-- A fresh BPU whose job queue holds a TELEM job and then an HB job. -/
def bpu_jobs_telem_hb : Bpu Unit :=
  (bpu_jobq_push_coalesce
    (bpu_jobq_push_coalesce bpu_fresh (job_of_type BPU_JOB_TELEM 10)).1
    (job_of_type BPU_JOB_HB 11)).1

/-- A fresh BPU whose job queue holds an HB job and then a TELEM job. -/
def bpu_jobs_hb_telem : Bpu Unit :=
  (bpu_jobq_push_coalesce
    (bpu_jobq_push_coalesce bpu_fresh (job_of_type BPU_JOB_HB 10)).1
    (job_of_type BPU_JOB_TELEM 11)).1

/-- A transport that reports 95 free bytes, one below the `tx_min_free = 96`
of the example configuration, and accepts every byte offered. -/
def io_low : BpuIo Unit :=
  { ctx := ()
    tx_free := some (fun c => (BPU_RC_OK, 95, c))
    tx_write_some := some (fun c _ want => (BPU_RC_OK, want, c))
    time_us := none }

/-- A transport whose `tx_free` fails. -/
def io_free_err : BpuIo Unit :=
  { ctx := ()
    tx_free := some (fun c => (BPU_RC_ERR, 4096, c))
    tx_write_some := some (fun c _ want => (BPU_RC_OK, want, c))
    time_us := none }

/-- A BPU over the transport `io`, example configuration, whose job queue
holds one HB job. -/
def bpu_one_job (io : BpuIo Unit) : Bpu Unit :=
  (bpu_jobq_push_coalesce (bpu_init bpu_zeroed io cfg_example).1 (job_of_type BPU_JOB_HB 10)).1

/-- No frame was built between `a` and `b`: `seq` and the count of
`bpu_build_frame` calls are the same. -/
def SeqKept {σ : Type} (a b : Bpu σ) : Prop :=
  b.seq = a.seq ∧ b.frames_built = a.frames_built

/-- Between `a` and `b` the sequence counter (an 8-bit value) advanced by the
number of `bpu_build_frame` calls made, modulo 256. -/
def SeqStep {σ : Type} (a b : Bpu σ) : Prop :=
  a.seq < 256 →
    b.seq < 256 ∧ a.frames_built ≤ b.frames_built ∧
    b.seq = (a.seq + (b.frames_built - a.frames_built)) % 256

/-- The bytes the transport took over a list of logged calls, in order. -/
def tx_bytes_of (log : List TxCall) : List Nat :=
  log.flatMap (fun c => if c.rc = BPU_RC_OK then c.data.take c.wrote else [])

/-- On the host states satisfying `A`, `tx_write_some` returns OK, takes every
byte offered and stays within `A`. -/
def AcceptsAll {σ : Type} (A : σ → Prop) (f : σ → (Nat → Nat) → Nat → Nat × Nat × σ) : Prop :=
  ∀ c p w, A c → (f c p w).1 = BPU_RC_OK ∧ (f c p w).2.1 = w ∧ A (f c p w).2.2

/-- State of the drain loop of `bpu_send_pending` after the transport, in host
state `c` by then, has been handed `m` more bytes in the calls `new`. -/
def sent_state {σ : Type} (s : SendSt σ) (c : σ) (new : List TxCall) (m : Nat) : SendSt σ :=
  { bpu := { s.bpu with
             io := { s.bpu.io with ctx := c }
             tx_log := s.bpu.tx_log ++ new
             pending_pos := s.bpu.pending_pos + m
             st := { s.bpu.st with tx_bytes := (s.bpu.st.tx_bytes + m) % 4294967296 } }
    budget_left := s.budget_left - m
    progress := s.progress || decide (0 < m)
    done := decide (s.bpu.pending_pos + m < s.bpu.pending_len)
    rc := BPU_RC_OK }

/-- On the host states satisfying `A`, `tx_free` returns OK, reports at least
`min_free` bytes and stays within `A`. -/
def FreeOk {σ : Type} (A : σ → Prop) (g : σ → Nat × Nat × σ) (min_free : Nat) : Prop :=
  ∀ c, A c → (g c).1 = BPU_RC_OK ∧ min_free ≤ (g c).2.1 ∧ A (g c).2.2

/-- The payload length `bpu_flush_jobs` and `bpu_build_frame` arrive at for a
job: `j.len` clamped to 255, then to 64. -/
def job_wire_len (j : BpuJob) : Nat :=
  min (if j.len > 255 then 255 else j.len % 256) 64

/-- The host states satisfying `A` are closed under the clock callback. -/
def ClockOk {σ : Type} (A : σ → Prop) (io : BpuIo σ) : Prop :=
  ∀ t, io.time_us = some t → ∀ c, A c → A (t c).2.2

/-- On the host states satisfying `Z`, `tx_write_some` returns OK and takes
nothing (backpressure). -/
def Blocks {σ : Type} (Z : σ → Prop) (f : σ → (Nat → Nat) → Nat → Nat × Nat × σ) : Prop :=
  ∀ c p w, Z c → (f c p w).1 = BPU_RC_OK ∧ (f c p w).2.1 = 0

/-- The example configuration with a transmit budget of zero. -/
def cfg_budget0 : BpuConfig :=
  { cfg_example with tx_budget_bytes := 0 }

/-- A BPU initialised with `cfg_budget0` (budget 0, `enable_degrade = 1`) after
four events of distinct types, TELEM first: TELEM, HB, SENSOR, CMD, each with
payload `[1]` at `t = 100`. -/
def bpu_four_events : Bpu Unit :=
  (bpu_push_event (bpu_push_event (bpu_push_event (bpu_push_event
    (bpu_init bpu_zeroed io_accept cfg_budget0).1
    BPU_EVT_TELEM (arr_of [1]) 1 100).1
    BPU_EVT_HB (arr_of [1]) 1 100).1
    BPU_EVT_SENSOR (arr_of [1]) 1 100).1
    BPU_EVT_CMD (arr_of [1]) 1 100).1

/-- The tick at `now_ms = 100` from `bpu_four_events`, with fuel 1. -/
def bpu_four_tick : Option (Bpu Unit × Nat) :=
  bpu_tick_ex 1 bpu_four_events 100 0

set_option maxRecDepth 1000000 in
/-- The state after that tick: the scheduler has moved the four events to the
job queue, which now holds a TELEM, an HB, a SENSOR and a CMD job. -/
def bpu_four_jobs : Bpu Unit :=
  (bpu_four_tick.get (by decide)).1

/-- The state `bpu_four_jobs` under a transmit budget of 5 bytes. -/
def bpu_four_jobs_b5 : Bpu Unit :=
  { bpu_four_jobs with cfg := { bpu_four_jobs.cfg with tx_budget_bytes := 5 } }

/-- A transport whose host state is a valve: while it is 0 `tx_write_some`
returns OK with 0 bytes written, otherwise it takes every byte offered.
`tx_free` always reports 4096 bytes. The valve starts closed. -/
def io_valve : BpuIo Nat :=
  { ctx := 0
    tx_free := some (fun c => (BPU_RC_OK, 4096, c))
    tx_write_some := some (fun c _ want => (BPU_RC_OK, if c = 0 then 0 else want, c))
    time_us := none }

/-- A BPU over `io_valve`, initialised with the example configuration, after
one HB event `[1]` at `t = 100`. -/
def bpu_valve_pushed : Bpu Nat :=
  (bpu_push_event (bpu_init (bpu_blank io_valve) io_valve cfg_example).1
    BPU_EVT_HB (arr_of [1]) 1 100).1

/-- The tick at `now_ms = 100` from `bpu_valve_pushed` (valve closed), fuel 201. -/
def bpu_valve_tick : Option (Bpu Nat × Nat) :=
  bpu_tick_ex 201 bpu_valve_pushed 100 0

set_option maxRecDepth 1000000 in
/-- The state after that tick. -/
def bpu_valve_after : Bpu Nat :=
  (bpu_valve_tick.get (by decide)).1

/-- The state `bpu_valve_after` once the host has opened the valve. -/
def bpu_valve_open : Bpu Nat :=
  { bpu_valve_after with io := { bpu_valve_after.io with ctx := 1 } }

/-- One round of the loop of `bpu_flush_jobs` from a state with one HB job
(`len = 2`) queued over the transport `io_accept`, with 200 bytes of budget
left. -/
def flush_step_example : Option (FlushSt Unit) :=
  flush_step 201
    { bpu := bpu_one_job io_accept, budget_left := 200, rc := BPU_RC_OK, done := false }

/-- The update of the mask by one job in the loop of `bpu_dirty_mask`. -/
def dirty_add (m : Nat) (j : BpuJob) : Nat :=
  if j.type ≥ 1 ∧ j.type ≤ 63 then m ||| bpu_bit64 j.type else m

/-- A BPU over `io_room` (room for 4 bytes), example configuration, with a frame
of type 3 and payload `[2, 1, 1]` staged (11 bytes). -/
def bpu_room_staged : Bpu Nat :=
  (bpu_build_frame (bpu_init (bpu_blank io_room) io_room cfg_example).1 3
    (arr_of [2, 1, 1]) 3).1

/-- The state `b` after the drain loop of `bpu_send_pending` has logged the
calls `new`: only the host state, the log, `pending_pos`, `st.tx_bytes` and
`st.tx_skip_backpressure` (incremented when `bp`) can differ. -/
def send_after {σ : Type} (b : Bpu σ) (c : σ) (new : List TxCall) (pos tb : Nat)
    (bp : Bool) : Bpu σ :=
  { b with
    io := { b.io with ctx := c }
    tx_log := b.tx_log ++ new
    pending_pos := pos
    st := { b.st with
            tx_bytes := tb
            tx_skip_backpressure :=
              if bp then u32_inc b.st.tx_skip_backpressure else b.st.tx_skip_backpressure } }

/-- What the drain loop of `bpu_send_pending` does between two of its states:
it logs the calls `good`, each of which returned OK and took at least one
byte, and then possibly one more call `last` that failed or took nothing and
ended the loop. -/
def SendTrace {σ : Type} (s s' : SendSt σ) : Prop :=
  ∃ (good : List TxCall) (last : Option TxCall) (c : σ),
    (∀ x ∈ good, x.rc = BPU_RC_OK ∧ x.wrote ≠ 0) ∧
    (∀ x, last = some x → x.rc ≠ BPU_RC_OK ∨ x.wrote = 0) ∧
    s'.bpu = send_after s.bpu c (good ++ last.toList) s'.bpu.pending_pos s'.bpu.st.tx_bytes
      (decide (∃ x, last = some x ∧ x.rc = BPU_RC_OK)) ∧
    s'.rc = (if ∃ x, last = some x ∧ x.rc ≠ BPU_RC_OK then BPU_RC_ERR else BPU_RC_OK) ∧
    s'.progress = (s.progress || !good.isEmpty) ∧
    (good = [] → s'.budget_left = s.budget_left ∧ s'.bpu.pending_pos = s.bpu.pending_pos ∧
      s'.bpu.st.tx_bytes = s.bpu.st.tx_bytes) ∧
    (WellBehaved s.bpu.io → s.bpu.pending_len < 65536 → s.budget_left < 65536 →
      s.bpu.st.tx_bytes < 4294967296 →
      s'.bpu.pending_pos = s.bpu.pending_pos + tx_written good ∧
      s'.budget_left + tx_written good = s.budget_left ∧
      s'.bpu.st.tx_bytes = (s.bpu.st.tx_bytes + tx_written good) % 4294967296 ∧
      (s.bpu.pending_pos ≤ s.bpu.pending_len → s'.bpu.pending_pos ≤ s.bpu.pending_len))

/-- A transport whose host state is the room left in its queue, as `io_room`,
except that from 1000 on the state stands for a broken link: `tx_write_some`
then returns ERR. It starts with room for 4 bytes. -/
def io_faulty : BpuIo Nat :=
  { ctx := 4
    tx_free := some (fun c => (BPU_RC_OK, 4096, c))
    tx_write_some := some (fun c _ want =>
      if c ≥ 1000 then (BPU_RC_ERR, 0, c) else (BPU_RC_OK, min want c, c - min want c))
    time_us := none }

/-- A BPU over `io_faulty`, initialised with the example configuration, after
one HB event `[1]` at `t = 100`. -/
def bpu_faulty_pushed : Bpu Nat :=
  (bpu_push_event (bpu_init (bpu_blank io_faulty) io_faulty cfg_example).1
    BPU_EVT_HB (arr_of [1]) 1 100).1

/-- The tick at `now_ms = 100` from `bpu_faulty_pushed`, fuel 201: 4 of the 11
bytes of the frame are taken. -/
def bpu_faulty_tick : Option (Bpu Nat × Nat) :=
  bpu_tick_ex 201 bpu_faulty_pushed 100 0

set_option maxRecDepth 1000000 in
/-- The state after that tick, with the link broken by the host: the pending
buffer is occupied and the next write fails. -/
def bpu_faulty_broken : Bpu Nat :=
  { (bpu_faulty_tick.get (by decide)).1 with
    io := { (bpu_faulty_tick.get (by decide)).1.io with ctx := 1000 } }

/-- The state `bpu_faulty_pushed` with the link broken before the first tick:
nothing is pending and a job is about to be framed. -/
def bpu_faulty_fresh : Bpu Nat :=
  { bpu_faulty_pushed with io := { bpu_faulty_pushed.io with ctx := 1000 } }

/-- The state `bpu_four_jobs` (job queue full with types 4, 3, 2, 1) after an
event of the unknown type 9, whose job has type 0. -/
def bpu_four_jobs_plus : Bpu Unit :=
  (bpu_push_event bpu_four_jobs 9 (arr_of [1]) 1 101).1

/-- A BPU over `io_faulty` with the link broken, example configuration, whose
job queue holds one HB job. -/
def bpu_faulty_job : Bpu Nat :=
  (bpu_jobq_push_coalesce
    { (bpu_init (bpu_blank io_faulty) io_faulty cfg_example).1 with
      io := { io_faulty with ctx := 1000 } }
    (job_of_type BPU_JOB_HB 10)).1

/-- A BPU over `io_valve` with the valve closed, example configuration, whose
job queue holds one HB job. -/
def bpu_valve_job : Bpu Nat :=
  (bpu_jobq_push_coalesce (bpu_init (bpu_blank io_valve) io_valve cfg_example).1
    (job_of_type BPU_JOB_HB 10)).1

/-- Relation between the state `a` before and the state `b` after a piece of a
tick that starts with the pending buffer occupied and meets a transport that
takes nothing: the staged frame, the send position, `seq`, the transmit
counters and the job-pop counters are kept, every new `tx_write_some` call
returned OK with 0 bytes, `tx_skip_backpressure` went up `k` times, and the
host state stays within `Z`. -/
structure Stalled {σ : Type} (Z : σ → Prop) (k : Nat) (a b : Bpu σ) : Prop where
  pending_buf : b.pending_buf = a.pending_buf
  pending_len : b.pending_len = a.pending_len
  pending_pos : b.pending_pos = a.pending_pos
  pending_have : b.pending_have = a.pending_have
  seq : b.seq = a.seq
  frames_built : b.frames_built = a.frames_built
  cfg : b.cfg = a.cfg
  init_magic : b.init_magic = a.init_magic
  tx_write_some : b.io.tx_write_some = a.io.tx_write_some
  time_us : b.io.time_us = a.io.time_us
  job_out : b.st.job_out = a.st.job_out
  flush_try : b.st.flush_try = a.st.flush_try
  tx_bytes : b.st.tx_bytes = a.st.tx_bytes
  tx_frame_sent : b.st.tx_frame_sent = a.st.tx_frame_sent
  tx_frame_partial : b.st.tx_frame_partial = a.st.tx_frame_partial
  backpressure : b.st.tx_skip_backpressure = u32_inc^[k] a.st.tx_skip_backpressure
  log : ∃ new, b.tx_log = a.tx_log ++ new ∧
    ∀ x ∈ new, x.rc = BPU_RC_OK ∧ x.wrote = 0 ∧ x.pos = a.pending_pos
  ctx : Z a.io.ctx → Z b.io.ctx

/-- An occupied pending buffer has bytes left to send. -/
def PendStrict {σ : Type} (b : Bpu σ) : Prop :=
  b.pending_have ≠ 0 → b.pending_pos < b.pending_len

/-- The three pending indices of `b` are those of `a`. -/
def PendSame {σ : Type} (a b : Bpu σ) : Prop :=
  b.pending_have = a.pending_have ∧ b.pending_pos = a.pending_pos ∧
  b.pending_len = a.pending_len

/-- Counters that neither `bpu_evq_pop` nor the scheduler touches. -/
def StatsKept (s t : BpuStats) : Prop :=
  t.job_out = s.job_out ∧ t.flush_try = s.flush_try ∧ t.tx_bytes = s.tx_bytes ∧
  t.tx_frame_sent = s.tx_frame_sent ∧ t.tx_frame_partial = s.tx_frame_partial ∧
  t.tx_skip_backpressure = s.tx_skip_backpressure

/-- Invariant of the job queue: the ring is well formed and no two queued jobs
have the same type (jobs enter the queue through the coalescing push only). -/
def JobqInv {σ : Type} (b : Bpu σ) : Prop :=
  JobRingWf b.jobq ∧ ((jobq_contents b.jobq).map (fun x => x.type)).Nodup

/-- States that a round of the loop of `bpu_flush_jobs` can start from: a
reachable state, followed by any number of the pieces a tick is made of (clock
sample, `bpu_send_pending`, `bpu_schedule_from_events`, a round of the flush
loop). -/
inductive TickState {σ : Type} : Bpu σ → Prop
  | entry (b : Bpu σ) : Reachable b → TickState b
  | sample (b : Bpu σ) (now_us : Nat) : TickState b → TickState (tick_sample b now_us).1
  | send (b : Bpu σ) (fuel B : Nat) (r : SendRes σ) :
      TickState b → bpu_send_pending fuel b B = some r → TickState r.bpu
  | sched (b : Bpu σ) (now_ms : Nat) (r : Bpu σ × Nat) :
      TickState b → bpu_schedule_from_events b now_ms = some r → TickState r.1
  | round (inner : Nat) (s s' : FlushSt σ) :
      TickState s.bpu → flush_step inner s = some s' → TickState s'.bpu

/-- What a requeue of the job `j` popped from state `b` leaves in state `b'`:
nothing dropped, the count as before the pop, `j` last in pop order behind the
other jobs in their old order. -/
def Requeued {σ : Type} (b b' : Bpu σ) : Prop :=
  jobq_contents b'.jobq = (jobq_contents b.jobq).tail ++ [jobq_front b] ∧
  b'.jobq.count = b.jobq.count ∧ b'.st.job_drop = b.st.job_drop

set_option maxRecDepth 1000000 in
/-- The state the scheduler leaves at `now_ms = 120` from `bpu_two_events`: the
job queue holds a SENSOR job and a CMD job, in that order. -/
def bpu_two_jobs : Bpu Unit :=
  ((bpu_schedule_from_events bpu_two_events 120).get (by decide)).1

/-- One round of the loop of `bpu_flush_jobs` from `bpu_two_jobs` with 5 bytes
of budget left: the SENSOR job at the front does not fit. -/
def flush_step_short : Option (FlushSt Unit) :=
  flush_step 201 { bpu := bpu_two_jobs, budget_left := 5, rc := BPU_RC_OK, done := false }

/-- The loop `while (!done)` of `bpu_schedule_from_events` as `sched_loop`,
with a count of its rounds: every evaluation of the loop body, the one whose
`bpu_evq_pop` fails included, is one round. -/
def sched_rounds {σ : Type} (now_ms : Nat) : Nat → Bpu σ × Nat → Option ((Bpu σ × Nat) × Nat)
  | 0, _ => none
  | fuel + 1, s =>
    let p := bpu_evq_pop s.1 default
    if p.2.2 ≠ BPU_RC_OK then some ((p.1, s.2), 1)
    else (sched_rounds now_ms fuel (sched_event now_ms (p.1, s.2) p.2.1)).map
      (fun r => (r.1, r.2 + 1))

/-- The state `b` with the four counters written by the aging test of
`bpu_schedule_from_events` replaced. -/
def with_aged {σ : Type} (b : Bpu σ) (pa hs hh ht : Nat) : Bpu σ :=
  { b with st := { b.st with pick_aged := pa, aged_hit_sensor := hs, aged_hit_hb := hh,
                             aged_hit_telem := ht } }

/-- The state `b` with the configuration replaced by `c`. -/
def with_cfg {σ : Type} (b : Bpu σ) (c : BpuConfig) : Bpu σ :=
  { b with cfg := c }

/-- A fresh BPU (`aged_ms = 200`) holding one HB event `[1]` stamped
`t_ms = 0xFFFFFF00`, shortly before the millisecond clock wraps. -/
def bpu_wrap_pushed : Bpu Unit :=
  (bpu_push_event bpu_fresh BPU_EVT_HB (arr_of [1]) 1 0xFFFFFF00).1

/-- Both rings are well formed, every queued event satisfies `PE` and every
queued job satisfies `PJ`. -/
def QueueAll {σ : Type} (PE : BpuEvent → Prop) (PJ : BpuJob → Prop) (b : Bpu σ) : Prop :=
  RingWf b ∧ (∀ e ∈ evq_contents b.evq, PE e) ∧ (∀ j ∈ jobq_contents b.jobq, PJ j)

/-- An invariant `I` of the two queues and of `st.job_drop` that is kept by the
queue operations as the code uses them: events pushed satisfy `PE`, events
popped satisfy `PE` and are turned into jobs that satisfy `PJ`, jobs pushed
satisfy `PJ` and jobs popped satisfy `PJ`. -/
structure Guarded {σ : Type} (PE : BpuEvent → Prop) (PJ : BpuJob → Prop)
    (I : Bpu σ → Prop) : Prop where
  ext_ok : ∀ a b : Bpu σ, I a → b.evq = a.evq → b.jobq = a.jobq →
    b.st.job_drop = a.st.job_drop → I b
  evq_push_ok : ∀ (b : Bpu σ) (e : BpuEvent), I b → PE e → I (bpu_evq_push_coalesce b e).1
  evq_pop_ok : ∀ b : Bpu σ, I b → b.evq.count ≠ 0 →
    PE (b.evq.buf b.evq.tail) ∧ I (bpu_evq_pop b default).1
  jobq_push_ok : ∀ (b : Bpu σ) (j : BpuJob), I b → PJ j → I (bpu_jobq_push_coalesce b j).1
  jobq_pop_ok : ∀ b : Bpu σ, I b → b.jobq.count ≠ 0 → PJ (jobq_front b) ∧ I (flush_popped b)
  sched_ok : ∀ (j0 : BpuJob) (e : BpuEvent) (now_ms : Nat), PE e → PJ (sched_job j0 e now_ms)

/-- An event record filled with the byte `0xAA`: stale stack memory. -/
def evt_stale : BpuEvent :=
  { type := 0xAA, flags := 0xAA, len := 0xAAAA, t_ms := 0xAAAAAAAA, payload := fun _ => 0xAA }

/-- A job record filled with the byte `0xAA`: stale stack memory. -/
def job_stale : BpuJob :=
  { type := 0xAA, flags := 0xAA, len := 0xAAAA, t_ms := 0xAAAAAAAA, payload := fun _ => 0xAA }

/-- A fresh BPU, the stack holding `0xAA` bytes, after a SENSOR event pushed
with a 40-byte payload `1, 2, ..., 40` at `t = 100` (`bpu_push_event` stores 16
bytes) and an HB event pushed with the 1-byte payload `[7]` at `t = 101`. -/
def bpu_stale_events : Bpu Unit :=
  (bpu_push_event
    (bpu_push_event { bpu_fresh with stack_evt := evt_stale, stack_job := fun _ => job_stale }
      BPU_EVT_SENSOR (fun i => i + 1) 40 100).1
    BPU_EVT_HB (arr_of [7]) 1 101).1

set_option maxRecDepth 1000000 in
/-- The state the scheduler leaves at `now_ms = 120` from `bpu_stale_events`:
the job queue holds a SENSOR job of length 18 and an HB job of length 3. -/
def bpu_stale_jobs : Bpu Unit :=
  ((bpu_schedule_from_events bpu_stale_events 120).get (by decide)).1

/-- A type code of the enums `BpuEvtType` and `BpuJobType`: 1 to 4 (CMD,
SENSOR, HB, TELEM). -/
def TypeKnown (t : Nat) : Prop :=
  1 ≤ t ∧ t ≤ 4

/-- States between API calls along a run from a successful `bpu_init` in which
every `bpu_push_event` call passes an event type of the enum. -/
inductive TypedReachable {σ : Type} : Bpu σ → Prop
  | init (mem : Bpu σ) (io : BpuIo σ) (cfg : BpuConfig) :
      (bpu_init mem io cfg).2 = BPU_RC_OK → TypedReachable (bpu_init mem io cfg).1
  | push_event (b : Bpu σ) (evt_type : Nat) (payload : Nat → Nat) (len now_ms : Nat) :
      TypedReachable b → TypeKnown evt_type →
      TypedReachable (bpu_push_event b evt_type payload len now_ms).1
  | tick_ex (b : Bpu σ) (fuel now_ms now_us : Nat) (r : Bpu σ × Nat) :
      TypedReachable b → bpu_tick_ex fuel b now_ms now_us = some r → TypedReachable r.1
  | host (b : Bpu σ) (c : σ) :
      TypedReachable b → TypedReachable { b with io := { b.io with ctx := c } }
  | stack (b : Bpu σ) (e0 : BpuEvent) (j0 : Nat → BpuJob) :
      TypedReachable b → TypedReachable { b with stack_evt := e0, stack_job := j0 }

/-- States a tick passes through along such a run: a state between API calls,
followed by any number of the pieces a tick is made of (clock sample,
`bpu_send_pending`, one round of the scheduler loop that pops an event and
pushes its job, the whole of `bpu_schedule_from_events`, a round of the flush
loop). -/
inductive TypedTick {σ : Type} : Bpu σ → Prop
  | entry (b : Bpu σ) : TypedReachable b → TypedTick b
  | sample (b : Bpu σ) (now_us : Nat) : TypedTick b → TypedTick (tick_sample b now_us).1
  | send (b : Bpu σ) (fuel B : Nat) (r : SendRes σ) :
      TypedTick b → bpu_send_pending fuel b B = some r → TypedTick r.bpu
  | sched_round (b : Bpu σ) (now_ms rc : Nat) :
      TypedTick b → b.evq.count ≠ 0 →
      TypedTick (sched_event now_ms ((bpu_evq_pop b default).1, rc)
        (bpu_evq_pop b default).2.1).1
  | sched (b : Bpu σ) (now_ms : Nat) (r : Bpu σ × Nat) :
      TypedTick b → bpu_schedule_from_events b now_ms = some r → TypedTick r.1
  | round (inner : Nat) (s s' : FlushSt σ) :
      TypedTick s.bpu → flush_step inner s = some s' → TypedTick s'.bpu

/-- Every queued event and every queued job has a type of the enum, no two
queued jobs share a type, and no job has been dropped. -/
def NoDrop {σ : Type} (b : Bpu σ) : Prop :=
  QueueAll (fun e : BpuEvent => TypeKnown e.type) (fun j : BpuJob => TypeKnown j.type) b ∧
  JobqInv b ∧ b.st.job_drop = 0

/-! # Lemmas and theorems -/

/-! ## CRC16 -/

theorem and_8000_ne_zero (c : Nat) : (c &&& 0x8000 ≠ 0) ↔ c.testBit 15 = true := by
  constructor
  · intro h
    by_contra hb
    apply h
    apply Nat.eq_of_testBit_eq
    intro i
    simp only [Nat.testBit_and, Nat.zero_testBit]
    by_cases hi : i = 15
    · subst hi; simp [hb]
    · have : Nat.testBit 0x8000 i = false := by
        have := @Nat.testBit_two_pow_of_ne 15 i (by omega)
        simpa using this
      rw [this]; simp
  · intro h habs
    have h2 : (c &&& 0x8000).testBit 15 = true := by
      rw [Nat.testBit_and, h]; rfl
    rw [habs] at h2; simp at h2

theorem testBit_high_false (m j k : Nat) (hm : m < 2 ^ k) (hj : k ≤ j) : m.testBit j = false :=
  Nat.testBit_lt_two_pow (Nat.lt_of_lt_of_le hm (Nat.pow_le_pow_right (by decide) hj))

theorem crc_bit_step_testBit (c i : Nat) :
    (crc_bit_step c).testBit i =
      (decide (i < 16) && xor (decide (i ≥ 1) && c.testBit (i - 1))
        (c.testBit 15 && Nat.testBit 0x1021 i)) := by
  unfold crc_bit_step
  have e : (65536 : Nat) = 2 ^ 16 := by norm_num
  by_cases h : c.testBit 15 = true
  · rw [if_pos ((and_8000_ne_zero c).2 h), e, Nat.testBit_mod_two_pow, Nat.testBit_xor,
      Nat.testBit_shiftLeft, h]
    simp
  · rw [if_neg (fun hh => h ((and_8000_ne_zero c).1 hh)), e, Nat.testBit_mod_two_pow,
      Nat.testBit_shiftLeft]
    simp at h
    simp [h]

theorem crc16_ref_bit_testBit (c : Nat) (b : Bool) (i : Nat) :
    (crc16_ref_bit c b).testBit i =
      (decide (i < 16) && xor (decide (i ≥ 1) && c.testBit (i - 1))
        (xor (c.testBit 15) b && Nat.testBit 0x1021 i)) := by
  unfold crc16_ref_bit
  have e : (65536 : Nat) = 2 ^ 16 := by norm_num
  have e2 : 2 * c = c <<< 1 := by rw [Nat.shiftLeft_eq]; omega
  have hp : ¬ i < 16 → Nat.testBit 0x1021 i = false := fun hi =>
    testBit_high_false 0x1021 i 16 (by norm_num) (by omega)
  simp only []
  by_cases h : xor (c.testBit 15) b = true
  · rw [if_pos h, Nat.testBit_xor, e, Nat.testBit_mod_two_pow, e2, Nat.testBit_shiftLeft, h]
    by_cases hi : i < 16
    · simp [hi]
    · simp [hi, hp hi]
  · rw [if_neg h, e, Nat.testBit_mod_two_pow, e2, Nat.testBit_shiftLeft]
    simp at h
    simp [h]

theorem crc_bit_step_lt (c : Nat) : crc_bit_step c < 65536 := by
  unfold crc_bit_step
  split <;> exact Nat.mod_lt _ (by norm_num)

theorem crc_bit_step_xor (c m : Nat) (hm : m < 32768) :
    crc_bit_step (c ^^^ m) = crc_bit_step c ^^^ (2 * m) := by
  apply Nat.eq_of_testBit_eq
  intro i
  have e2 : 2 * m = m <<< 1 := by rw [Nat.shiftLeft_eq]; omega
  have h15 : m.testBit 15 = false := testBit_high_false m 15 15 (by norm_num; exact hm) (le_refl _)
  rw [Nat.testBit_xor, crc_bit_step_testBit, crc_bit_step_testBit, e2, Nat.testBit_shiftLeft,
    Nat.testBit_xor, Nat.testBit_xor, h15]
  by_cases hi : i < 16
  · cases c.testBit (i - 1) <;> cases m.testBit (i - 1) <;> cases c.testBit 15 <;>
      cases Nat.testBit 0x1021 i <;> cases decide (i ≥ 1) <;> simp [hi]
  · have : m.testBit (i - 1) = false :=
      testBit_high_false m (i - 1) 15 (by norm_num; exact hm) (by omega)
    simp [hi, this]

theorem crc16_ref_bit_eq (c : Nat) (b : Bool) :
    crc16_ref_bit c b = crc_bit_step (c ^^^ (if b then 32768 else 0)) := by
  apply Nat.eq_of_testBit_eq
  intro i
  rw [crc16_ref_bit_testBit, crc_bit_step_testBit, Nat.testBit_xor, Nat.testBit_xor]
  have h1 : Nat.testBit (if b then 32768 else 0) 15 = b := by cases b <;> decide
  have h2 : i < 16 → Nat.testBit (if b then 32768 else 0) (i - 1) = false := by
    intro hi
    cases b
    · simp
    · have := @Nat.testBit_two_pow_of_ne 15 (i - 1) (by omega)
      simpa using this
  rw [h1]
  by_cases hi : i < 16
  · rw [h2 hi]; simp
  · simp [hi]

theorem byte_bits_msb_eq (d : Nat) : byte_bits_msb d = msb_bits 8 d := rfl

theorem split_top_bit (d n : Nat) (hn : n ≤ 15) :
    (d % 2 ^ (n + 1)) * 2 ^ (15 - n) =
      (if d.testBit n then 32768 else 0) ^^^ ((d % 2 ^ n) * 2 ^ (15 - n)) := by
  apply Nat.eq_of_testBit_eq
  intro i
  rw [← Nat.shiftLeft_eq, ← Nat.shiftLeft_eq, Nat.testBit_xor, Nat.testBit_shiftLeft,
    Nat.testBit_shiftLeft, Nat.testBit_mod_two_pow, Nat.testBit_mod_two_pow]
  have hB : Nat.testBit (if d.testBit n then 32768 else 0) i = (d.testBit n && decide (i = 15)) := by
    cases d.testBit n
    · simp
    · have := @Nat.testBit_two_pow 15 i
      simp only [if_true, Bool.true_and]
      rw [show (32768 : Nat) = 2 ^ 15 by norm_num, this]
      by_cases h : i = 15 <;> simp [h, eq_comm]
  rw [hB]
  by_cases h1 : i ≥ 15 - n
  · by_cases h2 : i - (15 - n) < n
    · have : i ≠ 15 := by omega
      simp [h1, h2, this, Nat.lt_succ_of_lt h2]
    · by_cases h3 : i - (15 - n) = n
      · have : i = 15 := by omega
        subst this
        have e : 15 - (15 - n) = n := by omega
        simp [e]
      · have : i ≠ 15 := by omega
        have h4 : ¬ i - (15 - n) < n + 1 := by omega
        simp [h2, h4, this]
  · have : i ≠ 15 := by omega
    simp [h1, this]

theorem crc_bits_ref (d : Nat) : ∀ n, n ≤ 8 → ∀ c,
    crc_bits n (c ^^^ ((d % 2 ^ n) * 2 ^ (16 - n))) = (msb_bits n d).foldl crc16_ref_bit c := by
  intro n
  induction n with
  | zero =>
    intro _ c
    simp [crc_bits, msb_bits, Nat.mod_one]
  | succ n ih =>
    intro hn c
    have hM : (d % 2 ^ n) * 2 ^ (15 - n) < 32768 := by
      have h1 : d % 2 ^ n < 2 ^ n := Nat.mod_lt _ (Nat.two_pow_pos _)
      have h2 : 2 ^ n * 2 ^ (15 - n) = 32768 := by
        rw [← Nat.pow_add, show n + (15 - n) = 15 by omega]
      calc (d % 2 ^ n) * 2 ^ (15 - n) < 2 ^ n * 2 ^ (15 - n) :=
            Nat.mul_lt_mul_of_pos_right h1 (Nat.two_pow_pos _)
        _ = 32768 := h2
    have e1 : 16 - (n + 1) = 15 - n := by omega
    have e2 : 2 * ((d % 2 ^ n) * 2 ^ (15 - n)) = (d % 2 ^ n) * 2 ^ (16 - n) := by
      rw [show 16 - n = (15 - n) + 1 by omega, Nat.pow_succ]; ring
    show crc_bits n (crc_bit_step _) = List.foldl crc16_ref_bit (crc16_ref_bit c (d.testBit n)) _
    rw [e1, split_top_bit d n (by omega), ← Nat.xor_assoc, crc_bit_step_xor _ _ hM,
      ← crc16_ref_bit_eq, e2]
    exact ih (by omega) _

theorem crc_fold_in (crc d : Nat) (hc : crc < 65536) :
    (crc ^^^ (d <<< 8)) % 65536 = crc ^^^ ((d % 2 ^ 8) * 2 ^ (16 - 8)) := by
  apply Nat.eq_of_testBit_eq
  intro i
  rw [show (65536 : Nat) = 2 ^ 16 by norm_num, Nat.testBit_mod_two_pow, Nat.testBit_xor,
    Nat.testBit_xor, ← Nat.shiftLeft_eq, Nat.testBit_shiftLeft, Nat.testBit_shiftLeft,
    Nat.testBit_mod_two_pow]
  by_cases hi : i < 16
  · have : i - 8 < 8 ∨ ¬ i ≥ 8 := by omega
    rcases this with h | h
    · simp [hi, h]
    · simp [hi, h]
  · have h1 : crc.testBit i = false := testBit_high_false crc i 16 (by norm_num; exact hc) (by omega)
    have h2 : ¬ i - (16 - 8) < 8 := by omega
    simp [hi, h1, h2]

theorem crc_bits_lt : ∀ n c, c < 65536 → crc_bits n c < 65536
  | 0, _, h => h
  | n + 1, c, _ => crc_bits_lt n _ (crc_bit_step_lt c)

theorem crc_byte_step_ref (crc d : Nat) (hc : crc < 65536) :
    crc_byte_step crc d = (byte_bits_msb d).foldl crc16_ref_bit crc := by
  unfold crc_byte_step
  rw [crc_fold_in crc d hc, byte_bits_msb_eq]
  exact crc_bits_ref d 8 (le_refl _) crc

theorem crc_byte_step_lt (crc d : Nat) : crc_byte_step crc d < 65536 := by
  unfold crc_byte_step
  exact crc_bits_lt 8 _ (Nat.mod_lt _ (by norm_num))

theorem crc_foldl_ref (l : List Nat) : ∀ c, c < 65536 →
    l.foldl crc_byte_step c = l.foldl (fun crc d => (byte_bits_msb d).foldl crc16_ref_bit crc) c := by
  induction l with
  | nil => intro c _; rfl
  | cons d t ih =>
    intro c hc
    simp only [List.foldl_cons]
    rw [← crc_byte_step_ref c d hc]
    exact ih _ (crc_byte_step_lt c d)

theorem bpu_crc16_ccitt_eq_foldl (data : Nat → Nat) (len : Nat) :
    bpu_crc16_ccitt data len = (arr_list data len).foldl crc_byte_step 0xFFFF := by
  unfold bpu_crc16_ccitt arr_list
  rw [List.foldl_map]

set_option maxRecDepth 100000 in

/-- C3. `bpu_crc16_ccitt` agrees on every byte sequence with the reference
CRC16-CCITT (preset `0xFFFF`, polynomial `0x1021`, bits most significant first,
no reflection, no final xor); the empty input gives `0xFFFF` and the ASCII
digits `123456789` give `0x29B1`. -/

theorem bpu_crc16_ccitt_standard :
    (∀ (data : Nat → Nat) (len : Nat),
        bpu_crc16_ccitt data len = crc16_ccitt_ref (arr_list data len)) ∧
    (∀ data : Nat → Nat, bpu_crc16_ccitt data 0 = 0xFFFF) ∧
    bpu_crc16_ccitt (arr_of [0x31, 0x32, 0x33, 0x34, 0x35, 0x36, 0x37, 0x38, 0x39]) 9 = 0x29B1 ∧
    crc16_ccitt_ref [0x31, 0x32, 0x33, 0x34, 0x35, 0x36, 0x37, 0x38, 0x39] = 0x29B1 := by
  refine ⟨?_, fun _ => rfl, by decide, by decide⟩
  intro data len
  rw [bpu_crc16_ccitt_eq_foldl, crc16_ccitt_ref]
  exact crc_foldl_ref _ _ (by norm_num)

/-! ## Arrays as lists -/

theorem arr_list_length {α : Type} (a : Nat → α) (n : Nat) : (arr_list a n).length = n := by
  simp [arr_list]

theorem arr_list_succ {α : Type} (a : Nat → α) (n : Nat) :
    arr_list a (n + 1) = arr_list a n ++ [a n] := by
  simp [arr_list, List.range_succ]

theorem arr_list_congr {α : Type} (a b : Nat → α) (n : Nat) (h : ∀ i, i < n → a i = b i) :
    arr_list a n = arr_list b n := by
  unfold arr_list
  apply List.map_congr_left
  intro i hi
  exact h i (List.mem_range.1 hi)

theorem arr_set_same {α : Type} (a : Nat → α) (i : Nat) (v : α) : arr_set a i v i = v := by
  simp [arr_set]

theorem arr_set_other {α : Type} (a : Nat → α) (i j : Nat) (v : α) (h : j ≠ i) :
    arr_set a i v j = a j := by
  simp [arr_set, h]

theorem arr_list_set_ge {α : Type} (a : Nat → α) (i n : Nat) (v : α) (h : n ≤ i) :
    arr_list (arr_set a i v) n = arr_list a n :=
  arr_list_congr _ _ _ (fun j hj => arr_set_other a i j v (by omega))

theorem arr_list_add {α : Type} (a : Nat → α) (i k : Nat) :
    arr_list a (i + k) = arr_list a i ++ arr_slice a i k := by
  simp [arr_list, arr_slice, List.range_add, List.map_map, Function.comp_def]

theorem arr_slice_congr {α : Type} (a b : Nat → α) (i n : Nat)
    (h : ∀ j, i ≤ j → j < i + n → a j = b j) : arr_slice a i n = arr_slice b i n := by
  unfold arr_slice
  apply List.map_congr_left
  intro k hk
  exact h (i + k) (by omega) (by have := List.mem_range.1 hk; omega)

theorem arr_slice_succ {α : Type} (a : Nat → α) (i n : Nat) :
    arr_slice a i (n + 1) = a i :: arr_slice a (i + 1) n := by
  simp [arr_slice, List.range_succ_eq_map, List.map_map, Function.comp_def, Nat.add_assoc,
    Nat.add_comm 1]

theorem arr_slice_length {α : Type} (a : Nat → α) (i n : Nat) : (arr_slice a i n).length = n := by
  simp [arr_slice]

theorem arr_list_set_hole {α : Type} (a : Nat → α) (n i : Nat) (v x : α) (l1 l2 : List α)
    (h : arr_list a n = l1 ++ x :: l2) (hi : l1.length = i) :
    arr_list (arr_set a i v) n = l1 ++ v :: l2 := by
  have hn : n = i + (l2.length + 1) := by
    have := congrArg List.length h
    simp [arr_list_length] at this
    omega
  subst hn
  rw [arr_list_add, arr_slice_succ] at h
  rw [arr_list_add, arr_slice_succ]
  have h1 := List.append_inj h (by rw [arr_list_length, hi])
  have h2 := List.cons.inj h1.2
  rw [arr_list_set_ge a i i v (le_refl _), h1.1, arr_set_same,
    arr_slice_congr (arr_set a i v) a (i + 1) l2.length
      (fun j hj _ => arr_set_other a i j v (by omega)), h2.2]

theorem arr_slice_zero {α : Type} (a : Nat → α) (i : Nat) : arr_slice a i 0 = [] := rfl

theorem arr_list_eq_slice {α : Type} (a : Nat → α) (n : Nat) : arr_list a n = arr_slice a 0 n := by
  simp [arr_list, arr_slice]

/-! ### The block structure -/

theorem cobs_blocks_length_ge (xs : List Nat) : ∀ pend,
    pend.length + 1 + xs.length ≤ (cobs_blocks pend xs).length := by
  induction xs with
  | nil => intro pend; simp [cobs_blocks]
  | cons x xs ih =>
    intro pend
    unfold cobs_blocks
    split
    · have := ih []
      simp at this ⊢
      omega
    · split
      · have := ih []
        simp at this ⊢
        omega
      · have := ih (pend ++ [x])
        simp at this ⊢
        omega

theorem cobs_blocks_length_short (xs : List Nat) : ∀ pend,
    pend.length + xs.length ≤ 253 →
    (cobs_blocks pend xs).length = pend.length + xs.length + 1 := by
  induction xs with
  | nil => intro pend _; simp [cobs_blocks]
  | cons x xs ih =>
    intro pend h
    simp only [List.length_cons] at h
    unfold cobs_blocks
    split
    · have := ih [] (by simp; omega)
      simp at this ⊢
      omega
    · rw [if_neg (by omega)]
      have := ih (pend ++ [x]) (by simp; omega)
      simp at this ⊢
      omega

theorem cobs_blocks_ne_zero (xs : List Nat) : ∀ pend,
    (∀ p ∈ pend, p ≠ 0) → ∀ b ∈ cobs_blocks pend xs, b ≠ 0 := by
  induction xs with
  | nil =>
    intro pend hp b hb
    simp only [cobs_blocks, List.mem_cons] at hb
    rcases hb with hb | hb
    · omega
    · exact hp b hb
  | cons x xs ih =>
    intro pend hp b hb
    unfold cobs_blocks at hb
    split at hb
    · simp only [List.cons_append, List.mem_cons, List.mem_append] at hb
      rcases hb with hb | hb | hb
      · omega
      · exact hp b hb
      · exact ih [] (by simp) b hb
    · split at hb
      · simp only [List.cons_append, List.mem_cons, List.mem_append, List.mem_singleton,
          List.not_mem_nil, or_false] at hb
        rcases hb with hb | (hb | hb) | hb
        · omega
        · exact hp b hb
        · omega
        · exact ih [] (by simp) b hb
      · refine ih (pend ++ [x]) ?_ b hb
        intro p hp'
        simp only [List.mem_append, List.mem_singleton] at hp'
        rcases hp' with hp' | hp'
        · exact hp p hp'
        · omega

/-! ### The reference decoder on the block structure -/

theorem cobs_decode_loop_block (blk : List Nat) : ∀ (s : List Nat) (code : Nat) (acc : List Nat),
    cobs_decode_loop (blk ++ s) code blk.length acc = cobs_decode_loop s code 0 (acc ++ blk) := by
  induction blk with
  | nil => intro s code acc; simp
  | cons b t ih =>
    intro s code acc
    simp only [List.cons_append, List.length_cons]
    rw [cobs_decode_loop, if_pos (by omega)]
    simp only [Nat.add_sub_cancel]
    rw [ih]
    simp

theorem cobs_decode_loop_code (c : Nat) (blk s : List Nat) (code : Nat) (acc : List Nat)
    (hc : c = blk.length + 1) :
    cobs_decode_loop (c :: (blk ++ s)) code 0 acc =
      cobs_decode_loop s c 0 ((if code ≠ 0xFF then acc ++ [0] else acc) ++ blk) := by
  rw [cobs_decode_loop, if_neg (by simp), if_neg (by omega)]
  have : c - 1 = blk.length := by omega
  rw [this, cobs_decode_loop_block]

theorem cobs_decode_loop_blocks (xs : List Nat) : ∀ (pend : List Nat) (code : Nat) (acc : List Nat),
    pend.length ≤ 253 →
    cobs_decode_loop (cobs_blocks pend xs) code 0 acc =
      (if code ≠ 0xFF then acc ++ [0] else acc) ++ pend ++ xs := by
  induction xs with
  | nil =>
    intro pend code acc _
    have := cobs_decode_loop_code (pend.length + 1) pend [] code acc rfl
    simp only [List.append_nil] at this
    rw [cobs_blocks, this, cobs_decode_loop, List.append_nil]
  | cons x xs ih =>
    intro pend code acc hp
    unfold cobs_blocks
    split
    · rename_i hx
      rw [List.cons_append, cobs_decode_loop_code _ _ _ _ _ rfl, ih [] _ _ (by simp)]
      rw [if_pos (by omega)]
      simp [hx]
    · split
      · rename_i hx hl
        rw [List.cons_append, cobs_decode_loop_code _ _ _ _ _ (by simp; omega),
          ih [] _ _ (by simp)]
        simp
      · rename_i hx hl
        rw [ih (pend ++ [x]) _ _ (by simp; omega)]
        simp

theorem cobs_decode_blocks (xs : List Nat) : cobs_decode (cobs_blocks [] xs) = xs := by
  unfold cobs_decode
  rw [cobs_decode_loop_blocks xs [] 0xFF [] (by simp)]
  simp

/-! ### The encoder loop -/

theorem cobs_loop_rc_err (input : Nat → Nat) (length out_max : Nat) :
    ∀ fuel s, s.rc ≠ BPU_RC_OK → cobs_loop input length out_max fuel s = s := by
  intro fuel s h
  cases fuel with
  | zero => rfl
  | succ n => rw [cobs_loop, if_neg (fun hh => h hh.2)]

theorem cobs_inv_wi {s : CobsSt} {closed pend : List Nat} {hole out_max : Nat}
    (h : CobsInv s closed pend hole out_max) :
    s.write_index = closed.length + (pend.length + 1) := by
  have := congrArg List.length h.2.1
  simpa [arr_list_length] using this

theorem cobs_loop_stop (out_max : Nat) (s : CobsSt)
    (closed pend : List Nat) (hole : Nat) (hinv : CobsInv s closed pend hole out_max) :
    s.rc = BPU_RC_OK ∧ s.code_index < s.write_index ∧
      s.write_index = closed.length + (cobs_blocks pend []).length ∧
      arr_list (arr_set s.output s.code_index s.code) s.write_index =
        closed ++ cobs_blocks pend [] ∧
      (∀ i, s.write_index ≤ i → s.output i = s.output i) := by
  have hwi := cobs_inv_wi hinv
  obtain ⟨h1, h2, h3, h4, _, _⟩ := hinv
  refine ⟨h1, by omega, by simp [cobs_blocks]; omega, ?_, fun _ _ => rfl⟩
  rw [arr_list_set_hole _ _ _ _ _ _ _ h2 h3, h4, cobs_blocks]

theorem cobs_loop_spec (input : Nat → Nat) (length out_max : Nat) :
    ∀ (fuel : Nat) (s : CobsSt) (closed pend : List Nat) (hole : Nat),
    CobsInv s closed pend hole out_max → s.read_index ≤ length →
    length - s.read_index ≤ fuel →
    (closed.length +
        (cobs_blocks pend (arr_slice input s.read_index (length - s.read_index))).length
        ≤ out_max →
      (cobs_loop input length out_max fuel s).rc = BPU_RC_OK ∧
      (cobs_loop input length out_max fuel s).code_index <
        (cobs_loop input length out_max fuel s).write_index ∧
      (cobs_loop input length out_max fuel s).write_index = closed.length +
        (cobs_blocks pend (arr_slice input s.read_index (length - s.read_index))).length ∧
      arr_list (arr_set (cobs_loop input length out_max fuel s).output
          (cobs_loop input length out_max fuel s).code_index
          (cobs_loop input length out_max fuel s).code)
          (cobs_loop input length out_max fuel s).write_index =
        closed ++ cobs_blocks pend (arr_slice input s.read_index (length - s.read_index)) ∧
      (∀ i, (cobs_loop input length out_max fuel s).write_index ≤ i →
        (cobs_loop input length out_max fuel s).output i = s.output i)) ∧
    (out_max < closed.length +
        (cobs_blocks pend (arr_slice input s.read_index (length - s.read_index))).length →
      (cobs_loop input length out_max fuel s).rc ≠ BPU_RC_OK) := by
  intro fuel
  induction fuel with
  | zero =>
    intro s closed pend hole hinv hri hfuel
    have e : length - s.read_index = 0 := by omega
    rw [e, arr_slice_zero]
    have hwi := cobs_inv_wi hinv
    refine ⟨fun _ => cobs_loop_stop out_max s closed pend hole hinv, ?_⟩
    intro h
    have := hinv.2.2.2.2.2
    simp [cobs_blocks] at h
    omega
  | succ n ih =>
    intro s closed pend hole hinv hri hfuel
    have hwi := cobs_inv_wi hinv
    by_cases hlt : s.read_index < length
    · -- one more round
      have hslice : arr_slice input s.read_index (length - s.read_index) =
          input s.read_index ::
            arr_slice input (s.read_index + 1) (length - (s.read_index + 1)) := by
        rw [show length - s.read_index = (length - (s.read_index + 1)) + 1 by omega,
          arr_slice_succ]
      obtain ⟨h1, h2, h3, h4, h5, h6⟩ := hinv
      rw [cobs_loop, if_pos ⟨hlt, h1⟩, hslice]
      by_cases hfull : s.write_index ≥ out_max
      · -- no room for the next byte
        have hstep : cobs_step input out_max s = { s with rc := BPU_RC_ERR } := by
          rw [cobs_step, if_pos hfull]
        rw [hstep, cobs_loop_rc_err _ _ _ _ _ (by simp)]
        have hge := cobs_blocks_length_ge
          (input s.read_index :: arr_slice input (s.read_index + 1) (length - (s.read_index + 1)))
          pend
        simp only [List.length_cons] at hge
        refine ⟨fun h => by omega, fun _ => by simp⟩
      · by_cases hz : input s.read_index = 0
        · -- a zero closes the block
          have hstep : cobs_step input out_max s =
              { s with
                output := arr_set s.output s.code_index s.code
                code := 1
                code_index := s.write_index
                write_index := s.write_index + 1
                read_index := s.read_index + 1 } := by
            rw [cobs_step, if_neg hfull, if_pos hz]
          rw [hstep, cobs_blocks, if_pos hz]
          have hinv' : CobsInv
              { s with
                output := arr_set s.output s.code_index s.code
                code := 1
                code_index := s.write_index
                write_index := s.write_index + 1
                read_index := s.read_index + 1 }
              (closed ++ (pend.length + 1) :: pend) [] (s.output s.write_index) out_max := by
            refine ⟨h1, ?_, by simp; omega, rfl, by simp, by simp at hfull ⊢; omega⟩
            show arr_list (arr_set s.output s.code_index s.code) (s.write_index + 1) = _
            rw [arr_list_succ, arr_list_set_hole _ _ _ _ _ _ _ h2 h3, h4,
              arr_set_other _ _ _ _ (by omega)]
          have := ih _ _ _ _ hinv' (by show s.read_index + 1 ≤ length; omega)
            (by show length - (s.read_index + 1) ≤ n; omega)
          simp only [List.length_append, List.length_cons, List.append_assoc,
            List.cons_append] at this ⊢
          refine ⟨fun h => ?_, fun h => this.2 (by omega)⟩
          obtain ⟨r1, r2, r3, r4, r5⟩ := this.1 (by omega)
          refine ⟨r1, r2, by omega, r4, fun i hi => ?_⟩
          rw [r5 i hi]
          exact arr_set_other _ _ _ _ (by omega)
        · -- a data byte
          by_cases hff : (s.code + 1) % 256 = 0xFF
          · -- the block is full
            have hpl : pend.length = 253 := by omega
            by_cases hfull2 : s.write_index + 1 ≥ out_max
            · have hstep : (cobs_step input out_max s).rc = BPU_RC_ERR := by
                rw [cobs_step, if_neg hfull, if_neg hz]
                simp only []
                rw [if_pos hff, if_pos hfull2]
              have hne : (cobs_step input out_max s).rc ≠ BPU_RC_OK := by rw [hstep]; simp
              rw [cobs_loop_rc_err _ _ _ _ _ hne, cobs_blocks, if_neg hz, if_pos (by omega)]
              have hge := cobs_blocks_length_ge
                (arr_slice input (s.read_index + 1) (length - (s.read_index + 1))) []
              simp only [List.length_append, List.length_cons, List.length_nil] at hge ⊢
              refine ⟨fun h => by omega, fun _ => hne⟩
            · have hstep : cobs_step input out_max s =
                  { s with
                    output := arr_set (arr_set s.output s.write_index (input s.read_index))
                      s.code_index 0xFF
                    code := 1
                    code_index := s.write_index + 1
                    write_index := s.write_index + 1 + 1
                    read_index := s.read_index + 1 } := by
                rw [cobs_step, if_neg hfull, if_neg hz]
                simp only []
                rw [if_pos hff, if_neg hfull2, hff]
              rw [hstep, cobs_blocks, if_neg hz, if_pos (by omega)]
              have hinv' : CobsInv
                  { s with
                    output := arr_set (arr_set s.output s.write_index (input s.read_index))
                      s.code_index 0xFF
                    code := 1
                    code_index := s.write_index + 1
                    write_index := s.write_index + 1 + 1
                    read_index := s.read_index + 1 }
                  (closed ++ 0xFF :: (pend ++ [input s.read_index])) []
                  (s.output (s.write_index + 1)) out_max := by
                refine ⟨h1, ?_, by simp; omega, rfl, by simp, by simp at hfull2 ⊢; omega⟩
                show arr_list (arr_set (arr_set s.output s.write_index (input s.read_index))
                  s.code_index 0xFF) (s.write_index + 1 + 1) = _
                have e1 : arr_list (arr_set s.output s.write_index (input s.read_index))
                    (s.write_index + 1) = closed ++ hole :: (pend ++ [input s.read_index]) := by
                  rw [arr_list_succ, arr_list_set_ge _ _ _ _ (le_refl _), h2, arr_set_same]
                  simp
                rw [arr_list_succ, arr_list_set_hole _ _ _ _ _ _ _ e1 h3,
                  arr_set_other _ _ _ _ (by omega), arr_set_other _ _ _ _ (by omega)]
              have := ih _ _ _ _ hinv' (by show s.read_index + 1 ≤ length; omega)
                (by show length - (s.read_index + 1) ≤ n; omega)
              simp only [List.length_append, List.length_cons, List.append_assoc,
                List.cons_append, List.length_nil] at this ⊢
              refine ⟨fun h => ?_, fun h => this.2 (by omega)⟩
              obtain ⟨r1, r2, r3, r4, r5⟩ := this.1 (by omega)
              refine ⟨r1, r2, by omega, r4, fun i hi => ?_⟩
              rw [r5 i hi, arr_set_other _ _ _ _ (by omega), arr_set_other _ _ _ _ (by omega)]
          · -- the block stays open
            have hstep : cobs_step input out_max s =
                { s with
                  output := arr_set s.output s.write_index (input s.read_index)
                  write_index := s.write_index + 1
                  read_index := s.read_index + 1
                  code := (s.code + 1) % 256 } := by
              rw [cobs_step, if_neg hfull, if_neg hz]
              simp only []
              rw [if_neg hff]
            have hcode : (s.code + 1) % 256 = s.code + 1 := by omega
            rw [hstep, cobs_blocks, if_neg hz, if_neg (by omega)]
            have hinv' : CobsInv
                { s with
                  output := arr_set s.output s.write_index (input s.read_index)
                  write_index := s.write_index + 1
                  read_index := s.read_index + 1
                  code := (s.code + 1) % 256 }
                closed (pend ++ [input s.read_index]) hole out_max := by
              refine ⟨h1, ?_, h3, by simp; omega, by simp; omega, by simp at hfull ⊢; omega⟩
              show arr_list (arr_set s.output s.write_index (input s.read_index))
                (s.write_index + 1) = _
              rw [arr_list_succ, arr_list_set_ge _ _ _ _ (le_refl _), h2, arr_set_same]
              simp
            have := ih _ _ _ _ hinv' (by show s.read_index + 1 ≤ length; omega)
              (by show length - (s.read_index + 1) ≤ n; omega)
            refine ⟨fun h => ?_, this.2⟩
            obtain ⟨r1, r2, r3, r4, r5⟩ := this.1 h
            refine ⟨r1, r2, r3, r4, fun i hi => ?_⟩
            have hge := cobs_blocks_length_ge
              (arr_slice input (s.read_index + 1) (length - (s.read_index + 1)))
              (pend ++ [input s.read_index])
            simp only [List.length_append, List.length_cons, List.length_nil] at hge
            rw [r5 i hi]
            exact arr_set_other _ _ _ _ (by simp only [] at r3 hi; omega)
    · -- the input is exhausted
      have e : length - s.read_index = 0 := by omega
      rw [cobs_loop, if_neg (fun h => hlt h.1), e, arr_slice_zero]
      refine ⟨fun _ => cobs_loop_stop out_max s closed pend hole hinv, ?_⟩
      intro h
      have := hinv.2.2.2.2.2
      simp [cobs_blocks] at h
      omega

theorem bpu_cobs_encode_spec (input : Nat → Nat) (length : Nat) (output : Nat → Nat)
    (out_max : Nat) :
    ((cobs_blocks [] (arr_list input length)).length ≤ out_max →
      (bpu_cobs_encode input length output out_max).1 =
        (cobs_blocks [] (arr_list input length)).length ∧
      arr_list (bpu_cobs_encode input length output out_max).2
        (cobs_blocks [] (arr_list input length)).length = cobs_blocks [] (arr_list input length) ∧
      (∀ i, (cobs_blocks [] (arr_list input length)).length ≤ i →
        (bpu_cobs_encode input length output out_max).2 i = output i)) ∧
    (out_max < (cobs_blocks [] (arr_list input length)).length →
      (bpu_cobs_encode input length output out_max).1 = 0) := by
  have hpos := cobs_blocks_length_ge (arr_list input length) []
  simp only [List.length_nil] at hpos
  by_cases h0 : out_max = 0
  · refine ⟨fun h => by omega, fun _ => ?_⟩
    rw [bpu_cobs_encode, if_pos h0]
  · have hinv : CobsInv
        { output := output, read_index := 0, write_index := 1, code_index := 0, code := 1,
          rc := BPU_RC_OK } [] [] (output 0) out_max := by
      refine ⟨rfl, ?_, rfl, rfl, by simp, by show 1 ≤ out_max; omega⟩
      show arr_list output 1 = _
      rfl
    have main := cobs_loop_spec input length out_max length _ [] [] (output 0) hinv
      (Nat.zero_le _) (by show length - 0 ≤ length; omega)
    simp only [Nat.sub_zero, List.length_nil, Nat.zero_add, List.nil_append,
      ← arr_list_eq_slice] at main
    rw [bpu_cobs_encode, if_neg h0]
    simp only []
    refine ⟨fun h => ?_, fun h => ?_⟩
    · obtain ⟨r1, r2, r3, r4, r5⟩ := main.1 h
      rw [if_pos r1, if_neg (by omega)]
      refine ⟨r3, by simpa only [r3] using r4, fun i hi => ?_⟩
      show arr_set _ _ _ i = output i
      rw [arr_set_other _ _ _ _ (by omega)]
      exact r5 i (by omega)
    · rw [if_neg (main.2 h)]

/-- C2. Whenever `bpu_cobs_encode` succeeds (returns a non-zero length), for any
input bytes, input length, previous buffer content and capacity, the encoded
output contains no zero byte and the reference COBS decoder returns the input
bytes exactly. -/
theorem bpu_cobs_encode_roundtrip (input : Nat → Nat) (length : Nat) (output : Nat → Nat)
    (out_max : Nat) (hok : (bpu_cobs_encode input length output out_max).1 ≠ 0) :
    (∀ b ∈ arr_list (bpu_cobs_encode input length output out_max).2
        (bpu_cobs_encode input length output out_max).1, b ≠ 0) ∧
    cobs_decode (arr_list (bpu_cobs_encode input length output out_max).2
        (bpu_cobs_encode input length output out_max).1) = arr_list input length := by
  have spec := bpu_cobs_encode_spec input length output out_max
  by_cases hfit : (cobs_blocks [] (arr_list input length)).length ≤ out_max
  · obtain ⟨r1, r2, _⟩ := spec.1 hfit
    rw [r1, r2]
    exact ⟨cobs_blocks_ne_zero _ [] (by simp), cobs_decode_blocks _⟩
  · exact absurd (spec.2 (by omega)) hok

set_option maxRecDepth 1000000 in
/-- Instance of `bpu_cobs_encode_roundtrip`: 64 zero bytes into a buffer of 87. -/
theorem bpu_cobs_encode_roundtrip_witness :
    (bpu_cobs_encode (fun _ => 0) 64 (fun _ => 0xAA) 87).1 ≠ 0 ∧
    ((∀ b ∈ arr_list (bpu_cobs_encode (fun _ => 0) 64 (fun _ => 0xAA) 87).2
        (bpu_cobs_encode (fun _ => 0) 64 (fun _ => 0xAA) 87).1, b ≠ 0) ∧
    cobs_decode (arr_list (bpu_cobs_encode (fun _ => 0) 64 (fun _ => 0xAA) 87).2
        (bpu_cobs_encode (fun _ => 0) 64 (fun _ => 0xAA) 87).1) = arr_list (fun _ => 0) 64) :=
  ⟨by decide, bpu_cobs_encode_roundtrip _ _ _ _ (by decide)⟩

/-! ## Framer: the staged frame -/

theorem arr_of_list (l : List Nat) : arr_list (arr_of l) l.length = l := by
  apply List.ext_getElem
  · simp [arr_list_length]
  · intro i h1 h2
    simp [arr_list, arr_of, List.getD_eq_getElem?_getD, List.getElem?_eq_getElem h2]

theorem foldl_copy_apply (src : Nat → Nat) (off : Nat) : ∀ (n : Nat) (d : Nat → Nat) (j : Nat),
    (List.range n).foldl (fun d i => arr_set d (off + i) (src i)) d j =
      if off ≤ j ∧ j < off + n then src (j - off) else d j := by
  intro n
  induction n with
  | zero =>
    intro d j
    rw [if_neg (by omega)]
    rfl
  | succ n ih =>
    intro d j
    rw [List.range_succ, List.foldl_append]
    simp only [List.foldl_cons, List.foldl_nil]
    by_cases hj : j = off + n
    · subst hj
      rw [arr_set_same, if_pos (by omega)]
      congr 1
      omega
    · rw [arr_set_other _ _ _ _ hj, ih]
      by_cases h : off ≤ j ∧ j < off + n
      · rw [if_pos h, if_pos (by omega)]
      · rw [if_neg h, if_neg (by omega)]

theorem bpu_crc16_ccitt_congr (a b : Nat → Nat) (n : Nat) (h : arr_list a n = arr_list b n) :
    bpu_crc16_ccitt a n = bpu_crc16_ccitt b n := by
  rw [bpu_crc16_ccitt_eq_foldl, bpu_crc16_ccitt_eq_foldl, h]

theorem bpu_crc16_ccitt_lt (a : Nat → Nat) (n : Nat) : bpu_crc16_ccitt a n < 65536 := by
  rw [bpu_crc16_ccitt_eq_foldl]
  generalize arr_list a n = l
  have : ∀ (l : List Nat) (c : Nat), c < 65536 → l.foldl crc_byte_step c < 65536 := by
    intro l
    induction l with
    | nil => intro c hc; exact hc
    | cons d t ih => intro c _; exact ih _ (crc_byte_step_lt c d)
  exact this l _ (by norm_num)

theorem build_decoded_list (type seq n : Nat) (payload : Nat → Nat) :
    arr_list (build_decoded type seq n payload) (4 + n + 2) = frame_raw type seq n payload := by
  have hbody : arr_list (fun k => (List.range n).foldl
        (fun d i => arr_set d (4 + i) (payload i))
        (arr_set (arr_set (arr_set (arr_set (fun _ => 0) 0 0xB2) 1 type) 2 seq) 3 n) (1 + k))
      (3 + n) = [type, seq, n] ++ arr_list payload n := by
    rw [arr_list_add]
    congr 1
    · simp [arr_list, List.range_succ, foldl_copy_apply, arr_set]
    · unfold arr_slice arr_list
      apply List.map_congr_left
      intro k hk
      have := List.mem_range.1 hk
      simp only []
      rw [foldl_copy_apply, if_pos (by omega)]
      congr 1
      omega
  have hcrc : bpu_crc16_ccitt (fun k => (List.range n).foldl
        (fun d i => arr_set d (4 + i) (payload i))
        (arr_set (arr_set (arr_set (arr_set (fun _ => 0) 0 0xB2) 1 type) 2 seq) 3 n) (1 + k))
      (3 + n) = bpu_crc16_ccitt (arr_of ([type, seq, n] ++ arr_list payload n)) (n + 3) := by
    rw [Nat.add_comm n 3]
    apply bpu_crc16_ccitt_congr
    rw [hbody]
    have := arr_of_list ([type, seq, n] ++ arr_list payload n)
    simp only [List.length_append, List.length_cons, List.length_nil, arr_list_length] at this
    rw [show 3 + n = 0 + 1 + 1 + 1 + n by omega]
    exact this.symm
  unfold build_decoded frame_raw
  simp only []
  rw [hcrc]
  generalize bpu_crc16_ccitt (arr_of ([type, seq, n] ++ arr_list payload n)) (n + 3) = crc
  rw [arr_list_add, arr_list_add]
  have e1 : crc &&& 0xFF = crc % 256 := Nat.and_pow_two_sub_one_eq_mod crc 8
  have e2 : (crc >>> 8) &&& 0xFF = crc / 256 % 256 := by
    rw [Nat.shiftRight_eq_div_pow]
    exact Nat.and_pow_two_sub_one_eq_mod _ 8
  rw [e1, e2]
  have p1 : arr_list (arr_set (arr_set ((List.range n).foldl
        (fun d i => arr_set d (4 + i) (payload i))
        (arr_set (arr_set (arr_set (arr_set (fun _ => 0) 0 0xB2) 1 type) 2 seq) 3 n))
        (4 + n + 0) (crc % 256)) (4 + n + 1) (crc / 256 % 256)) 4 = [0xB2, type, seq, n] := by
    rw [arr_list_set_ge _ _ _ _ (by omega), arr_list_set_ge _ _ _ _ (by omega)]
    simp [arr_list, List.range_succ, foldl_copy_apply, arr_set]
  have p2 : arr_slice (arr_set (arr_set ((List.range n).foldl
        (fun d i => arr_set d (4 + i) (payload i))
        (arr_set (arr_set (arr_set (arr_set (fun _ => 0) 0 0xB2) 1 type) 2 seq) 3 n))
        (4 + n + 0) (crc % 256)) (4 + n + 1) (crc / 256 % 256)) 4 n = arr_list payload n := by
    unfold arr_slice arr_list
    apply List.map_congr_left
    intro k hk
    have := List.mem_range.1 hk
    rw [arr_set_other _ _ _ _ (by omega), arr_set_other _ _ _ _ (by omega), foldl_copy_apply,
      if_pos (by omega)]
    congr 1
    omega
  have p3 : arr_slice (arr_set (arr_set ((List.range n).foldl
        (fun d i => arr_set d (4 + i) (payload i))
        (arr_set (arr_set (arr_set (arr_set (fun _ => 0) 0 0xB2) 1 type) 2 seq) 3 n))
        (4 + n + 0) (crc % 256)) (4 + n + 1) (crc / 256 % 256)) (4 + n) 2 =
        [crc % 256, crc / 256 % 256] := by
    simp [arr_slice, List.range_succ, arr_set]
  rw [p1, p2, p3]
  rfl

theorem frame_raw_length (type seq n : Nat) (payload : Nat → Nat) :
    (frame_raw type seq n payload).length = n + 6 := by
  simp [frame_raw, arr_list_length]

theorem bpu_cobs_encode_congr (a b : Nat → Nat) (n : Nat) (out : Nat → Nat) (out_max : Nat)
    (h : arr_list a n = arr_list b n)
    (hfit : (cobs_blocks [] (arr_list a n)).length ≤ out_max) (out2 : Nat → Nat) :
    (bpu_cobs_encode a n out out_max).1 = (bpu_cobs_encode b n out2 out_max).1 ∧
    arr_list (bpu_cobs_encode a n out out_max).2 (bpu_cobs_encode a n out out_max).1 =
      arr_list (bpu_cobs_encode b n out2 out_max).2 (bpu_cobs_encode b n out2 out_max).1 := by
  obtain ⟨r1, r2, _⟩ := (bpu_cobs_encode_spec a n out out_max).1 hfit
  obtain ⟨q1, q2, _⟩ := (bpu_cobs_encode_spec b n out2 out_max).1 (h ▸ hfit)
  rw [r1, q1, r2, q2, h]
  exact ⟨rfl, rfl⟩

/-- C1. For every state, type byte, payload and `len`, `bpu_build_frame`
returns OK and stages in the pending buffer exactly what `bpu_cobs_encode`
produces for the raw packet `[0xB2, type, seq, n] ++ payload[0..n) ++
[crc_lo, crc_hi]` (`n = min len 64`, CRC over the `n + 3` bytes after the
start byte, low byte first), followed by one `0x00`; `pending_have = 1`,
`pending_pos = 0`, `pending_len` is the encoded length plus one (that is
`n + 8`), the staged bytes before the terminator contain no zero and the
reference decoder maps them back to the raw packet. -/
theorem bpu_build_frame_stages {σ : Type} (bpu : Bpu σ) (type : Nat) (payload : Nat → Nat)
    (len : Nat) (out0 : Nat → Nat) :
    (bpu_build_frame bpu type payload len).2 = BPU_RC_OK ∧
    (bpu_build_frame bpu type payload len).1.pending_have = 1 ∧
    (bpu_build_frame bpu type payload len).1.pending_pos = 0 ∧
    (bpu_build_frame bpu type payload len).1.pending_len =
      (bpu_cobs_encode (arr_of (frame_raw type bpu.seq (min len 64) payload))
        (frame_raw type bpu.seq (min len 64) payload).length out0 PENDING_CAP).1 + 1 ∧
    (bpu_build_frame bpu type payload len).1.pending_len = min len 64 + 8 ∧
    arr_list (bpu_build_frame bpu type payload len).1.pending_buf
        (bpu_build_frame bpu type payload len).1.pending_len =
      arr_list (bpu_cobs_encode (arr_of (frame_raw type bpu.seq (min len 64) payload))
          (frame_raw type bpu.seq (min len 64) payload).length out0 PENDING_CAP).2
        (bpu_cobs_encode (arr_of (frame_raw type bpu.seq (min len 64) payload))
          (frame_raw type bpu.seq (min len 64) payload).length out0 PENDING_CAP).1 ++ [0x00] ∧
    (∀ b ∈ arr_list (bpu_build_frame bpu type payload len).1.pending_buf
        ((bpu_build_frame bpu type payload len).1.pending_len - 1), b ≠ 0) ∧
    cobs_decode (arr_list (bpu_build_frame bpu type payload len).1.pending_buf
        ((bpu_build_frame bpu type payload len).1.pending_len - 1)) =
      frame_raw type bpu.seq (min len 64) payload := by
  have hn : (if len > 64 then 64 else len) = min len 64 := by
    split <;> omega
  have hn64 : min len 64 ≤ 64 := Nat.min_le_right _ _
  generalize hraw : frame_raw type bpu.seq (min len 64) payload = raw
  have hrl : raw.length = min len 64 + 6 := by rw [← hraw, frame_raw_length]
  have hdec : arr_list (build_decoded type bpu.seq (min len 64) payload) (4 + min len 64 + 2) =
      raw := by rw [build_decoded_list, hraw]
  have hblk : (cobs_blocks [] raw).length = min len 64 + 7 := by
    rw [cobs_blocks_length_short raw [] (by simp; omega)]
    simp; omega
  have hfit : (cobs_blocks [] (arr_list (build_decoded type bpu.seq (min len 64) payload)
      (4 + min len 64 + 2))).length ≤ PENDING_CAP := by
    rw [hdec, hblk]; show min len 64 + 7 ≤ 87; omega
  obtain ⟨r1, r2, _⟩ := (bpu_cobs_encode_spec (build_decoded type bpu.seq (min len 64) payload)
    (4 + min len 64 + 2) bpu.pending_buf PENDING_CAP).1 hfit
  rw [hdec] at r1 r2
  have hraw2 : arr_list (arr_of raw) raw.length = raw := arr_of_list raw
  obtain ⟨q1, q2, _⟩ := (bpu_cobs_encode_spec (arr_of raw) raw.length out0 PENDING_CAP).1
    (by rw [hraw2, hblk]; show min len 64 + 7 ≤ 87; omega)
  rw [hraw2] at q1 q2
  rw [q1, q2]
  unfold bpu_build_frame
  simp only [hn]
  rw [if_neg (by rw [r1, hblk]; omega), if_neg (by rw [r1, hblk]; show ¬ min len 64 + 7 + 1 > 87; omega)]
  simp only [r1, hblk]
  have hmod : (min len 64 + 7 + 1) % 65536 = min len 64 + 7 + 1 := by omega
  rw [hmod]
  have hbuf : arr_list (arr_set (bpu_cobs_encode (build_decoded type bpu.seq (min len 64) payload)
      (4 + min len 64 + 2) bpu.pending_buf PENDING_CAP).2 (min len 64 + 7) 0) (min len 64 + 7) =
      cobs_blocks [] raw := by
    rw [arr_list_set_ge _ _ _ _ (le_refl _), ← hblk]
    exact r2
  refine ⟨trivial, trivial, trivial, rfl, by omega, ?_, ?_, ?_⟩
  · rw [arr_list_succ, hbuf, arr_set_same]
  · rw [show min len 64 + 7 + 1 - 1 = min len 64 + 7 by omega, hbuf]
    exact cobs_blocks_ne_zero _ [] (by simp)
  · rw [show min len 64 + 7 + 1 - 1 = min len 64 + 7 by omega, hbuf]
    exact cobs_decode_blocks _

/-! ## Event queue with coalescing -/

theorem bpu_evr_at_inj (r : BpuEvRing) (i j : Nat) (hi : i < 8) (hj : j < 8)
    (h : bpu_evr_at r i = bpu_evr_at r j) : i = j := by
  unfold bpu_evr_at at h
  omega

theorem u32_inc_iterate (x : Nat) : ∀ k, u32_inc^[k + 1] x = (x + (k + 1)) % 4294967296 := by
  intro k
  induction k with
  | zero => rfl
  | succ k ih =>
    rw [Function.iterate_succ_apply', ih]
    unfold u32_inc
    omega

theorem evq_scan_inv_step {σ : Type} (b : Bpu σ) (e : BpuEvent) (n : Nat) (s : Bpu σ × Bool)
    (hn : n < b.evq.count) (hcap : b.evq.count ≤ 8) (h : EvqScanInv b e n s) :
    EvqScanInv b e (n + 1) (evq_scan_step e s n) := by
  obtain ⟨h1, h2, h3, h4, h5, h5', h6, h7, h8, h9, h10⟩ := h
  have hat : bpu_evr_at s.1.evq n = bpu_evr_at b.evq n := by
    unfold bpu_evr_at; rw [h3]
  have hcur : s.1.evq.buf (bpu_evr_at b.evq n) = b.evq.buf (bpu_evr_at b.evq n) := by
    apply h7
    intro i hi heq
    have := bpu_evr_at_inj b.evq i n (by omega) (by omega) heq
    omega
  by_cases hq : evq_mergeable b.cfg.coalesce_window_ms e (b.evq.buf (bpu_evr_at b.evq n)) = true
  · have hq' := hq
    unfold evq_mergeable at hq'
    simp only [Bool.and_eq_true, decide_eq_true_eq] at hq'
    have hstep : evq_scan_step e s n =
        ({ s.1 with
           evq := { s.1.evq with buf := arr_set s.1.evq.buf (bpu_evr_at b.evq n) e }
           st := { s.1.st with ev_merge := u32_inc s.1.st.ev_merge } }, true) := by
      unfold evq_scan_step
      simp only [hat, hcur, h1]
      rw [if_pos hq'.1, if_pos hq'.2]
    rw [hstep]
    refine ⟨h1, h2, h3, h4, h5, h5', ?_, ?_, ?_, ?_, ?_⟩
    · intro i hi hqi
      show arr_set _ _ _ _ = e
      by_cases hin : i = n
      · subst hin; exact arr_set_same _ _ _
      · have hne : bpu_evr_at b.evq i ≠ bpu_evr_at b.evq n := fun heq =>
          hin (bpu_evr_at_inj b.evq i n (by omega) (by omega) heq)
        rw [arr_set_other _ _ _ _ hne]
        exact h6 i (by omega) hqi
    · intro k hk
      show arr_set _ _ _ _ = _
      have hne : k ≠ bpu_evr_at b.evq n := by
        intro heq
        have := hk n (by omega) heq.symm
        rw [hq] at this
        exact Bool.noConfusion this
      rw [arr_set_other _ _ _ _ hne]
      exact h7 k (fun i hi => hk i (by omega))
    · show u32_inc s.1.st.ev_merge = _
      rw [h8, List.range_succ, List.filter_append, List.length_append]
      simp [hq, Function.iterate_succ_apply']
    · simp only [true_iff]
      exact ⟨n, by omega, hq⟩
    · intro hall
      have := hall n (by omega)
      rw [hq] at this
      exact Bool.noConfusion this
  · have hq0 : evq_mergeable b.cfg.coalesce_window_ms e (b.evq.buf (bpu_evr_at b.evq n)) = false := by
      simpa using hq
    have hq' := hq0
    unfold evq_mergeable at hq'
    have hstep : evq_scan_step e s n = s := by
      unfold evq_scan_step
      simp only [hat, hcur, h1]
      by_cases ht : (b.evq.buf (bpu_evr_at b.evq n)).type = e.type
      · rw [if_pos ht]
        have : ¬ u32_sub e.t_ms (b.evq.buf (bpu_evr_at b.evq n)).t_ms ≤ b.cfg.coalesce_window_ms := by
          intro hle
          simp [ht, hle] at hq'
        rw [if_neg this]
      · rw [if_neg ht]
    rw [hstep]
    refine ⟨h1, h2, h3, h4, h5, h5', ?_, ?_, ?_, ?_, ?_⟩
    · intro i hi hqi
      by_cases hin : i = n
      · subst hin; rw [hq0] at hqi; exact Bool.noConfusion hqi
      · exact h6 i (by omega) hqi
    · intro k hk
      exact h7 k (fun i hi => hk i (by omega))
    · rw [h8, List.range_succ, List.filter_append]
      simp [hq0]
    · rw [h9]
      constructor
      · rintro ⟨i, hi, hqi⟩
        exact ⟨i, by omega, hqi⟩
      · rintro ⟨i, hi, hqi⟩
        by_cases hin : i = n
        · subst hin; rw [hq0] at hqi; exact Bool.noConfusion hqi
        · exact ⟨i, by omega, hqi⟩
    · intro hall
      exact h10 (fun i hi => hall i (by omega))

theorem evq_scan_inv_fold {σ : Type} (b : Bpu σ) (e : BpuEvent) (hcap : b.evq.count ≤ 8) :
    ∀ n, n ≤ b.evq.count →
      EvqScanInv b e n ((List.range n).foldl (evq_scan_step e) (b, false)) := by
  intro n
  induction n with
  | zero =>
    intro _
    refine ⟨rfl, rfl, rfl, rfl, rfl, rfl, ?_, ?_, ?_, ?_, ?_⟩
    · intro i hi; omega
    · intro k _; rfl
    · simp
    · simp
    · intro _; rfl
  | succ n ih =>
    intro hn
    rw [List.range_succ, List.foldl_append]
    exact evq_scan_inv_step b e n _ (by omega) hcap (ih (by omega))

theorem bpu_policy_for_merge_last (t : Nat)
    (ht : t = BPU_EVT_SENSOR ∨ t = BPU_EVT_HB ∨ t = BPU_EVT_TELEM) :
    bpu_policy_for t = BPU_MERGE_LAST := by
  rcases ht with h | h | h <;> subst h <;> rfl

theorem evq_append_ev_merge {σ : Type} (b : Bpu σ) (e : BpuEvent) :
    (evq_append b e).1.st.ev_merge = b.st.ev_merge := by
  simp only [evq_append]
  split_ifs <;> rfl

theorem evq_append_ev_in {σ : Type} (b : Bpu σ) (e : BpuEvent) :
    (evq_append b e).1.st.ev_in = b.st.ev_in := by
  simp only [evq_append]
  split_ifs <;> rfl

/-- C4. With a non-zero window, a non-empty event queue (of at most 8 entries)
and an incoming event `e` of type SENSOR, HB or TELEM, `bpu_evq_push_coalesce`
overwrites with `e` every occupied slot of equal type whose age
`(e.t_ms - ex.t_ms) mod 2^32` is within the window, in place; when at least
one slot qualifies all other slots, head, tail and count are unchanged,
`ev_merge` grows by the number of overwritten slots (mod `2^32`) and the call
returns OK; when none qualifies the call is the append path (`e` stored at
`head`, count + 1, when the queue is not full) and `ev_merge` is unchanged.
`ev_in` is incremented in every case. -/
theorem bpu_evq_push_coalesce_merges {σ : Type} (bpu : Bpu σ) (e : BpuEvent)
    (hw : bpu.cfg.coalesce_window_ms > 0) (hne : bpu.evq.count ≠ 0)
    (hcap : bpu.evq.count ≤ 8)
    (ht : e.type = BPU_EVT_SENSOR ∨ e.type = BPU_EVT_HB ∨ e.type = BPU_EVT_TELEM) :
    (∀ i, i < bpu.evq.count →
      evq_mergeable bpu.cfg.coalesce_window_ms e (bpu.evq.buf (bpu_evr_at bpu.evq i)) = true →
      (bpu_evq_push_coalesce bpu e).1.evq.buf (bpu_evr_at bpu.evq i) = e) ∧
    ((∃ i, i < bpu.evq.count ∧
        evq_mergeable bpu.cfg.coalesce_window_ms e (bpu.evq.buf (bpu_evr_at bpu.evq i)) = true) →
      (∀ k, (∀ i, i < bpu.evq.count → bpu_evr_at bpu.evq i = k →
          evq_mergeable bpu.cfg.coalesce_window_ms e (bpu.evq.buf (bpu_evr_at bpu.evq i)) = false) →
        (bpu_evq_push_coalesce bpu e).1.evq.buf k = bpu.evq.buf k) ∧
      (bpu_evq_push_coalesce bpu e).1.evq.count = bpu.evq.count ∧
      (bpu_evq_push_coalesce bpu e).1.evq.head = bpu.evq.head ∧
      (bpu_evq_push_coalesce bpu e).1.evq.tail = bpu.evq.tail ∧
      (bpu_evq_push_coalesce bpu e).1.st.ev_merge =
        (bpu.st.ev_merge + ((List.range bpu.evq.count).filter (fun i =>
          evq_mergeable bpu.cfg.coalesce_window_ms e
            (bpu.evq.buf (bpu_evr_at bpu.evq i)))).length) % 4294967296 ∧
      (bpu_evq_push_coalesce bpu e).1.st.ev_drop = bpu.st.ev_drop ∧
      (bpu_evq_push_coalesce bpu e).2 = BPU_RC_OK) ∧
    ((∀ i, i < bpu.evq.count →
        evq_mergeable bpu.cfg.coalesce_window_ms e (bpu.evq.buf (bpu_evr_at bpu.evq i)) = false) →
      bpu_evq_push_coalesce bpu e =
        evq_append { bpu with st := { bpu.st with ev_in := u32_inc bpu.st.ev_in } } e ∧
      (bpu_evq_push_coalesce bpu e).1.st.ev_merge = bpu.st.ev_merge ∧
      (bpu.evq.count < 8 →
        (bpu_evq_push_coalesce bpu e).1.evq.buf = arr_set bpu.evq.buf bpu.evq.head e ∧
        (bpu_evq_push_coalesce bpu e).1.evq.count = bpu.evq.count + 1 ∧
        (bpu_evq_push_coalesce bpu e).2 = BPU_RC_OK)) ∧
    (bpu_evq_push_coalesce bpu e).1.st.ev_in = u32_inc bpu.st.ev_in := by
  have hinv := evq_scan_inv_fold
    { bpu with st := { bpu.st with ev_in := u32_inc bpu.st.ev_in } } e hcap bpu.evq.count
    (le_refl _)
  obtain ⟨h1, h2, h3, h4, h5, h5', h6, h7, h8, h9, h10⟩ := hinv
  simp only [] at h1 h2 h3 h4 h5 h5' h6 h7 h8 h9 h10
  have hunf : bpu_evq_push_coalesce bpu e =
      if !((List.range bpu.evq.count).foldl (evq_scan_step e)
            ({ bpu with st := { bpu.st with ev_in := u32_inc bpu.st.ev_in } }, false)).2 then
        evq_append ((List.range bpu.evq.count).foldl (evq_scan_step e)
            ({ bpu with st := { bpu.st with ev_in := u32_inc bpu.st.ev_in } }, false)).1 e
      else (((List.range bpu.evq.count).foldl (evq_scan_step e)
            ({ bpu with st := { bpu.st with ev_in := u32_inc bpu.st.ev_in } }, false)).1,
            BPU_RC_OK) := by
    unfold bpu_evq_push_coalesce
    simp only []
    rw [if_pos ⟨hw, bpu_policy_for_merge_last _ ht, hne⟩]
  by_cases hex : ∃ i, i < bpu.evq.count ∧
      evq_mergeable bpu.cfg.coalesce_window_ms e (bpu.evq.buf (bpu_evr_at bpu.evq i)) = true
  · have hm := h9.2 hex
    have hres : bpu_evq_push_coalesce bpu e =
        (((List.range bpu.evq.count).foldl (evq_scan_step e)
            ({ bpu with st := { bpu.st with ev_in := u32_inc bpu.st.ev_in } }, false)).1,
            BPU_RC_OK) := by
      rw [hunf, hm]; rfl
    have hpos : 0 < ((List.range bpu.evq.count).filter (fun i =>
        evq_mergeable bpu.cfg.coalesce_window_ms e
          (bpu.evq.buf (bpu_evr_at bpu.evq i)))).length := by
      obtain ⟨i, hi, hq⟩ := hex
      exact List.length_pos_of_mem (List.mem_filter.2 ⟨List.mem_range.2 hi, hq⟩)
    rw [hres]
    refine ⟨h6, fun _ => ⟨h7, h4, h2, h3, ?_, h5, rfl⟩, fun hall => ?_, h5'⟩
    · obtain ⟨k, hk⟩ := Nat.exists_eq_succ_of_ne_zero (Nat.pos_iff_ne_zero.1 hpos)
      rw [h8, hk]
      exact u32_inc_iterate _ _
    · obtain ⟨i, hi, hq⟩ := hex
      rw [hall i hi] at hq
      exact Bool.noConfusion hq
  · have hall : ∀ i, i < bpu.evq.count →
        evq_mergeable bpu.cfg.coalesce_window_ms e (bpu.evq.buf (bpu_evr_at bpu.evq i)) = false := by
      intro i hi
      by_contra hq
      exact hex ⟨i, hi, by simpa using hq⟩
    have hs := h10 hall
    have hres : bpu_evq_push_coalesce bpu e =
        evq_append { bpu with st := { bpu.st with ev_in := u32_inc bpu.st.ev_in } } e := by
      rw [hunf, hs]; rfl
    refine ⟨fun i hi hq => ?_, fun h => absurd h hex, fun _ => ⟨hres, ?_, fun hlt => ?_⟩, ?_⟩
    · rw [hall i hi] at hq
      exact Bool.noConfusion hq
    · rw [hres, evq_append_ev_merge]
    · rw [hres]
      have hpush : bpu_evr_push bpu.evq e =
          ({ bpu.evq with
             buf := arr_set bpu.evq.buf bpu.evq.head e
             head := ((bpu.evq.head + 1) % 8) % 65536
             count := (bpu.evq.count + 1) % 65536 }, BPU_RC_OK) := by
        unfold bpu_evr_push
        rw [if_neg (by omega)]
      simp only [evq_append, hpush, ne_eq, not_true_eq_false, if_false]
      refine ⟨trivial, ?_, trivial⟩
      omega
    · rw [hres, evq_append_ev_in]

set_option maxRecDepth 100000 in
/-- Instance of `bpu_evq_push_coalesce_merges`: SENSOR at `t = 100` then SENSOR
at `t = 110` with window 20 keeps one entry, `ev_merge = 1`, later payload
stored; a slot stamped `0xFFFFFFFB` merges with an event stamped `5`. -/
theorem bpu_evq_push_coalesce_merges_witness :
    ((bpu_push_event bpu_fresh BPU_EVT_SENSOR (arr_of [1, 2]) 2 100).1.cfg.coalesce_window_ms = 20 ∧
     (bpu_push_event bpu_fresh BPU_EVT_SENSOR (arr_of [1, 2]) 2 100).1.evq.count = 1) ∧
    ((bpu_evq_push_coalesce (bpu_push_event bpu_fresh BPU_EVT_SENSOR (arr_of [1, 2]) 2 100).1
        (push_event_record default BPU_EVT_SENSOR (arr_of [3, 4]) 2 110)).1.evq.buf
        (bpu_evr_at (bpu_push_event bpu_fresh BPU_EVT_SENSOR (arr_of [1, 2]) 2 100).1.evq 0) =
      push_event_record default BPU_EVT_SENSOR (arr_of [3, 4]) 2 110) ∧
    ((bpu_push_event (bpu_push_event bpu_fresh BPU_EVT_SENSOR (arr_of [1, 2]) 2 100).1
        BPU_EVT_SENSOR (arr_of [3, 4]) 2 110).1.evq.count = 1 ∧
     (bpu_push_event (bpu_push_event bpu_fresh BPU_EVT_SENSOR (arr_of [1, 2]) 2 100).1
        BPU_EVT_SENSOR (arr_of [3, 4]) 2 110).1.st.ev_merge = 1 ∧
     arr_list ((bpu_push_event (bpu_push_event bpu_fresh BPU_EVT_SENSOR (arr_of [1, 2]) 2 100).1
        BPU_EVT_SENSOR (arr_of [3, 4]) 2 110).1.evq.buf 0).payload 2 = [3, 4] ∧
     ((bpu_push_event (bpu_push_event bpu_fresh BPU_EVT_SENSOR (arr_of [1, 2]) 2 100).1
        BPU_EVT_SENSOR (arr_of [3, 4]) 2 110).1.evq.buf 0).t_ms = 110) ∧
    ((bpu_push_event (bpu_push_event bpu_fresh BPU_EVT_HB (arr_of [1]) 1 0xFFFFFFFB).1
        BPU_EVT_HB (arr_of [7]) 1 5).1.evq.count = 1 ∧
     (bpu_push_event (bpu_push_event bpu_fresh BPU_EVT_HB (arr_of [1]) 1 0xFFFFFFFB).1
        BPU_EVT_HB (arr_of [7]) 1 5).1.st.ev_merge = 1 ∧
     ((bpu_push_event (bpu_push_event bpu_fresh BPU_EVT_HB (arr_of [1]) 1 0xFFFFFFFB).1
        BPU_EVT_HB (arr_of [7]) 1 5).1.evq.buf 0).t_ms = 5) :=
  ⟨by decide,
   (bpu_evq_push_coalesce_merges
      (bpu_push_event bpu_fresh BPU_EVT_SENSOR (arr_of [1, 2]) 2 100).1
      (push_event_record default BPU_EVT_SENSOR (arr_of [3, 4]) 2 110)
      (by decide) (by decide) (by decide) (by decide)).1 0 (by decide) (by decide),
   by decide, by decide⟩

/-! ## Job queue with coalescing -/

theorem bpu_jor_at_inj (r : BpuJobRing) (i k : Nat) (hi : i < 4) (hk : k < 4)
    (h : bpu_jor_at r i = bpu_jor_at r k) : i = k := by
  unfold bpu_jor_at at h
  omega

theorem jobq_scan_inv_step {σ : Type} (b : Bpu σ) (j : BpuJob) (n : Nat) (s : Bpu σ × Bool)
    (hn : n < b.jobq.count) (hcap : b.jobq.count ≤ 4) (h : JobqScanInv b j n s) :
    JobqScanInv b j (n + 1) (jobq_scan_step j s n) := by
  obtain ⟨h2, h3, h4, h5, h5', h6, h7, h8, h9, h10⟩ := h
  have hat : bpu_jor_at s.1.jobq n = bpu_jor_at b.jobq n := by
    unfold bpu_jor_at; rw [h3]
  have hcur : s.1.jobq.buf (bpu_jor_at b.jobq n) = b.jobq.buf (bpu_jor_at b.jobq n) := by
    apply h7
    intro i hi heq
    have := bpu_jor_at_inj b.jobq i n (by omega) (by omega) heq
    omega
  by_cases hq : (b.jobq.buf (bpu_jor_at b.jobq n)).type = j.type
  · have hstep : jobq_scan_step j s n =
        ({ s.1 with
           jobq := { s.1.jobq with buf := arr_set s.1.jobq.buf (bpu_jor_at b.jobq n) j }
           st := { s.1.st with job_merge := u32_inc s.1.st.job_merge } }, true) := by
      unfold jobq_scan_step
      simp only [hat, hcur]
      rw [if_pos hq]
    rw [hstep]
    refine ⟨h2, h3, h4, h5, h5', ?_, ?_, ?_, ?_, ?_⟩
    · intro i hi hqi
      show arr_set _ _ _ _ = j
      by_cases hin : i = n
      · subst hin; exact arr_set_same _ _ _
      · have hne : bpu_jor_at b.jobq i ≠ bpu_jor_at b.jobq n := fun heq =>
          hin (bpu_jor_at_inj b.jobq i n (by omega) (by omega) heq)
        rw [arr_set_other _ _ _ _ hne]
        exact h6 i (by omega) hqi
    · intro k hk
      show arr_set _ _ _ _ = _
      have hne : k ≠ bpu_jor_at b.jobq n := fun heq => hk n (by omega) heq.symm hq
      rw [arr_set_other _ _ _ _ hne]
      exact h7 k (fun i hi => hk i (by omega))
    · show u32_inc s.1.st.job_merge = _
      rw [h8, List.range_succ, List.filter_append, List.length_append]
      simp [hq, Function.iterate_succ_apply']
    · simp only [true_iff]
      exact ⟨n, by omega, hq⟩
    · intro hall
      exact absurd hq (hall n (by omega))
  · have hstep : jobq_scan_step j s n = s := by
      unfold jobq_scan_step
      simp only [hat, hcur]
      rw [if_neg hq]
    rw [hstep]
    refine ⟨h2, h3, h4, h5, h5', ?_, ?_, ?_, ?_, ?_⟩
    · intro i hi hqi
      by_cases hin : i = n
      · subst hin; exact absurd hqi hq
      · exact h6 i (by omega) hqi
    · intro k hk
      exact h7 k (fun i hi => hk i (by omega))
    · rw [h8, List.range_succ, List.filter_append]
      simp [hq]
    · rw [h9]
      constructor
      · rintro ⟨i, hi, hqi⟩
        exact ⟨i, by omega, hqi⟩
      · rintro ⟨i, hi, hqi⟩
        by_cases hin : i = n
        · subst hin; exact absurd hqi hq
        · exact ⟨i, by omega, hqi⟩
    · intro hall
      exact h10 (fun i hi => hall i (by omega))

theorem jobq_scan_inv_fold {σ : Type} (b : Bpu σ) (j : BpuJob) (hcap : b.jobq.count ≤ 4) :
    ∀ n, n ≤ b.jobq.count →
      JobqScanInv b j n ((List.range n).foldl (jobq_scan_step j) (b, false)) := by
  intro n
  induction n with
  | zero =>
    intro _
    refine ⟨rfl, rfl, rfl, rfl, rfl, ?_, ?_, ?_, ?_, ?_⟩
    · intro i hi; omega
    · intro k _; rfl
    · simp
    · simp
    · intro _; rfl
  | succ n ih =>
    intro hn
    rw [List.range_succ, List.foldl_append]
    exact jobq_scan_inv_step b j n _ (by omega) hcap (ih (by omega))

theorem jobq_append_job_merge {σ : Type} (b : Bpu σ) (j : BpuJob) :
    (jobq_append b j).1.st.job_merge = b.st.job_merge := by
  simp only [jobq_append]
  split_ifs <;> rfl

theorem jobq_append_job_in {σ : Type} (b : Bpu σ) (j : BpuJob) :
    (jobq_append b j).1.st.job_in = b.st.job_in := by
  simp only [jobq_append]
  split_ifs <;> rfl

theorem jobq_append_room {σ : Type} (b : Bpu σ) (j : BpuJob) (h : b.jobq.count < 4) :
    jobq_append b j =
      ({ b with jobq := { b.jobq with
                          buf := arr_set b.jobq.buf b.jobq.head j
                          head := ((b.jobq.head + 1) % 4) % 65536
                          count := (b.jobq.count + 1) % 65536 } }, BPU_RC_OK) := by
  have hpush : bpu_jor_push b.jobq j =
      ({ b.jobq with
         buf := arr_set b.jobq.buf b.jobq.head j
         head := ((b.jobq.head + 1) % 4) % 65536
         count := (b.jobq.count + 1) % 65536 }, BPU_RC_OK) := by
    unfold bpu_jor_push
    rw [if_neg (by omega)]
  simp only [jobq_append, hpush, ne_eq, not_true_eq_false, if_false]

theorem jobq_append_full {σ : Type} (b : Bpu σ) (j : BpuJob) (h : b.jobq.count ≥ 4) :
    jobq_append b j =
      ({ b with st := { b.st with job_drop := u32_inc b.st.job_drop } }, BPU_RC_ERR) := by
  have hpush : bpu_jor_push b.jobq j = (b.jobq, BPU_RC_ERR) := by
    unfold bpu_jor_push
    rw [if_pos h]
  simp only [jobq_append, hpush]
  rfl

theorem bpu_jobq_push_coalesce_unfold {σ : Type} (bpu : Bpu σ) (j : BpuJob) :
    bpu_jobq_push_coalesce bpu j =
      if ((List.range bpu.jobq.count).foldl (jobq_scan_step j)
            ({ bpu with st := { bpu.st with job_in := u32_inc bpu.st.job_in } }, false)).2 then
        (((List.range bpu.jobq.count).foldl (jobq_scan_step j)
            ({ bpu with st := { bpu.st with job_in := u32_inc bpu.st.job_in } }, false)).1,
            BPU_RC_OK)
      else jobq_append ((List.range bpu.jobq.count).foldl (jobq_scan_step j)
            ({ bpu with st := { bpu.st with job_in := u32_inc bpu.st.job_in } }, false)).1 j := by
  unfold bpu_jobq_push_coalesce
  simp only []
  by_cases h0 : bpu.jobq.count = 0
  · rw [if_neg (by simp [h0]), h0]
    rfl
  · rw [if_pos h0]
    cases ((List.range bpu.jobq.count).foldl (jobq_scan_step j)
            ({ bpu with st := { bpu.st with job_in := u32_inc bpu.st.job_in } }, false)).2 <;> rfl

/-- C5. For every job queue state (at most 4 entries) and job `j`,
`bpu_jobq_push_coalesce` overwrites with `j` every queued job of type
`j.type`, whatever the timestamps and the configuration; if at least one
matches, the other slots, head, tail and count are unchanged, `job_merge`
grows by the number of overwritten slots (at least 1, mod `2^32`) and the call
returns OK; if none matches, `j` is stored at `head` with count + 1 when
count < 4, and when count = 4 the queue is unchanged, `job_drop` is
incremented and the call returns ERR. `job_in` is incremented in every case. -/
theorem bpu_jobq_push_coalesce_spec {σ : Type} (bpu : Bpu σ) (j : BpuJob)
    (hcap : bpu.jobq.count ≤ 4) :
    (∀ i, i < bpu.jobq.count → (bpu.jobq.buf (bpu_jor_at bpu.jobq i)).type = j.type →
      (bpu_jobq_push_coalesce bpu j).1.jobq.buf (bpu_jor_at bpu.jobq i) = j) ∧
    ((∃ i, i < bpu.jobq.count ∧ (bpu.jobq.buf (bpu_jor_at bpu.jobq i)).type = j.type) →
      (∀ k, (∀ i, i < bpu.jobq.count → bpu_jor_at bpu.jobq i = k →
          (bpu.jobq.buf (bpu_jor_at bpu.jobq i)).type ≠ j.type) →
        (bpu_jobq_push_coalesce bpu j).1.jobq.buf k = bpu.jobq.buf k) ∧
      (bpu_jobq_push_coalesce bpu j).1.jobq.count = bpu.jobq.count ∧
      (bpu_jobq_push_coalesce bpu j).1.jobq.head = bpu.jobq.head ∧
      (bpu_jobq_push_coalesce bpu j).1.jobq.tail = bpu.jobq.tail ∧
      0 < ((List.range bpu.jobq.count).filter (fun i =>
          decide ((bpu.jobq.buf (bpu_jor_at bpu.jobq i)).type = j.type))).length ∧
      (bpu_jobq_push_coalesce bpu j).1.st.job_merge =
        (bpu.st.job_merge + ((List.range bpu.jobq.count).filter (fun i =>
          decide ((bpu.jobq.buf (bpu_jor_at bpu.jobq i)).type = j.type))).length) % 4294967296 ∧
      (bpu_jobq_push_coalesce bpu j).1.st.job_drop = bpu.st.job_drop ∧
      (bpu_jobq_push_coalesce bpu j).2 = BPU_RC_OK) ∧
    ((∀ i, i < bpu.jobq.count → (bpu.jobq.buf (bpu_jor_at bpu.jobq i)).type ≠ j.type) →
      (bpu_jobq_push_coalesce bpu j).1.st.job_merge = bpu.st.job_merge ∧
      (bpu_jobq_push_coalesce bpu j).1.jobq.tail = bpu.jobq.tail ∧
      (bpu.jobq.count < 4 →
        (bpu_jobq_push_coalesce bpu j).1.jobq.buf = arr_set bpu.jobq.buf bpu.jobq.head j ∧
        (bpu_jobq_push_coalesce bpu j).1.jobq.head = (bpu.jobq.head + 1) % 4 ∧
        (bpu_jobq_push_coalesce bpu j).1.jobq.count = bpu.jobq.count + 1 ∧
        (bpu_jobq_push_coalesce bpu j).1.st.job_drop = bpu.st.job_drop ∧
        (bpu_jobq_push_coalesce bpu j).2 = BPU_RC_OK) ∧
      (bpu.jobq.count = 4 →
        (bpu_jobq_push_coalesce bpu j).1.jobq = bpu.jobq ∧
        (bpu_jobq_push_coalesce bpu j).1.st.job_drop = u32_inc bpu.st.job_drop ∧
        (bpu_jobq_push_coalesce bpu j).2 = BPU_RC_ERR)) ∧
    (bpu_jobq_push_coalesce bpu j).1.st.job_in = u32_inc bpu.st.job_in := by
  have hinv := jobq_scan_inv_fold
    { bpu with st := { bpu.st with job_in := u32_inc bpu.st.job_in } } j hcap bpu.jobq.count
    (le_refl _)
  obtain ⟨h2, h3, h4, h5, h5', h6, h7, h8, h9, h10⟩ := hinv
  simp only [] at h2 h3 h4 h5 h5' h6 h7 h8 h9 h10
  have hunf := bpu_jobq_push_coalesce_unfold bpu j
  by_cases hex : ∃ i, i < bpu.jobq.count ∧ (bpu.jobq.buf (bpu_jor_at bpu.jobq i)).type = j.type
  · have hm := h9.2 hex
    rw [hm, if_pos rfl] at hunf
    have hpos : 0 < ((List.range bpu.jobq.count).filter (fun i =>
        decide ((bpu.jobq.buf (bpu_jor_at bpu.jobq i)).type = j.type))).length := by
      obtain ⟨i, hi, hq⟩ := hex
      exact List.length_pos_of_mem (List.mem_filter.2 ⟨List.mem_range.2 hi, by simpa using hq⟩)
    rw [hunf]
    refine ⟨h6, fun _ => ⟨h7, h4, h2, h3, hpos, ?_, h5, rfl⟩, fun hall => ?_, h5'⟩
    · obtain ⟨k, hk⟩ := Nat.exists_eq_succ_of_ne_zero (Nat.pos_iff_ne_zero.1 hpos)
      rw [h8, hk]
      exact u32_inc_iterate _ _
    · obtain ⟨i, hi, hq⟩ := hex
      exact absurd hq (hall i hi)
  · have hall : ∀ i, i < bpu.jobq.count →
        (bpu.jobq.buf (bpu_jor_at bpu.jobq i)).type ≠ j.type :=
      fun i hi hq => hex ⟨i, hi, hq⟩
    have hs := h10 hall
    rw [hs] at hunf
    simp only [Bool.false_eq_true, if_false] at hunf
    rw [hunf]
    refine ⟨fun i hi hq => absurd hq (hall i hi), fun h => absurd h hex,
      fun _ => ⟨jobq_append_job_merge _ _, ?_, fun hlt => ?_, fun hfull => ?_⟩,
      jobq_append_job_in _ _⟩
    · simp only [jobq_append]
      unfold bpu_jor_push
      split_ifs <;> rfl
    · rw [jobq_append_room { bpu with st := { bpu.st with job_in := u32_inc bpu.st.job_in } } j hlt]
      refine ⟨rfl, ?_, ?_, rfl, rfl⟩
      · show ((bpu.jobq.head + 1) % 4) % 65536 = _
        omega
      · show (bpu.jobq.count + 1) % 65536 = _
        omega
    · rw [jobq_append_full { bpu with st := { bpu.st with job_in := u32_inc bpu.st.job_in } } j
        (by show bpu.jobq.count ≥ 4; omega)]
      exact ⟨rfl, rfl, rfl⟩

set_option maxRecDepth 100000 in
/-- Instance of `bpu_jobq_push_coalesce_spec`: a second HB job replaces the
queued one although its timestamp is 989 ms later; a TELEM job is appended. -/
theorem bpu_jobq_push_coalesce_spec_witness :
    (bpu_jobq_push_coalesce bpu_fresh (job_of_type BPU_JOB_HB 10)).1.jobq.count ≤ 4 ∧
    ((bpu_jobq_push_coalesce (bpu_jobq_push_coalesce bpu_fresh (job_of_type BPU_JOB_HB 10)).1
        (job_of_type BPU_JOB_HB 999)).1.jobq.buf
        (bpu_jor_at (bpu_jobq_push_coalesce bpu_fresh (job_of_type BPU_JOB_HB 10)).1.jobq 0) =
      job_of_type BPU_JOB_HB 999) ∧
    ((bpu_jobq_push_coalesce (bpu_jobq_push_coalesce bpu_fresh (job_of_type BPU_JOB_HB 10)).1
        (job_of_type BPU_JOB_HB 999)).1.jobq.count = 1 ∧
     (bpu_jobq_push_coalesce (bpu_jobq_push_coalesce bpu_fresh (job_of_type BPU_JOB_HB 10)).1
        (job_of_type BPU_JOB_HB 999)).1.st.job_merge = 1 ∧
     (bpu_jobq_push_coalesce (bpu_jobq_push_coalesce bpu_fresh (job_of_type BPU_JOB_HB 10)).1
        (job_of_type BPU_JOB_HB 999)).1.st.job_in = 2 ∧
     (bpu_jobq_push_coalesce (bpu_jobq_push_coalesce bpu_fresh (job_of_type BPU_JOB_HB 10)).1
        (job_of_type BPU_JOB_TELEM 999)).1.jobq.count = 2) :=
  ⟨by decide,
   (bpu_jobq_push_coalesce_spec
      (bpu_jobq_push_coalesce bpu_fresh (job_of_type BPU_JOB_HB 10)).1
      (job_of_type BPU_JOB_HB 999) (by decide)).1 0 (by decide) (by decide),
   by decide⟩

/-! ## Scheduler -/

theorem jobq_scan_step_with_evq {σ : Type} (j : BpuJob) (b : Bpu σ) (m : Bool)
    (r : BpuEvRing) (o i : Nat) :
    jobq_scan_step j (with_evq b r o, m) i =
      (with_evq (jobq_scan_step j (b, m) i).1 r o, (jobq_scan_step j (b, m) i).2) := by
  unfold jobq_scan_step
  simp only []
  by_cases h : (b.jobq.buf (bpu_jor_at b.jobq i)).type = j.type
  · rw [if_pos h, if_pos (by exact h)]
    rfl
  · rw [if_neg h, if_neg (by exact h)]

theorem jobq_scan_fold_with_evq {σ : Type} (j : BpuJob) (r : BpuEvRing) (o : Nat) :
    ∀ (l : List Nat) (b : Bpu σ) (m : Bool),
    l.foldl (jobq_scan_step j) (with_evq b r o, m) =
      (with_evq (l.foldl (jobq_scan_step j) (b, m)).1 r o,
       (l.foldl (jobq_scan_step j) (b, m)).2) := by
  intro l
  induction l with
  | nil => intro b m; rfl
  | cons i t ih =>
    intro b m
    simp only [List.foldl_cons]
    rw [jobq_scan_step_with_evq, ih]

theorem jobq_append_with_evq {σ : Type} (j : BpuJob) (b : Bpu σ) (r : BpuEvRing) (o : Nat) :
    jobq_append (with_evq b r o) j =
      (with_evq (jobq_append b j).1 r o, (jobq_append b j).2) := by
  simp only [jobq_append]
  by_cases h : (bpu_jor_push b.jobq j).2 ≠ BPU_RC_OK
  · rw [if_pos h, if_pos (by exact h)]
    rfl
  · rw [if_neg h, if_neg (by exact h)]
    rfl

theorem bpu_jobq_push_coalesce_with_evq {σ : Type} (j : BpuJob) (b : Bpu σ) (r : BpuEvRing)
    (o : Nat) :
    bpu_jobq_push_coalesce (with_evq b r o) j =
      (with_evq (bpu_jobq_push_coalesce b j).1 r o, (bpu_jobq_push_coalesce b j).2) := by
  rw [bpu_jobq_push_coalesce_unfold, bpu_jobq_push_coalesce_unfold]
  have e : ({ with_evq b r o with
      st := { (with_evq b r o).st with job_in := u32_inc (with_evq b r o).st.job_in } } : Bpu σ)
      = with_evq { b with st := { b.st with job_in := u32_inc b.st.job_in } } r o := rfl
  rw [e]
  show (if _ then _ else _) = _
  rw [show (with_evq b r o).jobq.count = b.jobq.count from rfl, jobq_scan_fold_with_evq]
  simp only []
  split_ifs
  · rfl
  · rw [jobq_append_with_evq]

theorem sched_event_with_evq {σ : Type} (now_ms : Nat) (b : Bpu σ) (rc : Nat) (e : BpuEvent)
    (r : BpuEvRing) (o : Nat) :
    sched_event now_ms (with_evq b r o, rc) e =
      (with_evq (sched_event now_ms (b, rc) e).1 r o, (sched_event now_ms (b, rc) e).2) := by
  unfold sched_event
  simp only []
  have e1 : ({ with_evq b r o with
      st := sched_aged (with_evq b r o).st (with_evq b r o).cfg e now_ms } : Bpu σ) =
      with_evq { b with st := sched_aged b.st b.cfg e now_ms } r o := by
    unfold sched_aged with_evq
    simp only []
    split_ifs <;> rfl
  have e2 : (with_evq b r o).stack_job (with_evq b r o).st.job_in = b.stack_job b.st.job_in :=
    rfl
  rw [e2, e1, bpu_jobq_push_coalesce_with_evq]
  simp only []
  split_ifs <;> rfl

theorem sched_fold_with_evq {σ : Type} (now_ms : Nat) (r : BpuEvRing) (o : Nat) :
    ∀ (l : List BpuEvent) (b : Bpu σ) (rc : Nat),
    l.foldl (sched_event now_ms) (with_evq b r o, rc) =
      (with_evq (l.foldl (sched_event now_ms) (b, rc)).1 r o,
       (l.foldl (sched_event now_ms) (b, rc)).2) := by
  intro l
  induction l with
  | nil => intro b rc; rfl
  | cons e t ih =>
    intro b rc
    simp only [List.foldl_cons]
    rw [sched_event_with_evq, ih]

theorem evq_contents_pop (r : BpuEvRing) (n : Nat) (hc : r.count = n + 1) (ht : r.tail < 8) :
    evq_contents r =
      r.buf r.tail :: evq_contents { r with tail := ((r.tail + 1) % 8) % 65536, count := n } := by
  unfold evq_contents
  rw [hc, List.range_succ_eq_map, List.map_cons, List.map_map]
  congr 1
  · unfold bpu_evr_at
    congr 1
    omega
  · apply List.map_congr_left
    intro i _
    simp only [Function.comp, bpu_evr_at]
    congr 1
    omega

theorem sched_loop_spec {σ : Type} (now_ms : Nat) : ∀ (n : Nat) (b : Bpu σ) (rc : Nat),
    b.evq.count = n → b.evq.tail < 8 →
    sched_loop now_ms (n + 1) (b, rc) =
      some (with_evq ((evq_contents b.evq).foldl (sched_event now_ms) (b, rc)).1
              { b.evq with tail := (b.evq.tail + n) % 8, count := 0 }
              (u32_inc^[n] b.st.ev_out),
            ((evq_contents b.evq).foldl (sched_event now_ms) (b, rc)).2) := by
  intro n
  induction n with
  | zero =>
    intro b rc hc ht
    have hpop : bpu_evq_pop b default = ({ b with evq := b.evq }, default, BPU_RC_ERR) := by
      simp only [bpu_evq_pop, bpu_evr_pop, hc, if_true]
      rfl
    rw [sched_loop, hpop]
    simp only [ne_eq, not_false_eq_true, if_true]
    have hcont : evq_contents b.evq = [] := by
      unfold evq_contents; rw [hc]; rfl
    rw [hcont]
    simp only [List.foldl_nil, Function.iterate_zero, id_eq, Nat.add_zero]
    have : (b.evq.tail % 8) = b.evq.tail := Nat.mod_eq_of_lt ht
    rw [this, ← hc]
    rfl
  | succ n ih =>
    intro b rc hc ht
    have hpop : bpu_evq_pop b default =
        (with_evq b { b.evq with tail := ((b.evq.tail + 1) % 8) % 65536, count := n }
          (u32_inc b.st.ev_out), b.evq.buf b.evq.tail, BPU_RC_OK) := by
      simp only [bpu_evq_pop, bpu_evr_pop, hc]
      rfl
    rw [sched_loop, hpop]
    simp only [ne_eq, not_true_eq_false, if_false]
    rw [sched_event_with_evq, ih _ _ rfl (by show ((b.evq.tail + 1) % 8) % 65536 < 8; omega),
      evq_contents_pop b.evq n hc ht]
    simp only [List.foldl_cons]
    rw [show (with_evq (sched_event now_ms (b, rc) (b.evq.buf b.evq.tail)).1
          { b.evq with tail := ((b.evq.tail + 1) % 8) % 65536, count := n }
          (u32_inc b.st.ev_out)).evq =
        { b.evq with tail := ((b.evq.tail + 1) % 8) % 65536, count := n } from rfl,
      sched_fold_with_evq]
    have e1 : (((b.evq.tail + 1) % 8) % 65536 + n) % 8 = (b.evq.tail + (n + 1)) % 8 := by omega
    simp only [with_evq, e1, Function.iterate_succ_apply]

theorem sched_job_fields (j0 : BpuJob) (e : BpuEvent) (now_ms : Nat) :
    (sched_job j0 e now_ms).type = bpu_job_for_evt e.type ∧
    (sched_job j0 e now_ms).flags = e.flags ∧
    (sched_job j0 e now_ms).t_ms = now_ms ∧
    (e.type = BPU_EVT_SENSOR → (sched_job j0 e now_ms).payload 0 = 0x01) ∧
    (e.type = BPU_EVT_HB → (sched_job j0 e now_ms).payload 0 = 0x02) ∧
    (e.type = BPU_EVT_TELEM → (sched_job j0 e now_ms).payload 0 = 0x03) ∧
    (e.type = BPU_EVT_CMD → (sched_job j0 e now_ms).payload 0 = 0x04) ∧
    (sched_job j0 e now_ms).payload 1 = e.len % 256 ∧
    (∀ i, i < min 30 e.len → (sched_job j0 e now_ms).payload (2 + i) = e.payload i) ∧
    (sched_job j0 e now_ms).len = 2 + min 30 e.len := by
  have hc : (if e.len > (32 - 2) % 65536 then (32 - 2) % 65536 else e.len) = min 30 e.len := by
    split <;> omega
  unfold sched_job
  simp only [hc]
  refine ⟨trivial, trivial, trivial, ?_, ?_, ?_, ?_, ?_, ?_, ?_⟩
  · intro h; rw [foldl_copy_apply, if_neg (by omega)]; simp [arr_set, h]
  · intro h; rw [foldl_copy_apply, if_neg (by omega)]; simp [arr_set, h]
  · intro h; rw [foldl_copy_apply, if_neg (by omega)]; simp [arr_set, h]
  · intro h; rw [foldl_copy_apply, if_neg (by omega)]; simp [arr_set, h]
  · rw [foldl_copy_apply, if_neg (by omega)]; simp [arr_set]
  · intro i hi
    rw [foldl_copy_apply, if_pos (by omega)]
    congr 1
    omega
  · have := Nat.min_le_left 30 e.len
    omega

/-- C6. For every state (ring tail in range) and `now_ms`,
`bpu_schedule_from_events` returns, with the event queue emptied (count 0,
tail advanced by the old count, `ev_out` incremented once per event); the
rest of the state is the result of processing the queued events oldest first,
each event `e` being submitted through `bpu_jobq_push_coalesce` as the job
with `type = bpu_job_for_evt e.type`, `flags = e.flags`, `t_ms = now_ms`,
`payload[0]` the secondary tag (SENSOR 1, HB 2, TELEM 3, CMD 4),
`payload[1] = e.len mod 256`, `payload[2 .. 2 + c) = e.payload[0 .. c)` with
`c = min 30 e.len`, and `len = 2 + c`. -/
theorem bpu_schedule_from_events_spec {σ : Type} (bpu : Bpu σ) (now_ms : Nat)
    (htail : bpu.evq.tail < 8) :
    bpu_schedule_from_events bpu now_ms =
      some (with_evq ((evq_contents bpu.evq).foldl (sched_event now_ms) (bpu, BPU_RC_OK)).1
              { bpu.evq with tail := (bpu.evq.tail + bpu.evq.count) % 8, count := 0 }
              (u32_inc^[bpu.evq.count] bpu.st.ev_out),
            ((evq_contents bpu.evq).foldl (sched_event now_ms) (bpu, BPU_RC_OK)).2) ∧
    (∀ r, bpu_schedule_from_events bpu now_ms = some r → r.1.evq.count = 0) ∧
    (∀ (s : Bpu σ × Nat) (e : BpuEvent),
      (sched_event now_ms s e).1 =
        (bpu_jobq_push_coalesce { s.1 with st := sched_aged s.1.st s.1.cfg e now_ms }
          (sched_job (s.1.stack_job s.1.st.job_in) e now_ms)).1) ∧
    (∀ (j0 : BpuJob) (e : BpuEvent),
      (sched_job j0 e now_ms).type = bpu_job_for_evt e.type ∧
      (sched_job j0 e now_ms).flags = e.flags ∧
      (sched_job j0 e now_ms).t_ms = now_ms ∧
      (e.type = BPU_EVT_SENSOR → (sched_job j0 e now_ms).payload 0 = 0x01) ∧
      (e.type = BPU_EVT_HB → (sched_job j0 e now_ms).payload 0 = 0x02) ∧
      (e.type = BPU_EVT_TELEM → (sched_job j0 e now_ms).payload 0 = 0x03) ∧
      (e.type = BPU_EVT_CMD → (sched_job j0 e now_ms).payload 0 = 0x04) ∧
      (sched_job j0 e now_ms).payload 1 = e.len % 256 ∧
      (∀ i, i < min 30 e.len → (sched_job j0 e now_ms).payload (2 + i) = e.payload i) ∧
      (sched_job j0 e now_ms).len = 2 + min 30 e.len) := by
  have h := sched_loop_spec now_ms bpu.evq.count bpu BPU_RC_OK rfl htail
  refine ⟨h, ?_, ?_, fun j0 e => sched_job_fields j0 e now_ms⟩
  · intro r hr
    unfold bpu_schedule_from_events at hr
    rw [h] at hr
    cases hr
    rfl
  · intro s e
    unfold sched_event
    simp only []
    split_ifs <;> rfl

set_option maxRecDepth 100000 in
/-- Instance of `bpu_schedule_from_events_spec`: two queued events become two
jobs, in order, and the event queue is left empty. -/
theorem bpu_schedule_from_events_spec_witness :
    bpu_two_events.evq.tail < 8 ∧
    (∀ r, bpu_schedule_from_events bpu_two_events 120 = some r → r.1.evq.count = 0) ∧
    (bpu_schedule_from_events bpu_two_events 120).map
        (fun r => (r.1.evq.count, r.1.st.ev_out, r.1.jobq.count, r.2,
          (r.1.jobq.buf 0).type, (r.1.jobq.buf 0).len, (r.1.jobq.buf 0).t_ms,
          arr_list (r.1.jobq.buf 0).payload 4,
          (r.1.jobq.buf 1).type, (r.1.jobq.buf 1).len, arr_list (r.1.jobq.buf 1).payload 3)) =
      some (0, 2, 2, BPU_RC_OK, BPU_JOB_SENSOR, 4, 120, [0x01, 2, 1, 2],
        BPU_JOB_CMD, 3, [0x04, 1, 9]) :=
  ⟨by decide, (bpu_schedule_from_events_spec bpu_two_events 120 (by decide)).2.1, by rfl⟩

/-! ## Transmit accounting -/

theorem tx_written_nil : tx_written [] = 0 := rfl

theorem tx_written_append (l1 l2 : List TxCall) :
    tx_written (l1 ++ l2) = tx_written l1 + tx_written l2 := by
  simp [tx_written]

theorem wellBehaved_congr {σ : Type} (io1 io2 : BpuIo σ)
    (h : io2.tx_write_some = io1.tx_write_some) (hw : WellBehaved io1) : WellBehaved io2 := by
  intro f hf
  exact hw f (h ▸ hf)

theorem TxStep.rfl_step {σ : Type} (b : Bpu σ) (B : Nat) : TxStep b B b B where
  cfg := rfl
  tx_write_some := rfl
  tx_free := rfl
  time_us := rfl
  init_magic := rfl
  queue := id
  acct := fun _ => ⟨⟨[], by simp, by simp [tx_written_nil], fun h => by
    simp [tx_written_nil]; omega, by simp⟩, id⟩

theorem TxStep.trans_step {σ : Type} {b0 b1 b2 : Bpu σ} {B0 B1 B2 : Nat}
    (h1 : TxStep b0 B0 b1 B1) (h2 : TxStep b1 B1 b2 B2) : TxStep b0 B0 b2 B2 where
  cfg := h2.cfg.trans h1.cfg
  tx_write_some := h2.tx_write_some.trans h1.tx_write_some
  tx_free := h2.tx_free.trans h1.tx_free
  time_us := h2.time_us.trans h1.time_us
  init_magic := h2.init_magic.trans h1.init_magic
  queue := fun h => h2.queue (h1.queue h)
  acct := by
    intro hw
    obtain ⟨⟨n1, l1, a1, t1, c1⟩, p1⟩ := h1.acct hw
    obtain ⟨⟨n2, l2, a2, t2, c2⟩, p2⟩ :=
      h2.acct (wellBehaved_congr _ _ h1.tx_write_some hw)
    refine ⟨⟨n1 ++ n2, by rw [l2, l1, List.append_assoc], ?_, ?_, ?_⟩, fun h => p2 (p1 h)⟩
    · rw [tx_written_append]; omega
    · intro hlt
      have e1 := t1 hlt
      have e2 := t2 (by rw [e1]; exact Nat.mod_lt _ (by norm_num))
      rw [e2, e1, tx_written_append]
      omega
    · intro c hc
      rcases List.mem_append.1 hc with h | h
      · exact c1 c h
      · exact c2 c h

/-- A step that leaves the budget, the log, `st.tx_bytes`, the callbacks, the
configuration and the magic alone is a `TxStep` once it keeps both
invariants. -/
theorem TxStep.of_silent {σ : Type} (b0 b1 : Bpu σ) (B : Nat)
    (hcfg : b1.cfg = b0.cfg) (hw : b1.io.tx_write_some = b0.io.tx_write_some)
    (hf : b1.io.tx_free = b0.io.tx_free) (ht : b1.io.time_us = b0.io.time_us)
    (hm : b1.init_magic = b0.init_magic) (hlog : b1.tx_log = b0.tx_log)
    (hb : b1.st.tx_bytes = b0.st.tx_bytes) (hq : QInv b0 → QInv b1)
    (hp : PendInv b0 → PendInv b1) : TxStep b0 B b1 B where
  cfg := hcfg
  tx_write_some := hw
  tx_free := hf
  time_us := ht
  init_magic := hm
  queue := hq
  acct := fun _ => ⟨⟨[], by simp [hlog], by simp [tx_written_nil], fun h => by
    rw [hb]; simp [tx_written_nil]; omega, by simp⟩, hp⟩

/-! ## Steps that only touch the rings and the counters -/

theorem QueueOnly.rfl_queue {σ : Type} (b : Bpu σ) : QueueOnly b b :=
  ⟨b.evq, b.jobq, b.st, rfl, rfl⟩

theorem QueueOnly.trans_queue {σ : Type} {b0 b1 b2 : Bpu σ} (h1 : QueueOnly b0 b1)
    (h2 : QueueOnly b1 b2) : QueueOnly b0 b2 := by
  obtain ⟨e1, j1, s1, rfl, t1⟩ := h1
  obtain ⟨e2, j2, s2, rfl, t2⟩ := h2
  exact ⟨e2, j2, s2, rfl, t2.trans t1⟩

theorem QueueOnly.txStep {σ : Type} {b0 b1 : Bpu σ} (h : QueueOnly b0 b1) (B : Nat)
    (hq : QInv b0 → QInv b1) : TxStep b0 B b1 B := by
  obtain ⟨e1, j1, s1, rfl, t1⟩ := h
  exact TxStep.of_silent _ _ B rfl rfl rfl rfl rfl rfl t1 hq id

theorem queueOnly_st {σ : Type} (b : Bpu σ) (st' : BpuStats)
    (h : st'.tx_bytes = b.st.tx_bytes) : QueueOnly b { b with st := st' } :=
  ⟨b.evq, b.jobq, st', rfl, h⟩

theorem jobq_scan_step_queueOnly {σ : Type} (j : BpuJob) (s : Bpu σ × Bool) (i : Nat) :
    QueueOnly s.1 (jobq_scan_step j s i).1 ∧
    (jobq_scan_step j s i).1.jobq.head = s.1.jobq.head ∧
    (jobq_scan_step j s i).1.jobq.tail = s.1.jobq.tail ∧
    (jobq_scan_step j s i).1.jobq.count = s.1.jobq.count ∧
    (jobq_scan_step j s i).1.evq = s.1.evq := by
  unfold jobq_scan_step
  simp only []
  split_ifs
  · exact ⟨⟨_, _, _, rfl, rfl⟩, rfl, rfl, rfl, rfl⟩
  · exact ⟨QueueOnly.rfl_queue _, rfl, rfl, rfl, rfl⟩

theorem jobq_scan_fold_queueOnly {σ : Type} (j : BpuJob) : ∀ (l : List Nat) (s : Bpu σ × Bool),
    QueueOnly s.1 (l.foldl (jobq_scan_step j) s).1 ∧
    (l.foldl (jobq_scan_step j) s).1.jobq.head = s.1.jobq.head ∧
    (l.foldl (jobq_scan_step j) s).1.jobq.tail = s.1.jobq.tail ∧
    (l.foldl (jobq_scan_step j) s).1.jobq.count = s.1.jobq.count ∧
    (l.foldl (jobq_scan_step j) s).1.evq = s.1.evq := by
  intro l
  induction l with
  | nil => intro s; exact ⟨QueueOnly.rfl_queue _, rfl, rfl, rfl, rfl⟩
  | cons i t ih =>
    intro s
    simp only [List.foldl_cons]
    obtain ⟨a1, a2, a3, a4, a5⟩ := jobq_scan_step_queueOnly j s i
    obtain ⟨b1, b2, b3, b4, b5⟩ := ih (jobq_scan_step j s i)
    exact ⟨a1.trans_queue b1, b2.trans a2, b3.trans a3, b4.trans a4, b5.trans a5⟩

theorem jobq_append_queueOnly {σ : Type} (b : Bpu σ) (j : BpuJob) :
    QueueOnly b (jobq_append b j).1 ∧ (jobq_append b j).1.evq = b.evq ∧
    (b.jobq.count ≤ 4 ∧ b.jobq.head < 4 ∧ b.jobq.tail < 4 →
      (jobq_append b j).1.jobq.count ≤ 4 ∧ (jobq_append b j).1.jobq.head < 4 ∧
      (jobq_append b j).1.jobq.tail < 4) := by
  by_cases h : b.jobq.count < 4
  · rw [jobq_append_room b j h]
    refine ⟨⟨_, _, _, rfl, rfl⟩, rfl, fun hq => ⟨?_, ?_, hq.2.2⟩⟩
    · show (b.jobq.count + 1) % 65536 ≤ 4; omega
    · show ((b.jobq.head + 1) % 4) % 65536 < 4; omega
  · rw [jobq_append_full b j (by omega)]
    exact ⟨⟨_, _, _, rfl, rfl⟩, rfl, fun hq => hq⟩

theorem bpu_jobq_push_coalesce_queueOnly {σ : Type} (b : Bpu σ) (j : BpuJob) :
    QueueOnly b (bpu_jobq_push_coalesce b j).1 ∧
    (bpu_jobq_push_coalesce b j).1.evq = b.evq ∧
    (b.jobq.count ≤ 4 ∧ b.jobq.head < 4 ∧ b.jobq.tail < 4 →
      (bpu_jobq_push_coalesce b j).1.jobq.count ≤ 4 ∧
      (bpu_jobq_push_coalesce b j).1.jobq.head < 4 ∧
      (bpu_jobq_push_coalesce b j).1.jobq.tail < 4) := by
  rw [bpu_jobq_push_coalesce_unfold]
  have h0 : QueueOnly b { b with st := { b.st with job_in := u32_inc b.st.job_in } } :=
    queueOnly_st b _ rfl
  obtain ⟨f1, f2, f3, f4, f5⟩ := jobq_scan_fold_queueOnly j (List.range b.jobq.count)
    ({ b with st := { b.st with job_in := u32_inc b.st.job_in } }, false)
  simp only [] at f1 f2 f3 f4 f5
  split_ifs
  · refine ⟨h0.trans_queue f1, f5, fun hq => ?_⟩
    show _ ≤ 4 ∧ _ < 4 ∧ _ < 4
    rw [f2, f3, f4]
    exact hq
  · obtain ⟨g1, g2, g3⟩ := jobq_append_queueOnly
      ((List.range b.jobq.count).foldl (jobq_scan_step j)
        ({ b with st := { b.st with job_in := u32_inc b.st.job_in } }, false)).1 j
    refine ⟨(h0.trans_queue f1).trans_queue g1, g2.trans f5, fun hq => g3 ?_⟩
    rw [f2, f3, f4]
    exact hq

theorem bpu_jobq_pop_empty {σ : Type} (b : Bpu σ) (out : BpuJob) (h : b.jobq.count = 0) :
    bpu_jobq_pop b out = ({ b with jobq := b.jobq }, out, BPU_RC_ERR) := by
  simp only [bpu_jobq_pop, bpu_jor_pop, h, if_true]
  rfl

theorem bpu_jobq_pop_nonempty {σ : Type} (b : Bpu σ) (out : BpuJob) (h : b.jobq.count ≠ 0) :
    bpu_jobq_pop b out =
      ({ b with
         jobq := { b.jobq with tail := ((b.jobq.tail + 1) % 4) % 65536,
                               count := b.jobq.count - 1 }
         st := { b.st with job_out := u32_inc b.st.job_out } },
        b.jobq.buf b.jobq.tail, BPU_RC_OK) := by
  simp only [bpu_jobq_pop, bpu_jor_pop, h, if_false]
  rfl

theorem bpu_jobq_pop_queueOnly {σ : Type} (b : Bpu σ) (out : BpuJob) :
    QueueOnly b (bpu_jobq_pop b out).1 ∧ (bpu_jobq_pop b out).1.evq = b.evq ∧
    (b.jobq.count ≤ 4 ∧ b.jobq.head < 4 ∧ b.jobq.tail < 4 →
      (bpu_jobq_pop b out).1.jobq.count ≤ 4 ∧ (bpu_jobq_pop b out).1.jobq.head < 4 ∧
      (bpu_jobq_pop b out).1.jobq.tail < 4) := by
  by_cases h : b.jobq.count = 0
  · have : bpu_jobq_pop b out = ({ b with jobq := b.jobq }, out, BPU_RC_ERR) := by
      simp only [bpu_jobq_pop, bpu_jor_pop, h, if_true]
      rfl
    rw [this]
    exact ⟨⟨_, _, _, rfl, rfl⟩, rfl, fun hq => hq⟩
  · have : bpu_jobq_pop b out =
        ({ b with
           jobq := { b.jobq with tail := ((b.jobq.tail + 1) % 4) % 65536,
                                 count := b.jobq.count - 1 }
           st := { b.st with job_out := u32_inc b.st.job_out } },
          b.jobq.buf b.jobq.tail, BPU_RC_OK) := by
      simp only [bpu_jobq_pop, bpu_jor_pop, h, if_false]
      rfl
    rw [this]
    refine ⟨⟨_, _, _, rfl, rfl⟩, rfl, fun hq => ⟨?_, hq.2.1, ?_⟩⟩
    · show b.jobq.count - 1 ≤ 4; omega
    · show ((b.jobq.tail + 1) % 4) % 65536 < 4; omega

theorem evq_scan_step_queueOnly {σ : Type} (e : BpuEvent) (s : Bpu σ × Bool) (i : Nat) :
    QueueOnly s.1 (evq_scan_step e s i).1 ∧
    (evq_scan_step e s i).1.evq.head = s.1.evq.head ∧
    (evq_scan_step e s i).1.evq.tail = s.1.evq.tail ∧
    (evq_scan_step e s i).1.evq.count = s.1.evq.count ∧
    (evq_scan_step e s i).1.jobq = s.1.jobq := by
  unfold evq_scan_step
  simp only []
  split_ifs
  · exact ⟨⟨_, _, _, rfl, rfl⟩, rfl, rfl, rfl, rfl⟩
  · exact ⟨QueueOnly.rfl_queue _, rfl, rfl, rfl, rfl⟩
  · exact ⟨QueueOnly.rfl_queue _, rfl, rfl, rfl, rfl⟩

theorem evq_scan_fold_queueOnly {σ : Type} (e : BpuEvent) : ∀ (l : List Nat) (s : Bpu σ × Bool),
    QueueOnly s.1 (l.foldl (evq_scan_step e) s).1 ∧
    (l.foldl (evq_scan_step e) s).1.evq.head = s.1.evq.head ∧
    (l.foldl (evq_scan_step e) s).1.evq.tail = s.1.evq.tail ∧
    (l.foldl (evq_scan_step e) s).1.evq.count = s.1.evq.count ∧
    (l.foldl (evq_scan_step e) s).1.jobq = s.1.jobq := by
  intro l
  induction l with
  | nil => intro s; exact ⟨QueueOnly.rfl_queue _, rfl, rfl, rfl, rfl⟩
  | cons i t ih =>
    intro s
    simp only [List.foldl_cons]
    obtain ⟨a1, a2, a3, a4, a5⟩ := evq_scan_step_queueOnly e s i
    obtain ⟨b1, b2, b3, b4, b5⟩ := ih (evq_scan_step e s i)
    exact ⟨a1.trans_queue b1, b2.trans a2, b3.trans a3, b4.trans a4, b5.trans a5⟩

theorem evq_append_queueOnly {σ : Type} (b : Bpu σ) (e : BpuEvent) :
    QueueOnly b (evq_append b e).1 ∧ (evq_append b e).1.jobq = b.jobq ∧
    (b.evq.count ≤ 8 ∧ b.evq.head < 8 ∧ b.evq.tail < 8 →
      (evq_append b e).1.evq.count ≤ 8 ∧ (evq_append b e).1.evq.head < 8 ∧
      (evq_append b e).1.evq.tail < 8) := by
  by_cases h : b.evq.count < 8
  · have hpush : bpu_evr_push b.evq e =
        ({ b.evq with
           buf := arr_set b.evq.buf b.evq.head e
           head := ((b.evq.head + 1) % 8) % 65536
           count := (b.evq.count + 1) % 65536 }, BPU_RC_OK) := by
      unfold bpu_evr_push
      rw [if_neg (by omega)]
    simp only [evq_append, hpush, ne_eq, not_true_eq_false, if_false]
    refine ⟨⟨_, _, _, rfl, rfl⟩, trivial, fun hq => ⟨?_, ?_, hq.2.2⟩⟩
    · omega
    · omega
  · have hpush : bpu_evr_push b.evq e = (b.evq, BPU_RC_ERR) := by
      unfold bpu_evr_push
      rw [if_pos (by omega)]
    simp only [evq_append, hpush]
    exact ⟨⟨_, _, _, rfl, rfl⟩, rfl, fun hq => hq⟩

theorem bpu_evq_push_coalesce_queueOnly {σ : Type} (b : Bpu σ) (e : BpuEvent) :
    QueueOnly b (bpu_evq_push_coalesce b e).1 ∧
    (bpu_evq_push_coalesce b e).1.jobq = b.jobq ∧
    (b.evq.count ≤ 8 ∧ b.evq.head < 8 ∧ b.evq.tail < 8 →
      (bpu_evq_push_coalesce b e).1.evq.count ≤ 8 ∧
      (bpu_evq_push_coalesce b e).1.evq.head < 8 ∧
      (bpu_evq_push_coalesce b e).1.evq.tail < 8) := by
  have h0 : QueueOnly b { b with st := { b.st with ev_in := u32_inc b.st.ev_in } } :=
    queueOnly_st b _ rfl
  obtain ⟨f1, f2, f3, f4, f5⟩ := evq_scan_fold_queueOnly e (List.range b.evq.count)
    ({ b with st := { b.st with ev_in := u32_inc b.st.ev_in } }, false)
  simp only [] at f1 f2 f3 f4 f5
  unfold bpu_evq_push_coalesce
  simp only []
  split_ifs
  · obtain ⟨g1, g2, g3⟩ := evq_append_queueOnly
      ((List.range b.evq.count).foldl (evq_scan_step e)
        ({ b with st := { b.st with ev_in := u32_inc b.st.ev_in } }, false)).1 e
    refine ⟨(h0.trans_queue f1).trans_queue g1, g2.trans f5, fun hq => g3 ?_⟩
    rw [f2, f3, f4]
    exact hq
  · refine ⟨h0.trans_queue f1, f5, fun hq => ?_⟩
    show _ ≤ 8 ∧ _ < 8 ∧ _ < 8
    rw [f2, f3, f4]
    exact hq
  · obtain ⟨g1, g2, g3⟩ := evq_append_queueOnly
      { b with st := { b.st with ev_in := u32_inc b.st.ev_in } } e
    exact ⟨h0.trans_queue g1, g2, g3⟩

theorem bpu_evq_pop_empty {σ : Type} (b : Bpu σ) (out : BpuEvent) (h : b.evq.count = 0) :
    bpu_evq_pop b out = ({ b with evq := b.evq }, out, BPU_RC_ERR) := by
  simp only [bpu_evq_pop, bpu_evr_pop, h, if_true]
  rfl

theorem bpu_evq_pop_nonempty {σ : Type} (b : Bpu σ) (out : BpuEvent) (h : b.evq.count ≠ 0) :
    bpu_evq_pop b out =
      ({ b with
         evq := { b.evq with tail := ((b.evq.tail + 1) % 8) % 65536,
                             count := b.evq.count - 1 }
         st := { b.st with ev_out := u32_inc b.st.ev_out } },
        b.evq.buf b.evq.tail, BPU_RC_OK) := by
  simp only [bpu_evq_pop, bpu_evr_pop, h, if_false]
  rfl

theorem bpu_evq_pop_queueOnly {σ : Type} (b : Bpu σ) (out : BpuEvent) :
    QueueOnly b (bpu_evq_pop b out).1 ∧ (bpu_evq_pop b out).1.jobq = b.jobq ∧
    (b.evq.count ≤ 8 ∧ b.evq.head < 8 ∧ b.evq.tail < 8 →
      (bpu_evq_pop b out).1.evq.count ≤ 8 ∧ (bpu_evq_pop b out).1.evq.head < 8 ∧
      (bpu_evq_pop b out).1.evq.tail < 8) := by
  by_cases h : b.evq.count = 0
  · have : bpu_evq_pop b out = ({ b with evq := b.evq }, out, BPU_RC_ERR) := by
      simp only [bpu_evq_pop, bpu_evr_pop, h, if_true]
      rfl
    rw [this]
    exact ⟨⟨_, _, _, rfl, rfl⟩, rfl, fun hq => hq⟩
  · have : bpu_evq_pop b out =
        ({ b with
           evq := { b.evq with tail := ((b.evq.tail + 1) % 8) % 65536,
                               count := b.evq.count - 1 }
           st := { b.st with ev_out := u32_inc b.st.ev_out } },
          b.evq.buf b.evq.tail, BPU_RC_OK) := by
      simp only [bpu_evq_pop, bpu_evr_pop, h, if_false]
      rfl
    rw [this]
    refine ⟨⟨_, _, _, rfl, rfl⟩, rfl, fun hq => ⟨?_, hq.2.1, ?_⟩⟩
    · show b.evq.count - 1 ≤ 8; omega
    · show ((b.evq.tail + 1) % 8) % 65536 < 8; omega

/-- A step that only touches the rings and the counters, keeps the event ring
bounds when it keeps the job ring and conversely, is a `TxStep`. -/
theorem qinv_of_parts {σ : Type} (b b' : Bpu σ)
    (he : b.evq.count ≤ 8 ∧ b.evq.head < 8 ∧ b.evq.tail < 8 →
      b'.evq.count ≤ 8 ∧ b'.evq.head < 8 ∧ b'.evq.tail < 8)
    (hj : b.jobq.count ≤ 4 ∧ b.jobq.head < 4 ∧ b.jobq.tail < 4 →
      b'.jobq.count ≤ 4 ∧ b'.jobq.head < 4 ∧ b'.jobq.tail < 4) :
    QInv b → QInv b' := by
  rintro ⟨h1, h2, h3, h4, h5, h6⟩
  obtain ⟨e1, e2, e3⟩ := he ⟨h1, h3, h4⟩
  obtain ⟨j1, j2, j3⟩ := hj ⟨h2, h5, h6⟩
  exact ⟨e1, j1, e2, e3, j2, j3⟩

theorem bpu_jobq_push_coalesce_qinv {σ : Type} (b : Bpu σ) (j : BpuJob) :
    QInv b → QInv (bpu_jobq_push_coalesce b j).1 := by
  obtain ⟨_, h2, h3⟩ := bpu_jobq_push_coalesce_queueOnly b j
  exact qinv_of_parts _ _ (by rw [h2]; exact id) h3

theorem bpu_jobq_pop_qinv {σ : Type} (b : Bpu σ) (out : BpuJob) :
    QInv b → QInv (bpu_jobq_pop b out).1 := by
  obtain ⟨_, h2, h3⟩ := bpu_jobq_pop_queueOnly b out
  exact qinv_of_parts _ _ (by rw [h2]; exact id) h3

theorem bpu_evq_push_coalesce_qinv {σ : Type} (b : Bpu σ) (e : BpuEvent) :
    QInv b → QInv (bpu_evq_push_coalesce b e).1 := by
  obtain ⟨_, h2, h3⟩ := bpu_evq_push_coalesce_queueOnly b e
  exact qinv_of_parts _ _ h3 (by rw [h2]; exact id)

theorem bpu_evq_pop_qinv {σ : Type} (b : Bpu σ) (out : BpuEvent) :
    QInv b → QInv (bpu_evq_pop b out).1 := by
  obtain ⟨_, h2, h3⟩ := bpu_evq_pop_queueOnly b out
  exact qinv_of_parts _ _ h3 (by rw [h2]; exact id)

theorem qinv_st {σ : Type} (b : Bpu σ) (st' : BpuStats) : QInv b → QInv { b with st := st' } :=
  id

theorem sched_event_queueOnly {σ : Type} (now_ms : Nat) (s : Bpu σ × Nat) (e : BpuEvent) :
    QueueOnly s.1 (sched_event now_ms s e).1 ∧ (QInv s.1 → QInv (sched_event now_ms s e).1) ∧
    (sched_event now_ms s e).1.evq = s.1.evq := by
  have h0 : QueueOnly s.1 { s.1 with st := sched_aged s.1.st s.1.cfg e now_ms } := by
    apply queueOnly_st
    unfold sched_aged
    split_ifs <;> rfl
  obtain ⟨h1, h2, _⟩ := bpu_jobq_push_coalesce_queueOnly
    { s.1 with st := sched_aged s.1.st s.1.cfg e now_ms } (sched_job (s.1.stack_job s.1.st.job_in) e now_ms)
  have hq := bpu_jobq_push_coalesce_qinv
    { s.1 with st := sched_aged s.1.st s.1.cfg e now_ms } (sched_job (s.1.stack_job s.1.st.job_in) e now_ms)
  unfold sched_event
  simp only []
  split_ifs
  · exact ⟨h0.trans_queue h1, fun h => hq h, h2⟩
  · exact ⟨h0.trans_queue h1, fun h => hq h, h2⟩

theorem sched_loop_queueOnly {σ : Type} (now_ms : Nat) : ∀ (fuel : Nat) (s r : Bpu σ × Nat),
    sched_loop now_ms fuel s = some r → QueueOnly s.1 r.1 ∧ (QInv s.1 → QInv r.1) := by
  intro fuel
  induction fuel with
  | zero => intro s r h; simp [sched_loop] at h
  | succ n ih =>
    intro s r h
    rw [sched_loop] at h
    obtain ⟨p1, _, _⟩ := bpu_evq_pop_queueOnly s.1 default
    have pq := bpu_evq_pop_qinv s.1 default
    split_ifs at h
    · cases h
      exact ⟨p1, pq⟩
    · obtain ⟨e1, e2, _⟩ := sched_event_queueOnly now_ms ((bpu_evq_pop s.1 default).1, s.2)
        (bpu_evq_pop s.1 default).2.1
      obtain ⟨r1, r2⟩ := ih _ _ h
      exact ⟨(p1.trans_queue e1).trans_queue r1, fun hq => r2 (e2 (pq hq))⟩

theorem sched_loop_total {σ : Type} (now_ms : Nat) : ∀ (n : Nat) (s : Bpu σ × Nat),
    s.1.evq.count ≤ n → ∃ r, sched_loop now_ms (n + 1) s = some r := by
  intro n
  induction n with
  | zero =>
    intro s h
    rw [sched_loop, bpu_evq_pop_empty s.1 default (by omega)]
    exact ⟨_, rfl⟩
  | succ n ih =>
    intro s h
    rw [sched_loop]
    by_cases hc : s.1.evq.count = 0
    · rw [bpu_evq_pop_empty s.1 default hc]
      exact ⟨_, rfl⟩
    · rw [bpu_evq_pop_nonempty s.1 default hc]
      simp only [ne_eq, not_true_eq_false, if_false]
      apply ih
      rw [(sched_event_queueOnly now_ms _ _).2.2]
      show s.1.evq.count - 1 ≤ n
      omega

theorem bpu_schedule_from_events_step {σ : Type} (b : Bpu σ) (now_ms : Nat) (B : Nat) :
    (∃ r, bpu_schedule_from_events b now_ms = some r) ∧
    ∀ r, bpu_schedule_from_events b now_ms = some r → TxStep b B r.1 B := by
  refine ⟨sched_loop_total now_ms b.evq.count (b, BPU_RC_OK) (le_refl _), fun r h => ?_⟩
  obtain ⟨h1, h2⟩ := sched_loop_queueOnly now_ms _ _ _ h
  exact h1.txStep B h2

/-! ## The drain loop of `bpu_send_pending` -/

theorem SendRel.rfl_send {σ : Type} (s : SendSt σ) : SendRel s s where
  cfg := rfl
  evq := rfl
  jobq := rfl
  pending_buf := rfl
  pending_len := rfl
  pending_have := rfl
  seq := rfl
  init_magic := rfl
  tx_write_some := rfl
  tx_free := rfl
  time_us := rfl
  log := ⟨[], by simp, by simp, fun h => ⟨h, rfl⟩, fun _ =>
    ⟨by simp [tx_written_nil], fun h => by simp [tx_written_nil]; omega, by simp, id,
      fun h => Or.inl h⟩⟩

theorem SendRel.trans_send {σ : Type} {s0 s1 s2 : SendSt σ} (h1 : SendRel s0 s1)
    (h2 : SendRel s1 s2) : SendRel s0 s2 where
  cfg := h2.cfg.trans h1.cfg
  evq := h2.evq.trans h1.evq
  jobq := h2.jobq.trans h1.jobq
  pending_buf := h2.pending_buf.trans h1.pending_buf
  pending_len := h2.pending_len.trans h1.pending_len
  pending_have := h2.pending_have.trans h1.pending_have
  seq := h2.seq.trans h1.seq
  init_magic := h2.init_magic.trans h1.init_magic
  tx_write_some := h2.tx_write_some.trans h1.tx_write_some
  tx_free := h2.tx_free.trans h1.tx_free
  time_us := h2.time_us.trans h1.time_us
  log := by
    obtain ⟨n1, l1, k1, q1, w1⟩ := h1.log
    obtain ⟨n2, l2, k2, q2, w2⟩ := h2.log
    refine ⟨n1 ++ n2, by rw [l2, l1, List.append_assoc], ?_, ?_, ?_⟩
    · intro c hc
      rcases List.mem_append.1 hc with h | h
      · exact k1 c h
      · have := k2 c h
        rw [h1.cfg, h1.pending_buf, h1.pending_len] at this
        exact this
    · intro h0
      obtain ⟨a1, a2⟩ := q1 h0
      obtain ⟨b1, b2⟩ := q2 a1
      exact ⟨b1, by rw [a2, b2]; rfl⟩
    · intro hw
      obtain ⟨a1, a2, a3, a4, a5⟩ := w1 hw
      obtain ⟨b1, b2, b3, b4, b5⟩ := w2 (wellBehaved_congr _ _ h1.tx_write_some hw)
      refine ⟨by rw [tx_written_append]; omega, ?_, ?_, fun h => b4 (a4 h), ?_⟩
      · intro hlt
        have e1 := a2 hlt
        have e2 := b2 (by rw [e1]; exact Nat.mod_lt _ (by norm_num))
        rw [e2, e1, tx_written_append]
        omega
      · intro c hc
        rcases List.mem_append.1 hc with h | h
        · exact a3 c h
        · exact b3 c h
      · intro hp
        rcases b5 hp with h | h
        · rcases a5 h with h' | h'
          · exact Or.inl h'
          · exact Or.inr (by omega)
        · exact Or.inr (by omega)

theorem send_want_le {σ : Type} (b : Bpu σ) (B : Nat) :
    send_want b B ≤ B ∧ send_want b B ≤ b.pending_len - b.pending_pos ∧
    (b.cfg.tx_chunk_max ≠ 0 → send_want b B ≤ b.cfg.tx_chunk_max) ∧
    (B = 0 → send_want b B = 0) ∧
    (B ≠ 0 → send_want b B =
      (if b.cfg.tx_chunk_max ≠ 0 then min (min (b.pending_len - b.pending_pos) B) b.cfg.tx_chunk_max
       else min (b.pending_len - b.pending_pos) B)) := by
  unfold send_want
  simp only []
  refine ⟨?_, ?_, ?_, ?_, ?_⟩
  · split_ifs <;> omega
  · split_ifs <;> omega
  · intro h; split_ifs <;> omega
  · intro h; split_ifs <;> omega
  · intro h; split_ifs <;> omega

theorem u16_sub_le (a w : Nat) (h : w ≤ a) : u16_sub a (w % 65536) + w ≤ a := by
  unfold u16_sub
  omega

theorem send_step_rel {σ : Type} (f : σ → (Nat → Nat) → Nat → Nat × Nat × σ) (s : SendSt σ)
    (hf : s.bpu.io.tx_write_some = some f) (hpos : s.bpu.pending_pos < s.bpu.pending_len) :
    SendRel s (send_step f s) := by
  obtain ⟨w1, w2, w3, w4, w5⟩ := send_want_le s.bpu s.budget_left
  by_cases hw0 : send_want s.bpu s.budget_left = 0
  · have hstep : send_step f s = { s with done := true } := by
      unfold send_step
      simp only [hw0, if_true]
    rw [hstep]
    exact { SendRel.rfl_send s with
      log := ⟨[], by simp, by simp, fun h => ⟨h, rfl⟩, fun _ =>
        ⟨by simp [tx_written_nil], fun h => by simp [tx_written_nil]; omega, by simp, id,
          fun h => Or.inl h⟩⟩ }
  · have hB : s.budget_left ≠ 0 := fun h => hw0 (w4 h)
    have hcall : CallOk s.bpu.cfg.tx_chunk_max s.bpu.pending_len s.bpu.pending_buf
        { pos := s.bpu.pending_pos, plen := s.bpu.pending_len, budget := s.budget_left,
          want := send_want s.bpu s.budget_left,
          data := arr_list (fun k => s.bpu.pending_buf (s.bpu.pending_pos + k))
            (send_want s.bpu s.budget_left),
          rc := (f s.bpu.io.ctx (fun k => s.bpu.pending_buf (s.bpu.pending_pos + k))
            (send_want s.bpu s.budget_left)).1,
          wrote := (f s.bpu.io.ctx (fun k => s.bpu.pending_buf (s.bpu.pending_pos + k))
            (send_want s.bpu s.budget_left)).2.1 } :=
      ⟨rfl, hpos, hB, by show 1 ≤ send_want s.bpu s.budget_left; omega, w5 hB, w3, rfl⟩
    by_cases hrc : (f s.bpu.io.ctx (fun k => s.bpu.pending_buf (s.bpu.pending_pos + k))
        (send_want s.bpu s.budget_left)).1 = BPU_RC_OK
    · by_cases hwr : (f s.bpu.io.ctx (fun k => s.bpu.pending_buf (s.bpu.pending_pos + k))
          (send_want s.bpu s.budget_left)).2.1 = 0
      · -- backpressure
        unfold send_step
        simp only [hw0, if_false, hrc, ne_eq, not_true_eq_false, hwr, if_true]
        refine ⟨rfl, rfl, rfl, rfl, rfl, rfl, rfl, rfl, rfl, rfl, rfl, ⟨_, rfl, ?_, ?_, ?_⟩⟩
        · intro c hc
          rw [List.mem_singleton.1 hc, ← hwr]
          exact hcall
        · intro h; exact absurd h hB
        · intro _
          refine ⟨by simp [tx_written, call_written, hrc], fun h => ?_, ?_, id, fun h => Or.inl h⟩
          · simp [tx_written, call_written, hrc]
            omega
          · intro c hc
            rw [List.mem_singleton.1 hc]
            intro _
            exact Nat.zero_le _
      · -- progress
        unfold send_step
        simp only [hw0, if_false, hrc, ne_eq, not_true_eq_false, hwr]
        refine ⟨rfl, rfl, rfl, rfl, rfl, rfl, rfl, rfl, rfl, rfl, rfl, ⟨_, rfl, ?_, ?_, ?_⟩⟩
        · intro c hc
          rw [List.mem_singleton.1 hc]
          exact hcall
        · intro h; exact absurd h hB
        · intro hwb
          have hle := hwb f hf s.bpu.io.ctx (fun k => s.bpu.pending_buf (s.bpu.pending_pos + k))
            (send_want s.bpu s.budget_left) hrc
          have hsub := u16_sub_le s.budget_left _ (Nat.le_trans hle w1)
          refine ⟨?_, fun h => ?_, ?_, fun _ => ?_, fun _ => Or.inr ?_⟩
          · simp only [tx_written, call_written, hrc, List.map_cons, List.map_nil,
              List.sum_cons, List.sum_nil, if_true]
            omega
          · simp only [tx_written, call_written, hrc, List.map_cons, List.map_nil,
              List.sum_cons, List.sum_nil, if_true]
            omega
          · intro c hc
            rw [List.mem_singleton.1 hc]
            intro _
            exact Nat.le_trans hle w1
          · show (s.bpu.pending_pos + _ % 65536) % 65536 ≤ s.bpu.pending_len
            omega
          · show u16_sub s.budget_left _ < s.budget_left
            omega
    · -- transport error
      unfold send_step
      simp only [hw0, if_false, hrc, ne_eq, not_false_eq_true, if_true]
      refine ⟨rfl, rfl, rfl, rfl, rfl, rfl, rfl, rfl, rfl, rfl, rfl, ⟨_, rfl, ?_, ?_, ?_⟩⟩
      · intro c hc
        rw [List.mem_singleton.1 hc]
        exact hcall
      · intro h; exact absurd h hB
      · intro _
        refine ⟨by simp [tx_written, call_written, hrc], fun h => ?_, ?_, id, fun h => Or.inl h⟩
        · simp [tx_written, call_written, hrc]
          omega
        · intro c hc
          rw [List.mem_singleton.1 hc]
          intro h
          exact absurd h hrc

theorem send_loop_rel {σ : Type} (f : σ → (Nat → Nat) → Nat → Nat × Nat × σ) :
    ∀ (fuel : Nat) (s s' : SendSt σ), s.bpu.io.tx_write_some = some f →
    send_loop f fuel s = some s' → SendRel s s' ∧ send_cond s' = false := by
  intro fuel
  induction fuel with
  | zero =>
    intro s s' _ h
    rw [send_loop] at h
    split_ifs at h with hc
    cases h
    exact ⟨SendRel.rfl_send _, by simpa using hc⟩
  | succ n ih =>
    intro s s' hf h
    rw [send_loop] at h
    split_ifs at h with hc
    · have hpos : s.bpu.pending_pos < s.bpu.pending_len := by
        simp only [send_cond, Bool.and_eq_true, decide_eq_true_eq] at hc
        exact hc.1.2
      have h1 := send_step_rel f s hf hpos
      obtain ⟨h2, h3⟩ := ih _ _ (h1.tx_write_some.trans hf) h
      exact ⟨h1.trans_send h2, h3⟩
    · cases h
      exact ⟨SendRel.rfl_send _, by simpa using hc⟩

theorem send_loop_total {σ : Type} (f : σ → (Nat → Nat) → Nat → Nat × Nat × σ) :
    ∀ (fuel : Nat) (s : SendSt σ), s.bpu.io.tx_write_some = some f →
    WellBehaved s.bpu.io → (s.budget_left < fuel ∨ send_cond s = false) →
    ∃ s', send_loop f fuel s = some s' := by
  intro fuel
  induction fuel with
  | zero =>
    intro s _ _ h
    rcases h with h | h
    · omega
    · rw [send_loop, h]
      exact ⟨_, rfl⟩
  | succ n ih =>
    intro s hf hw h
    rw [send_loop]
    split_ifs with hc
    · have hpos : s.bpu.pending_pos < s.bpu.pending_len := by
        simp only [send_cond, Bool.and_eq_true, decide_eq_true_eq] at hc
        exact hc.1.2
      have hB : s.budget_left < n + 1 := by
        rcases h with h | h
        · exact h
        · rw [h] at hc; exact absurd hc (by simp)
      have h1 := send_step_rel f s hf hpos
      apply ih _ (h1.tx_write_some.trans hf) (wellBehaved_congr _ _ h1.tx_write_some hw)
      -- either the step stopped the loop or the budget went down
      by_cases hw0 : send_want s.bpu s.budget_left = 0
      · right
        unfold send_step
        simp only [hw0, if_true, send_cond]
        simp
      · by_cases hrc : (f s.bpu.io.ctx (fun k => s.bpu.pending_buf (s.bpu.pending_pos + k))
            (send_want s.bpu s.budget_left)).1 = BPU_RC_OK
        · by_cases hwr : (f s.bpu.io.ctx (fun k => s.bpu.pending_buf (s.bpu.pending_pos + k))
              (send_want s.bpu s.budget_left)).2.1 = 0
          · right
            unfold send_step
            simp only [hw0, if_false, hrc, ne_eq, not_true_eq_false, hwr, if_true, send_cond]
            simp
          · left
            obtain ⟨w1, _, _, _, _⟩ := send_want_le s.bpu s.budget_left
            have hle := hw f hf s.bpu.io.ctx
              (fun k => s.bpu.pending_buf (s.bpu.pending_pos + k))
              (send_want s.bpu s.budget_left) hrc
            have hsub := u16_sub_le s.budget_left _ (Nat.le_trans hle w1)
            unfold send_step
            simp only [hw0, if_false, hrc, ne_eq, not_true_eq_false, hwr]
            show u16_sub s.budget_left _ < n
            omega
        · right
          unfold send_step
          simp only [hw0, if_false, hrc, ne_eq, not_false_eq_true, if_true, send_cond]
          simp
    · exact ⟨_, rfl⟩

theorem send_finish_frame {σ : Type} (s : SendSt σ) :
    (send_finish s).bpu.cfg = s.bpu.cfg ∧ (send_finish s).bpu.evq = s.bpu.evq ∧
    (send_finish s).bpu.jobq = s.bpu.jobq ∧
    (send_finish s).bpu.pending_buf = s.bpu.pending_buf ∧
    (send_finish s).bpu.seq = s.bpu.seq ∧ (send_finish s).bpu.init_magic = s.bpu.init_magic ∧
    (send_finish s).bpu.io = s.bpu.io ∧ (send_finish s).bpu.tx_log = s.bpu.tx_log ∧
    (send_finish s).bpu.st.tx_bytes = s.bpu.st.tx_bytes ∧
    (send_finish s).budget_left = s.budget_left ∧ (send_finish s).progress = s.progress ∧
    (send_finish s).rc = s.rc := by
  unfold send_finish
  simp only []
  split_ifs <;> exact ⟨rfl, rfl, rfl, rfl, rfl, rfl, rfl, rfl, rfl, rfl, rfl, rfl⟩

theorem send_finish_pend {σ : Type} (s : SendSt σ)
    (h : s.bpu.pending_have = 1 ∧ s.bpu.pending_pos ≤ s.bpu.pending_len ∧
      s.bpu.pending_len ≤ PENDING_CAP) : PendInv (send_finish s).bpu := by
  unfold send_finish
  simp only []
  split_ifs
  · exact Or.inr ⟨rfl, rfl, rfl⟩
  · exact Or.inl h
  · exact Or.inl h
  · exact Or.inl h

theorem pendInv_have {σ : Type} (b : Bpu σ) (h : PendInv b) (hne : b.pending_have ≠ 0) :
    b.pending_have = 1 ∧ b.pending_pos ≤ b.pending_len ∧ b.pending_len ≤ PENDING_CAP := by
  rcases h with h | h
  · exact h
  · exact absurd h.1 hne

theorem qinv_congr {σ : Type} (b b' : Bpu σ) (he : b'.evq = b.evq) (hj : b'.jobq = b.jobq) :
    QInv b → QInv b' := by
  unfold QInv
  rw [he, hj]
  exact id

theorem bpu_send_pending_out {σ : Type} (fuel : Nat) (b : Bpu σ) (B : Nat) (r : SendRes σ)
    (h : bpu_send_pending fuel b B = some r) : SendOut b B r := by
  unfold bpu_send_pending at h
  split_ifs at h with h0
  · cases h
    exact
      { step := TxStep.of_silent _ _ B rfl rfl rfl rfl rfl rfl rfl id
          (fun _ => Or.inr ⟨h0, rfl, rfl⟩)
        evq := rfl, jobq := rfl, pending_buf := rfl, seq := rfl
        calls := ⟨[], by simp, by simp, fun _ => rfl⟩
        progress := fun _ hp => by simp at hp }
  · cases hf : b.io.tx_write_some with
    | none =>
      rw [hf] at h
      cases h
      exact
        { step := TxStep.rfl_step _ _
          evq := rfl, jobq := rfl, pending_buf := rfl, seq := rfl
          calls := ⟨[], by simp, by simp, fun _ => rfl⟩
          progress := fun _ hp => by simp at hp }
    | some f =>
      rw [hf] at h
      simp only [Option.map_eq_some'] at h
      obtain ⟨s', hl, rfl⟩ := h
      obtain ⟨rel, _⟩ := send_loop_rel f fuel _ s' hf hl
      obtain ⟨f1, f2, f3, f4, f5, f6, f7, f8, f9, f10, f11, f12⟩ := send_finish_frame s'
      obtain ⟨new, l1, l2, l3, l4⟩ := rel.log
      exact
        { step :=
            { cfg := f1.trans rel.cfg
              tx_write_some := by rw [f7]; exact rel.tx_write_some
              tx_free := by rw [f7]; exact rel.tx_free
              time_us := by rw [f7]; exact rel.time_us
              init_magic := f6.trans rel.init_magic
              queue := qinv_congr _ _ (f2.trans rel.evq) (f3.trans rel.jobq)
              acct := by
                intro hw
                obtain ⟨a1, a2, a3, a4, a5⟩ := l4 hw
                refine ⟨⟨new, by rw [f8]; exact l1, by rw [f10]; exact a1, ?_, a3⟩, ?_⟩
                · intro hlt; rw [f9]; exact a2 hlt
                · intro hp
                  obtain ⟨p1, p2, p3⟩ := pendInv_have b hp h0
                  apply send_finish_pend
                  refine ⟨rel.pending_have.trans p1, a4 p2, ?_⟩
                  rw [rel.pending_len]; exact p3 }
          evq := f2.trans rel.evq
          jobq := f3.trans rel.jobq
          pending_buf := f4.trans rel.pending_buf
          seq := f5.trans rel.seq
          calls := ⟨new, by rw [f8]; exact l1, l2, fun hB => (l3 hB).2⟩
          progress := by
            intro hw hp
            obtain ⟨a1, a2, a3, a4, a5⟩ := l4 hw
            rw [f11] at hp
            rw [f10]
            rcases a5 hp with h' | h'
            · simp at h'
            · exact h' }

theorem bpu_send_pending_total {σ : Type} (fuel : Nat) (b : Bpu σ) (B : Nat)
    (hw : WellBehaved b.io) (hfuel : B < fuel) : ∃ r, bpu_send_pending fuel b B = some r := by
  unfold bpu_send_pending
  split_ifs
  · exact ⟨_, rfl⟩
  · cases hf : b.io.tx_write_some with
    | none => exact ⟨_, rfl⟩
    | some f =>
      obtain ⟨s', hs⟩ := send_loop_total f fuel
        { bpu := b, budget_left := B, progress := false, done := false, rc := BPU_RC_OK }
        hf hw (Or.inl hfuel)
      simp only []
      rw [hs]
      exact ⟨_, rfl⟩

/-! ## Frame construction as a step -/

theorem bpu_build_frame_eq {σ : Type} (bpu : Bpu σ) (type : Nat) (payload : Nat → Nat)
    (len : Nat) :
    ∃ buf, bpu_build_frame bpu type payload len =
      ({ bpu with
         seq := (bpu.seq + 1) % 256
         frames_built := bpu.frames_built + 1
         pending_buf := buf
         pending_len := min len 64 + 8
         pending_pos := 0
         pending_have := 1 }, BPU_RC_OK) ∧
      arr_list buf (min len 64 + 7) = cobs_blocks [] (frame_raw type bpu.seq (min len 64) payload) ∧
      buf (min len 64 + 7) = 0 := by
  have hn : (if len > 64 then 64 else len) = min len 64 := by
    split <;> omega
  have hn64 : min len 64 ≤ 64 := Nat.min_le_right _ _
  generalize hraw : frame_raw type bpu.seq (min len 64) payload = raw
  have hrl : raw.length = min len 64 + 6 := by rw [← hraw, frame_raw_length]
  have hdec : arr_list (build_decoded type bpu.seq (min len 64) payload) (4 + min len 64 + 2) =
      raw := by rw [build_decoded_list, hraw]
  have hblk : (cobs_blocks [] raw).length = min len 64 + 7 := by
    rw [cobs_blocks_length_short raw [] (by simp; omega)]
    simp; omega
  have hfit : (cobs_blocks [] (arr_list (build_decoded type bpu.seq (min len 64) payload)
      (4 + min len 64 + 2))).length ≤ PENDING_CAP := by
    rw [hdec, hblk]; show min len 64 + 7 ≤ 87; omega
  obtain ⟨r1, r2, _⟩ := (bpu_cobs_encode_spec (build_decoded type bpu.seq (min len 64) payload)
    (4 + min len 64 + 2) bpu.pending_buf PENDING_CAP).1 hfit
  rw [hdec] at r1 r2
  refine ⟨arr_set (bpu_cobs_encode (build_decoded type bpu.seq (min len 64) payload)
      (4 + min len 64 + 2) bpu.pending_buf PENDING_CAP).2 (min len 64 + 7) 0, ?_, ?_, ?_⟩
  · unfold bpu_build_frame
    simp only [hn]
    rw [if_neg (by rw [r1, hblk]; omega),
      if_neg (by rw [r1, hblk]; show ¬ min len 64 + 7 + 1 > 87; omega)]
    simp only [r1, hblk]
    have hmod : (min len 64 + 7 + 1) % 65536 = min len 64 + 8 := by omega
    rw [hmod]
  · rw [arr_list_set_ge _ _ _ _ (le_refl _), ← hblk]
    exact r2
  · exact arr_set_same _ _ _

theorem bpu_build_frame_step {σ : Type} (b : Bpu σ) (type : Nat) (payload : Nat → Nat)
    (len : Nat) (B : Nat) :
    (bpu_build_frame b type payload len).2 = BPU_RC_OK ∧
    TxStep b B (bpu_build_frame b type payload len).1 B ∧
    (bpu_build_frame b type payload len).1.pending_have = 1 := by
  obtain ⟨buf, h, _, _⟩ := bpu_build_frame_eq b type payload len
  rw [h]
  refine ⟨rfl, TxStep.of_silent _ _ B rfl rfl rfl rfl rfl rfl rfl id (fun _ => Or.inl ⟨rfl, ?_, ?_⟩),
    rfl⟩
  · exact Nat.zero_le _
  · show min len 64 + 8 ≤ 87
    have := Nat.min_le_right len 64
    omega

/-! ## The flush loop -/

theorem flush_requeue_step {σ : Type} (b : Bpu σ) (j : BpuJob) (B : Nat) :
    TxStep b B (flush_requeue b j) B :=
  (bpu_jobq_push_coalesce_queueOnly b j).1.txStep B (bpu_jobq_push_coalesce_qinv b j)

theorem TxStep.of_st {σ : Type} (b : Bpu σ) (st' : BpuStats) (B : Nat)
    (h : st'.tx_bytes = b.st.tx_bytes) : TxStep b B { b with st := st' } B :=
  (queueOnly_st b st' h).txStep B id

theorem inc_degrade_requeue_step {σ : Type} (b : Bpu σ) (B : Nat) :
    TxStep b B (inc_degrade_requeue b) B := by
  unfold inc_degrade_requeue
  exact TxStep.of_st _ _ _ rfl

theorem inc_tx_skip_backpressure_step {σ : Type} (b : Bpu σ) (B : Nat) :
    TxStep b B (inc_tx_skip_backpressure b) B := by
  unfold inc_tx_skip_backpressure
  exact TxStep.of_st _ _ _ rfl

theorem clear_pending_step {σ : Type} (b : Bpu σ) (B : Nat) :
    TxStep b B (clear_pending b) B :=
  TxStep.of_silent _ _ B rfl rfl rfl rfl rfl rfl rfl id (fun _ => Or.inr ⟨rfl, rfl, rfl⟩)

theorem flush_skip_budget_step {σ : Type} (b : Bpu σ) (j : BpuJob) (B : Nat) :
    TxStep b B (flush_skip_budget b j) B := by
  have h0 : TxStep b B
      { b with st := { b.st with tx_skip_budget := u32_inc b.st.tx_skip_budget } } B :=
    TxStep.of_st _ _ _ rfl
  unfold flush_skip_budget
  simp only []
  split_ifs
  · exact h0.trans_step (TxStep.of_st _ _ _ rfl)
  · exact h0.trans_step ((flush_requeue_step _ j B).trans_step (inc_degrade_requeue_step _ B))
  · exact h0.trans_step (flush_requeue_step _ j B)

/-- What one round of the flush loop guarantees: a `TxStep`, and under the
transport contract the budget went down unless the round stopped the loop. -/
theorem flush_emit_step {σ : Type} (fuel : Nat) (b : Bpu σ) (B rc : Nat) (j : BpuJob)
    (s' : FlushSt σ) (h : flush_emit fuel b B rc j = some s') :
    TxStep b B s'.bpu s'.budget_left ∧
    (WellBehaved b.io → s'.done = false → s'.budget_left < B) := by
  unfold flush_emit at h
  simp only [] at h
  obtain ⟨b1, b2, b3⟩ := bpu_build_frame_step b j.type j.payload
    (if j.len > 255 then 255 else j.len % 256) B
  rw [if_neg (by rw [b1]; simp)] at h
  cases hs : bpu_send_pending fuel
      (bpu_build_frame b j.type j.payload (if j.len > 255 then 255 else j.len % 256)).1 B with
  | none => rw [hs] at h; cases h
  | some r =>
    rw [hs] at h
    have out := bpu_send_pending_out _ _ _ _ hs
    simp only [] at h
    split_ifs at h with h1 h2
    · cases h
      exact ⟨b2.trans_step (out.step.trans_step ((flush_requeue_step _ j _).trans_step
        ((clear_pending_step _ _).trans_step (inc_degrade_requeue_step _ _)))), fun _ hd => by
          simp at hd⟩
    · cases h
      exact ⟨b2.trans_step (out.step.trans_step ((flush_requeue_step _ j _).trans_step
        ((clear_pending_step _ _).trans_step ((inc_degrade_requeue_step _ _).trans_step
          (inc_tx_skip_backpressure_step _ _))))), fun _ hd => by simp at hd⟩
    · cases h
      refine ⟨b2.trans_step (out.step.trans_step (TxStep.of_st _ _ _ rfl)), fun hw _ => ?_⟩
      exact out.progress (wellBehaved_congr _ _ b2.tx_write_some hw) (by simpa using h2)

theorem flush_emit_total {σ : Type} (fuel : Nat) (b : Bpu σ) (B rc : Nat) (j : BpuJob)
    (hw : WellBehaved b.io) (hfuel : B < fuel) : ∃ s', flush_emit fuel b B rc j = some s' := by
  unfold flush_emit
  simp only []
  obtain ⟨b1, b2, _⟩ := bpu_build_frame_step b j.type j.payload
    (if j.len > 255 then 255 else j.len % 256) B
  rw [if_neg (by rw [b1]; simp)]
  obtain ⟨r, hr⟩ := bpu_send_pending_total fuel
    (bpu_build_frame b j.type j.payload (if j.len > 255 then 255 else j.len % 256)).1 B
    (wellBehaved_congr _ _ b2.tx_write_some hw) hfuel
  rw [hr]
  simp only []
  split_ifs <;> exact ⟨_, rfl⟩

/-- The free-space query of `bpu_flush_jobs`, as a step. -/
theorem tx_free_query_step {σ : Type} (b : Bpu σ) (B : Nat) :
    TxStep b B
      (match b.io.tx_free with
        | none => (b, 0, BPU_RC_ERR)
        | some f => ({ b with io := { b.io with ctx := (f b.io.ctx).2.2 } }, (f b.io.ctx).2.1,
            (f b.io.ctx).1) : Bpu σ × Nat × Nat).1 B := by
  cases b.io.tx_free with
  | none => exact TxStep.rfl_step _ _
  | some f => exact TxStep.of_silent _ _ B rfl rfl rfl rfl rfl rfl rfl id id

theorem flush_job_step {σ : Type} (fuel : Nat) (b : Bpu σ) (B rc : Nat) (s' : FlushSt σ)
    (h : flush_job fuel b B rc = some s') :
    TxStep b B s'.bpu s'.budget_left ∧
    (WellBehaved b.io → s'.done = false → s'.budget_left < B) := by
  unfold flush_job at h
  simp only [] at h
  have t0 : TxStep b B { b with st := { b.st with flush_try := u32_inc b.st.flush_try } } B :=
    TxStep.of_st _ _ _ rfl
  have t1 : TxStep { b with st := { b.st with flush_try := u32_inc b.st.flush_try } } B
      (bpu_jobq_pop { b with st := { b.st with flush_try := u32_inc b.st.flush_try } }
        default).1 B :=
    (bpu_jobq_pop_queueOnly _ _).1.txStep B (bpu_jobq_pop_qinv _ _)
  have t01 := t0.trans_step t1
  split_ifs at h with h1 h2 h3 h4
  · cases h
    exact ⟨t01, fun _ hd => by simp at hd⟩
  · cases h
    exact ⟨t01.trans_step (flush_skip_budget_step _ _ _), fun _ hd => by simp at hd⟩
  · cases h
    exact ⟨t01.trans_step ((tx_free_query_step _ B).trans_step
      ((flush_requeue_step _ _ _).trans_step (inc_degrade_requeue_step _ _))),
      fun _ hd => by simp at hd⟩
  · cases h
    exact ⟨t01.trans_step ((tx_free_query_step _ B).trans_step
      ((flush_requeue_step _ _ _).trans_step ((inc_degrade_requeue_step _ _).trans_step
        (inc_tx_skip_backpressure_step _ _)))), fun _ hd => by simp at hd⟩
  · have t2 := t01.trans_step (tx_free_query_step
      (bpu_jobq_pop { b with st := { b.st with flush_try := u32_inc b.st.flush_try } }
        default).1 B)
    obtain ⟨e1, e2⟩ := flush_emit_step _ _ _ _ _ _ h
    exact ⟨t2.trans_step e1, fun hw hd =>
      e2 (wellBehaved_congr _ _ t2.tx_write_some hw) hd⟩

theorem flush_job_total {σ : Type} (fuel : Nat) (b : Bpu σ) (B rc : Nat)
    (hw : WellBehaved b.io) (hfuel : B < fuel) : ∃ s', flush_job fuel b B rc = some s' := by
  unfold flush_job
  simp only []
  have t0 : TxStep b B { b with st := { b.st with flush_try := u32_inc b.st.flush_try } } B :=
    TxStep.of_st _ _ _ rfl
  have t1 : TxStep { b with st := { b.st with flush_try := u32_inc b.st.flush_try } } B
      (bpu_jobq_pop { b with st := { b.st with flush_try := u32_inc b.st.flush_try } }
        default).1 B :=
    (bpu_jobq_pop_queueOnly _ _).1.txStep B (bpu_jobq_pop_qinv _ _)
  have t2 := (t0.trans_step t1).trans_step (tx_free_query_step
      (bpu_jobq_pop { b with st := { b.st with flush_try := u32_inc b.st.flush_try } }
        default).1 B)
  split_ifs
  · exact ⟨_, rfl⟩
  · exact ⟨_, rfl⟩
  · exact ⟨_, rfl⟩
  · exact ⟨_, rfl⟩
  · exact flush_emit_total _ _ _ _ _ (wellBehaved_congr _ _ t2.tx_write_some hw) hfuel

theorem flush_step_step {σ : Type} (fuel : Nat) (s s' : FlushSt σ)
    (h : flush_step fuel s = some s') :
    TxStep s.bpu s.budget_left s'.bpu s'.budget_left ∧
    (WellBehaved s.bpu.io → s'.done = false → s'.budget_left < s.budget_left) := by
  unfold flush_step at h
  split_ifs at h with h1 h2 h3
  · cases h
    exact ⟨TxStep.rfl_step _ _, fun _ hd => by simp at hd⟩
  · cases hs : bpu_send_pending fuel s.bpu s.budget_left with
    | none => rw [hs] at h; cases h
    | some r =>
      rw [hs] at h
      have out := bpu_send_pending_out _ _ _ _ hs
      simp only [] at h
      split_ifs at h with h4 h5
      · cases h
        exact ⟨out.step, fun _ hd => by simp at hd⟩
      · cases h
        exact ⟨out.step, fun _ hd => by simp at hd⟩
      · cases h
        exact ⟨out.step, fun hw _ => out.progress hw (by simpa using h5)⟩
  · cases h
    exact ⟨TxStep.rfl_step _ _, fun _ hd => by simp at hd⟩
  · exact flush_job_step _ _ _ _ _ h

theorem flush_step_total {σ : Type} (fuel : Nat) (s : FlushSt σ)
    (hw : WellBehaved s.bpu.io) (hfuel : s.budget_left < fuel) :
    ∃ s', flush_step fuel s = some s' := by
  unfold flush_step
  split_ifs
  · exact ⟨_, rfl⟩
  · obtain ⟨r, hr⟩ := bpu_send_pending_total fuel s.bpu s.budget_left hw hfuel
    rw [hr]
    simp only []
    split_ifs <;> exact ⟨_, rfl⟩
  · exact ⟨_, rfl⟩
  · exact flush_job_total _ _ _ _ hw hfuel

theorem flush_loop_step {σ : Type} (inner : Nat) : ∀ (fuel : Nat) (s s' : FlushSt σ),
    flush_loop inner fuel s = some s' → TxStep s.bpu s.budget_left s'.bpu s'.budget_left := by
  intro fuel
  induction fuel with
  | zero =>
    intro s s' h
    rw [flush_loop] at h
    split_ifs at h
    cases h
    exact TxStep.rfl_step _ _
  | succ n ih =>
    intro s s' h
    rw [flush_loop] at h
    split_ifs at h
    · cases h
      exact TxStep.rfl_step _ _
    · cases hs : flush_step inner s with
      | none => rw [hs] at h; cases h
      | some s1 =>
        rw [hs] at h
        exact (flush_step_step _ _ _ hs).1.trans_step (ih _ _ h)

theorem flush_loop_total {σ : Type} (inner : Nat) : ∀ (fuel : Nat) (s : FlushSt σ),
    WellBehaved s.bpu.io → s.budget_left < inner →
    (s.done = true ∨ s.budget_left < fuel) → ∃ s', flush_loop inner fuel s = some s' := by
  intro fuel
  induction fuel with
  | zero =>
    intro s _ _ h
    rcases h with h | h
    · rw [flush_loop, if_pos h]
      exact ⟨_, rfl⟩
    · omega
  | succ n ih =>
    intro s hw hin h
    rw [flush_loop]
    split_ifs with hd
    · exact ⟨_, rfl⟩
    · have hB : s.budget_left < n + 1 := by
        rcases h with h | h
        · exact absurd h hd
        · exact h
      obtain ⟨s1, hs⟩ := flush_step_total inner s hw hin
      rw [hs]
      obtain ⟨t, p⟩ := flush_step_step _ _ _ hs
      have hle : s1.budget_left ≤ s.budget_left := by
        obtain ⟨⟨new, _, a, _, _⟩, _⟩ := t.acct hw
        omega
      apply ih s1 (wellBehaved_congr _ _ t.tx_write_some hw) (by omega)
      cases hd1 : s1.done with
      | true => exact Or.inl rfl
      | false =>
        right
        have := p hw hd1
        omega

theorem bpu_flush_jobs_step {σ : Type} (fuel : Nat) (b : Bpu σ) (B : Nat)
    (r : Bpu σ × Nat × Nat) (h : bpu_flush_jobs fuel b B = some r) : TxStep b B r.1 r.2.1 := by
  unfold bpu_flush_jobs at h
  simp only [Option.map_eq_some'] at h
  obtain ⟨s', hl, rfl⟩ := h
  exact flush_loop_step _ _ _ _ hl

theorem bpu_flush_jobs_total {σ : Type} (fuel : Nat) (b : Bpu σ) (B : Nat)
    (hw : WellBehaved b.io) (hfuel : B < fuel) : ∃ r, bpu_flush_jobs fuel b B = some r := by
  obtain ⟨s', hs⟩ := flush_loop_total fuel fuel
    { bpu := b, budget_left := B, rc := BPU_RC_OK, done := false } hw hfuel (Or.inr hfuel)
  unfold bpu_flush_jobs
  rw [hs]
  exact ⟨_, rfl⟩

/-! ## The tick as a step -/

theorem tick_sample_step {σ : Type} (b : Bpu σ) (now_us B : Nat) :
    TxStep b B (tick_sample b now_us).1 B := by
  unfold tick_sample
  split_ifs
  · exact TxStep.rfl_step _ _
  · unfold bpu_try_time_us
    cases b.io.time_us with
    | none => exact TxStep.rfl_step _ _
    | some f =>
      simp only []
      split_ifs <;> exact TxStep.of_silent _ _ B rfl rfl rfl rfl rfl rfl rfl id id

theorem tick_finish_step {σ : Type} (b : Bpu σ) (now_us t0 : Nat) (have_t0 : Bool) (B : Nat) :
    TxStep b B (tick_finish b now_us t0 have_t0) B := by
  unfold tick_finish
  simp only []
  have h1 : TxStep b B
      { b with st := { b.st with
                       tick := u32_inc b.st.tick
                       dirty_mask_lo := bpu_dirty_mask b &&& 0xFFFFFFFF
                       dirty_mask_hi := (bpu_dirty_mask b >>> 32) &&& 0xFFFFFFFF } } B :=
    TxStep.of_st _ _ _ rfl
  have h2 := h1.trans_step (tick_sample_step _ now_us B)
  split
  · exact h2.trans_step (TxStep.of_st _ _ _ rfl)
  · exact h2

theorem bpu_tick_ex_step {σ : Type} (fuel : Nat) (b : Bpu σ) (now_ms now_us : Nat)
    (r : Bpu σ × Nat) (h : bpu_tick_ex fuel b now_ms now_us = some r) :
    ∃ B', TxStep b b.cfg.tx_budget_bytes r.1 B' := by
  unfold bpu_tick_ex at h
  split_ifs at h with hm
  · cases h
    exact ⟨_, TxStep.rfl_step _ _⟩
  · simp only [] at h
    have t0 := tick_sample_step b now_us b.cfg.tx_budget_bytes
    have hcfg : (tick_sample b now_us).1.cfg.tx_budget_bytes = b.cfg.tx_budget_bytes := by
      rw [t0.cfg]
    rw [hcfg] at h
    by_cases hp : (tick_sample b now_us).1.pending_have ≠ 0
    · rw [if_pos hp] at h
      cases hs : bpu_send_pending fuel (tick_sample b now_us).1 b.cfg.tx_budget_bytes with
      | none => rw [hs] at h; simp at h
      | some sr =>
        rw [hs] at h
        have out := bpu_send_pending_out _ _ _ _ hs
        simp only [Option.map_some'] at h
        have t1 := t0.trans_step out.step
        by_cases hrc : sr.rc ≠ BPU_RC_OK
        · rw [if_pos hrc, if_neg (by decide)] at h
          cases h
          exact ⟨_, t1.trans_step (tick_finish_step _ _ _ _ _)⟩
        · rw [if_neg hrc, if_pos rfl] at h
          cases hsch : bpu_schedule_from_events sr.bpu now_ms with
          | none => rw [hsch] at h; simp at h
          | some sch =>
            rw [hsch] at h
            simp only [] at h
            have t2 := t1.trans_step
              ((bpu_schedule_from_events_step sr.bpu now_ms sr.budget_left).2 _ hsch)
            cases hfl : bpu_flush_jobs fuel sch.1 sr.budget_left with
            | none => rw [hfl] at h; simp at h
            | some fl =>
              rw [hfl] at h
              cases h
              exact ⟨_, (t2.trans_step (bpu_flush_jobs_step _ _ _ _ hfl)).trans_step
                (tick_finish_step _ _ _ _ _)⟩
    · rw [if_neg hp] at h
      simp only [if_true] at h
      cases hsch : bpu_schedule_from_events (tick_sample b now_us).1 now_ms with
      | none => rw [hsch] at h; simp at h
      | some sch =>
        rw [hsch] at h
        simp only [] at h
        have t2 := t0.trans_step
          ((bpu_schedule_from_events_step (tick_sample b now_us).1 now_ms
            b.cfg.tx_budget_bytes).2 _ hsch)
        cases hfl : bpu_flush_jobs fuel sch.1 b.cfg.tx_budget_bytes with
        | none => rw [hfl] at h; simp at h
        | some fl =>
          rw [hfl] at h
          cases h
          exact ⟨_, (t2.trans_step (bpu_flush_jobs_step _ _ _ _ hfl)).trans_step
            (tick_finish_step _ _ _ _ _)⟩

theorem bpu_tick_ex_total {σ : Type} (b : Bpu σ) (now_ms now_us : Nat)
    (hw : WellBehaved b.io) :
    ∃ r, bpu_tick_ex (b.cfg.tx_budget_bytes + 1) b now_ms now_us = some r := by
  unfold bpu_tick_ex
  split_ifs with hm
  · exact ⟨_, rfl⟩
  · simp only []
    have t0 := tick_sample_step b now_us b.cfg.tx_budget_bytes
    have hcfg : (tick_sample b now_us).1.cfg.tx_budget_bytes = b.cfg.tx_budget_bytes := by
      rw [t0.cfg]
    have hw0 := wellBehaved_congr _ _ t0.tx_write_some hw
    rw [hcfg]
    by_cases hp : (tick_sample b now_us).1.pending_have ≠ 0
    · rw [if_pos hp]
      obtain ⟨sr, hs⟩ := bpu_send_pending_total (b.cfg.tx_budget_bytes + 1)
        (tick_sample b now_us).1 b.cfg.tx_budget_bytes hw0 (Nat.lt_succ_self _)
      rw [hs]
      have out := bpu_send_pending_out _ _ _ _ hs
      simp only [Option.map_some']
      by_cases hrc : sr.rc ≠ BPU_RC_OK
      · rw [if_pos hrc, if_neg (by decide)]
        exact ⟨_, rfl⟩
      · rw [if_neg hrc, if_pos rfl]
        obtain ⟨sch, hsch⟩ := (bpu_schedule_from_events_step sr.bpu now_ms sr.budget_left).1
        have t2 := (bpu_schedule_from_events_step sr.bpu now_ms sr.budget_left).2 _ hsch
        have hw1 := wellBehaved_congr _ _ out.step.tx_write_some hw0
        have hle : sr.budget_left ≤ b.cfg.tx_budget_bytes := by
          obtain ⟨⟨new, _, a, _, _⟩, _⟩ := out.step.acct hw0
          omega
        obtain ⟨fl, hfl⟩ := bpu_flush_jobs_total (b.cfg.tx_budget_bytes + 1) sch.1
          sr.budget_left (wellBehaved_congr _ _ t2.tx_write_some hw1) (by omega)
        rw [hsch]
        simp only []
        rw [hfl]
        exact ⟨_, rfl⟩
    · rw [if_neg hp]
      simp only [if_true]
      obtain ⟨sch, hsch⟩ := (bpu_schedule_from_events_step (tick_sample b now_us).1 now_ms
        b.cfg.tx_budget_bytes).1
      have t2 := (bpu_schedule_from_events_step (tick_sample b now_us).1 now_ms
        b.cfg.tx_budget_bytes).2 _ hsch
      obtain ⟨fl, hfl⟩ := bpu_flush_jobs_total (b.cfg.tx_budget_bytes + 1) sch.1
        b.cfg.tx_budget_bytes (wellBehaved_congr _ _ t2.tx_write_some hw0) (Nat.lt_succ_self _)
      rw [hsch]
      simp only []
      rw [hfl]
      exact ⟨_, rfl⟩

theorem ite_pair_fst {α β : Type} (c : Prop) [Decidable c] (x : α) (u v : β) :
    (if c then (x, u) else (x, v)).1 = x := by
  split_ifs <;> rfl

theorem bpu_push_event_step {σ : Type} (b : Bpu σ) (evt_type : Nat) (payload : Nat → Nat)
    (len now_ms B : Nat) : TxStep b B (bpu_push_event b evt_type payload len now_ms).1 B := by
  unfold bpu_push_event
  by_cases hm : b.init_magic ≠ BPU_MAGIC
  · rw [if_pos hm]
    exact TxStep.rfl_step _ _
  · rw [if_neg hm]
    simp only []
    rw [ite_pair_fst]
    have h0 : ∀ st' : BpuStats, st'.tx_bytes = b.st.tx_bytes →
        TxStep b B (bpu_evq_push_coalesce { b with st := st' }
          (push_event_record b.stack_evt evt_type payload len now_ms)).1 B := by
      intro st' h
      exact (TxStep.of_st b st' B h).trans_step
        ((bpu_evq_push_coalesce_queueOnly _ _).1.txStep B (bpu_evq_push_coalesce_qinv _ _))
    exact h0 _ (by split_ifs <;> rfl)

theorem bpu_init_inv {σ : Type} (mem : Bpu σ) (io : BpuIo σ) (cfg : BpuConfig)
    (h : (bpu_init mem io cfg).2 = BPU_RC_OK) :
    PendInv (bpu_init mem io cfg).1 ∧ QInv (bpu_init mem io cfg).1 ∧
    (bpu_init mem io cfg).1.io = io := by
  unfold bpu_init at h ⊢
  by_cases h1 : io.tx_free.isNone = true
  · rw [if_pos h1] at h
    exact absurd h (by show ¬ (1 : Nat) = 0; omega)
  · by_cases h2 : io.tx_write_some.isNone = true
    · rw [if_neg h1, if_pos h2] at h
      exact absurd h (by show ¬ (1 : Nat) = 0; omega)
    · rw [if_neg h1, if_neg h2]
      exact ⟨Or.inr ⟨rfl, rfl, rfl⟩, ⟨Nat.zero_le _, Nat.zero_le _, Nat.zero_lt_succ _,
        Nat.zero_lt_succ _, Nat.zero_lt_succ _, Nat.zero_lt_succ _⟩, rfl⟩

theorem reachable_inv {σ : Type} (b : Bpu σ) (hr : Reachable b) :
    QInv b ∧ (WellBehaved b.io → PendInv b) := by
  induction hr with
  | init mem io cfg h =>
    obtain ⟨p, q, _⟩ := bpu_init_inv mem io cfg h
    exact ⟨q, fun _ => p⟩
  | push_event b evt_type payload len now_ms _ ih =>
    have t := bpu_push_event_step b evt_type payload len now_ms 0
    refine ⟨t.queue ih.1, fun hw => ?_⟩
    have hw0 := wellBehaved_congr _ _ t.tx_write_some.symm hw
    exact (t.acct hw0).2 (ih.2 hw0)
  | tick_ex b fuel now_ms now_us r _ h ih =>
    obtain ⟨B', t⟩ := bpu_tick_ex_step fuel b now_ms now_us r h
    refine ⟨t.queue ih.1, fun hw => ?_⟩
    have hw0 := wellBehaved_congr _ _ t.tx_write_some.symm hw
    exact (t.acct hw0).2 (ih.2 hw0)
  | host b c _ ih =>
    exact ⟨ih.1, fun hw => ih.2 (wellBehaved_congr _ _ rfl hw)⟩
  | stack b e0 j0 _ ih =>
    exact ⟨ih.1, fun hw => ih.2 (wellBehaved_congr _ _ rfl hw)⟩

/-- C7. For every state (with `st.tx_bytes` a 32-bit value) and every transport
whose `tx_write_some` reports `wrote ≤ want`, `bpu_tick_ex` returns (fuel
`tx_budget_bytes + 1` is enough), and whenever it returns, the bytes taken by
the transport over all `tx_write_some` calls of the tick sum to at most
`cfg.tx_budget_bytes`, `st.tx_bytes` grows by exactly that sum (mod `2^32`),
and no call takes more than the budget left when it was made. -/
theorem bpu_tick_ex_budget {σ : Type} (b : Bpu σ) (now_ms now_us : Nat)
    (hw : WellBehaved b.io) (hb : b.st.tx_bytes < 4294967296) :
    (∃ r, bpu_tick_ex (b.cfg.tx_budget_bytes + 1) b now_ms now_us = some r) ∧
    ∀ (fuel : Nat) (r : Bpu σ × Nat), bpu_tick_ex fuel b now_ms now_us = some r →
      ∃ new, r.1.tx_log = b.tx_log ++ new ∧
        tx_written new ≤ b.cfg.tx_budget_bytes ∧
        r.1.st.tx_bytes = (b.st.tx_bytes + tx_written new) % 4294967296 ∧
        (∀ c ∈ new, c.rc = BPU_RC_OK → c.wrote ≤ c.budget) := by
  refine ⟨bpu_tick_ex_total b now_ms now_us hw, fun fuel r h => ?_⟩
  obtain ⟨B', t⟩ := bpu_tick_ex_step fuel b now_ms now_us r h
  obtain ⟨⟨new, l, a, tb, c⟩, _⟩ := t.acct hw
  exact ⟨new, l, by omega, tb hb, c⟩

/-- C8. Every call of `tx_write_some` made by `bpu_send_pending` is made with
`pending_pos < pending_len` and a non-zero budget, offers the `want` bytes of
`pending_buf` from `pending_pos` on, with
`1 ≤ want = min (pending_len - pending_pos) budget_left`, further capped by
`tx_chunk_max` when that is non-zero; no call is made when the budget is 0. -/
theorem bpu_send_pending_calls {σ : Type} (fuel : Nat) (b : Bpu σ) (budget_left : Nat)
    (r : SendRes σ) (h : bpu_send_pending fuel b budget_left = some r) :
    ∃ new, r.bpu.tx_log = b.tx_log ++ new ∧
      (∀ c ∈ new,
        c.plen = b.pending_len ∧ c.pos < c.plen ∧ c.budget ≠ 0 ∧ 1 ≤ c.want ∧
        c.want = (if b.cfg.tx_chunk_max ≠ 0 then
                    min (min (c.plen - c.pos) c.budget) b.cfg.tx_chunk_max
                  else min (c.plen - c.pos) c.budget) ∧
        (b.cfg.tx_chunk_max ≠ 0 → c.want ≤ b.cfg.tx_chunk_max) ∧
        c.data = arr_slice b.pending_buf c.pos c.want) ∧
      (budget_left = 0 → new = []) :=
  (bpu_send_pending_out fuel b budget_left r h).calls

/-- C9. In every reachable state whose transport reports `wrote ≤ want`:
`pending_have = 1` implies `pending_pos ≤ pending_len ≤ 87`, `pending_have = 0`
implies `pending_pos = 0` and `pending_len = 0`, and `pending_have` is 0 or 1. -/
theorem reachable_pending_inv {σ : Type} (b : Bpu σ) (hr : Reachable b)
    (hw : WellBehaved b.io) :
    (b.pending_have = 1 → b.pending_pos ≤ b.pending_len ∧ b.pending_len ≤ 87) ∧
    (b.pending_have = 0 → b.pending_pos = 0 ∧ b.pending_len = 0) ∧
    (b.pending_have = 0 ∨ b.pending_have = 1) := by
  rcases (reachable_inv b hr).2 hw with ⟨h1, h2, h3⟩ | ⟨h1, h2, h3⟩
  · exact ⟨fun _ => ⟨h2, h3⟩, fun h => by omega, Or.inr h1⟩
  · exact ⟨fun h => by omega, fun _ => ⟨h2, h3⟩, Or.inl h1⟩

/-- C10. In every reachable state the event queue holds at most 8 entries, the
job queue at most 4, and head and tail of each ring are below its capacity. -/
theorem reachable_queue_bounds {σ : Type} (b : Bpu σ) (hr : Reachable b) :
    b.evq.count ≤ 8 ∧ b.jobq.count ≤ 4 ∧ b.evq.head < 8 ∧ b.evq.tail < 8 ∧
    b.jobq.head < 4 ∧ b.jobq.tail < 4 :=
  (reachable_inv b hr).1

theorem io_accept_wellBehaved : WellBehaved io_accept := by
  intro f hf c p want _
  have : f = fun c _ want => (BPU_RC_OK, want, c) := by
    have := Option.some.inj hf
    exact this.symm
  rw [this]

theorem io_room_wellBehaved : WellBehaved io_room := by
  intro f hf c p want _
  have : f = fun c _ want => (BPU_RC_OK, min want c, c - min want c) := by
    have := Option.some.inj hf
    exact this.symm
  rw [this]
  exact Nat.min_le_left _ _

set_option maxHeartbeats 1000000 in
set_option maxRecDepth 1000000 in
/-- Instance of `bpu_tick_ex_budget`: one HB event, budget 200; the tick
writes the 11 bytes of the frame in one call. With the transport `io_room`
the same tick writes 4 bytes and meets backpressure twice. -/
theorem bpu_tick_ex_budget_witness :
    WellBehaved bpu_hb_pushed.io ∧ bpu_hb_pushed.st.tx_bytes < 4294967296 ∧
    (∃ r, bpu_tick_ex (bpu_hb_pushed.cfg.tx_budget_bytes + 1) bpu_hb_pushed 100 0 = some r) ∧
    (bpu_tick_ex 201 bpu_hb_pushed 100 0).map
        (fun r => (r.2, r.1.st.tx_bytes, tx_written r.1.tx_log, r.1.tx_log.length,
          r.1.st.tx_frame_sent)) = some (BPU_RC_OK, 11, 11, 1, 1) ∧
    (bpu_room_tick.map
        (fun r => (r.2, r.1.st.tx_bytes, tx_written r.1.tx_log,
          r.1.tx_log.map (fun c => (c.want, c.wrote)))) =
      some (BPU_RC_OK, 4, 4, [(11, 4), (7, 0), (7, 0)])) :=
  ⟨wellBehaved_congr io_accept _ rfl io_accept_wellBehaved, by decide,
   (bpu_tick_ex_budget bpu_hb_pushed 100 0
      (wellBehaved_congr io_accept _ rfl io_accept_wellBehaved) (by decide)).1,
   by rfl, by rfl⟩

set_option maxRecDepth 1000000 in
/-- Instance of `bpu_send_pending_calls`: an 11-byte frame staged, budget 5,
chunk limit 128: one call, offering the first 5 bytes. -/
theorem bpu_send_pending_calls_witness :
    ∃ r, bpu_send_pending 6 bpu_staged 5 = some r ∧
      (∃ new, r.bpu.tx_log = bpu_staged.tx_log ++ new ∧
        (∀ c ∈ new,
          c.plen = bpu_staged.pending_len ∧ c.pos < c.plen ∧ c.budget ≠ 0 ∧ 1 ≤ c.want ∧
          c.want = (if bpu_staged.cfg.tx_chunk_max ≠ 0 then
                      min (min (c.plen - c.pos) c.budget) bpu_staged.cfg.tx_chunk_max
                    else min (c.plen - c.pos) c.budget) ∧
          (bpu_staged.cfg.tx_chunk_max ≠ 0 → c.want ≤ bpu_staged.cfg.tx_chunk_max) ∧
          c.data = arr_slice bpu_staged.pending_buf c.pos c.want) ∧
        (5 = 0 → new = [])) ∧
      r.bpu.tx_log = [{ pos := 0, plen := 11, budget := 5, want := 5,
                        data := [3, 0xB2, 3, 7, 3], rc := BPU_RC_OK, wrote := 5 }] :=
  ⟨(bpu_send_pending 6 bpu_staged 5).get (by decide),
   (Option.some_get _).symm,
   bpu_send_pending_calls 6 bpu_staged 5 _ (Option.some_get _).symm,
   by decide⟩

theorem bpu_room_after_reachable : Reachable bpu_room_after :=
  Reachable.tick_ex bpu_room_pushed 201 100 0 _
    (Reachable.push_event _ _ _ _ _ (Reachable.init (bpu_blank io_room) io_room cfg_example rfl))
    (Option.some_get _).symm

set_option maxRecDepth 1000000 in
/-- Instance of `reachable_pending_inv`: after init, one event and one tick
over `io_room` the frame is half sent (`have = 1`, `pos = 4`, `len = 11`). -/
theorem reachable_pending_inv_witness :
    Reachable bpu_room_after ∧ WellBehaved bpu_room_after.io ∧
    ((bpu_room_after.pending_have = 1 →
        bpu_room_after.pending_pos ≤ bpu_room_after.pending_len ∧
        bpu_room_after.pending_len ≤ 87) ∧
     (bpu_room_after.pending_have = 0 →
        bpu_room_after.pending_pos = 0 ∧ bpu_room_after.pending_len = 0) ∧
     (bpu_room_after.pending_have = 0 ∨ bpu_room_after.pending_have = 1)) ∧
    (bpu_room_after.pending_have, bpu_room_after.pending_pos, bpu_room_after.pending_len) =
      (1, 4, 11) :=
  ⟨bpu_room_after_reachable,
   wellBehaved_congr io_room _ rfl io_room_wellBehaved,
   reachable_pending_inv _ bpu_room_after_reachable
      (wellBehaved_congr io_room _ rfl io_room_wellBehaved),
   by decide⟩

set_option maxRecDepth 1000000 in
/-- Instance of `reachable_queue_bounds`: the same state; both queues are
empty and the ring indices have advanced by one. -/
theorem reachable_queue_bounds_witness :
    Reachable bpu_room_after ∧
    (bpu_room_after.evq.count ≤ 8 ∧ bpu_room_after.jobq.count ≤ 4 ∧
     bpu_room_after.evq.head < 8 ∧ bpu_room_after.evq.tail < 8 ∧
     bpu_room_after.jobq.head < 4 ∧ bpu_room_after.jobq.tail < 4) ∧
    (bpu_room_after.evq.count, bpu_room_after.evq.tail, bpu_room_after.jobq.count,
      bpu_room_after.jobq.head, bpu_room_after.jobq.tail) = (0, 1, 0, 1, 1) :=
  ⟨bpu_room_after_reachable, reachable_queue_bounds _ bpu_room_after_reachable, by decide⟩

theorem jobq_scan_step_with_window {σ : Type} (j : BpuJob) (b : Bpu σ) (m : Bool)
    (w i : Nat) :
    jobq_scan_step j (with_window b w, m) i =
      (with_window (jobq_scan_step j (b, m) i).1 w, (jobq_scan_step j (b, m) i).2) := by
  unfold jobq_scan_step
  simp only []
  by_cases h : (b.jobq.buf (bpu_jor_at b.jobq i)).type = j.type
  · rw [if_pos h, if_pos (by exact h)]
    rfl
  · rw [if_neg h, if_neg (by exact h)]

theorem jobq_scan_fold_with_window {σ : Type} (j : BpuJob) (w : Nat) :
    ∀ (l : List Nat) (b : Bpu σ) (m : Bool),
    l.foldl (jobq_scan_step j) (with_window b w, m) =
      (with_window (l.foldl (jobq_scan_step j) (b, m)).1 w,
       (l.foldl (jobq_scan_step j) (b, m)).2) := by
  intro l
  induction l with
  | nil => intro b m; rfl
  | cons i t ih =>
    intro b m
    simp only [List.foldl_cons]
    rw [jobq_scan_step_with_window, ih]

theorem jobq_append_with_window {σ : Type} (j : BpuJob) (b : Bpu σ) (w : Nat) :
    jobq_append (with_window b w) j =
      (with_window (jobq_append b j).1 w, (jobq_append b j).2) := by
  simp only [jobq_append]
  by_cases h : (bpu_jor_push b.jobq j).2 ≠ BPU_RC_OK
  · rw [if_pos h, if_pos (by exact h)]
    rfl
  · rw [if_neg h, if_neg (by exact h)]
    rfl

theorem bpu_jobq_push_coalesce_with_window {σ : Type} (j : BpuJob) (b : Bpu σ) (w : Nat) :
    bpu_jobq_push_coalesce (with_window b w) j =
      (with_window (bpu_jobq_push_coalesce b j).1 w, (bpu_jobq_push_coalesce b j).2) := by
  rw [bpu_jobq_push_coalesce_unfold, bpu_jobq_push_coalesce_unfold]
  have e : ({ with_window b w with
      st := { (with_window b w).st with job_in := u32_inc (with_window b w).st.job_in } } : Bpu σ)
      = with_window { b with st := { b.st with job_in := u32_inc b.st.job_in } } w := rfl
  rw [e]
  show (if _ then _ else _) = _
  rw [show (with_window b w).jobq.count = b.jobq.count from rfl, jobq_scan_fold_with_window]
  simp only []
  split_ifs
  · rfl
  · rw [jobq_append_with_window]

theorem bpu_evq_push_coalesce_no_scan {σ : Type} (bpu : Bpu σ) (e : BpuEvent)
    (h : bpu.cfg.coalesce_window_ms = 0 ∨
      ¬ (e.type = BPU_EVT_SENSOR ∨ e.type = BPU_EVT_HB ∨ e.type = BPU_EVT_TELEM) ∨
      bpu.evq.count = 0) :
    bpu_evq_push_coalesce bpu e =
      evq_append { bpu with st := { bpu.st with ev_in := u32_inc bpu.st.ev_in } } e := by
  unfold bpu_evq_push_coalesce
  simp only []
  rw [if_neg]
  rintro ⟨h1, h2, h3⟩
  rcases h with h | h | h
  · omega
  · apply h
    unfold bpu_policy_for at h2
    by_cases a : e.type = BPU_EVT_SENSOR
    · exact Or.inl a
    · by_cases b : e.type = BPU_EVT_HB
      · exact Or.inr (Or.inl b)
      · by_cases c : e.type = BPU_EVT_TELEM
        · exact Or.inr (Or.inr c)
        · rw [if_neg a, if_neg b, if_neg c] at h2
          exact absurd h2 (by decide)
  · exact h3 h

theorem evq_append_room {σ : Type} (b : Bpu σ) (e : BpuEvent) (h : b.evq.count < 8) :
    evq_append b e =
      ({ b with evq := { b.evq with buf := arr_set b.evq.buf b.evq.head e,
                                     head := (b.evq.head + 1) % 8,
                                     count := b.evq.count + 1 } }, BPU_RC_OK) := by
  have hp : bpu_evr_push b.evq e =
      ({ b.evq with buf := arr_set b.evq.buf b.evq.head e,
                    head := (b.evq.head + 1) % 8,
                    count := b.evq.count + 1 }, BPU_RC_OK) := by
    unfold bpu_evr_push
    rw [if_neg (by omega)]
    have h1 : (b.evq.head + 1) % 8 % 65536 = (b.evq.head + 1) % 8 := by omega
    have h2 : (b.evq.count + 1) % 65536 = b.evq.count + 1 := by omega
    rw [h1, h2]
  unfold evq_append
  simp only [hp, ne_eq, not_true_eq_false, if_false]

theorem evq_append_full {σ : Type} (b : Bpu σ) (e : BpuEvent) (h : 8 ≤ b.evq.count) :
    evq_append b e =
      ({ b with st := { b.st with ev_drop := u32_inc b.st.ev_drop } }, BPU_RC_ERR) := by
  have hp : bpu_evr_push b.evq e = (b.evq, BPU_RC_ERR) := by
    unfold bpu_evr_push
    rw [if_pos h]
  unfold evq_append
  simp only [hp]
  rw [if_pos (by decide)]

theorem evq_contents_push (r : BpuEvRing) (e : BpuEvent) (hw : EvRingWf r) (h : r.count < 8) :
    evq_contents { r with buf := arr_set r.buf r.head e,
                          head := (r.head + 1) % 8,
                          count := r.count + 1 } = evq_contents r ++ [e] := by
  obtain ⟨_, ht, hh⟩ := hw
  unfold evq_contents
  simp only []
  rw [List.range_succ, List.map_append]
  congr 1
  · apply List.map_congr_left
    intro i hi
    rw [List.mem_range] at hi
    simp only [bpu_evr_at]
    rw [arr_set_other]
    rw [hh]
    omega
  · simp only [List.map_cons, List.map_nil, bpu_evr_at]
    rw [show (r.tail + r.count) % 8 % 65536 = r.head by rw [hh]; omega, arr_set_same]

/-- C19. When `cfg.coalesce_window_ms = 0`, or the incoming event's type is not
SENSOR, HB or TELEM (CMD for one), `bpu_evq_push_coalesce` leaves `ev_merge`
alone and writes no slot but the one at `head`: with room the event is
appended (`count + 1`, the queue in pop order grows by the event at its end),
on a full queue the ring is unchanged, `ev_drop` is incremented and ERR is
returned. `bpu_jobq_push_coalesce` does not depend on the window: changing
`cfg.coalesce_window_ms` changes nothing in its result but that field. -/
theorem bpu_evq_push_coalesce_window_zero {σ : Type} (bpu : Bpu σ) (e : BpuEvent)
    (h : bpu.cfg.coalesce_window_ms = 0 ∨
      ¬ (e.type = BPU_EVT_SENSOR ∨ e.type = BPU_EVT_HB ∨ e.type = BPU_EVT_TELEM)) :
    (bpu_evq_push_coalesce bpu e).1.st.ev_merge = bpu.st.ev_merge ∧
    (bpu.evq.count < 8 →
      (bpu_evq_push_coalesce bpu e).2 = BPU_RC_OK ∧
      (bpu_evq_push_coalesce bpu e).1.evq.count = bpu.evq.count + 1 ∧
      (bpu_evq_push_coalesce bpu e).1.evq.tail = bpu.evq.tail ∧
      (bpu_evq_push_coalesce bpu e).1.evq.head = (bpu.evq.head + 1) % 8 ∧
      (bpu_evq_push_coalesce bpu e).1.evq.buf bpu.evq.head = e ∧
      (∀ k, k ≠ bpu.evq.head →
        (bpu_evq_push_coalesce bpu e).1.evq.buf k = bpu.evq.buf k) ∧
      (bpu_evq_push_coalesce bpu e).1.st.ev_drop = bpu.st.ev_drop ∧
      (EvRingWf bpu.evq →
        evq_contents (bpu_evq_push_coalesce bpu e).1.evq = evq_contents bpu.evq ++ [e])) ∧
    (8 ≤ bpu.evq.count →
      (bpu_evq_push_coalesce bpu e).2 = BPU_RC_ERR ∧
      (bpu_evq_push_coalesce bpu e).1.evq = bpu.evq ∧
      (bpu_evq_push_coalesce bpu e).1.st.ev_drop = u32_inc bpu.st.ev_drop) ∧
    (∀ (j : BpuJob) (w : Nat),
      bpu_jobq_push_coalesce (with_window bpu w) j =
        (with_window (bpu_jobq_push_coalesce bpu j).1 w, (bpu_jobq_push_coalesce bpu j).2)) := by
  have hs := bpu_evq_push_coalesce_no_scan bpu e
    (h.elim Or.inl (fun h' => Or.inr (Or.inl h')))
  have key : ∀ b1 : Bpu σ, bpu_evq_push_coalesce bpu e = evq_append b1 e →
      b1.evq = bpu.evq → b1.st.ev_drop = bpu.st.ev_drop → b1.st.ev_merge = bpu.st.ev_merge →
      (bpu_evq_push_coalesce bpu e).1.st.ev_merge = bpu.st.ev_merge ∧
      (bpu.evq.count < 8 →
        (bpu_evq_push_coalesce bpu e).2 = BPU_RC_OK ∧
        (bpu_evq_push_coalesce bpu e).1.evq.count = bpu.evq.count + 1 ∧
        (bpu_evq_push_coalesce bpu e).1.evq.tail = bpu.evq.tail ∧
        (bpu_evq_push_coalesce bpu e).1.evq.head = (bpu.evq.head + 1) % 8 ∧
        (bpu_evq_push_coalesce bpu e).1.evq.buf bpu.evq.head = e ∧
        (∀ k, k ≠ bpu.evq.head →
          (bpu_evq_push_coalesce bpu e).1.evq.buf k = bpu.evq.buf k) ∧
        (bpu_evq_push_coalesce bpu e).1.st.ev_drop = bpu.st.ev_drop ∧
        (EvRingWf bpu.evq →
          evq_contents (bpu_evq_push_coalesce bpu e).1.evq = evq_contents bpu.evq ++ [e])) ∧
      (8 ≤ bpu.evq.count →
        (bpu_evq_push_coalesce bpu e).2 = BPU_RC_ERR ∧
        (bpu_evq_push_coalesce bpu e).1.evq = bpu.evq ∧
        (bpu_evq_push_coalesce bpu e).1.st.ev_drop = u32_inc bpu.st.ev_drop) := by
    intro b1 hb he hd hm
    rw [hb]
    refine ⟨(evq_append_ev_merge b1 e).trans hm, ?_, ?_⟩
    · intro hlt
      rw [evq_append_room b1 e (by rw [he]; exact hlt)]
      simp only [he]
      refine ⟨trivial, trivial, trivial, trivial, arr_set_same _ _ _,
        fun k hk => arr_set_other _ _ _ _ hk, hd, fun hw => evq_contents_push bpu.evq e hw hlt⟩
    · intro hge
      rw [evq_append_full b1 e (by rw [he]; exact hge)]
      exact ⟨rfl, he, by show u32_inc b1.st.ev_drop = _; rw [hd]⟩
  obtain ⟨k1, k2, k3⟩ := key _ hs rfl rfl rfl
  exact ⟨k1, k2, k3, fun j w => bpu_jobq_push_coalesce_with_window j bpu w⟩

/-- Instance of `bpu_evq_push_coalesce_window_zero`: with window 0 a second
SENSOR event one millisecond after the first is appended, not merged; with
the example window of 20 ms a CMD event following a CMD event is appended too. -/
theorem bpu_evq_push_coalesce_window_zero_witness :
    (bpu_w0_pushed.cfg.coalesce_window_ms = 0 ∨
      ¬ ((push_event_record default BPU_EVT_SENSOR (arr_of [3, 4]) 2 101).type = BPU_EVT_SENSOR ∨
         (push_event_record default BPU_EVT_SENSOR (arr_of [3, 4]) 2 101).type = BPU_EVT_HB ∨
         (push_event_record default BPU_EVT_SENSOR (arr_of [3, 4]) 2 101).type = BPU_EVT_TELEM)) ∧
    (bpu_evq_push_coalesce bpu_w0_pushed
        (push_event_record default BPU_EVT_SENSOR (arr_of [3, 4]) 2 101)).1.st.ev_merge =
      bpu_w0_pushed.st.ev_merge ∧
    ((bpu_push_event bpu_w0_pushed BPU_EVT_SENSOR (arr_of [3, 4]) 2 101).1.evq.count = 2 ∧
     (bpu_push_event bpu_w0_pushed BPU_EVT_SENSOR (arr_of [3, 4]) 2 101).1.st.ev_merge = 0 ∧
     (evq_contents (bpu_push_event bpu_w0_pushed BPU_EVT_SENSOR (arr_of [3, 4]) 2 101).1.evq).map
        (fun x => (x.type, x.t_ms, arr_list x.payload 2)) =
       [(BPU_EVT_SENSOR, 100, [1, 2]), (BPU_EVT_SENSOR, 101, [3, 4])]) ∧
    ((bpu_push_event bpu_two_events BPU_EVT_CMD (arr_of [8]) 1 106).1.evq.count = 3 ∧
     (bpu_push_event bpu_two_events BPU_EVT_CMD (arr_of [8]) 1 106).1.st.ev_merge = 0) :=
  ⟨Or.inl (by decide),
   (bpu_evq_push_coalesce_window_zero bpu_w0_pushed
      (push_event_record default BPU_EVT_SENSOR (arr_of [3, 4]) 2 101) (Or.inl (by decide))).1,
   by decide, by decide⟩

theorem bpu_evq_push_coalesce_scan {σ : Type} (bpu : Bpu σ) (e : BpuEvent)
    (hw : bpu.cfg.coalesce_window_ms > 0) (hne : bpu.evq.count ≠ 0)
    (ht : e.type = BPU_EVT_SENSOR ∨ e.type = BPU_EVT_HB ∨ e.type = BPU_EVT_TELEM) :
    bpu_evq_push_coalesce bpu e =
      if !((List.range bpu.evq.count).foldl (evq_scan_step e)
            ({ bpu with st := { bpu.st with ev_in := u32_inc bpu.st.ev_in } }, false)).2 then
        evq_append ((List.range bpu.evq.count).foldl (evq_scan_step e)
            ({ bpu with st := { bpu.st with ev_in := u32_inc bpu.st.ev_in } }, false)).1 e
      else (((List.range bpu.evq.count).foldl (evq_scan_step e)
            ({ bpu with st := { bpu.st with ev_in := u32_inc bpu.st.ev_in } }, false)).1,
            BPU_RC_OK) := by
  unfold bpu_evq_push_coalesce
  simp only []
  rw [if_pos ⟨hw, bpu_policy_for_merge_last _ ht, hne⟩]

theorem bpu_evq_push_coalesce_not_merged {σ : Type} (bpu : Bpu σ) (e : BpuEvent)
    (hcap : bpu.evq.count ≤ 8) (hn : ¬ evq_merges bpu e) :
    bpu_evq_push_coalesce bpu e =
      evq_append { bpu with st := { bpu.st with ev_in := u32_inc bpu.st.ev_in } } e := by
  by_cases hw : bpu.cfg.coalesce_window_ms = 0
  · exact bpu_evq_push_coalesce_no_scan bpu e (Or.inl hw)
  by_cases ht : e.type = BPU_EVT_SENSOR ∨ e.type = BPU_EVT_HB ∨ e.type = BPU_EVT_TELEM
  swap
  · exact bpu_evq_push_coalesce_no_scan bpu e (Or.inr (Or.inl ht))
  by_cases hne : bpu.evq.count = 0
  · exact bpu_evq_push_coalesce_no_scan bpu e (Or.inr (Or.inr hne))
  have hall : ∀ i, i < bpu.evq.count →
      evq_mergeable bpu.cfg.coalesce_window_ms e (bpu.evq.buf (bpu_evr_at bpu.evq i)) = false := by
    intro i hi
    by_contra hq
    exact hn ⟨Nat.pos_of_ne_zero hw, ht, i, hi, by simpa using hq⟩
  have hinv := evq_scan_inv_fold
    { bpu with st := { bpu.st with ev_in := u32_inc bpu.st.ev_in } } e hcap bpu.evq.count
    (le_refl _)
  obtain ⟨_, _, _, _, _, _, _, _, _, _, h10⟩ := hinv
  have hs := h10 hall
  rw [bpu_evq_push_coalesce_scan bpu e (Nat.pos_of_ne_zero hw) hne ht, hs]
  rfl

theorem bpu_evq_push_coalesce_merged {σ : Type} (bpu : Bpu σ) (e : BpuEvent)
    (hcap : bpu.evq.count ≤ 8) (hm : evq_merges bpu e) :
    (bpu_evq_push_coalesce bpu e).2 = BPU_RC_OK ∧
    (bpu_evq_push_coalesce bpu e).1.evq.head = bpu.evq.head ∧
    (bpu_evq_push_coalesce bpu e).1.evq.tail = bpu.evq.tail ∧
    (bpu_evq_push_coalesce bpu e).1.evq.count = bpu.evq.count ∧
    (bpu_evq_push_coalesce bpu e).1.st.ev_drop = bpu.st.ev_drop ∧
    (∀ i, i < bpu.evq.count →
      (bpu_evq_push_coalesce bpu e).1.evq.buf (bpu_evr_at bpu.evq i) =
        if evq_mergeable bpu.cfg.coalesce_window_ms e (bpu.evq.buf (bpu_evr_at bpu.evq i))
        then e else bpu.evq.buf (bpu_evr_at bpu.evq i)) := by
  obtain ⟨hw, ht, hex⟩ := hm
  have hne : bpu.evq.count ≠ 0 := by
    obtain ⟨i, hi, _⟩ := hex
    omega
  have hinv := evq_scan_inv_fold
    { bpu with st := { bpu.st with ev_in := u32_inc bpu.st.ev_in } } e hcap bpu.evq.count
    (le_refl _)
  obtain ⟨h1, h2, h3, h4, h5, h5', h6, h7, h8, h9, h10⟩ := hinv
  simp only [] at h1 h2 h3 h4 h5 h5' h6 h7 h8 h9 h10
  have hres : bpu_evq_push_coalesce bpu e =
      (((List.range bpu.evq.count).foldl (evq_scan_step e)
          ({ bpu with st := { bpu.st with ev_in := u32_inc bpu.st.ev_in } }, false)).1,
          BPU_RC_OK) := by
    rw [bpu_evq_push_coalesce_scan bpu e hw hne ht, h9.2 hex]; rfl
  rw [hres]
  refine ⟨rfl, h2, h3, h4, h5, fun i hi => ?_⟩
  by_cases hq : evq_mergeable bpu.cfg.coalesce_window_ms e
      (bpu.evq.buf (bpu_evr_at bpu.evq i)) = true
  · rw [if_pos hq]
    exact h6 i hi hq
  · rw [if_neg hq]
    apply h7
    intro i' hi' heq
    have := bpu_evr_at_inj bpu.evq i' i (by omega) (by omega) heq
    subst this
    simpa using hq

theorem evq_contents_merged {σ : Type} (bpu : Bpu σ) (e : BpuEvent)
    (hcap : bpu.evq.count ≤ 8) (hm : evq_merges bpu e) :
    evq_contents (bpu_evq_push_coalesce bpu e).1.evq =
      (evq_contents bpu.evq).map
        (fun ex => if evq_mergeable bpu.cfg.coalesce_window_ms e ex then e else ex) := by
  obtain ⟨_, _, m3, m4, _, m6⟩ := bpu_evq_push_coalesce_merged bpu e hcap hm
  unfold evq_contents
  rw [m4, List.map_map]
  apply List.map_congr_left
  intro i hi
  rw [List.mem_range] at hi
  simp only [Function.comp]
  rw [show bpu_evr_at (bpu_evq_push_coalesce bpu e).1.evq i = bpu_evr_at bpu.evq i by
    unfold bpu_evr_at; rw [m3]]
  exact m6 i hi

theorem bpu_evq_push_coalesce_rc {σ : Type} (bpu : Bpu σ) (e : BpuEvent) :
    (bpu_evq_push_coalesce bpu e).2 = BPU_RC_OK ∨ (bpu_evq_push_coalesce bpu e).2 = BPU_RC_ERR := by
  have ha : ∀ b : Bpu σ, (evq_append b e).2 = BPU_RC_OK ∨ (evq_append b e).2 = BPU_RC_ERR := by
    intro b
    unfold evq_append
    simp only []
    split_ifs
    · exact Or.inr rfl
    · exact Or.inl rfl
  unfold bpu_evq_push_coalesce
  simp only []
  split_ifs
  · exact ha _
  · exact Or.inl rfl
  · exact ha _

theorem bpu_push_event_eq {σ : Type} (b : Bpu σ) (evt_type : Nat) (payload : Nat → Nat)
    (len now_ms : Nat) (hm : b.init_magic = BPU_MAGIC) :
    ∃ st' : BpuStats, st'.ev_drop = b.st.ev_drop ∧ st'.ev_merge = b.st.ev_merge ∧
      st'.ev_in = b.st.ev_in ∧
      bpu_push_event b evt_type payload len now_ms =
        bpu_evq_push_coalesce { b with st := st' }
          (push_event_record b.stack_evt evt_type payload len now_ms) := by
  have h0 : ∀ st' : BpuStats,
      (if (bpu_evq_push_coalesce { b with st := st' }
            (push_event_record b.stack_evt evt_type payload len now_ms)).2 ≠ BPU_RC_OK then
        ((bpu_evq_push_coalesce { b with st := st' }
            (push_event_record b.stack_evt evt_type payload len now_ms)).1, BPU_RC_ERR)
       else ((bpu_evq_push_coalesce { b with st := st' }
            (push_event_record b.stack_evt evt_type payload len now_ms)).1, BPU_RC_OK)) =
      bpu_evq_push_coalesce { b with st := st' }
          (push_event_record b.stack_evt evt_type payload len now_ms) := by
    intro st'
    rcases bpu_evq_push_coalesce_rc { b with st := st' }
      (push_event_record b.stack_evt evt_type payload len now_ms) with h | h
    · rw [if_neg (by rw [h]; decide)]
      exact Prod.ext rfl h.symm
    · rw [if_pos (by rw [h]; decide)]
      exact Prod.ext rfl h.symm
  unfold bpu_push_event
  rw [if_neg (by rw [hm]; decide)]
  simp only []
  refine ⟨_, ?_, ?_, ?_, h0 _⟩ <;> split_ifs <;> rfl

/-- C18. On an initialised BPU whose event queue holds 8 events,
`bpu_push_event` of an event that merges with no queued slot returns ERR,
increments `ev_drop` by one (mod `2^32`) and leaves the ring (slots, head,
tail, count) unchanged; an event that merges with a queued slot is accepted:
OK is returned, `ev_drop`, head, tail and count are unchanged, and each of the
8 slots holds the new event if it qualified and its old content otherwise. -/
theorem bpu_push_event_full {σ : Type} (b : Bpu σ) (evt_type : Nat) (payload : Nat → Nat)
    (len now_ms : Nat) (hm : b.init_magic = BPU_MAGIC) (hc : b.evq.count = 8) :
    (¬ evq_merges b (push_event_record b.stack_evt evt_type payload len now_ms) →
      (bpu_push_event b evt_type payload len now_ms).2 = BPU_RC_ERR ∧
      (bpu_push_event b evt_type payload len now_ms).1.st.ev_drop = u32_inc b.st.ev_drop ∧
      (bpu_push_event b evt_type payload len now_ms).1.evq = b.evq) ∧
    (evq_merges b (push_event_record b.stack_evt evt_type payload len now_ms) →
      (bpu_push_event b evt_type payload len now_ms).2 = BPU_RC_OK ∧
      (bpu_push_event b evt_type payload len now_ms).1.st.ev_drop = b.st.ev_drop ∧
      (bpu_push_event b evt_type payload len now_ms).1.evq.count = 8 ∧
      (bpu_push_event b evt_type payload len now_ms).1.evq.head = b.evq.head ∧
      (bpu_push_event b evt_type payload len now_ms).1.evq.tail = b.evq.tail ∧
      (∀ i, i < 8 →
        (bpu_push_event b evt_type payload len now_ms).1.evq.buf (bpu_evr_at b.evq i) =
          if evq_mergeable b.cfg.coalesce_window_ms
              (push_event_record b.stack_evt evt_type payload len now_ms) (b.evq.buf (bpu_evr_at b.evq i))
          then push_event_record b.stack_evt evt_type payload len now_ms
          else b.evq.buf (bpu_evr_at b.evq i))) := by
  obtain ⟨st', hd, _, _, heq⟩ := bpu_push_event_eq b evt_type payload len now_ms hm
  rw [heq]
  constructor
  · intro hn
    have hn' : ¬ evq_merges { b with st := st' }
        (push_event_record b.stack_evt evt_type payload len now_ms) := hn
    rw [bpu_evq_push_coalesce_not_merged _ _ (by show b.evq.count ≤ 8; omega) hn',
      evq_append_full _ _ (by show 8 ≤ b.evq.count; omega)]
    exact ⟨rfl, by show u32_inc st'.ev_drop = _; rw [hd], rfl⟩
  · intro hy
    have hy' : evq_merges { b with st := st' }
        (push_event_record b.stack_evt evt_type payload len now_ms) := hy
    obtain ⟨m1, m2, m3, m4, m5, m6⟩ := bpu_evq_push_coalesce_merged _ _
      (by show b.evq.count ≤ 8; omega) hy'
    refine ⟨m1, m5.trans hd, m4.trans hc, m2, m3, fun i hi => ?_⟩
    exact m6 i (by show i < b.evq.count; omega)

set_option maxRecDepth 1000000 in
/-- Instance of `bpu_push_event_full`: the queue holds a SENSOR event stamped
100 and seven CMD events; a further CMD event is dropped (`ev_drop = 1`, the
ring is unchanged), a SENSOR event stamped 110 is merged into the first slot. -/
theorem bpu_push_event_full_witness :
    (bpu_evq_full.init_magic = BPU_MAGIC ∧ bpu_evq_full.evq.count = 8 ∧
     ¬ evq_merges bpu_evq_full (push_event_record default BPU_EVT_CMD (arr_of [9]) 1 108) ∧
     evq_merges bpu_evq_full (push_event_record default BPU_EVT_SENSOR (arr_of [3, 4]) 2 110)) ∧
    ((bpu_push_event bpu_evq_full BPU_EVT_CMD (arr_of [9]) 1 108).2 = BPU_RC_ERR ∧
     (bpu_push_event bpu_evq_full BPU_EVT_CMD (arr_of [9]) 1 108).1.st.ev_drop =
       u32_inc bpu_evq_full.st.ev_drop ∧
     (bpu_push_event bpu_evq_full BPU_EVT_CMD (arr_of [9]) 1 108).1.evq = bpu_evq_full.evq) ∧
    ((bpu_push_event bpu_evq_full BPU_EVT_CMD (arr_of [9]) 1 108).1.st.ev_drop = 1 ∧
     (bpu_push_event bpu_evq_full BPU_EVT_SENSOR (arr_of [3, 4]) 2 110).2 = BPU_RC_OK ∧
     (bpu_push_event bpu_evq_full BPU_EVT_SENSOR (arr_of [3, 4]) 2 110).1.st.ev_drop = 0 ∧
     (evq_contents (bpu_push_event bpu_evq_full BPU_EVT_SENSOR (arr_of [3, 4]) 2 110).1.evq).map
         (fun x => (x.type, x.t_ms)) =
       [(BPU_EVT_SENSOR, 110), (BPU_EVT_CMD, 101), (BPU_EVT_CMD, 102), (BPU_EVT_CMD, 103),
        (BPU_EVT_CMD, 104), (BPU_EVT_CMD, 105), (BPU_EVT_CMD, 106), (BPU_EVT_CMD, 107)]) :=
  ⟨⟨by decide, by decide,
     fun h => h.2.1.elim (fun h' => absurd h' (by decide))
       (fun h' => h'.elim (fun h'' => absurd h'' (by decide)) (fun h'' => absurd h'' (by decide))),
     ⟨by decide, Or.inl rfl, 0, by decide, by decide⟩⟩,
   (bpu_push_event_full bpu_evq_full BPU_EVT_CMD (arr_of [9]) 1 108 (by decide) (by decide)).1
     (fun h => h.2.1.elim (fun h' => absurd h' (by decide))
       (fun h' => h'.elim (fun h'' => absurd h'' (by decide)) (fun h'' => absurd h'' (by decide)))),
   by decide⟩

theorem send_step_closed {σ : Type} {R : Bpu σ → Bpu σ → Prop} (hR : QueueClosed R)
    (f : σ → (Nat → Nat) → Nat → Nat × Nat × σ) (s : SendSt σ) :
    R s.bpu (send_step f s).bpu := by
  have h1 : ∀ (c : σ) (l : List TxCall),
      R s.bpu { s.bpu with io := { s.bpu.io with ctx := c }, tx_log := l } :=
    fun c l => hR.comp_ok _ _ _ (hR.ctx_ok s.bpu c) (hR.log_ok _ l)
  unfold send_step
  simp only []
  split_ifs
  · exact hR.id_ok _
  · exact h1 _ _
  · exact hR.comp_ok _ _ _ (h1 _ _) (hR.st_ok _ _)
  · exact hR.comp_ok _ _ _ (h1 _ _)
      (hR.comp_ok _ _ _ (hR.pend_ok _ s.bpu.pending_len _ s.bpu.pending_have) (hR.st_ok _ _))

theorem send_loop_closed {σ : Type} {R : Bpu σ → Bpu σ → Prop} (hR : QueueClosed R)
    (f : σ → (Nat → Nat) → Nat → Nat × Nat × σ) :
    ∀ (fuel : Nat) (s s' : SendSt σ), send_loop f fuel s = some s' → R s.bpu s'.bpu := by
  intro fuel
  induction fuel with
  | zero =>
    intro s s' h
    rw [send_loop] at h
    split_ifs at h
    cases h
    exact hR.id_ok _
  | succ n ih =>
    intro s s' h
    rw [send_loop] at h
    split_ifs at h
    · exact hR.comp_ok _ _ _ (send_step_closed hR f s) (ih _ _ h)
    · cases h
      exact hR.id_ok _

theorem send_finish_closed {σ : Type} {R : Bpu σ → Bpu σ → Prop} (hR : QueueClosed R)
    (s : SendSt σ) : R s.bpu (send_finish s).bpu := by
  unfold send_finish
  simp only []
  split_ifs
  · exact hR.comp_ok _ _ _ (hR.pend_ok _ 0 0 0) (hR.st_ok _ _)
  · exact hR.st_ok _ _
  · exact hR.st_ok _ _
  · exact hR.id_ok _

theorem bpu_send_pending_closed {σ : Type} {R : Bpu σ → Bpu σ → Prop} (hR : QueueClosed R)
    (fuel : Nat) (b : Bpu σ) (B : Nat) (r : SendRes σ)
    (h : bpu_send_pending fuel b B = some r) : R b r.bpu := by
  unfold bpu_send_pending at h
  split_ifs at h with h0
  · cases h
    exact hR.pend_ok b 0 0 b.pending_have
  · cases hf : b.io.tx_write_some with
    | none =>
      rw [hf] at h
      cases h
      exact hR.id_ok _
    | some f =>
      rw [hf] at h
      simp only [Option.map_eq_some'] at h
      obtain ⟨s', hl, rfl⟩ := h
      exact hR.comp_ok _ _ _ (send_loop_closed hR f fuel _ s' hl) (send_finish_closed hR s')

theorem sched_event_closed {σ : Type} {R : Bpu σ → Bpu σ → Prop} (hR : QueueClosed R)
    (now_ms : Nat) (s : Bpu σ × Nat) (e : BpuEvent) : R s.1 (sched_event now_ms s e).1 := by
  have h := hR.comp_ok _ _ _ (hR.st_ok s.1 (sched_aged s.1.st s.1.cfg e now_ms))
    (hR.jobq_push_ok _ (sched_job (s.1.stack_job s.1.st.job_in) e now_ms))
  unfold sched_event
  simp only []
  split_ifs
  · exact h
  · exact h

theorem sched_loop_closed {σ : Type} {R : Bpu σ → Bpu σ → Prop} (hR : QueueClosed R)
    (now_ms : Nat) : ∀ (fuel : Nat) (s r : Bpu σ × Nat),
    sched_loop now_ms fuel s = some r → R s.1 r.1 := by
  intro fuel
  induction fuel with
  | zero => intro s r h; simp [sched_loop] at h
  | succ n ih =>
    intro s r h
    rw [sched_loop] at h
    split_ifs at h
    · cases h
      exact hR.evq_pop_ok _ _
    · exact hR.comp_ok _ _ _ (hR.evq_pop_ok s.1 default)
        (hR.comp_ok _ _ _
          (sched_event_closed hR now_ms ((bpu_evq_pop s.1 default).1, s.2) _) (ih _ _ h))

theorem bpu_schedule_from_events_closed {σ : Type} {R : Bpu σ → Bpu σ → Prop}
    (hR : QueueClosed R) (b : Bpu σ) (now_ms : Nat) (r : Bpu σ × Nat)
    (h : bpu_schedule_from_events b now_ms = some r) : R b r.1 :=
  sched_loop_closed hR now_ms _ _ _ h

theorem flush_skip_budget_closed {σ : Type} {R : Bpu σ → Bpu σ → Prop} (hR : QueueClosed R)
    (b : Bpu σ) (j : BpuJob) : R b (flush_skip_budget b j) := by
  have h0 := hR.st_ok b { b.st with tx_skip_budget := u32_inc b.st.tx_skip_budget }
  unfold flush_skip_budget
  simp only []
  split_ifs
  · exact hR.comp_ok _ _ _ h0 (hR.st_ok _ _)
  · exact hR.comp_ok _ _ _ h0 (hR.comp_ok _ _ _ (hR.jobq_push_ok _ j) (hR.st_ok _ _))
  · exact hR.comp_ok _ _ _ h0 (hR.jobq_push_ok _ j)

theorem flush_emit_closed {σ : Type} {R : Bpu σ → Bpu σ → Prop} (hR : StepClosed R)
    (fuel : Nat) (b : Bpu σ) (B rc : Nat) (j : BpuJob) (s' : FlushSt σ)
    (h : flush_emit fuel b B rc j = some s') : R b s'.bpu := by
  unfold flush_emit at h
  simp only [] at h
  obtain ⟨b1, _, _⟩ := bpu_build_frame_step b j.type j.payload
    (if j.len > 255 then 255 else j.len % 256) B
  have hb := hR.build_ok b j.type j.payload (if j.len > 255 then 255 else j.len % 256)
  have hq : ∀ x : Bpu σ, R x (inc_degrade_requeue (clear_pending (flush_requeue x j))) :=
    fun x => hR.comp_ok _ _ _ (hR.jobq_push_ok x j)
      (hR.comp_ok _ _ _ (hR.pend_ok _ 0 0 0) (hR.st_ok _ _))
  rw [if_neg (by rw [b1]; simp)] at h
  cases hs : bpu_send_pending fuel
      (bpu_build_frame b j.type j.payload (if j.len > 255 then 255 else j.len % 256)).1 B with
  | none => rw [hs] at h; cases h
  | some r =>
    rw [hs] at h
    have out := bpu_send_pending_closed hR.toQueueClosed _ _ _ _ hs
    simp only [] at h
    split_ifs at h
    · cases h
      exact hR.comp_ok _ _ _ hb (hR.comp_ok _ _ _ out (hq _))
    · cases h
      exact hR.comp_ok _ _ _ hb (hR.comp_ok _ _ _ out
        (hR.comp_ok _ _ _ (hq _) (hR.st_ok _ _)))
    · cases h
      exact hR.comp_ok _ _ _ hb (hR.comp_ok _ _ _ out (hR.st_ok _ _))

theorem flush_job_closed {σ : Type} {R : Bpu σ → Bpu σ → Prop} (hR : StepClosed R)
    (fuel : Nat) (b : Bpu σ) (B rc : Nat) (s' : FlushSt σ)
    (h : flush_job fuel b B rc = some s') : R b s'.bpu := by
  unfold flush_job at h
  simp only [] at h
  have t01 : R b (bpu_jobq_pop
      { b with st := { b.st with flush_try := u32_inc b.st.flush_try } } default).1 :=
    hR.comp_ok _ _ _ (hR.st_ok _ _) (hR.jobq_pop_ok _ _)
  have tq : ∀ x : Bpu σ, R x
      (match x.io.tx_free with
        | none => (x, 0, BPU_RC_ERR)
        | some f => ({ x with io := { x.io with ctx := (f x.io.ctx).2.2 } }, (f x.io.ctx).2.1,
            (f x.io.ctx).1) : Bpu σ × Nat × Nat).1 := by
    intro x
    cases x.io.tx_free with
    | none => exact hR.id_ok _
    | some f => exact hR.ctx_ok _ _
  have hq : ∀ (x : Bpu σ) (j : BpuJob), R x (inc_degrade_requeue (flush_requeue x j)) :=
    fun x j => hR.comp_ok _ _ _ (hR.jobq_push_ok x j) (hR.st_ok _ _)
  split_ifs at h with h1 h2 h3 h4
  · cases h
    exact t01
  · cases h
    exact hR.comp_ok _ _ _ t01 (flush_skip_budget_closed hR.toQueueClosed _ _)
  · cases h
    exact hR.comp_ok _ _ _ t01 (hR.comp_ok _ _ _ (tq _) (hq _ _))
  · cases h
    exact hR.comp_ok _ _ _ t01 (hR.comp_ok _ _ _ (tq _)
      (hR.comp_ok _ _ _ (hq _ _) (hR.st_ok _ _)))
  · exact hR.comp_ok _ _ _ t01 (hR.comp_ok _ _ _ (tq _) (flush_emit_closed hR _ _ _ _ _ _ h))

theorem flush_step_closed {σ : Type} {R : Bpu σ → Bpu σ → Prop} (hR : StepClosed R)
    (fuel : Nat) (s s' : FlushSt σ) (h : flush_step fuel s = some s') : R s.bpu s'.bpu := by
  unfold flush_step at h
  split_ifs at h with h1 h2 h3
  · cases h
    exact hR.id_ok _
  · cases hs : bpu_send_pending fuel s.bpu s.budget_left with
    | none => rw [hs] at h; cases h
    | some r =>
      rw [hs] at h
      have out := bpu_send_pending_closed hR.toQueueClosed _ _ _ _ hs
      simp only [] at h
      split_ifs at h
      · cases h; exact out
      · cases h; exact out
      · cases h; exact out
  · cases h
    exact hR.id_ok _
  · exact flush_job_closed hR _ _ _ _ _ h

theorem flush_loop_closed {σ : Type} {R : Bpu σ → Bpu σ → Prop} (hR : StepClosed R)
    (inner : Nat) : ∀ (fuel : Nat) (s s' : FlushSt σ),
    flush_loop inner fuel s = some s' → R s.bpu s'.bpu := by
  intro fuel
  induction fuel with
  | zero =>
    intro s s' h
    rw [flush_loop] at h
    split_ifs at h
    cases h
    exact hR.id_ok _
  | succ n ih =>
    intro s s' h
    rw [flush_loop] at h
    split_ifs at h
    · cases h
      exact hR.id_ok _
    · cases hs : flush_step inner s with
      | none => rw [hs] at h; cases h
      | some s1 =>
        rw [hs] at h
        exact hR.comp_ok _ _ _ (flush_step_closed hR _ _ _ hs) (ih _ _ h)

theorem bpu_flush_jobs_closed {σ : Type} {R : Bpu σ → Bpu σ → Prop} (hR : StepClosed R)
    (fuel : Nat) (b : Bpu σ) (B : Nat) (r : Bpu σ × Nat × Nat)
    (h : bpu_flush_jobs fuel b B = some r) : R b r.1 := by
  unfold bpu_flush_jobs at h
  simp only [Option.map_eq_some'] at h
  obtain ⟨s', hl, rfl⟩ := h
  exact flush_loop_closed hR _ _ _ _ hl

theorem tick_sample_closed {σ : Type} {R : Bpu σ → Bpu σ → Prop} (hR : QueueClosed R)
    (b : Bpu σ) (now_us : Nat) : R b (tick_sample b now_us).1 := by
  unfold tick_sample
  split_ifs
  · exact hR.id_ok _
  · simp only []
    unfold bpu_try_time_us
    cases b.io.time_us with
    | none => exact hR.id_ok _
    | some f =>
      simp only []
      split_ifs
      · exact hR.ctx_ok _ _
      · exact hR.ctx_ok _ _

theorem tick_finish_closed {σ : Type} {R : Bpu σ → Bpu σ → Prop} (hR : QueueClosed R)
    (b : Bpu σ) (now_us t0 : Nat) (have_t0 : Bool) : R b (tick_finish b now_us t0 have_t0) := by
  unfold tick_finish
  simp only []
  have h1 := hR.comp_ok _ _ _ (hR.st_ok b
      { b.st with
        tick := u32_inc b.st.tick
        dirty_mask_lo := bpu_dirty_mask b &&& 0xFFFFFFFF
        dirty_mask_hi := (bpu_dirty_mask b >>> 32) &&& 0xFFFFFFFF })
    (tick_sample_closed hR _ now_us)
  split
  · exact hR.comp_ok _ _ _ h1 (hR.st_ok _ _)
  · exact h1

theorem bpu_tick_ex_closed {σ : Type} {R : Bpu σ → Bpu σ → Prop} (hR : StepClosed R)
    (fuel : Nat) (b : Bpu σ) (now_ms now_us : Nat) (r : Bpu σ × Nat)
    (h : bpu_tick_ex fuel b now_ms now_us = some r) : R b r.1 := by
  have rest : ∀ (x : Bpu σ) (B rc t0 : Nat) (ht0 : Bool),
      (match bpu_schedule_from_events x now_ms with
        | none => none
        | some sch =>
          match bpu_flush_jobs fuel sch.1 B with
          | none => none
          | some fl => some (tick_finish fl.1 now_us t0 ht0, rc)) = some r → R x r.1 := by
    intro x B rc t0 ht0 h
    cases hsch : bpu_schedule_from_events x now_ms with
    | none => rw [hsch] at h; cases h
    | some sch =>
      rw [hsch] at h
      simp only [] at h
      cases hfl : bpu_flush_jobs fuel sch.1 B with
      | none => rw [hfl] at h; cases h
      | some fl =>
        rw [hfl] at h
        cases h
        exact hR.comp_ok _ _ _ (bpu_schedule_from_events_closed hR.toQueueClosed _ _ _ hsch)
          (hR.comp_ok _ _ _ (bpu_flush_jobs_closed hR _ _ _ _ hfl)
            (tick_finish_closed hR.toQueueClosed _ _ _ _))
  unfold bpu_tick_ex at h
  split_ifs at h with hm
  · cases h
    exact hR.id_ok _
  · simp only [] at h
    have ts := tick_sample_closed hR.toQueueClosed b now_us
    by_cases hp : (tick_sample b now_us).1.pending_have ≠ 0
    · rw [if_pos hp] at h
      cases hs : bpu_send_pending fuel (tick_sample b now_us).1
          (tick_sample b now_us).1.cfg.tx_budget_bytes with
      | none => rw [hs] at h; simp at h
      | some r1 =>
        rw [hs] at h
        have out := bpu_send_pending_closed hR.toQueueClosed _ _ _ _ hs
        simp only [Option.map_some'] at h
        by_cases hrc : r1.rc ≠ BPU_RC_OK
        · rw [if_pos hrc, if_neg (by decide)] at h
          cases h
          exact hR.comp_ok _ _ _ ts (hR.comp_ok _ _ _ out (tick_finish_closed hR.toQueueClosed _ _ _ _))
        · rw [if_neg hrc, if_pos rfl] at h
          exact hR.comp_ok _ _ _ ts (hR.comp_ok _ _ _ out (rest _ _ _ _ _ h))
    · rw [if_neg hp] at h
      simp only [if_true] at h
      exact hR.comp_ok _ _ _ ts (rest _ _ _ _ _ h)

theorem bpu_push_event_closed {σ : Type} {R : Bpu σ → Bpu σ → Prop} (hR : QueueClosed R)
    (b : Bpu σ) (evt_type : Nat) (payload : Nat → Nat) (len now_ms : Nat) :
    R b (bpu_push_event b evt_type payload len now_ms).1 := by
  unfold bpu_push_event
  by_cases hm : b.init_magic ≠ BPU_MAGIC
  · rw [if_pos hm]
    exact hR.id_ok _
  · rw [if_neg hm]
    simp only []
    rw [ite_pair_fst]
    exact hR.comp_ok _ _ _ (hR.st_ok b _) (hR.evq_push_ok _ _)

/-- Induction over reachable states: a property that holds after `bpu_init`
and is kept by every elementary state change holds in every reachable state. -/
theorem reachable_of_closed {σ : Type} (I : Bpu σ → Prop)
    (hinit : ∀ (mem : Bpu σ) (io : BpuIo σ) (cfg : BpuConfig),
      (bpu_init mem io cfg).2 = BPU_RC_OK → I (bpu_init mem io cfg).1)
    (hR : StepClosed (fun a b : Bpu σ => I a → I b)) (b : Bpu σ) (hr : Reachable b) : I b := by
  induction hr with
  | init mem io cfg h => exact hinit mem io cfg h
  | push_event b t p l n _ ih => exact bpu_push_event_closed hR.toQueueClosed b t p l n ih
  | tick_ex b fuel ms us r _ h ih => exact bpu_tick_ex_closed hR fuel b ms us r h ih
  | host b c _ ih => exact hR.ctx_ok b c ih
  | stack b e0 j0 _ ih => exact hR.stack_ok b e0 j0 ih

theorem bpu_evq_push_coalesce_wf {σ : Type} (b : Bpu σ) (e : BpuEvent)
    (h : EvRingWf b.evq) : EvRingWf (bpu_evq_push_coalesce b e).1.evq := by
  obtain ⟨h1, h2, h3⟩ := h
  by_cases hm : evq_merges b e
  · obtain ⟨_, m2, m3, m4, _, _⟩ := bpu_evq_push_coalesce_merged b e h1 hm
    unfold EvRingWf
    rw [m2, m3, m4]
    exact ⟨h1, h2, h3⟩
  · rw [bpu_evq_push_coalesce_not_merged b e h1 hm]
    by_cases hc : b.evq.count < 8
    · rw [evq_append_room _ _ (by exact hc)]
      refine ⟨?_, h2, ?_⟩
      · show b.evq.count + 1 ≤ 8
        omega
      · show (b.evq.head + 1) % 8 = (b.evq.tail + (b.evq.count + 1)) % 8
        omega
    · rw [evq_append_full _ _ (by show 8 ≤ b.evq.count; omega)]
      exact ⟨h1, h2, h3⟩

theorem bpu_evq_pop_wf {σ : Type} (b : Bpu σ) (out : BpuEvent)
    (h : EvRingWf b.evq) : EvRingWf (bpu_evq_pop b out).1.evq := by
  obtain ⟨h1, h2, h3⟩ := h
  by_cases hc : b.evq.count = 0
  · rw [bpu_evq_pop_empty b out hc]
    exact ⟨h1, h2, h3⟩
  · rw [bpu_evq_pop_nonempty b out hc]
    refine ⟨?_, ?_, ?_⟩
    · show b.evq.count - 1 ≤ 8
      omega
    · show (b.evq.tail + 1) % 8 % 65536 < 8
      omega
    · show b.evq.head = ((b.evq.tail + 1) % 8 % 65536 + (b.evq.count - 1)) % 8
      omega

theorem bpu_jobq_push_coalesce_wf {σ : Type} (b : Bpu σ) (j : BpuJob)
    (h : JobRingWf b.jobq) : JobRingWf (bpu_jobq_push_coalesce b j).1.jobq := by
  obtain ⟨h1, h2, h3⟩ := h
  obtain ⟨i1, i2, i3, _⟩ := jobq_scan_inv_fold
    { b with st := { b.st with job_in := u32_inc b.st.job_in } } j h1 b.jobq.count (le_refl _)
  simp only [] at i1 i2 i3
  rw [bpu_jobq_push_coalesce_unfold]
  split_ifs
  · unfold JobRingWf
    simp only []
    rw [i1, i2, i3]
    exact ⟨h1, h2, h3⟩
  · generalize ((List.range b.jobq.count).foldl (jobq_scan_step j)
      ({ b with st := { b.st with job_in := u32_inc b.st.job_in } }, false)).1 = s at i1 i2 i3
    by_cases hc : s.jobq.count < 4
    · rw [jobq_append_room s j hc]
      refine ⟨?_, ?_, ?_⟩
      · show (s.jobq.count + 1) % 65536 ≤ 4
        omega
      · show s.jobq.tail < 4
        omega
      · show (s.jobq.head + 1) % 4 % 65536 = (s.jobq.tail + (s.jobq.count + 1) % 65536) % 4
        omega
    · rw [jobq_append_full s j (by omega)]
      unfold JobRingWf
      simp only []
      rw [i1, i2, i3]
      exact ⟨h1, h2, h3⟩

theorem bpu_jobq_pop_wf {σ : Type} (b : Bpu σ) (out : BpuJob)
    (h : JobRingWf b.jobq) : JobRingWf (bpu_jobq_pop b out).1.jobq := by
  obtain ⟨h1, h2, h3⟩ := h
  by_cases hc : b.jobq.count = 0
  · rw [bpu_jobq_pop_empty b out hc]
    exact ⟨h1, h2, h3⟩
  · rw [bpu_jobq_pop_nonempty b out hc]
    refine ⟨?_, ?_, ?_⟩
    · show b.jobq.count - 1 ≤ 4
      omega
    · show (b.jobq.tail + 1) % 4 % 65536 < 4
      omega
    · show b.jobq.head = ((b.jobq.tail + 1) % 4 % 65536 + (b.jobq.count - 1)) % 4
      omega

theorem ringWf_closed {σ : Type} : StepClosed (fun a b : Bpu σ => RingWf a → RingWf b) where
  id_ok := fun _ h => h
  comp_ok := fun _ _ _ h1 h2 h => h2 (h1 h)
  ctx_ok := fun _ _ h => h
  stack_ok := fun _ _ _ h => h
  st_ok := fun _ _ h => h
  log_ok := fun _ _ h => h
  pend_ok := fun _ _ _ _ h => h
  build_ok := by
    intro b t p l h
    obtain ⟨buf, heq, _, _⟩ := bpu_build_frame_eq b t p l
    rw [heq]
    exact h
  evq_push_ok := by
    intro b e h
    obtain ⟨_, h2, _⟩ := bpu_evq_push_coalesce_queueOnly b e
    exact ⟨bpu_evq_push_coalesce_wf b e h.1, by rw [h2]; exact h.2⟩
  evq_pop_ok := by
    intro b out h
    obtain ⟨_, h2, _⟩ := bpu_evq_pop_queueOnly b out
    exact ⟨bpu_evq_pop_wf b out h.1, by rw [h2]; exact h.2⟩
  jobq_push_ok := by
    intro b j h
    obtain ⟨_, h2, _⟩ := bpu_jobq_push_coalesce_queueOnly b j
    exact ⟨by rw [h2]; exact h.1, bpu_jobq_push_coalesce_wf b j h.2⟩
  jobq_pop_ok := by
    intro b out h
    obtain ⟨_, h2, _⟩ := bpu_jobq_pop_queueOnly b out
    exact ⟨by rw [h2]; exact h.1, bpu_jobq_pop_wf b out h.2⟩

theorem reachable_ringWf {σ : Type} (b : Bpu σ) (hr : Reachable b) : RingWf b := by
  refine reachable_of_closed RingWf ?_ ringWf_closed b hr
  intro mem io cfg h
  unfold bpu_init at h ⊢
  by_cases h1 : io.tx_free.isNone
  · rw [if_pos h1] at h
    exact absurd h (by show ¬ (1 : Nat) = 0; omega)
  · by_cases h2 : io.tx_write_some.isNone
    · rw [if_neg h1, if_pos h2] at h
      exact absurd h (by show ¬ (1 : Nat) = 0; omega)
    · rw [if_neg h1, if_neg h2]
      exact ⟨⟨Nat.zero_le _, Nat.zero_lt_succ _, rfl⟩, ⟨Nat.zero_le _, Nat.zero_lt_succ _, rfl⟩⟩

theorem evq_pop_n_contents {σ : Type} : ∀ (n : Nat) (b : Bpu σ), b.evq.count = n →
    b.evq.tail < 8 →
    ∃ b', evq_pop_n n b = some (evq_contents b.evq, b') ∧ b'.evq.count = 0 := by
  intro n
  induction n with
  | zero =>
    intro b hc _
    refine ⟨b, ?_, hc⟩
    unfold evq_pop_n evq_contents
    rw [hc]
    rfl
  | succ n ih =>
    intro b hc ht
    rw [evq_pop_n, bpu_evq_pop_nonempty b default (by omega)]
    simp only [ne_eq, not_true_eq_false, if_false]
    obtain ⟨b', h1, h2⟩ := ih
      { b with
        evq := { b.evq with tail := ((b.evq.tail + 1) % 8) % 65536, count := b.evq.count - 1 }
        st := { b.st with ev_out := u32_inc b.st.ev_out } }
      (by show b.evq.count - 1 = n; omega)
      (by show (b.evq.tail + 1) % 8 % 65536 < 8; omega)
    rw [h1]
    refine ⟨b', ?_, h2⟩
    simp only [Option.map_some']
    rw [evq_contents_pop b.evq n hc ht]
    have e : b.evq.count - 1 = n := by omega
    simp only [e]

theorem evq_push_all_contents {σ : Type} : ∀ (es : List BpuEvent) (b : Bpu σ),
    EvRingWf b.evq →
    (b.cfg.coalesce_window_ms = 0 ∨
      ∀ e ∈ es, ¬ (e.type = BPU_EVT_SENSOR ∨ e.type = BPU_EVT_HB ∨ e.type = BPU_EVT_TELEM)) →
    b.evq.count + es.length ≤ 8 →
    evq_contents (evq_push_all b es).evq = evq_contents b.evq ++ es ∧
    (evq_push_all b es).evq.count = b.evq.count + es.length ∧
    (evq_push_all b es).evq.tail = b.evq.tail := by
  intro es
  induction es with
  | nil =>
    intro b _ _ _
    simp [evq_push_all]
  | cons e t ih =>
    intro b hwf hno hlen
    simp only [List.length_cons] at hlen
    have hno1 : b.cfg.coalesce_window_ms = 0 ∨
        ¬ (e.type = BPU_EVT_SENSOR ∨ e.type = BPU_EVT_HB ∨ e.type = BPU_EVT_TELEM) :=
      hno.elim Or.inl (fun h => Or.inr (h e (List.mem_cons_self _ _)))
    have hs := bpu_evq_push_coalesce_no_scan b e (hno1.elim Or.inl (fun h => Or.inr (Or.inl h)))
    have hcfg : (bpu_evq_push_coalesce b e).1.cfg = b.cfg := by
      obtain ⟨⟨eq, jq, st', h, _⟩, _⟩ := bpu_evq_push_coalesce_queueOnly b e
      rw [h]
    have hwf1 := bpu_evq_push_coalesce_wf b e hwf
    have hroom : ∀ b1 : Bpu σ, bpu_evq_push_coalesce b e = evq_append b1 e →
        b1.evq = b.evq →
        evq_contents (bpu_evq_push_coalesce b e).1.evq = evq_contents b.evq ++ [e] ∧
        (bpu_evq_push_coalesce b e).1.evq.count = b.evq.count + 1 ∧
        (bpu_evq_push_coalesce b e).1.evq.tail = b.evq.tail := by
      intro b1 hb he
      rw [hb, evq_append_room b1 e (by rw [he]; omega)]
      simp only [he]
      exact ⟨evq_contents_push b.evq e hwf (by omega), trivial, trivial⟩
    obtain ⟨c1, c2, c3⟩ := hroom _ hs rfl
    obtain ⟨i1, i2, i3⟩ := ih (bpu_evq_push_coalesce b e).1 hwf1
      (by
        rw [hcfg]
        exact hno.elim Or.inl (fun h => Or.inr (fun x hx => h x (List.mem_cons_of_mem _ hx))))
      (by rw [c2]; omega)
    have hfold : evq_push_all b (e :: t) = evq_push_all (bpu_evq_push_coalesce b e).1 t := rfl
    rw [hfold, i1, i2, i3, c1, c2, c3]
    simp only [List.length_cons, List.append_assoc, List.singleton_append]
    exact ⟨trivial, by omega, trivial⟩

theorem push_event_record_fields (e0 : BpuEvent) (evt_type : Nat) (payload : Nat → Nat) (len now_ms : Nat) :
    (push_event_record e0 evt_type payload len now_ms).type = evt_type ∧
    (push_event_record e0 evt_type payload len now_ms).flags = 0 ∧
    (push_event_record e0 evt_type payload len now_ms).t_ms = now_ms ∧
    (push_event_record e0 evt_type payload len now_ms).len = min len 16 ∧
    (∀ i, i < min len 16 →
      (push_event_record e0 evt_type payload len now_ms).payload i = payload i) := by
  have hc : (if len > 16 then 16 else len) = min len 16 := by
    split <;> omega
  unfold push_event_record
  simp only [hc]
  refine ⟨trivial, trivial, trivial, trivial, fun i hi => ?_⟩
  have h := foldl_copy_apply payload 0 (min len 16) e0.payload i
  simp only [Nat.zero_add, Nat.zero_le, true_and, Nat.sub_zero] at h
  rw [h, if_pos hi]

/-- C17. The event ring is a FIFO. From a well-formed ring, popping `count`
times returns the occupied slots oldest first and leaves the queue empty;
events appended without merging (window 0, or types that never merge) to an
empty queue, at most 8 of them, come back from as many pops in the order they
were pushed; a pop on an empty queue returns ERR and changes nothing; a
coalescing overwrite keeps tail and count and replaces queued events in place,
so the order in which the slots are popped is unchanged. -/
theorem evq_fifo {σ : Type} (b : Bpu σ) (hwf : EvRingWf b.evq) :
    (∃ b', evq_pop_n b.evq.count b = some (evq_contents b.evq, b') ∧ b'.evq.count = 0) ∧
    (∀ es : List BpuEvent,
      (b.cfg.coalesce_window_ms = 0 ∨
        ∀ e ∈ es, ¬ (e.type = BPU_EVT_SENSOR ∨ e.type = BPU_EVT_HB ∨ e.type = BPU_EVT_TELEM)) →
      b.evq.count = 0 → es.length ≤ 8 →
      ∃ b', evq_pop_n es.length (evq_push_all b es) = some (es, b') ∧ b'.evq.count = 0) ∧
    (b.evq.count = 0 → ∀ out, bpu_evq_pop b out = (b, out, BPU_RC_ERR)) ∧
    (∀ e, evq_merges b e →
      evq_contents (bpu_evq_push_coalesce b e).1.evq =
        (evq_contents b.evq).map
          (fun ex => if evq_mergeable b.cfg.coalesce_window_ms e ex then e else ex) ∧
      (bpu_evq_push_coalesce b e).1.evq.tail = b.evq.tail ∧
      (bpu_evq_push_coalesce b e).1.evq.count = b.evq.count) := by
  obtain ⟨w1, w2, w3⟩ := hwf
  refine ⟨evq_pop_n_contents _ b rfl w2, ?_, ?_, ?_⟩
  · intro es hno hc hlen
    obtain ⟨c1, c2, c3⟩ := evq_push_all_contents es b ⟨w1, w2, w3⟩ hno (by omega)
    obtain ⟨b', p1, p2⟩ := evq_pop_n_contents es.length (evq_push_all b es) (by rw [c2]; omega)
      (by rw [c3]; exact w2)
    refine ⟨b', ?_, p2⟩
    rw [p1, c1]
    have : evq_contents b.evq = [] := by
      unfold evq_contents
      rw [hc]
      rfl
    rw [this]
    rfl
  · intro hc out
    exact bpu_evq_pop_empty b out hc
  · intro e hm
    obtain ⟨_, _, m3, m4, _, _⟩ := bpu_evq_push_coalesce_merged b e w1 hm
    exact ⟨evq_contents_merged b e w1 hm, m3, m4⟩

set_option maxRecDepth 1000000 in
/-- Instance of `evq_fifo`: with the window at 0, a SENSOR event, a second
SENSOR event and an HB event pushed onto an empty queue are popped in that
order. -/
theorem evq_fifo_witness :
    EvRingWf bpu_w0.evq ∧
    (∃ b', evq_pop_n evs_three.length (evq_push_all bpu_w0 evs_three) = some (evs_three, b') ∧
      b'.evq.count = 0) ∧
    (evq_pop_n 3 (evq_push_all bpu_w0 evs_three)).map
        (fun r => (r.1.map (fun x => (x.type, x.t_ms, x.payload 0)), r.2.evq.tail)) =
      some ([(BPU_EVT_SENSOR, 100, 1), (BPU_EVT_SENSOR, 101, 2), (BPU_EVT_HB, 102, 3)], 3) ∧
    (evq_pop_n 1 bpu_w0).isNone = true :=
  ⟨⟨by decide, by decide, by decide⟩,
   (evq_fifo bpu_w0 ⟨by decide, by decide, by decide⟩).2.1 evs_three (Or.inl (by decide))
     (by decide) (by decide),
   by decide, by decide⟩

/-- C20. For every initialised state with a well-formed event ring, every
`evt_type`, payload, `len` and `now_ms`: the record `bpu_push_event` hands to
the queue has `type = evt_type`, `flags = 0`, `t_ms = now_ms`,
`len = min len 16` (16 when `len > 16`) and the first `min len 16` payload
bytes supplied; when the call returns OK that record is in the queue and every
queued event is either that record or was queued before; when it does not, the
ring is unchanged. -/
theorem bpu_push_event_admits {σ : Type} (b : Bpu σ) (evt_type : Nat) (payload : Nat → Nat)
    (len now_ms : Nat) (hm : b.init_magic = BPU_MAGIC) (hwf : EvRingWf b.evq) :
    (push_event_record b.stack_evt evt_type payload len now_ms).type = evt_type ∧
    (push_event_record b.stack_evt evt_type payload len now_ms).flags = 0 ∧
    (push_event_record b.stack_evt evt_type payload len now_ms).t_ms = now_ms ∧
    (push_event_record b.stack_evt evt_type payload len now_ms).len = min len 16 ∧
    (∀ i, i < min len 16 →
      (push_event_record b.stack_evt evt_type payload len now_ms).payload i = payload i) ∧
    (16 < len → (push_event_record b.stack_evt evt_type payload len now_ms).len = 16) ∧
    ((bpu_push_event b evt_type payload len now_ms).2 = BPU_RC_OK →
      push_event_record b.stack_evt evt_type payload len now_ms ∈
        evq_contents (bpu_push_event b evt_type payload len now_ms).1.evq ∧
      ∀ x ∈ evq_contents (bpu_push_event b evt_type payload len now_ms).1.evq,
        x = push_event_record b.stack_evt evt_type payload len now_ms ∨ x ∈ evq_contents b.evq) ∧
    ((bpu_push_event b evt_type payload len now_ms).2 ≠ BPU_RC_OK →
      (bpu_push_event b evt_type payload len now_ms).1.evq = b.evq) := by
  obtain ⟨f1, f2, f3, f4, f5⟩ := push_event_record_fields b.stack_evt evt_type payload len now_ms
  refine ⟨f1, f2, f3, f4, f5, fun h => by rw [f4]; omega, ?_⟩
  obtain ⟨st', _, _, _, heq⟩ := bpu_push_event_eq b evt_type payload len now_ms hm
  rw [heq]
  generalize push_event_record b.stack_evt evt_type payload len now_ms = e
  obtain ⟨w1, w2, w3⟩ := hwf
  by_cases hy : evq_merges { b with st := st' } e
  · obtain ⟨m1, _, _, _, _, _⟩ := bpu_evq_push_coalesce_merged _ e (by exact w1) hy
    have hc := evq_contents_merged _ e (by exact w1) hy
    refine ⟨fun _ => ?_, fun h => absurd m1 h⟩
    rw [hc]
    obtain ⟨_, _, i, hi, hq⟩ := hy
    constructor
    · rw [List.mem_map]
      refine ⟨b.evq.buf (bpu_evr_at b.evq i), ?_, ?_⟩
      · unfold evq_contents
        rw [List.mem_map]
        exact ⟨i, List.mem_range.2 hi, rfl⟩
      · rw [if_pos hq]
    · intro x hx
      rw [List.mem_map] at hx
      obtain ⟨y, hy1, hy2⟩ := hx
      split_ifs at hy2
      · exact Or.inl hy2.symm
      · exact Or.inr (hy2 ▸ hy1)
  · rw [bpu_evq_push_coalesce_not_merged _ e (by exact w1) hy]
    by_cases hc : b.evq.count < 8
    · rw [evq_append_room _ e (by exact hc)]
      refine ⟨fun _ => ?_, fun h => absurd rfl h⟩
      show e ∈ evq_contents { b.evq with buf := arr_set b.evq.buf b.evq.head e,
                                          head := (b.evq.head + 1) % 8,
                                          count := b.evq.count + 1 } ∧ _
      rw [evq_contents_push b.evq e ⟨w1, w2, w3⟩ hc]
      refine ⟨by simp, fun x hx => ?_⟩
      rw [List.mem_append, List.mem_singleton] at hx
      exact hx.symm
    · rw [evq_append_full _ e (by show 8 ≤ b.evq.count; omega)]
      exact ⟨fun h => absurd h (by show ¬ (1 : Nat) = 0; omega), fun _ => rfl⟩

set_option maxRecDepth 1000000 in
/-- Instance of `bpu_push_event_admits`: a SENSOR event offered with `len = 20`
is stored with `len = 16` and the first 16 bytes. -/
theorem bpu_push_event_admits_witness :
    (bpu_fresh.init_magic = BPU_MAGIC ∧ EvRingWf bpu_fresh.evq) ∧
    ((push_event_record default BPU_EVT_SENSOR
        (arr_of [1, 2, 3, 4, 5, 6, 7, 8, 9, 10, 11, 12, 13, 14, 15, 16, 17, 18, 19, 20])
        20 100).len = min 20 16) ∧
    ((evq_contents (bpu_push_event bpu_fresh BPU_EVT_SENSOR
        (arr_of [1, 2, 3, 4, 5, 6, 7, 8, 9, 10, 11, 12, 13, 14, 15, 16, 17, 18, 19, 20])
        20 100).1.evq).map (fun x => (x.type, x.flags, x.t_ms, x.len, arr_list x.payload 18)) =
      [(BPU_EVT_SENSOR, 0, 100, 16,
        [1, 2, 3, 4, 5, 6, 7, 8, 9, 10, 11, 12, 13, 14, 15, 16, 0, 0])]) :=
  ⟨⟨by decide, ⟨by decide, by decide, by decide⟩⟩,
   (bpu_push_event_admits bpu_fresh BPU_EVT_SENSOR
      (arr_of [1, 2, 3, 4, 5, 6, 7, 8, 9, 10, 11, 12, 13, 14, 15, 16, 17, 18, 19, 20])
      20 100 (by decide) ⟨by decide, by decide, by decide⟩).2.2.2.1,
   by decide⟩

theorem jobq_contents_pop (r : BpuJobRing) (n : Nat) (hc : r.count = n + 1) (ht : r.tail < 4) :
    jobq_contents r =
      r.buf r.tail :: jobq_contents { r with tail := ((r.tail + 1) % 4) % 65536, count := n } := by
  unfold jobq_contents
  rw [hc, List.range_succ_eq_map, List.map_cons, List.map_map]
  congr 1
  · unfold bpu_jor_at
    congr 1
    omega
  · apply List.map_congr_left
    intro i _
    simp only [Function.comp, bpu_jor_at]
    congr 1
    omega

theorem jobq_contents_push (r : BpuJobRing) (j : BpuJob) (hw : JobRingWf r) (h : r.count < 4) :
    jobq_contents { r with buf := arr_set r.buf r.head j,
                           head := ((r.head + 1) % 4) % 65536,
                           count := (r.count + 1) % 65536 } = jobq_contents r ++ [j] := by
  obtain ⟨_, ht, hh⟩ := hw
  unfold jobq_contents
  simp only []
  rw [show (r.count + 1) % 65536 = r.count + 1 by omega, List.range_succ, List.map_append]
  congr 1
  · apply List.map_congr_left
    intro i hi
    rw [List.mem_range] at hi
    simp only [bpu_jor_at]
    rw [arr_set_other]
    rw [hh]
    omega
  · simp only [List.map_cons, List.map_nil, bpu_jor_at]
    rw [show (r.tail + r.count) % 4 % 65536 = r.head by rw [hh]; omega, arr_set_same]

theorem bpu_jobq_push_coalesce_merged {σ : Type} (b : Bpu σ) (j : BpuJob)
    (hcap : b.jobq.count ≤ 4)
    (hex : ∃ i, i < b.jobq.count ∧ (b.jobq.buf (bpu_jor_at b.jobq i)).type = j.type) :
    (bpu_jobq_push_coalesce b j).2 = BPU_RC_OK ∧
    (bpu_jobq_push_coalesce b j).1.jobq.head = b.jobq.head ∧
    (bpu_jobq_push_coalesce b j).1.jobq.tail = b.jobq.tail ∧
    (bpu_jobq_push_coalesce b j).1.jobq.count = b.jobq.count ∧
    (bpu_jobq_push_coalesce b j).1.st.job_drop = b.st.job_drop ∧
    (∀ i, i < b.jobq.count →
      (bpu_jobq_push_coalesce b j).1.jobq.buf (bpu_jor_at b.jobq i) =
        if (b.jobq.buf (bpu_jor_at b.jobq i)).type = j.type then j
        else b.jobq.buf (bpu_jor_at b.jobq i)) := by
  obtain ⟨i1, i2, i3, i4, _, i6, i7, _, i9, _⟩ := jobq_scan_inv_fold
    { b with st := { b.st with job_in := u32_inc b.st.job_in } } j hcap b.jobq.count (le_refl _)
  simp only [] at i1 i2 i3 i4 i6 i7 i9
  rw [bpu_jobq_push_coalesce_unfold, if_pos (i9.2 hex)]
  refine ⟨rfl, i1, i2, i3, i4, fun i hi => ?_⟩
  by_cases hq : (b.jobq.buf (bpu_jor_at b.jobq i)).type = j.type
  · rw [if_pos hq]
    exact i6 i hi hq
  · rw [if_neg hq]
    apply i7
    intro i' hi' heq
    have := bpu_jor_at_inj b.jobq i' i (by omega) (by omega) heq
    subst this
    exact hq

theorem bpu_jobq_push_coalesce_not_merged {σ : Type} (b : Bpu σ) (j : BpuJob)
    (hcap : b.jobq.count ≤ 4)
    (hno : ∀ i, i < b.jobq.count → (b.jobq.buf (bpu_jor_at b.jobq i)).type ≠ j.type) :
    bpu_jobq_push_coalesce b j =
      jobq_append { b with st := { b.st with job_in := u32_inc b.st.job_in } } j := by
  obtain ⟨_, _, _, _, _, _, _, _, _, i10⟩ := jobq_scan_inv_fold
    { b with st := { b.st with job_in := u32_inc b.st.job_in } } j hcap b.jobq.count (le_refl _)
  have hs := i10 hno
  rw [bpu_jobq_push_coalesce_unfold, hs]
  rfl

/-- Effect of `bpu_jobq_push_coalesce` on the queue in pop order: queued jobs
of the type of `j` are replaced by `j` in place; when there is none, `j` is
appended if there is room. -/
theorem jobq_contents_push_coalesce {σ : Type} (b : Bpu σ) (j : BpuJob)
    (hwf : JobRingWf b.jobq) :
    ((∃ x ∈ jobq_contents b.jobq, x.type = j.type) →
      jobq_contents (bpu_jobq_push_coalesce b j).1.jobq =
        (jobq_contents b.jobq).map (fun x => if x.type = j.type then j else x)) ∧
    ((∀ x ∈ jobq_contents b.jobq, x.type ≠ j.type) → b.jobq.count < 4 →
      jobq_contents (bpu_jobq_push_coalesce b j).1.jobq = jobq_contents b.jobq ++ [j]) := by
  obtain ⟨w1, w2, w3⟩ := hwf
  constructor
  · rintro ⟨x, hx, hxt⟩
    unfold jobq_contents at hx
    rw [List.mem_map] at hx
    obtain ⟨i, hi, rfl⟩ := hx
    rw [List.mem_range] at hi
    obtain ⟨_, _, m3, m4, _, m6⟩ := bpu_jobq_push_coalesce_merged b j w1 ⟨i, hi, hxt⟩
    unfold jobq_contents
    rw [m4, List.map_map]
    apply List.map_congr_left
    intro k hk
    rw [List.mem_range] at hk
    simp only [Function.comp]
    rw [show bpu_jor_at (bpu_jobq_push_coalesce b j).1.jobq k = bpu_jor_at b.jobq k by
      unfold bpu_jor_at; rw [m3]]
    exact m6 k hk
  · intro hno hc
    have hno' : ∀ i, i < b.jobq.count → (b.jobq.buf (bpu_jor_at b.jobq i)).type ≠ j.type := by
      intro i hi
      apply hno
      unfold jobq_contents
      rw [List.mem_map]
      exact ⟨i, List.mem_range.2 hi, rfl⟩
    have key : ∀ b1 : Bpu σ, bpu_jobq_push_coalesce b j = jobq_append b1 j →
        b1.jobq = b.jobq →
        jobq_contents (bpu_jobq_push_coalesce b j).1.jobq = jobq_contents b.jobq ++ [j] := by
      intro b1 hb he
      rw [hb, jobq_append_room b1 j (by rw [he]; exact hc)]
      simp only [he]
      exact jobq_contents_push b.jobq j ⟨w1, w2, w3⟩ hc
    exact key _ (bpu_jobq_push_coalesce_not_merged b j w1 hno') rfl

theorem flush_pop_eq {σ : Type} (b : Bpu σ) (hc : b.jobq.count ≠ 0) :
    bpu_jobq_pop { b with st := { b.st with flush_try := u32_inc b.st.flush_try } } default =
      (flush_popped b, jobq_front b, BPU_RC_OK) := by
  rw [bpu_jobq_pop_nonempty _ _ (by exact hc)]
  rfl

theorem flush_loop_one {σ : Type} (inner fuel : Nat) (s s1 : FlushSt σ) (hd : s.done = false)
    (hs : flush_step inner s = some s1) (hd1 : s1.done = true) :
    flush_loop inner (fuel + 1) s = some s1 := by
  rw [flush_loop, if_neg (by rw [hd]; decide), hs]
  cases fuel with
  | zero => simp only [flush_loop, hd1, if_true]
  | succ n => simp only [flush_loop, hd1, if_true]

theorem flush_step_job {σ : Type} (inner : Nat) (b : Bpu σ) (B rc : Nat) (d : Bool)
    (hB : B ≠ 0) (hp : b.pending_have = 0) (hc : b.jobq.count ≠ 0) :
    flush_step inner { bpu := b, budget_left := B, rc := rc, done := d } =
      flush_job inner b B rc := by
  unfold flush_step
  simp only []
  rw [if_neg hB, if_neg (by rw [hp]; decide), if_neg hc]

theorem bpu_flush_jobs_one {σ : Type} (fuel : Nat) (b : Bpu σ) (B : Nat) (s1 : FlushSt σ)
    (hf : 1 ≤ fuel) (hB : B ≠ 0) (hp : b.pending_have = 0) (hc : b.jobq.count ≠ 0)
    (hs : flush_job fuel b B BPU_RC_OK = some s1) (hd1 : s1.done = true) :
    bpu_flush_jobs fuel b B = some (s1.bpu, s1.budget_left, s1.rc) := by
  obtain ⟨n, rfl⟩ : ∃ n, fuel = n + 1 := ⟨fuel - 1, by omega⟩
  unfold bpu_flush_jobs
  rw [flush_loop_one (n + 1) n _ s1 rfl (by rw [flush_step_job _ _ _ _ _ hB hp hc]; exact hs) hd1]
  rfl

theorem flush_job_skip {σ : Type} (inner : Nat) (b : Bpu σ) (B rc : Nat)
    (hc : b.jobq.count ≠ 0) (hw : worst_on_wire (jobq_front b).len > B) :
    flush_job inner b B rc =
      some { bpu := flush_skip_budget (flush_popped b) (jobq_front b), budget_left := B,
             rc := rc, done := true } := by
  unfold flush_job
  simp only [flush_pop_eq b hc]
  rw [if_neg (by decide), if_pos hw]

theorem flush_job_fits {σ : Type} (inner : Nat) (b : Bpu σ) (B rc : Nat)
    (hc : b.jobq.count ≠ 0) (hw : worst_on_wire (jobq_front b).len ≤ B) :
    flush_job inner b B rc =
      if (tx_free_query (flush_popped b)).2.2 ≠ BPU_RC_OK then
        some { bpu := inc_degrade_requeue
                 (flush_requeue (tx_free_query (flush_popped b)).1 (jobq_front b)),
               budget_left := B, rc := rc, done := true }
      else if (tx_free_query (flush_popped b)).2.1 <
          (tx_free_query (flush_popped b)).1.cfg.tx_min_free then
        some { bpu := inc_tx_skip_backpressure (inc_degrade_requeue
                 (flush_requeue (tx_free_query (flush_popped b)).1 (jobq_front b))),
               budget_left := B, rc := rc, done := true }
      else flush_emit inner (tx_free_query (flush_popped b)).1 B rc (jobq_front b) := by
  unfold flush_job
  simp only [flush_pop_eq b hc]
  rw [if_neg (by decide), if_neg (by omega)]
  rfl

theorem jobq_scan_step_st {σ : Type} (j : BpuJob) (s : Bpu σ × Bool) (i : Nat) :
    ∃ m, (jobq_scan_step j s i).1.st = { s.1.st with job_merge := m } := by
  unfold jobq_scan_step
  simp only []
  split_ifs
  · exact ⟨_, rfl⟩
  · exact ⟨s.1.st.job_merge, rfl⟩

theorem jobq_scan_fold_st {σ : Type} (j : BpuJob) : ∀ (l : List Nat) (s : Bpu σ × Bool),
    ∃ m, (l.foldl (jobq_scan_step j) s).1.st = { s.1.st with job_merge := m } := by
  intro l
  induction l with
  | nil => intro s; exact ⟨s.1.st.job_merge, rfl⟩
  | cons i t ih =>
    intro s
    simp only [List.foldl_cons]
    obtain ⟨m1, h1⟩ := jobq_scan_step_st j s i
    obtain ⟨m2, h2⟩ := ih (jobq_scan_step j s i)
    exact ⟨m2, by rw [h2, h1]⟩

theorem jobq_append_st {σ : Type} (b : Bpu σ) (j : BpuJob) :
    ∃ d, (jobq_append b j).1.st = { b.st with job_drop := d } := by
  unfold jobq_append
  simp only []
  split_ifs
  · exact ⟨_, rfl⟩
  · exact ⟨b.st.job_drop, rfl⟩

/-- The only counters `bpu_jobq_push_coalesce` touches are `job_in`,
`job_merge` and `job_drop`. -/
theorem bpu_jobq_push_coalesce_st {σ : Type} (b : Bpu σ) (j : BpuJob) :
    ∃ m d, (bpu_jobq_push_coalesce b j).1.st =
      { b.st with job_in := u32_inc b.st.job_in, job_merge := m, job_drop := d } := by
  rw [bpu_jobq_push_coalesce_unfold]
  obtain ⟨m, hm⟩ := jobq_scan_fold_st j (List.range b.jobq.count)
    ({ b with st := { b.st with job_in := u32_inc b.st.job_in } }, false)
  split_ifs
  · exact ⟨m, b.st.job_drop, by rw [hm]⟩
  · obtain ⟨d, hd⟩ := jobq_append_st
      ((List.range b.jobq.count).foldl (jobq_scan_step j)
        ({ b with st := { b.st with job_in := u32_inc b.st.job_in } }, false)).1 j
    exact ⟨m, d, by rw [hd, hm]⟩

/-- Apart from the job ring and the three job counters,
`bpu_jobq_push_coalesce` returns the state it was given. -/
theorem bpu_jobq_push_coalesce_frame {σ : Type} (b : Bpu σ) (j : BpuJob) :
    ∃ m d, (bpu_jobq_push_coalesce b j).1 =
      { b with
        jobq := (bpu_jobq_push_coalesce b j).1.jobq
        st := { b.st with job_in := u32_inc b.st.job_in, job_merge := m, job_drop := d } } := by
  obtain ⟨m, d, hst⟩ := bpu_jobq_push_coalesce_st b j
  obtain ⟨⟨eq, jq, st', h, _⟩, he, _⟩ := bpu_jobq_push_coalesce_queueOnly b j
  refine ⟨m, d, ?_⟩
  rw [← hst]
  generalize bpu_jobq_push_coalesce b j = r at h he ⊢
  rw [h] at he ⊢
  simp only [] at he
  rw [he]

theorem jobq_contents_popped {σ : Type} (b : Bpu σ) (hc : b.jobq.count ≠ 0)
    (hwf : JobRingWf b.jobq) :
    jobq_contents b.jobq = jobq_front b :: jobq_contents (flush_popped b).jobq ∧
    JobRingWf (flush_popped b).jobq ∧ (flush_popped b).jobq.count < 4 := by
  obtain ⟨w1, w2, w3⟩ := hwf
  refine ⟨?_, ⟨?_, ?_, ?_⟩, ?_⟩
  · rw [jobq_contents_pop b.jobq (b.jobq.count - 1) (by omega) w2]
    rfl
  · show b.jobq.count - 1 ≤ 4
    omega
  · show (b.jobq.tail + 1) % 4 % 65536 < 4
    omega
  · show b.jobq.head = ((b.jobq.tail + 1) % 4 % 65536 + (b.jobq.count - 1)) % 4
    omega
  · show b.jobq.count - 1 < 4
    omega

/-- Requeue of the popped job in terms of the queue as a list. -/
theorem jobq_contents_requeue {σ : Type} (x : Bpu σ) (j : BpuJob) (hwf : JobRingWf x.jobq)
    (hc : x.jobq.count < 4) :
    jobq_contents (flush_requeue x j).jobq = jobq_requeued (jobq_contents x.jobq) j := by
  obtain ⟨h1, h2⟩ := jobq_contents_push_coalesce x j hwf
  unfold flush_requeue jobq_requeued
  split_ifs with h
  · exact h1 h
  · apply h2 _ hc
    intro y hy hty
    exact h ⟨y, hy, hty⟩

theorem jobq_requeued_mem (l : List BpuJob) (j : BpuJob) : j ∈ jobq_requeued l j := by
  unfold jobq_requeued
  split_ifs with h
  · obtain ⟨x, hx, hxt⟩ := h
    rw [List.mem_map]
    exact ⟨x, hx, by rw [if_pos hxt]⟩
  · simp

/-- C12. In `bpu_flush_jobs` (non-zero budget, nothing pending, job queue not
empty), when the job `j` at the front has a worst-case on-wire size above
`budget_left`: the call returns after that one pop (`flush_try` and `job_out`
incremented once) with `budget_left` unchanged and `tx_skip_budget`
incremented; with `enable_degrade` set and `j.type = TELEM` the job is dropped
(the queue is the rest, `degrade_drop` incremented); otherwise `j` is requeued
through the coalescing push, and `degrade_requeue` is incremented exactly when
`enable_degrade` is set. No frame is built (`seq`, `frames_built` and the
pending buffer unchanged) and the transport is not called (`tx_log`, `io`
and `tx_bytes` unchanged). -/
theorem bpu_flush_jobs_skip_budget {σ : Type} (fuel : Nat) (b : Bpu σ) (B : Nat)
    (hf : 1 ≤ fuel) (hB : B ≠ 0) (hp : b.pending_have = 0) (hc : b.jobq.count ≠ 0)
    (hw : worst_on_wire (jobq_front b).len > B) :
    ∃ b', bpu_flush_jobs fuel b B = some (b', B, BPU_RC_OK) ∧
      b'.st.tx_skip_budget = u32_inc b.st.tx_skip_budget ∧
      b'.st.flush_try = u32_inc b.st.flush_try ∧
      b'.st.job_out = u32_inc b.st.job_out ∧
      (b.cfg.enable_degrade ≠ 0 → (jobq_front b).type = BPU_JOB_TELEM →
        b'.jobq = (flush_popped b).jobq ∧
        b'.st.degrade_drop = u32_inc b.st.degrade_drop ∧
        b'.st.degrade_requeue = b.st.degrade_requeue ∧
        (JobRingWf b.jobq → jobq_contents b'.jobq = (jobq_contents b.jobq).tail)) ∧
      (¬ (b.cfg.enable_degrade ≠ 0 ∧ (jobq_front b).type = BPU_JOB_TELEM) →
        b'.st.degrade_drop = b.st.degrade_drop ∧
        b'.st.degrade_requeue =
          (if b.cfg.enable_degrade ≠ 0 then u32_inc b.st.degrade_requeue
           else b.st.degrade_requeue) ∧
        (JobRingWf b.jobq →
          jobq_contents b'.jobq = jobq_requeued (jobq_contents b.jobq).tail (jobq_front b) ∧
          jobq_front b ∈ jobq_contents b'.jobq)) ∧
      b'.seq = b.seq ∧ b'.frames_built = b.frames_built ∧
      b'.pending_buf = b.pending_buf ∧ b'.pending_len = b.pending_len ∧
      b'.pending_pos = b.pending_pos ∧ b'.pending_have = b.pending_have ∧
      b'.tx_log = b.tx_log ∧ b'.io = b.io ∧ b'.st.tx_bytes = b.st.tx_bytes ∧
      b'.st.tx_frame_sent = b.st.tx_frame_sent ∧ b'.evq = b.evq := by
  have hj := flush_job_skip fuel b B BPU_RC_OK hc hw
  refine ⟨_, bpu_flush_jobs_one fuel b B _ hf hB hp hc hj rfl, ?_⟩
  simp only []
  have hreq : ∀ x : Bpu σ, x.jobq = (flush_popped b).jobq → JobRingWf b.jobq →
      jobq_contents (flush_requeue x (jobq_front b)).jobq =
        jobq_requeued (jobq_contents b.jobq).tail (jobq_front b) := by
    intro x hx hwf
    obtain ⟨p1, p2, p3⟩ := jobq_contents_popped b hc hwf
    rw [jobq_contents_requeue x _ (by rw [hx]; exact p2) (by rw [hx]; exact p3), hx, p1]
    rfl
  by_cases hd : b.cfg.enable_degrade ≠ 0
  · by_cases ht : (jobq_front b).type = BPU_JOB_TELEM
    · have e : flush_skip_budget (flush_popped b) (jobq_front b) =
          { flush_popped b with
            st := { (flush_popped b).st with
                    tx_skip_budget := u32_inc b.st.tx_skip_budget
                    degrade_drop := u32_inc b.st.degrade_drop } } := by
        unfold flush_skip_budget
        simp only []
        rw [if_pos (by exact hd), if_pos ht]
        rfl
      rw [e]
      refine ⟨rfl, rfl, rfl, fun _ _ => ⟨rfl, rfl, rfl, fun hwf => ?_⟩,
        fun h => absurd ⟨hd, ht⟩ h, rfl, rfl, rfl, rfl, rfl, rfl, rfl, rfl, rfl, rfl, rfl⟩
      rw [(jobq_contents_popped b hc hwf).1]
      rfl
    · obtain ⟨m, d, hfr⟩ := bpu_jobq_push_coalesce_frame
        { flush_popped b with
          st := { (flush_popped b).st with
                  tx_skip_budget := u32_inc (flush_popped b).st.tx_skip_budget } }
        (jobq_front b)
      have e : flush_skip_budget (flush_popped b) (jobq_front b) =
          inc_degrade_requeue (flush_requeue
            { flush_popped b with
              st := { (flush_popped b).st with
                      tx_skip_budget := u32_inc (flush_popped b).st.tx_skip_budget } }
            (jobq_front b)) := by
        unfold flush_skip_budget
        simp only []
        rw [if_pos (by exact hd), if_neg ht]
      rw [e]
      have hq := hreq _ (show ({ flush_popped b with
          st := { (flush_popped b).st with
                  tx_skip_budget := u32_inc (flush_popped b).st.tx_skip_budget } } : Bpu σ).jobq =
            (flush_popped b).jobq from rfl)
      unfold flush_requeue at hq ⊢
      unfold inc_degrade_requeue
      rw [hfr] at hq ⊢
      refine ⟨rfl, rfl, rfl, fun _ h => absurd h ht, fun _ => ⟨rfl, ?_, fun hwf => ?_⟩,
        rfl, rfl, rfl, rfl, rfl, rfl, rfl, rfl, rfl, rfl, rfl⟩
      · rw [if_pos hd]
        rfl
      · have := hq hwf
        simp only [] at this ⊢
        rw [this]
        exact ⟨rfl, jobq_requeued_mem _ _⟩
  · obtain ⟨m, d, hfr⟩ := bpu_jobq_push_coalesce_frame
      { flush_popped b with
        st := { (flush_popped b).st with
                tx_skip_budget := u32_inc (flush_popped b).st.tx_skip_budget } }
      (jobq_front b)
    have e : flush_skip_budget (flush_popped b) (jobq_front b) =
        flush_requeue
          { flush_popped b with
            st := { (flush_popped b).st with
                    tx_skip_budget := u32_inc (flush_popped b).st.tx_skip_budget } }
          (jobq_front b) := by
      unfold flush_skip_budget
      simp only []
      rw [if_neg (by exact hd)]
    rw [e]
    have hq := hreq _ (show ({ flush_popped b with
        st := { (flush_popped b).st with
                tx_skip_budget := u32_inc (flush_popped b).st.tx_skip_budget } } : Bpu σ).jobq =
          (flush_popped b).jobq from rfl)
    unfold flush_requeue at hq ⊢
    rw [hfr] at hq ⊢
    refine ⟨rfl, rfl, rfl, fun h => absurd h hd, fun _ => ⟨rfl, ?_, fun hwf => ?_⟩,
      rfl, rfl, rfl, rfl, rfl, rfl, rfl, rfl, rfl, rfl, rfl⟩
    · rw [if_neg hd]
      rfl
    · have := hq hwf
      simp only [] at this ⊢
      rw [this]
      exact ⟨rfl, jobq_requeued_mem _ _⟩

set_option maxRecDepth 1000000 in
/-- Instance of `bpu_flush_jobs_skip_budget`: budget 5 against a worst-case
size of 11, `enable_degrade = 1`. A TELEM job at the front is dropped and the
HB job behind it stays; an HB job at the front is requeued behind the TELEM
job. -/
theorem bpu_flush_jobs_skip_budget_witness :
    (1 ≤ 1 ∧ 5 ≠ 0 ∧ bpu_jobs_telem_hb.pending_have = 0 ∧ bpu_jobs_telem_hb.jobq.count ≠ 0 ∧
      worst_on_wire (jobq_front bpu_jobs_telem_hb).len > 5) ∧
    (∃ b', bpu_flush_jobs 1 bpu_jobs_telem_hb 5 = some (b', 5, BPU_RC_OK) ∧
      b'.st.tx_skip_budget = u32_inc bpu_jobs_telem_hb.st.tx_skip_budget) ∧
    (bpu_flush_jobs 1 bpu_jobs_telem_hb 5).map
        (fun r => (r.1.st.tx_skip_budget, r.1.st.degrade_drop, r.1.st.degrade_requeue,
          (jobq_contents r.1.jobq).map (fun x => x.type), r.2.1, r.2.2, r.1.seq,
          r.1.tx_log.length)) =
      some (1, 1, 0, [BPU_JOB_HB], 5, BPU_RC_OK, 0, 0) ∧
    (bpu_flush_jobs 1 bpu_jobs_hb_telem 5).map
        (fun r => (r.1.st.tx_skip_budget, r.1.st.degrade_drop, r.1.st.degrade_requeue,
          (jobq_contents r.1.jobq).map (fun x => x.type), r.2.1, r.2.2, r.1.seq,
          r.1.tx_log.length)) =
      some (1, 0, 1, [BPU_JOB_TELEM, BPU_JOB_HB], 5, BPU_RC_OK, 0, 0) :=
  ⟨⟨by decide, by decide, by decide, by decide, by decide⟩,
   (bpu_flush_jobs_skip_budget 1 bpu_jobs_telem_hb 5 (by decide) (by decide) (by decide)
      (by decide) (by decide)).imp (fun _ h => ⟨h.1, h.2.1⟩),
   by rfl, by rfl⟩

theorem tx_free_query_eq {σ : Type} (y : Bpu σ) :
    ∃ c, (tx_free_query y).1 = { y with io := { y.io with ctx := c } } := by
  unfold tx_free_query
  cases y.io.tx_free with
  | none => exact ⟨y.io.ctx, rfl⟩
  | some g => exact ⟨_, rfl⟩

theorem tx_free_query_none {σ : Type} (y : Bpu σ) (h : y.io.tx_free = none) :
    tx_free_query y = (y, 0, BPU_RC_ERR) := by
  unfold tx_free_query
  rw [h]

theorem tx_free_query_some {σ : Type} (y : Bpu σ) (g : σ → Nat × Nat × σ)
    (h : y.io.tx_free = some g) :
    tx_free_query y =
      ({ y with io := { y.io with ctx := (g y.io.ctx).2.2 } }, (g y.io.ctx).2.1,
        (g y.io.ctx).1) := by
  unfold tx_free_query
  rw [h]

theorem flush_requeue_eq {σ : Type} (x : Bpu σ) (j : BpuJob) :
    ∃ m d, flush_requeue x j =
      { x with
        jobq := (flush_requeue x j).jobq
        st := { x.st with job_in := u32_inc x.st.job_in, job_merge := m, job_drop := d } } :=
  bpu_jobq_push_coalesce_frame x j

/-- C16. In `bpu_flush_jobs` (non-zero budget, nothing pending, job queue not
empty), when the job at the front fits the budget but `tx_free` is missing or
fails, or reports fewer than `cfg.tx_min_free` bytes: the call returns after
that one pop with `budget_left` unchanged, the job is requeued through the
coalescing push, `degrade_requeue` is incremented, `tx_skip_backpressure` is
incremented in the below-min-free case and unchanged in the failure case, and
no frame is built: `seq`, `frames_built`, the pending buffer and `tx_bytes`
are unchanged and `tx_write_some` is not called (`tx_log` unchanged). -/
theorem bpu_flush_jobs_no_room {σ : Type} (fuel : Nat) (b : Bpu σ) (B : Nat)
    (hf : 1 ≤ fuel) (hB : B ≠ 0) (hp : b.pending_have = 0) (hc : b.jobq.count ≠ 0)
    (hw : worst_on_wire (jobq_front b).len ≤ B)
    (hfree : (∀ g, b.io.tx_free = some g → (g b.io.ctx).1 ≠ BPU_RC_OK) ∨
      (∃ g, b.io.tx_free = some g ∧ (g b.io.ctx).1 = BPU_RC_OK ∧
        (g b.io.ctx).2.1 < b.cfg.tx_min_free)) :
    ∃ b', bpu_flush_jobs fuel b B = some (b', B, BPU_RC_OK) ∧
      b'.st.degrade_requeue = u32_inc b.st.degrade_requeue ∧
      ((∀ g, b.io.tx_free = some g → (g b.io.ctx).1 ≠ BPU_RC_OK) →
        b'.st.tx_skip_backpressure = b.st.tx_skip_backpressure) ∧
      ((∃ g, b.io.tx_free = some g ∧ (g b.io.ctx).1 = BPU_RC_OK ∧
          (g b.io.ctx).2.1 < b.cfg.tx_min_free) →
        b'.st.tx_skip_backpressure = u32_inc b.st.tx_skip_backpressure) ∧
      b'.st.flush_try = u32_inc b.st.flush_try ∧
      b'.st.job_out = u32_inc b.st.job_out ∧
      (JobRingWf b.jobq →
        jobq_contents b'.jobq = jobq_requeued (jobq_contents b.jobq).tail (jobq_front b) ∧
        jobq_front b ∈ jobq_contents b'.jobq) ∧
      b'.seq = b.seq ∧ b'.frames_built = b.frames_built ∧
      b'.pending_buf = b.pending_buf ∧ b'.pending_len = b.pending_len ∧
      b'.pending_pos = b.pending_pos ∧ b'.pending_have = b.pending_have ∧
      b'.tx_log = b.tx_log ∧ b'.st.tx_bytes = b.st.tx_bytes ∧
      b'.st.tx_frame_sent = b.st.tx_frame_sent ∧ b'.st.tx_skip_budget = b.st.tx_skip_budget ∧
      b'.st.degrade_drop = b.st.degrade_drop ∧ b'.evq = b.evq ∧ b'.cfg = b.cfg := by
  have hfit := flush_job_fits fuel b B BPU_RC_OK hc hw
  obtain ⟨c, hx⟩ := tx_free_query_eq (flush_popped b)
  obtain ⟨m, d, hfr⟩ := flush_requeue_eq
    ({ flush_popped b with io := { (flush_popped b).io with ctx := c } } : Bpu σ) (jobq_front b)
  have hreq : JobRingWf b.jobq →
      jobq_contents (flush_requeue
        ({ flush_popped b with io := { (flush_popped b).io with ctx := c } } : Bpu σ)
        (jobq_front b)).jobq =
        jobq_requeued (jobq_contents b.jobq).tail (jobq_front b) := by
    intro hwf
    obtain ⟨p1, p2, p3⟩ := jobq_contents_popped b hc hwf
    rw [jobq_contents_requeue _ _ (by exact p2) (by exact p3), p1]
    rfl
  by_cases hfail : ∀ g, b.io.tx_free = some g → (g b.io.ctx).1 ≠ BPU_RC_OK
  · have hrc : (tx_free_query (flush_popped b)).2.2 ≠ BPU_RC_OK := by
      cases hg : b.io.tx_free with
      | none =>
        rw [tx_free_query_none _ (by exact hg)]
        show ¬ (1 : Nat) = 0
        omega
      | some g => rw [tx_free_query_some _ g (by exact hg)]; exact hfail g hg
    rw [if_pos hrc, hx] at hfit
    refine ⟨_, bpu_flush_jobs_one fuel b B _ hf hB hp hc hfit rfl, ?_⟩
    simp only []
    unfold inc_degrade_requeue
    rw [hfr] at hreq ⊢
    refine ⟨rfl, fun _ => rfl, ?_, rfl, rfl, fun hwf => ?_, rfl, rfl, rfl, rfl, rfl, rfl, rfl,
      rfl, rfl, rfl, rfl, rfl, rfl⟩
    · rintro ⟨g, hg, hok, _⟩
      exact absurd hok (hfail g hg)
    · have := hreq hwf
      simp only [] at this ⊢
      rw [this]
      exact ⟨rfl, jobq_requeued_mem _ _⟩
  · have hlow := hfree.resolve_left hfail
    obtain ⟨g, hg, hok, hlt⟩ := hlow
    have hq := tx_free_query_some (flush_popped b) g (by exact hg)
    have hrc : ¬ (tx_free_query (flush_popped b)).2.2 ≠ BPU_RC_OK := by
      rw [hq]
      exact fun h => h hok
    have hlt' : (tx_free_query (flush_popped b)).2.1 <
        (tx_free_query (flush_popped b)).1.cfg.tx_min_free := by
      rw [hq]
      exact hlt
    rw [if_neg hrc, if_pos hlt', hx] at hfit
    refine ⟨_, bpu_flush_jobs_one fuel b B _ hf hB hp hc hfit rfl, ?_⟩
    simp only []
    unfold inc_tx_skip_backpressure inc_degrade_requeue
    rw [hfr] at hreq ⊢
    refine ⟨rfl, fun h => absurd hok (h g hg), fun _ => rfl, rfl, rfl, fun hwf => ?_, rfl, rfl,
      rfl, rfl, rfl, rfl, rfl, rfl, rfl, rfl, rfl, rfl, rfl⟩
    have := hreq hwf
    simp only [] at this ⊢
    rw [this]
    exact ⟨rfl, jobq_requeued_mem _ _⟩

set_option maxRecDepth 1000000 in
/-- Instance of `bpu_flush_jobs_no_room`: one HB job, budget 200,
`tx_min_free = 96`. With `tx_free` reporting 95 the job is requeued and both
counters go up; with `tx_free` failing only `degrade_requeue` does. -/
theorem bpu_flush_jobs_no_room_witness :
    (1 ≤ 1 ∧ 200 ≠ 0 ∧ (bpu_one_job io_low).pending_have = 0 ∧
      (bpu_one_job io_low).jobq.count ≠ 0 ∧
      worst_on_wire (jobq_front (bpu_one_job io_low)).len ≤ 200 ∧
      ((∀ g, (bpu_one_job io_low).io.tx_free = some g →
          (g (bpu_one_job io_low).io.ctx).1 ≠ BPU_RC_OK) ∨
        (∃ g, (bpu_one_job io_low).io.tx_free = some g ∧
          (g (bpu_one_job io_low).io.ctx).1 = BPU_RC_OK ∧
          (g (bpu_one_job io_low).io.ctx).2.1 < (bpu_one_job io_low).cfg.tx_min_free))) ∧
    (∃ b', bpu_flush_jobs 1 (bpu_one_job io_low) 200 = some (b', 200, BPU_RC_OK) ∧
      b'.st.degrade_requeue = u32_inc (bpu_one_job io_low).st.degrade_requeue) ∧
    (bpu_flush_jobs 1 (bpu_one_job io_low) 200).map
        (fun r => (r.1.st.degrade_requeue, r.1.st.tx_skip_backpressure,
          (jobq_contents r.1.jobq).map (fun x => x.type), r.2.1, r.2.2, r.1.seq,
          r.1.pending_have, r.1.st.tx_bytes, r.1.tx_log.length)) =
      some (1, 1, [BPU_JOB_HB], 200, BPU_RC_OK, 0, 0, 0, 0) ∧
    (bpu_flush_jobs 1 (bpu_one_job io_free_err) 200).map
        (fun r => (r.1.st.degrade_requeue, r.1.st.tx_skip_backpressure,
          (jobq_contents r.1.jobq).map (fun x => x.type), r.2.1, r.2.2, r.1.seq,
          r.1.pending_have, r.1.st.tx_bytes, r.1.tx_log.length)) =
      some (1, 0, [BPU_JOB_HB], 200, BPU_RC_OK, 0, 0, 0, 0) :=
  ⟨⟨by decide, by decide, by decide, by decide, by decide,
     Or.inr ⟨fun c => (BPU_RC_OK, 95, c), rfl, by decide, by decide⟩⟩,
   (bpu_flush_jobs_no_room 1 (bpu_one_job io_low) 200 (by decide) (by decide) (by decide)
      (by decide) (by decide)
      (Or.inr ⟨fun c => (BPU_RC_OK, 95, c), rfl, by decide, by decide⟩)).imp
      (fun _ h => ⟨h.1, h.2.1⟩),
   by rfl, by rfl⟩

theorem seqKept_of_queueOnly {σ : Type} (a b : Bpu σ) (h : QueueOnly a b) : SeqKept a b := by
  obtain ⟨eq, jq, st', h, _⟩ := h
  rw [h]
  exact ⟨rfl, rfl⟩

theorem seqKept_closed {σ : Type} : QueueClosed (SeqKept : Bpu σ → Bpu σ → Prop) where
  id_ok := fun _ => ⟨rfl, rfl⟩
  comp_ok := fun _ _ _ h1 h2 => ⟨h2.1.trans h1.1, h2.2.trans h1.2⟩
  ctx_ok := fun _ _ => ⟨rfl, rfl⟩
  stack_ok := fun _ _ _ => ⟨rfl, rfl⟩
  st_ok := fun _ _ => ⟨rfl, rfl⟩
  log_ok := fun _ _ => ⟨rfl, rfl⟩
  pend_ok := fun _ _ _ _ => ⟨rfl, rfl⟩
  evq_push_ok := fun b e => seqKept_of_queueOnly _ _ (bpu_evq_push_coalesce_queueOnly b e).1
  evq_pop_ok := fun b out => seqKept_of_queueOnly _ _ (bpu_evq_pop_queueOnly b out).1
  jobq_push_ok := fun b j => seqKept_of_queueOnly _ _ (bpu_jobq_push_coalesce_queueOnly b j).1
  jobq_pop_ok := fun b out => seqKept_of_queueOnly _ _ (bpu_jobq_pop_queueOnly b out).1

theorem seqStep_of_kept {σ : Type} (a b : Bpu σ) (h : SeqKept a b) : SeqStep a b := by
  intro hs
  obtain ⟨h1, h2⟩ := h
  rw [h1, h2]
  exact ⟨hs, le_refl _, by omega⟩

theorem seqStep_closed {σ : Type} : StepClosed (SeqStep : Bpu σ → Bpu σ → Prop) where
  id_ok := fun b => seqStep_of_kept _ _ (seqKept_closed.id_ok b)
  comp_ok := by
    intro a b c h1 h2 ha
    obtain ⟨b1, b2, b3⟩ := h1 ha
    obtain ⟨c1, c2, c3⟩ := h2 b1
    refine ⟨c1, by omega, ?_⟩
    rw [c3, b3]
    omega
  ctx_ok := fun b c => seqStep_of_kept _ _ (seqKept_closed.ctx_ok b c)
  stack_ok := fun b e0 j0 => seqStep_of_kept _ _ (seqKept_closed.stack_ok b e0 j0)
  st_ok := fun b st' => seqStep_of_kept _ _ (seqKept_closed.st_ok b st')
  log_ok := fun b l => seqStep_of_kept _ _ (seqKept_closed.log_ok b l)
  pend_ok := fun b l p h => seqStep_of_kept _ _ (seqKept_closed.pend_ok b l p h)
  evq_push_ok := fun b e => seqStep_of_kept _ _ (seqKept_closed.evq_push_ok b e)
  evq_pop_ok := fun b out => seqStep_of_kept _ _ (seqKept_closed.evq_pop_ok b out)
  jobq_push_ok := fun b j => seqStep_of_kept _ _ (seqKept_closed.jobq_push_ok b j)
  jobq_pop_ok := fun b out => seqStep_of_kept _ _ (seqKept_closed.jobq_pop_ok b out)
  build_ok := by
    intro b t p l hs
    obtain ⟨buf, heq, _, _⟩ := bpu_build_frame_eq b t p l
    rw [heq]
    refine ⟨Nat.mod_lt _ (by norm_num), Nat.le_add_right _ _, ?_⟩
    show (b.seq + 1) % 256 = (b.seq + (b.frames_built + 1 - b.frames_built)) % 256
    rw [Nat.add_sub_cancel_left]

theorem frame_raw_seq (type seq n : Nat) (payload : Nat → Nat) :
    (frame_raw type seq n payload)[2]? = some seq := by
  simp [frame_raw]

/-- C11. `bpu_build_frame` puts the value `seq` had before the call into the
frame (byte 2 of the raw packet the staged bytes decode to) and sets `seq` to
`(seq + 1) mod 256`, once per call. `bpu_push_event`, `bpu_send_pending`,
`bpu_schedule_from_events` and the requeue, clear and skip paths of
`bpu_flush_jobs` leave `seq` alone and build no frame. Hence over one
`bpu_flush_jobs` and over one tick `seq` advances by the number of frames
built, modulo 256, whatever the transport does with them. -/
theorem seq_advances_per_frame {σ : Type} (b : Bpu σ) :
    (∀ (type : Nat) (payload : Nat → Nat) (len : Nat),
      (bpu_build_frame b type payload len).1.seq = (b.seq + 1) % 256 ∧
      (bpu_build_frame b type payload len).1.frames_built = b.frames_built + 1 ∧
      cobs_decode (arr_list (bpu_build_frame b type payload len).1.pending_buf
          ((bpu_build_frame b type payload len).1.pending_len - 1)) =
        frame_raw type b.seq (min len 64) payload ∧
      (frame_raw type b.seq (min len 64) payload)[2]? = some b.seq) ∧
    (∀ (evt_type : Nat) (payload : Nat → Nat) (len now_ms : Nat),
      SeqKept b (bpu_push_event b evt_type payload len now_ms).1) ∧
    (∀ (fuel B : Nat) (r : SendRes σ), bpu_send_pending fuel b B = some r → SeqKept b r.bpu) ∧
    (∀ (now_ms : Nat) (r : Bpu σ × Nat),
      bpu_schedule_from_events b now_ms = some r → SeqKept b r.1) ∧
    (∀ j : BpuJob, SeqKept b (flush_requeue b j) ∧ SeqKept b (flush_skip_budget b j) ∧
      SeqKept b (inc_degrade_requeue (clear_pending (flush_requeue b j)))) ∧
    (b.seq < 256 → ∀ (fuel B : Nat) (r : Bpu σ × Nat × Nat),
      bpu_flush_jobs fuel b B = some r →
      b.frames_built ≤ r.1.frames_built ∧
      r.1.seq = (b.seq + (r.1.frames_built - b.frames_built)) % 256) ∧
    (b.seq < 256 → ∀ (fuel now_ms now_us : Nat) (r : Bpu σ × Nat),
      bpu_tick_ex fuel b now_ms now_us = some r →
      b.frames_built ≤ r.1.frames_built ∧
      r.1.seq = (b.seq + (r.1.frames_built - b.frames_built)) % 256) := by
  refine ⟨fun type payload len => ?_,
    fun t p l n => bpu_push_event_closed seqKept_closed b t p l n,
    fun fuel B r h => bpu_send_pending_closed seqKept_closed fuel b B r h,
    fun now_ms r h => bpu_schedule_from_events_closed seqKept_closed b now_ms r h,
    fun j => ⟨seqKept_closed.jobq_push_ok b j, flush_skip_budget_closed seqKept_closed b j,
      seqKept_closed.comp_ok _ _ _ (seqKept_closed.jobq_push_ok b j)
        (seqKept_closed.comp_ok _ _ _ (seqKept_closed.pend_ok _ 0 0 0)
          (seqKept_closed.st_ok _ _))⟩,
    fun hs fuel B r h => (bpu_flush_jobs_closed seqStep_closed fuel b B r h hs).2,
    fun hs fuel now_ms now_us r h => (bpu_tick_ex_closed seqStep_closed fuel b now_ms now_us r h hs).2⟩
  obtain ⟨buf, heq, hbuf, _⟩ := bpu_build_frame_eq b type payload len
  rw [heq]
  refine ⟨rfl, rfl, ?_, frame_raw_seq _ _ _ _⟩
  show cobs_decode (arr_list buf (min len 64 + 8 - 1)) = _
  rw [show min len 64 + 8 - 1 = min len 64 + 7 by omega, hbuf]
  exact cobs_decode_blocks _

set_option maxRecDepth 1000000 in
/-- Instance of `seq_advances_per_frame`: over the tick of `bpu_room_tick`,
where the transport takes 4 of the 11 bytes, one frame is built and `seq`
goes from 0 to 1 although the frame is still pending. -/
theorem seq_advances_per_frame_witness :
    bpu_room_pushed.seq < 256 ∧
    (bpu_room_pushed.frames_built ≤ bpu_room_after.frames_built ∧
      bpu_room_after.seq =
        (bpu_room_pushed.seq +
          (bpu_room_after.frames_built - bpu_room_pushed.frames_built)) % 256) ∧
    (bpu_room_pushed.seq, bpu_room_pushed.frames_built) = (0, 0) ∧
    (bpu_room_after.seq, bpu_room_after.frames_built, bpu_room_after.pending_have,
      bpu_room_after.pending_pos, bpu_room_after.pending_len) = (1, 1, 1, 4, 11) :=
  ⟨by decide,
   (seq_advances_per_frame bpu_room_pushed).2.2.2.2.2.2 (by decide) 201 100 0 _
     (Option.some_get _).symm,
   by decide, by decide⟩

theorem tx_bytes_of_nil : tx_bytes_of [] = [] := rfl

theorem tx_bytes_of_cons (c : TxCall) (l : List TxCall) :
    tx_bytes_of (c :: l) =
      (if c.rc = BPU_RC_OK then c.data.take c.wrote else []) ++ tx_bytes_of l := by
  simp [tx_bytes_of, List.flatMap_cons]

theorem tx_bytes_of_append (l1 l2 : List TxCall) :
    tx_bytes_of (l1 ++ l2) = tx_bytes_of l1 ++ tx_bytes_of l2 := by
  simp [tx_bytes_of, List.flatMap_append]

theorem arr_slice_add {α : Type} (a : Nat → α) (i m n : Nat) :
    arr_slice a i (m + n) = arr_slice a i m ++ arr_slice a (i + m) n := by
  unfold arr_slice
  rw [List.range_add, List.map_append, List.map_map]
  congr 1
  apply List.map_congr_left
  intro k _
  simp only [Function.comp, Nat.add_assoc]

theorem sent_state_zero {σ : Type} (s : SendSt σ) (hrc : s.rc = BPU_RC_OK)
    (htb : s.bpu.st.tx_bytes < 4294967296) :
    sent_state s s.bpu.io.ctx [] 0 =
      { s with done := decide (s.bpu.pending_pos < s.bpu.pending_len) } := by
  obtain ⟨bpu, B, pr, dn, rc⟩ := s
  simp only [] at hrc htb
  subst hrc
  unfold sent_state
  simp only [Nat.mod_eq_of_lt htb, List.append_nil, Nat.add_zero, Nat.sub_zero, Nat.lt_irrefl,
    decide_False, Bool.or_false]

theorem send_loop_stop {σ : Type} (f : σ → (Nat → Nat) → Nat → Nat × Nat × σ) (fuel : Nat)
    (s : SendSt σ) (h : send_cond s = false) : send_loop f fuel s = some s := by
  cases fuel with
  | zero => simp only [send_loop, h, Bool.false_eq_true, if_false]
  | succ n => simp only [send_loop, h, Bool.false_eq_true, if_false]

theorem send_step_accept {σ : Type} (A : σ → Prop)
    (f : σ → (Nat → Nat) → Nat → Nat × Nat × σ) (hA : AcceptsAll A f) (s : SendSt σ)
    (hAc : A s.bpu.io.ctx) (hpos : s.bpu.pending_pos < s.bpu.pending_len)
    (hlen : s.bpu.pending_len < 65536) (hB : s.budget_left ≠ 0) (hB16 : s.budget_left < 65536) :
    1 ≤ send_want s.bpu s.budget_left ∧
    send_want s.bpu s.budget_left ≤ min (s.bpu.pending_len - s.bpu.pending_pos) s.budget_left ∧
    A (f s.bpu.io.ctx (fun k => s.bpu.pending_buf (s.bpu.pending_pos + k))
        (send_want s.bpu s.budget_left)).2.2 ∧
    send_step f s =
      { bpu := { s.bpu with
                 io := { s.bpu.io with
                         ctx := (f s.bpu.io.ctx
                           (fun k => s.bpu.pending_buf (s.bpu.pending_pos + k))
                           (send_want s.bpu s.budget_left)).2.2 }
                 tx_log := s.bpu.tx_log ++
                   [{ pos := s.bpu.pending_pos, plen := s.bpu.pending_len,
                      budget := s.budget_left, want := send_want s.bpu s.budget_left,
                      data := arr_slice s.bpu.pending_buf s.bpu.pending_pos
                        (send_want s.bpu s.budget_left),
                      rc := BPU_RC_OK, wrote := send_want s.bpu s.budget_left }]
                 pending_pos := s.bpu.pending_pos + send_want s.bpu s.budget_left
                 st := { s.bpu.st with
                         tx_bytes := (s.bpu.st.tx_bytes + send_want s.bpu s.budget_left) %
                           4294967296 } }
        budget_left := s.budget_left - send_want s.bpu s.budget_left
        progress := true
        done := s.done
        rc := s.rc } := by
  obtain ⟨w1, w2, _, _, w5⟩ := send_want_le s.bpu s.budget_left
  have hw := w5 hB
  have h1 : 1 ≤ send_want s.bpu s.budget_left := by
    rw [hw]
    split_ifs with hc <;> omega
  obtain ⟨a1, a2, a3⟩ := hA s.bpu.io.ctx (fun k => s.bpu.pending_buf (s.bpu.pending_pos + k))
    (send_want s.bpu s.budget_left) hAc
  refine ⟨h1, by omega, a3, ?_⟩
  have hw0 : send_want s.bpu s.budget_left ≠ 0 := by omega
  have e1 : (s.bpu.pending_pos + send_want s.bpu s.budget_left % 65536) % 65536 =
      s.bpu.pending_pos + send_want s.bpu s.budget_left := by omega
  have e2 : u16_sub s.budget_left (send_want s.bpu s.budget_left % 65536) =
      s.budget_left - send_want s.bpu s.budget_left := by
    unfold u16_sub
    omega
  have e3 : (s.bpu.st.tx_bytes + send_want s.bpu s.budget_left % 4294967296) % 4294967296 =
      (s.bpu.st.tx_bytes + send_want s.bpu s.budget_left) % 4294967296 := by omega
  unfold send_step
  simp only [hw0, if_false, a1, a2, ne_eq, not_true_eq_false, e1, e2, e3]
  rfl

theorem send_loop_accept {σ : Type} (A : σ → Prop)
    (f : σ → (Nat → Nat) → Nat → Nat × Nat × σ) (hA : AcceptsAll A f) :
    ∀ (fuel : Nat) (s : SendSt σ), A s.bpu.io.ctx → s.done = false → s.rc = BPU_RC_OK →
    s.bpu.pending_pos ≤ s.bpu.pending_len → s.bpu.pending_len < 65536 →
    s.budget_left < 65536 → s.bpu.st.tx_bytes < 4294967296 →
    min (s.bpu.pending_len - s.bpu.pending_pos) s.budget_left < fuel →
    ∃ c new, A c ∧
      tx_bytes_of new = arr_slice s.bpu.pending_buf s.bpu.pending_pos
        (min (s.bpu.pending_len - s.bpu.pending_pos) s.budget_left) ∧
      send_loop f fuel s = some (sent_state s c new
        (min (s.bpu.pending_len - s.bpu.pending_pos) s.budget_left)) := by
  intro fuel
  induction fuel with
  | zero => intro s _ _ _ _ _ _ _ h; omega
  | succ n ih =>
    intro s hAc hd hrc hle hlen hB16 htb hfuel
    by_cases hpos : s.bpu.pending_pos < s.bpu.pending_len
    · have hcond : send_cond s = true := by
        simp [send_cond, hd, hpos, hrc]
      rw [send_loop, if_pos hcond]
      by_cases hB : s.budget_left = 0
      · have hm : min (s.bpu.pending_len - s.bpu.pending_pos) s.budget_left = 0 := by omega
        have hstep : send_step f s = { s with done := true } := by
          unfold send_step
          simp only [(send_want_le s.bpu s.budget_left).2.2.2.1 hB, if_true]
        rw [hstep, send_loop_stop f n _ (by simp [send_cond]), hm]
        refine ⟨s.bpu.io.ctx, [], hAc, rfl, ?_⟩
        rw [sent_state_zero s hrc htb]
        simp [hpos]
      · obtain ⟨w1, w2, w3, w4⟩ := send_step_accept A f hA s hAc hpos hlen hB hB16
        generalize hw : send_want s.bpu s.budget_left = w at w1 w2 w3 w4
        obtain ⟨s1, hs1⟩ : ∃ s1 : SendSt σ, s1 =
            { bpu := { s.bpu with
                 io := { s.bpu.io with
                         ctx := (f s.bpu.io.ctx
                           (fun k => s.bpu.pending_buf (s.bpu.pending_pos + k)) w).2.2 }
                 tx_log := s.bpu.tx_log ++
                   [{ pos := s.bpu.pending_pos, plen := s.bpu.pending_len,
                      budget := s.budget_left, want := w,
                      data := arr_slice s.bpu.pending_buf s.bpu.pending_pos w,
                      rc := BPU_RC_OK, wrote := w }]
                 pending_pos := s.bpu.pending_pos + w
                 st := { s.bpu.st with
                         tx_bytes := (s.bpu.st.tx_bytes + w) % 4294967296 } }
              budget_left := s.budget_left - w
              progress := true
              done := s.done
              rc := s.rc } := ⟨_, rfl⟩
        rw [← hs1] at w4
        rw [w4]
        obtain ⟨c, new, i1, i2, i3⟩ := ih s1 (by rw [hs1]; exact w3) (by rw [hs1]; exact hd)
          (by rw [hs1]; exact hrc)
          (by rw [hs1]; show s.bpu.pending_pos + w ≤ s.bpu.pending_len; omega)
          (by rw [hs1]; exact hlen)
          (by rw [hs1]; show s.budget_left - w < 65536; omega)
          (by rw [hs1]; show (s.bpu.st.tx_bytes + w) % 4294967296 < 4294967296; omega)
          (by
            rw [hs1]
            show min (s.bpu.pending_len - (s.bpu.pending_pos + w)) (s.budget_left - w) < n
            omega)
        rw [i3]
        rw [hs1] at i2 ⊢
        simp only [] at i2 ⊢
        have hm : min (s.bpu.pending_len - s.bpu.pending_pos) s.budget_left =
            w + min (s.bpu.pending_len - (s.bpu.pending_pos + w)) (s.budget_left - w) := by omega
        refine ⟨c, { pos := s.bpu.pending_pos, plen := s.bpu.pending_len,
                      budget := s.budget_left, want := w,
                      data := arr_slice s.bpu.pending_buf s.bpu.pending_pos w,
                      rc := BPU_RC_OK, wrote := w } :: new, i1, ?_, ?_⟩
        · rw [tx_bytes_of_cons, if_pos rfl, i2, hm, arr_slice_add]
          congr 1
          simp only []
          rw [List.take_of_length_le (by rw [arr_slice_length])]
        · rw [hm]
          generalize min (s.bpu.pending_len - (s.bpu.pending_pos + w)) (s.budget_left - w) = m1
          unfold sent_state
          have e1 : ((s.bpu.st.tx_bytes + w) % 4294967296 + m1) % 4294967296 =
              (s.bpu.st.tx_bytes + (w + m1)) % 4294967296 := by omega
          have e2 : s.budget_left - w - m1 = s.budget_left - (w + m1) := by omega
          have e3 : decide (0 < w + m1) = true := by simp; omega
          simp only [e1, e2, e3, List.append_assoc, List.singleton_append, Nat.add_assoc,
            Bool.or_true, Bool.true_or]
    · have hcond : send_cond s = false := by
        simp [send_cond, hpos]
      have hm : min (s.bpu.pending_len - s.bpu.pending_pos) s.budget_left = 0 := by omega
      rw [send_loop_stop f _ s hcond, hm]
      refine ⟨s.bpu.io.ctx, [], hAc, rfl, ?_⟩
      rw [sent_state_zero s hrc htb]
      simp [hpos, ← hd]

/-- With a transport that takes everything and a budget that covers the rest
of the staged frame, `bpu_send_pending` hands over exactly the rest, clears
the pending buffer and counts the frame as sent. -/
theorem bpu_send_pending_accept {σ : Type} (A : σ → Prop)
    (f : σ → (Nat → Nat) → Nat → Nat × Nat × σ) (hA : AcceptsAll A f) (fuel : Nat)
    (b : Bpu σ) (B : Nat) (hp : b.pending_have ≠ 0) (hf : b.io.tx_write_some = some f)
    (hAc : A b.io.ctx) (hle : b.pending_pos ≤ b.pending_len) (hlen : b.pending_len < 65536)
    (hfit : b.pending_len - b.pending_pos ≤ B) (hB16 : B < 65536)
    (htb : b.st.tx_bytes < 4294967296) (hfuel : b.pending_len - b.pending_pos < fuel) :
    ∃ c new, A c ∧
      tx_bytes_of new = arr_slice b.pending_buf b.pending_pos (b.pending_len - b.pending_pos) ∧
      bpu_send_pending fuel b B = some
        { bpu := { b with
                   io := { b.io with ctx := c }
                   tx_log := b.tx_log ++ new
                   pending_len := 0
                   pending_pos := 0
                   pending_have := 0
                   st := { b.st with
                           tx_bytes := (b.st.tx_bytes + (b.pending_len - b.pending_pos)) %
                             4294967296
                           tx_frame_sent := u32_inc b.st.tx_frame_sent
                           pending_active := 0
                           pending_len := 0
                           pending_pos := 0 } }
          budget_left := B - (b.pending_len - b.pending_pos)
          progress := decide (0 < b.pending_len - b.pending_pos)
          rc := BPU_RC_OK } := by
  have hm : min (b.pending_len - b.pending_pos) B = b.pending_len - b.pending_pos := by omega
  obtain ⟨c, new, a1, a2, a3⟩ := send_loop_accept A f hA fuel
    { bpu := b, budget_left := B, progress := false, done := false, rc := BPU_RC_OK }
    hAc rfl rfl hle hlen hB16 htb
    (by show min (b.pending_len - b.pending_pos) B < fuel; omega)
  simp only [] at a2 a3
  rw [hm] at a2 a3
  refine ⟨c, new, a1, a2, ?_⟩
  unfold bpu_send_pending
  rw [if_neg hp, hf]
  simp only []
  rw [a3]
  simp only [Option.map_some']
  unfold send_finish sent_state
  simp only [if_true]
  rw [if_pos (by show b.pending_pos + (b.pending_len - b.pending_pos) ≥ b.pending_len; omega)]
  simp only [Bool.false_or]

theorem job_wire_len_le (j : BpuJob) : job_wire_len j + 9 ≤ worst_on_wire j.len := by
  unfold job_wire_len worst_on_wire
  simp only []
  split_ifs <;> omega

theorem flush_emit_accept {σ : Type} (A : σ → Prop)
    (f : σ → (Nat → Nat) → Nat → Nat × Nat × σ) (hA : AcceptsAll A f) (fuel : Nat)
    (x : Bpu σ) (B rc : Nat) (j : BpuJob) (hf : x.io.tx_write_some = some f)
    (hAc : A x.io.ctx) (hfit : job_wire_len j + 8 ≤ B) (hB16 : B < 65536)
    (htb : x.st.tx_bytes < 4294967296) (hfuel : job_wire_len j + 8 < fuel) :
    ∃ c new buf, A c ∧
      tx_bytes_of new =
        cobs_blocks [] (frame_raw j.type x.seq (job_wire_len j) j.payload) ++ [0] ∧
      flush_emit fuel x B rc j = some
        { bpu := { x with
                   io := { x.io with ctx := c }
                   tx_log := x.tx_log ++ new
                   seq := (x.seq + 1) % 256
                   frames_built := x.frames_built + 1
                   pending_buf := buf
                   pending_len := 0
                   pending_pos := 0
                   pending_have := 0
                   st := { x.st with
                           tx_bytes := (x.st.tx_bytes + (job_wire_len j + 8)) % 4294967296
                           tx_frame_sent := u32_inc x.st.tx_frame_sent
                           pending_active := 0
                           pending_len := 0
                           pending_pos := 0
                           flush_ok := u32_inc x.st.flush_ok } }
          budget_left := B - (job_wire_len j + 8)
          rc := rc
          done := false } := by
  obtain ⟨buf, hb, hbuf, hz⟩ := bpu_build_frame_eq x j.type j.payload
    (if j.len > 255 then 255 else j.len % 256)
  have hn : min (if j.len > 255 then 255 else j.len % 256) 64 = job_wire_len j := rfl
  rw [hn] at hb hbuf hz
  obtain ⟨c, new, a1, a2, a3⟩ := bpu_send_pending_accept A f hA fuel
    ({ x with
       seq := (x.seq + 1) % 256
       frames_built := x.frames_built + 1
       pending_buf := buf
       pending_len := job_wire_len j + 8
       pending_pos := 0
       pending_have := 1 } : Bpu σ) B (by show (1 : Nat) ≠ 0; omega) hf hAc (Nat.zero_le _)
    (by
      show job_wire_len j + 8 < 65536
      omega)
    (by show job_wire_len j + 8 - 0 ≤ B; omega) hB16 htb
    (by show job_wire_len j + 8 - 0 < fuel; omega)
  simp only [Nat.sub_zero] at a2 a3
  refine ⟨c, new, buf, a1, ?_, ?_⟩
  · rw [a2, ← arr_list_eq_slice, arr_list_succ, hbuf, hz]
  · unfold flush_emit
    simp only [hb, a3, ne_eq, not_true_eq_false, if_false]
    have e1 : decide (0 < job_wire_len j + 8) = true := by simp
    have e2 : decide (B = B - (job_wire_len j + 8)) = false := by
      simp only [decide_eq_false_iff_not]
      omega
    simp only [e1, e2, Bool.not_true, Bool.false_eq_true, if_false]

theorem flush_loop_two {σ : Type} (inner fuel : Nat) (s s1 s2 : FlushSt σ) (hd : s.done = false)
    (hs : flush_step inner s = some s1) (hd1 : s1.done = false)
    (hs1 : flush_step inner s1 = some s2) (hd2 : s2.done = true) :
    flush_loop inner (fuel + 2) s = some s2 := by
  rw [flush_loop, if_neg (by rw [hd]; decide), hs]
  exact flush_loop_one inner fuel s1 s2 hd1 hs1 hd2

/-- With nothing pending, one job queued, a transport that has room and takes
everything, and a budget that covers the job's worst case, `bpu_flush_jobs`
frames the job with the current `seq` and hands the whole frame over. -/
theorem bpu_flush_jobs_accept {σ : Type} (A : σ → Prop)
    (f : σ → (Nat → Nat) → Nat → Nat × Nat × σ) (g : σ → Nat × Nat × σ) (fuel : Nat)
    (b : Bpu σ) (B : Nat) (hA : AcceptsAll A f) (hG : FreeOk A g b.cfg.tx_min_free)
    (hf : b.io.tx_write_some = some f) (hg : b.io.tx_free = some g) (hAc : A b.io.ctx)
    (hp : b.pending_have = 0) (hc : b.jobq.count = 1)
    (hw : worst_on_wire (jobq_front b).len ≤ B) (hB16 : B < 65536)
    (htb : b.st.tx_bytes < 4294967296)
    (hfuel : job_wire_len (jobq_front b) + 8 < fuel) :
    ∃ c new buf, A c ∧
      tx_bytes_of new =
        cobs_blocks []
          (frame_raw (jobq_front b).type b.seq (job_wire_len (jobq_front b))
            (jobq_front b).payload) ++ [0] ∧
      bpu_flush_jobs fuel b B = some
        ({ b with
           io := { b.io with ctx := c }
           tx_log := b.tx_log ++ new
           seq := (b.seq + 1) % 256
           frames_built := b.frames_built + 1
           pending_buf := buf
           pending_len := 0
           pending_pos := 0
           pending_have := 0
           jobq := { b.jobq with tail := ((b.jobq.tail + 1) % 4) % 65536, count := 0 }
           st := { b.st with
                   flush_try := u32_inc b.st.flush_try
                   job_out := u32_inc b.st.job_out
                   tx_bytes := (b.st.tx_bytes + (job_wire_len (jobq_front b) + 8)) % 4294967296
                   tx_frame_sent := u32_inc b.st.tx_frame_sent
                   pending_active := 0
                   pending_len := 0
                   pending_pos := 0
                   flush_ok := u32_inc b.st.flush_ok } },
         B - (job_wire_len (jobq_front b) + 8), BPU_RC_OK) := by
  have hwl := job_wire_len_le (jobq_front b)
  have hc0 : b.jobq.count ≠ 0 := by omega
  obtain ⟨g1, g2, g3⟩ := hG b.io.ctx hAc
  have hq := tx_free_query_some (flush_popped b) g (by exact hg)
  have hfit := flush_job_fits fuel b B BPU_RC_OK hc0 hw
  rw [hq] at hfit
  simp only [] at hfit
  rw [if_neg (by rw [show (flush_popped b).io.ctx = b.io.ctx from rfl, g1]; simp),
    if_neg (by
      rw [show (flush_popped b).io.ctx = b.io.ctx from rfl]
      show ¬ (g b.io.ctx).2.1 < b.cfg.tx_min_free
      omega)] at hfit
  obtain ⟨c, new, buf, a1, a2, a3⟩ := flush_emit_accept A f hA fuel
    ({ flush_popped b with
       io := { (flush_popped b).io with ctx := (g (flush_popped b).io.ctx).2.2 } } : Bpu σ)
    B BPU_RC_OK (jobq_front b) (by exact hf) (by exact g3) (by omega) hB16 (by exact htb) hfuel
  rw [a3] at hfit
  obtain ⟨n, rfl⟩ : ∃ n, fuel = n + 2 := ⟨fuel - 2, by omega⟩
  refine ⟨c, new, buf, a1, a2, ?_⟩
  unfold bpu_flush_jobs
  rw [flush_loop_two (n + 2) n _ _ _ rfl
    (by rw [flush_step_job _ _ _ _ _ (by omega) hp hc0]; exact hfit) rfl
    (by
      unfold flush_step
      simp only []
      split_ifs with h1 h2 h3
      · rfl
      · exact absurd rfl h2
      · rfl
      · exfalso
        apply h3
        show b.jobq.count - 1 = 0
        omega) rfl]
  simp only [Option.map_some']
  have e : b.jobq.count - 1 = 0 := by omega
  simp only [flush_popped, e]

theorem bpu_try_time_us_eq {σ : Type} (b : Bpu σ) :
    ∃ c, (bpu_try_time_us b).1 = { b with io := { b.io with ctx := c } } ∧
      ∀ A : σ → Prop, ClockOk A b.io → A b.io.ctx → A c := by
  unfold bpu_try_time_us
  split
  · exact ⟨b.io.ctx, rfl, fun _ _ h => h⟩
  · rename_i t ht
    simp only []
    refine ⟨(t b.io.ctx).2.2, ?_, fun A hA h => hA t ht _ h⟩
    split_ifs <;> rfl

theorem tick_sample_eq {σ : Type} (b : Bpu σ) (now_us : Nat) :
    ∃ c, (tick_sample b now_us).1 = { b with io := { b.io with ctx := c } } ∧
      ∀ A : σ → Prop, ClockOk A b.io → A b.io.ctx → A c := by
  unfold tick_sample
  split_ifs
  · exact ⟨b.io.ctx, rfl, fun _ _ h => h⟩
  · exact bpu_try_time_us_eq b

theorem tick_finish_eq {σ : Type} (x : Bpu σ) (now_us t0 : Nat) (have_t0 : Bool) :
    ∃ c wl wm,
      tick_finish x now_us t0 have_t0 =
        { x with
          io := { x.io with ctx := c }
          st := { x.st with
                  tick := u32_inc x.st.tick
                  dirty_mask_lo := bpu_dirty_mask x &&& 0xFFFFFFFF
                  dirty_mask_hi := (bpu_dirty_mask x >>> 32) &&& 0xFFFFFFFF
                  work_us_last := wl
                  work_us_max := wm } } ∧
      ∀ A : σ → Prop, ClockOk A x.io → A x.io.ctx → A c := by
  obtain ⟨c, hc, hA⟩ := tick_sample_eq
    ({ x with st := { x.st with
                      tick := u32_inc x.st.tick
                      dirty_mask_lo := bpu_dirty_mask x &&& 0xFFFFFFFF
                      dirty_mask_hi := (bpu_dirty_mask x >>> 32) &&& 0xFFFFFFFF } } : Bpu σ) now_us
  unfold tick_finish
  simp only []
  rw [hc]
  split
  · exact ⟨c, _, _, rfl, hA⟩
  · exact ⟨c, x.st.work_us_last, x.st.work_us_max, rfl, hA⟩

/-- A tick from an initialised state with nothing pending: clock sample,
scheduler, flush with the whole budget, end of tick. -/
theorem bpu_tick_ex_no_pending {σ : Type} (fuel : Nat) (b : Bpu σ) (now_ms now_us : Nat)
    (hm : b.init_magic = BPU_MAGIC) (hp : b.pending_have = 0) :
    bpu_tick_ex fuel b now_ms now_us =
      (bpu_schedule_from_events (tick_sample b now_us).1 now_ms).bind (fun sch =>
        (bpu_flush_jobs fuel sch.1 b.cfg.tx_budget_bytes).map (fun fl =>
          (tick_finish fl.1 now_us (tick_sample b now_us).2.1 (tick_sample b now_us).2.2,
            BPU_RC_OK))) := by
  obtain ⟨c, hc, _⟩ := tick_sample_eq b now_us
  have hp' : (tick_sample b now_us).1.pending_have = 0 := by rw [hc]; exact hp
  have hcfg : (tick_sample b now_us).1.cfg = b.cfg := by rw [hc]
  unfold bpu_tick_ex
  rw [if_neg (by rw [hm]; decide)]
  simp only []
  rw [if_neg (by rw [hp']; decide)]
  simp only [if_true, hcfg]
  cases bpu_schedule_from_events (tick_sample b now_us).1 now_ms with
  | none => rfl
  | some sch =>
    simp only [Option.some_bind]
    cases bpu_flush_jobs fuel sch.1 b.cfg.tx_budget_bytes with
    | none => rfl
    | some fl => rfl

theorem bpu_schedule_from_events_empty {σ : Type} (b : Bpu σ) (now_ms : Nat)
    (h : b.evq.count = 0) : bpu_schedule_from_events b now_ms = some (b, BPU_RC_OK) := by
  unfold bpu_schedule_from_events
  rw [h, sched_loop, bpu_evq_pop_empty b default h]
  rfl

theorem bpu_flush_jobs_zero {σ : Type} (fuel : Nat) (b : Bpu σ) (hf : 1 ≤ fuel) :
    bpu_flush_jobs fuel b 0 = some (b, 0, BPU_RC_OK) := by
  obtain ⟨n, rfl⟩ : ∃ n, fuel = n + 1 := ⟨fuel - 1, by omega⟩
  unfold bpu_flush_jobs
  rw [flush_loop_one (n + 1) n _ { bpu := b, budget_left := 0, rc := BPU_RC_OK, done := true } rfl
    (by unfold flush_step; rfl) rfl]
  rfl

/-- The scheduler on a queue holding one event, with an empty job queue: the
event is popped and its job appended. -/
theorem bpu_schedule_from_events_single {σ : Type} (b : Bpu σ) (now_ms : Nat)
    (he : b.evq.count = 1) (ht : b.evq.tail < 8) (hj : b.jobq.count = 0) :
    bpu_schedule_from_events b now_ms = some
      ({ b with
         evq := { b.evq with tail := (b.evq.tail + 1) % 8, count := 0 }
         jobq := { b.jobq with
                   buf := arr_set b.jobq.buf b.jobq.head (sched_job (b.stack_job b.st.job_in) (b.evq.buf b.evq.tail) now_ms)
                   head := ((b.jobq.head + 1) % 4) % 65536
                   count := 1 }
         st := { sched_aged b.st b.cfg (b.evq.buf b.evq.tail) now_ms with
                 job_in := u32_inc (sched_aged b.st b.cfg (b.evq.buf b.evq.tail) now_ms).job_in
                 ev_out := u32_inc b.st.ev_out } }, BPU_RC_OK) := by
  have hcont : evq_contents b.evq = [b.evq.buf b.evq.tail] := by
    unfold evq_contents
    rw [he]
    show [b.evq.buf (bpu_evr_at b.evq 0)] = _
    unfold bpu_evr_at
    rw [show (b.evq.tail + 0) % 8 % 65536 = b.evq.tail by omega]
  have hpush : ∀ x : Bpu σ, x.jobq.count = 0 → ∀ j : BpuJob,
      bpu_jobq_push_coalesce x j =
        ({ x with
           jobq := { x.jobq with
                     buf := arr_set x.jobq.buf x.jobq.head j
                     head := ((x.jobq.head + 1) % 4) % 65536
                     count := 1 }
           st := { x.st with job_in := u32_inc x.st.job_in } }, BPU_RC_OK) := by
    intro x hx j
    rw [bpu_jobq_push_coalesce_not_merged x j (by omega) (by intro i hi; omega),
      jobq_append_room _ _ (by show x.jobq.count < 4; omega)]
    simp only [hx]
  unfold bpu_schedule_from_events
  rw [he, sched_loop_spec now_ms 1 b BPU_RC_OK he ht, hcont]
  simp only [List.foldl_cons, List.foldl_nil]
  unfold sched_event
  simp only []
  rw [hpush _ (by exact hj)]
  simp only [ne_eq, not_true_eq_false, if_false]
  rfl

/-- With a transport that takes nothing, `bpu_send_pending` makes one call,
counts one backpressure skip and leaves the staged frame where it is. -/
theorem bpu_send_pending_blocked {σ : Type} (Z : σ → Prop)
    (f : σ → (Nat → Nat) → Nat → Nat × Nat × σ) (hZ : Blocks Z f) (fuel : Nat)
    (b : Bpu σ) (B : Nat) (hp : b.pending_have ≠ 0) (hf : b.io.tx_write_some = some f)
    (hZc : Z b.io.ctx) (hpos : b.pending_pos < b.pending_len) (hB : B ≠ 0)
    (hfuel : 1 ≤ fuel) :
    ∃ c call, call.rc = BPU_RC_OK ∧ call.wrote = 0 ∧ call.pos = b.pending_pos ∧
      bpu_send_pending fuel b B = some
        { bpu := { b with
                   io := { b.io with ctx := c }
                   tx_log := b.tx_log ++ [call]
                   st := { b.st with
                           tx_skip_backpressure := u32_inc b.st.tx_skip_backpressure
                           pending_active := 1
                           pending_len := b.pending_len % 4294967296
                           pending_pos := b.pending_pos % 4294967296 } }
          budget_left := B
          progress := false
          rc := BPU_RC_OK } := by
  obtain ⟨n, rfl⟩ : ∃ n, fuel = n + 1 := ⟨fuel - 1, by omega⟩
  obtain ⟨_, _, _, _, w5⟩ := send_want_le b B
  have hw := w5 hB
  have hw0 : send_want b B ≠ 0 := by
    rw [hw]
    split_ifs with hc <;> omega
  obtain ⟨z1, z2⟩ := hZ b.io.ctx (fun k => b.pending_buf (b.pending_pos + k)) (send_want b B) hZc
  have hstep : send_step f
      { bpu := b, budget_left := B, progress := false, done := false, rc := BPU_RC_OK } =
      { bpu := { b with
                 io := { b.io with
                         ctx := (f b.io.ctx (fun k => b.pending_buf (b.pending_pos + k))
                           (send_want b B)).2.2 }
                 tx_log := b.tx_log ++
                   [{ pos := b.pending_pos, plen := b.pending_len, budget := B,
                      want := send_want b B,
                      data := arr_list (fun k => b.pending_buf (b.pending_pos + k))
                        (send_want b B),
                      rc := BPU_RC_OK, wrote := 0 }]
                 st := { b.st with
                         tx_skip_backpressure := u32_inc b.st.tx_skip_backpressure } }
        budget_left := B, progress := false, done := true, rc := BPU_RC_OK } := by
    unfold send_step
    simp only [hw0, if_false, z1, z2, ne_eq, not_true_eq_false, if_true]
  refine ⟨(f b.io.ctx (fun k => b.pending_buf (b.pending_pos + k)) (send_want b B)).2.2,
    { pos := b.pending_pos, plen := b.pending_len, budget := B, want := send_want b B,
      data := arr_list (fun k => b.pending_buf (b.pending_pos + k)) (send_want b B),
      rc := BPU_RC_OK, wrote := 0 }, rfl, rfl, rfl, ?_⟩
  unfold bpu_send_pending
  rw [if_neg hp, hf]
  simp only []
  rw [send_loop, if_pos (by simp [send_cond, hpos]), hstep,
    send_loop_stop f n _ (by simp [send_cond])]
  simp only [Option.map_some']
  unfold send_finish
  simp only [if_true]
  rw [if_neg (by show ¬ b.pending_pos ≥ b.pending_len; omega)]
  simp only [Bool.false_eq_true, if_false]

/-- With a transport that takes nothing, the emit path of `bpu_flush_jobs`
builds the frame, meets backpressure, discards the staged frame and requeues
the job. -/
theorem flush_emit_blocked {σ : Type} (Z : σ → Prop)
    (f : σ → (Nat → Nat) → Nat → Nat × Nat × σ) (hZ : Blocks Z f) (fuel : Nat)
    (x : Bpu σ) (B rc : Nat) (j : BpuJob) (hf : x.io.tx_write_some = some f)
    (hZc : Z x.io.ctx) (hB : B ≠ 0) (hfuel : 1 ≤ fuel) :
    ∃ c call buf jq m d, call.rc = BPU_RC_OK ∧ call.wrote = 0 ∧ call.pos = 0 ∧
      (JobRingWf x.jobq → x.jobq.count < 4 →
        jobq_contents jq = jobq_requeued (jobq_contents x.jobq) j) ∧
      flush_emit fuel x B rc j = some
        { bpu := { x with
                   io := { x.io with ctx := c }
                   tx_log := x.tx_log ++ [call]
                   seq := (x.seq + 1) % 256
                   frames_built := x.frames_built + 1
                   pending_buf := buf
                   pending_len := 0
                   pending_pos := 0
                   pending_have := 0
                   jobq := jq
                   st := { x.st with
                           tx_skip_backpressure :=
                             u32_inc (u32_inc x.st.tx_skip_backpressure)
                           pending_active := 1
                           pending_len := (job_wire_len j + 8) % 4294967296
                           pending_pos := 0
                           job_in := u32_inc x.st.job_in
                           job_merge := m
                           job_drop := d
                           degrade_requeue := u32_inc x.st.degrade_requeue } }
          budget_left := B
          rc := rc
          done := true } := by
  obtain ⟨buf, hb, _, _⟩ := bpu_build_frame_eq x j.type j.payload
    (if j.len > 255 then 255 else j.len % 256)
  have hn : min (if j.len > 255 then 255 else j.len % 256) 64 = job_wire_len j := rfl
  rw [hn] at hb
  obtain ⟨c, call, c1, c2, c3, hs⟩ := bpu_send_pending_blocked Z f hZ fuel
    ({ x with
       seq := (x.seq + 1) % 256
       frames_built := x.frames_built + 1
       pending_buf := buf
       pending_len := job_wire_len j + 8
       pending_pos := 0
       pending_have := 1 } : Bpu σ) B (by show (1 : Nat) ≠ 0; omega) hf hZc
    (by show 0 < job_wire_len j + 8; omega) hB hfuel
  simp only [] at hs c3
  obtain ⟨X, hX⟩ : ∃ X : Bpu σ, X =
      { x with
        io := { x.io with ctx := c }
        tx_log := x.tx_log ++ [call]
        seq := (x.seq + 1) % 256
        frames_built := x.frames_built + 1
        pending_buf := buf
        pending_len := job_wire_len j + 8
        pending_pos := 0
        pending_have := 1
        st := { x.st with
                tx_skip_backpressure := u32_inc x.st.tx_skip_backpressure
                pending_active := 1
                pending_len := (job_wire_len j + 8) % 4294967296
                pending_pos := 0 % 4294967296 } } := ⟨_, rfl⟩
  obtain ⟨m, d, hfr⟩ := flush_requeue_eq X j
  refine ⟨c, call, buf, (flush_requeue X j).jobq, m, d, c1, c2, c3, ?_, ?_⟩
  · intro hwf hc
    have hXq : X.jobq = x.jobq := by rw [hX]
    rw [jobq_contents_requeue X j (by rw [hXq]; exact hwf) (by rw [hXq]; exact hc), hXq]
  · unfold flush_emit
    simp only [hb, hs, ne_eq, not_true_eq_false, if_false, Bool.not_false, if_true]
    rw [← hX]
    unfold inc_tx_skip_backpressure inc_degrade_requeue clear_pending
    rw [hfr, hX]

/-- With nothing pending, a job queued that fits the budget, a transport that
has room but takes nothing: `bpu_flush_jobs` builds one frame, discards it and
requeues the job. -/
theorem bpu_flush_jobs_blocked {σ : Type} (Z : σ → Prop)
    (f : σ → (Nat → Nat) → Nat → Nat × Nat × σ) (g : σ → Nat × Nat × σ) (fuel : Nat)
    (b : Bpu σ) (B : Nat) (hZ : Blocks Z f) (hG : FreeOk Z g b.cfg.tx_min_free)
    (hf : b.io.tx_write_some = some f) (hg : b.io.tx_free = some g) (hZc : Z b.io.ctx)
    (hp : b.pending_have = 0) (hc : b.jobq.count ≠ 0)
    (hw : worst_on_wire (jobq_front b).len ≤ B) (hfuel : 1 ≤ fuel) :
    ∃ c call buf jq m d, call.rc = BPU_RC_OK ∧ call.wrote = 0 ∧ call.pos = 0 ∧
      (JobRingWf b.jobq →
        jobq_contents jq = jobq_requeued (jobq_contents b.jobq).tail (jobq_front b)) ∧
      bpu_flush_jobs fuel b B = some
        ({ b with
           io := { b.io with ctx := c }
           tx_log := b.tx_log ++ [call]
           seq := (b.seq + 1) % 256
           frames_built := b.frames_built + 1
           pending_buf := buf
           pending_len := 0
           pending_pos := 0
           pending_have := 0
           jobq := jq
           st := { b.st with
                   flush_try := u32_inc b.st.flush_try
                   job_out := u32_inc b.st.job_out
                   tx_skip_backpressure := u32_inc (u32_inc b.st.tx_skip_backpressure)
                   pending_active := 1
                   pending_len := (job_wire_len (jobq_front b) + 8) % 4294967296
                   pending_pos := 0
                   job_in := u32_inc b.st.job_in
                   job_merge := m
                   job_drop := d
                   degrade_requeue := u32_inc b.st.degrade_requeue } }, B, BPU_RC_OK) := by
  have hwl := job_wire_len_le (jobq_front b)
  have hB : B ≠ 0 := by omega
  obtain ⟨g1, g2, g3⟩ := hG b.io.ctx hZc
  have hq := tx_free_query_some (flush_popped b) g (by exact hg)
  have hfit := flush_job_fits fuel b B BPU_RC_OK hc hw
  rw [hq] at hfit
  simp only [] at hfit
  rw [if_neg (by rw [show (flush_popped b).io.ctx = b.io.ctx from rfl, g1]; simp),
    if_neg (by
      rw [show (flush_popped b).io.ctx = b.io.ctx from rfl]
      show ¬ (g b.io.ctx).2.1 < b.cfg.tx_min_free
      omega)] at hfit
  obtain ⟨c, call, buf, jq, m, d, c1, c2, c3, c4, c5⟩ := flush_emit_blocked Z f hZ fuel
    ({ flush_popped b with
       io := { (flush_popped b).io with ctx := (g (flush_popped b).io.ctx).2.2 } } : Bpu σ)
    B BPU_RC_OK (jobq_front b) (by exact hf) (by exact g3) hB hfuel
  rw [c5] at hfit
  refine ⟨c, call, buf, jq, m, d, c1, c2, c3, ?_, ?_⟩
  · intro hwf
    obtain ⟨p1, p2, p3⟩ := jobq_contents_popped b hc hwf
    rw [c4 (by exact p2) (by exact p3), p1]
    rfl
  · rw [bpu_flush_jobs_one fuel b B _ hfuel hB hp hc hfit rfl]
    rfl

/-- A tick whose scheduler leaves one job queued and nothing pending, over a
transport that has room and takes everything: the job is framed with the
current `seq` and the whole frame handed over. -/
theorem bpu_tick_ex_emit_accept {σ : Type} (A : σ → Prop)
    (f : σ → (Nat → Nat) → Nat → Nat × Nat × σ) (g : σ → Nat × Nat × σ) (fuel : Nat)
    (b : Bpu σ) (now_ms now_us : Nat) (x : Bpu σ) (rcs : Nat)
    (hm : b.init_magic = BPU_MAGIC) (hp : b.pending_have = 0)
    (hs : bpu_schedule_from_events (tick_sample b now_us).1 now_ms = some (x, rcs))
    (hA : AcceptsAll A f) (hG : FreeOk A g x.cfg.tx_min_free) (hT : ClockOk A x.io)
    (hf : x.io.tx_write_some = some f) (hg : x.io.tx_free = some g) (hAc : A x.io.ctx)
    (hxp : x.pending_have = 0) (hxc : x.jobq.count = 1)
    (hw : worst_on_wire (jobq_front x).len ≤ b.cfg.tx_budget_bytes)
    (hB16 : b.cfg.tx_budget_bytes < 65536) (htb : x.st.tx_bytes < 4294967296)
    (hfuel : job_wire_len (jobq_front x) + 8 < fuel) :
    ∃ r new, bpu_tick_ex fuel b now_ms now_us = some (r, BPU_RC_OK) ∧
      r.tx_log = x.tx_log ++ new ∧
      tx_bytes_of new =
        cobs_blocks []
          (frame_raw (jobq_front x).type x.seq (job_wire_len (jobq_front x))
            (jobq_front x).payload) ++ [0] ∧
      r.st.tx_frame_sent = u32_inc x.st.tx_frame_sent ∧
      r.st.tx_bytes = (x.st.tx_bytes + (job_wire_len (jobq_front x) + 8)) % 4294967296 ∧
      r.st.tx_skip_backpressure = x.st.tx_skip_backpressure ∧
      r.st.degrade_requeue = x.st.degrade_requeue ∧
      r.evq = x.evq ∧ r.jobq.count = 0 ∧
      r.pending_have = 0 ∧ r.pending_len = 0 ∧ r.pending_pos = 0 ∧
      r.seq = (x.seq + 1) % 256 ∧ r.frames_built = x.frames_built + 1 ∧
      A r.io.ctx ∧ r.cfg = x.cfg ∧ r.init_magic = x.init_magic ∧
      r.io.tx_write_some = x.io.tx_write_some ∧ r.io.tx_free = x.io.tx_free ∧
      r.io.time_us = x.io.time_us := by
  obtain ⟨c, new, buf, a1, a2, a3⟩ := bpu_flush_jobs_accept A f g fuel x b.cfg.tx_budget_bytes
    hA hG hf hg hAc hxp hxc hw hB16 htb hfuel
  rw [bpu_tick_ex_no_pending fuel b now_ms now_us hm hp, hs]
  simp only [Option.some_bind, a3, Option.map_some']
  obtain ⟨c', wl, wm, t1, t2⟩ := tick_finish_eq
    ({ x with
       io := { x.io with ctx := c }
       tx_log := x.tx_log ++ new
       seq := (x.seq + 1) % 256
       frames_built := x.frames_built + 1
       pending_buf := buf
       pending_len := 0
       pending_pos := 0
       pending_have := 0
       jobq := { x.jobq with tail := ((x.jobq.tail + 1) % 4) % 65536, count := 0 }
       st := { x.st with
               flush_try := u32_inc x.st.flush_try
               job_out := u32_inc x.st.job_out
               tx_bytes := (x.st.tx_bytes + (job_wire_len (jobq_front x) + 8)) % 4294967296
               tx_frame_sent := u32_inc x.st.tx_frame_sent
               pending_active := 0
               pending_len := 0
               pending_pos := 0
               flush_ok := u32_inc x.st.flush_ok } } : Bpu σ)
    now_us (tick_sample b now_us).2.1 (tick_sample b now_us).2.2
  rw [t1]
  exact ⟨_, new, rfl, rfl, a2, rfl, rfl, rfl, rfl, rfl, rfl, rfl, rfl, rfl, rfl, rfl,
    t2 A (by exact hT) (by exact a1), rfl, rfl, rfl, rfl, rfl⟩

/-- The same tick over a transport that has room but takes nothing: one frame
is built and discarded, the job is requeued. -/
theorem bpu_tick_ex_emit_blocked {σ : Type} (Z : σ → Prop)
    (f : σ → (Nat → Nat) → Nat → Nat × Nat × σ) (g : σ → Nat × Nat × σ) (fuel : Nat)
    (b : Bpu σ) (now_ms now_us : Nat) (x : Bpu σ) (rcs : Nat)
    (hm : b.init_magic = BPU_MAGIC) (hp : b.pending_have = 0)
    (hs : bpu_schedule_from_events (tick_sample b now_us).1 now_ms = some (x, rcs))
    (hZ : Blocks Z f) (hG : FreeOk Z g x.cfg.tx_min_free)
    (hf : x.io.tx_write_some = some f) (hg : x.io.tx_free = some g) (hZc : Z x.io.ctx)
    (hxp : x.pending_have = 0) (hxc : x.jobq.count ≠ 0)
    (hw : worst_on_wire (jobq_front x).len ≤ b.cfg.tx_budget_bytes) (hfuel : 1 ≤ fuel) :
    ∃ r call, bpu_tick_ex fuel b now_ms now_us = some (r, BPU_RC_OK) ∧
      r.tx_log = x.tx_log ++ [call] ∧ call.rc = BPU_RC_OK ∧ call.wrote = 0 ∧ call.pos = 0 ∧
      (JobRingWf x.jobq →
        jobq_contents r.jobq = jobq_requeued (jobq_contents x.jobq).tail (jobq_front x)) ∧
      r.st.tx_frame_sent = x.st.tx_frame_sent ∧
      r.st.tx_bytes = x.st.tx_bytes ∧
      r.st.tx_skip_backpressure = u32_inc (u32_inc x.st.tx_skip_backpressure) ∧
      r.st.degrade_requeue = u32_inc x.st.degrade_requeue ∧
      r.evq = x.evq ∧
      r.pending_have = 0 ∧ r.pending_len = 0 ∧ r.pending_pos = 0 ∧
      r.seq = (x.seq + 1) % 256 ∧ r.frames_built = x.frames_built + 1 ∧
      r.cfg = x.cfg ∧ r.init_magic = x.init_magic ∧
      r.io.tx_write_some = x.io.tx_write_some ∧ r.io.tx_free = x.io.tx_free ∧
      r.io.time_us = x.io.time_us := by
  obtain ⟨c, call, buf, jq, m, d, c1, c2, c3, c4, c5⟩ := bpu_flush_jobs_blocked Z f g fuel x
    b.cfg.tx_budget_bytes hZ hG hf hg hZc hxp hxc hw hfuel
  rw [bpu_tick_ex_no_pending fuel b now_ms now_us hm hp, hs]
  simp only [Option.some_bind, c5, Option.map_some']
  obtain ⟨c', wl, wm, t1, _⟩ := tick_finish_eq
    ({ x with
       io := { x.io with ctx := c }
       tx_log := x.tx_log ++ [call]
       seq := (x.seq + 1) % 256
       frames_built := x.frames_built + 1
       pending_buf := buf
       pending_len := 0
       pending_pos := 0
       pending_have := 0
       jobq := jq
       st := { x.st with
               flush_try := u32_inc x.st.flush_try
               job_out := u32_inc x.st.job_out
               tx_skip_backpressure := u32_inc (u32_inc x.st.tx_skip_backpressure)
               pending_active := 1
               pending_len := (job_wire_len (jobq_front x) + 8) % 4294967296
               pending_pos := 0
               job_in := u32_inc x.st.job_in
               job_merge := m
               job_drop := d
               degrade_requeue := u32_inc x.st.degrade_requeue } } : Bpu σ)
    now_us (tick_sample b now_us).2.1 (tick_sample b now_us).2.2
  rw [t1]
  exact ⟨_, call, rfl, rfl, c1, c2, c3, c4, rfl, rfl, rfl, rfl, rfl, rfl, rfl, rfl, rfl, rfl,
    rfl, rfl, rfl, rfl, rfl⟩

theorem bpu_init_ok_eq {σ : Type} (mem : Bpu σ) (io : BpuIo σ) (cfg : BpuConfig)
    (f : σ → (Nat → Nat) → Nat → Nat × Nat × σ) (g : σ → Nat × Nat × σ)
    (hf : io.tx_write_some = some f) (hg : io.tx_free = some g) :
    (bpu_init mem io cfg).2 = BPU_RC_OK ∧
    (bpu_init mem io cfg).1.io = io ∧ (bpu_init mem io cfg).1.cfg = cfg ∧
    (bpu_init mem io cfg).1.init_magic = BPU_MAGIC ∧
    (bpu_init mem io cfg).1.pending_have = 0 ∧
    (bpu_init mem io cfg).1.evq.count = 0 ∧ (bpu_init mem io cfg).1.evq.head = 0 ∧
    (bpu_init mem io cfg).1.evq.tail = 0 ∧
    (bpu_init mem io cfg).1.jobq.count = 0 ∧ (bpu_init mem io cfg).1.jobq.head = 0 ∧
    (bpu_init mem io cfg).1.jobq.tail = 0 ∧
    (bpu_init mem io cfg).1.seq = 0 ∧
    (bpu_init mem io cfg).1.st.tx_bytes = 0 ∧ (bpu_init mem io cfg).1.st.tx_frame_sent = 0 ∧
    (bpu_init mem io cfg).1.st.tx_skip_backpressure = 0 ∧
    (bpu_init mem io cfg).1.st.degrade_requeue = 0 ∧
    (bpu_init mem io cfg).1.tx_log = mem.tx_log ∧
    (bpu_init mem io cfg).1.frames_built = mem.frames_built := by
  unfold bpu_init
  rw [if_neg (by rw [hg]; simp), if_neg (by rw [hf]; simp)]
  exact ⟨rfl, rfl, rfl, rfl, rfl, rfl, rfl, rfl, rfl, rfl, rfl, rfl, rfl, rfl, rfl, rfl, rfl, rfl⟩

/-- `bpu_push_event` on an initialised state with an empty event queue: the
record goes to the slot at `head`. -/
theorem bpu_push_event_first {σ : Type} (b : Bpu σ) (evt_type : Nat) (payload : Nat → Nat)
    (len now_ms : Nat) (hm : b.init_magic = BPU_MAGIC) (hc : b.evq.count = 0) :
    ∃ st' : BpuStats, st'.tx_bytes = b.st.tx_bytes ∧ st'.tx_frame_sent = b.st.tx_frame_sent ∧
      st'.tx_skip_backpressure = b.st.tx_skip_backpressure ∧
      st'.degrade_requeue = b.st.degrade_requeue ∧
      bpu_push_event b evt_type payload len now_ms =
        ({ b with
           st := st'
           evq := { b.evq with
                    buf := arr_set b.evq.buf b.evq.head
                      (push_event_record b.stack_evt evt_type payload len now_ms)
                    head := (b.evq.head + 1) % 8
                    count := 1 } }, BPU_RC_OK) := by
  have key : ∀ st0 : BpuStats,
      bpu_evq_push_coalesce { b with st := st0 }
          (push_event_record b.stack_evt evt_type payload len now_ms) =
        ({ b with
           st := { st0 with ev_in := u32_inc st0.ev_in }
           evq := { b.evq with
                    buf := arr_set b.evq.buf b.evq.head
                      (push_event_record b.stack_evt evt_type payload len now_ms)
                    head := (b.evq.head + 1) % 8
                    count := 1 } }, BPU_RC_OK) := by
    intro st0
    rw [bpu_evq_push_coalesce_no_scan _ _ (Or.inr (Or.inr (by exact hc))),
      evq_append_room _ _ (by show b.evq.count < 8; omega)]
    simp only [hc]
  unfold bpu_push_event
  rw [if_neg (by rw [hm]; decide)]
  simp only [key, ne_eq, not_true_eq_false, if_false]
  refine ⟨_, ?_, ?_, ?_, ?_, rfl⟩ <;> simp only [] <;> split_ifs <;> rfl

theorem sched_aged_keeps (st : BpuStats) (cfg : BpuConfig) (e : BpuEvent) (now_ms : Nat) :
    (sched_aged st cfg e now_ms).tx_bytes = st.tx_bytes ∧
    (sched_aged st cfg e now_ms).tx_frame_sent = st.tx_frame_sent ∧
    (sched_aged st cfg e now_ms).tx_skip_backpressure = st.tx_skip_backpressure ∧
    (sched_aged st cfg e now_ms).degrade_requeue = st.degrade_requeue := by
  unfold sched_aged
  simp only []
  split_ifs <;> exact ⟨rfl, rfl, rfl, rfl⟩

theorem frame_raw_congr (type seq n : Nat) (p q : Nat → Nat)
    (h : arr_list p n = arr_list q n) : frame_raw type seq n p = frame_raw type seq n q := by
  unfold frame_raw
  simp only [h]

/-- A tick from an initialised state with one event queued, both queues
otherwise empty and nothing pending, over a transport that has room and takes
everything: the event's job is framed with the current `seq` and sent whole. -/
theorem bpu_tick_ex_one_event_accept {σ : Type} (A : σ → Prop)
    (f : σ → (Nat → Nat) → Nat → Nat × Nat × σ) (g : σ → Nat × Nat × σ) (fuel : Nat)
    (b : Bpu σ) (now_ms now_us : Nat)
    (hm : b.init_magic = BPU_MAGIC) (hp : b.pending_have = 0)
    (he : b.evq.count = 1) (ht : b.evq.tail < 8) (hj : b.jobq.count = 0)
    (hjt : b.jobq.tail = b.jobq.head)
    (hA : AcceptsAll A f) (hG : FreeOk A g b.cfg.tx_min_free) (hT : ClockOk A b.io)
    (hf : b.io.tx_write_some = some f) (hg : b.io.tx_free = some g) (hAc : A b.io.ctx)
    (hw : worst_on_wire (sched_job (b.stack_job b.st.job_in) (b.evq.buf b.evq.tail) now_ms).len ≤ b.cfg.tx_budget_bytes)
    (hB16 : b.cfg.tx_budget_bytes < 65536) (htb : b.st.tx_bytes < 4294967296)
    (hfuel : job_wire_len (sched_job (b.stack_job b.st.job_in) (b.evq.buf b.evq.tail) now_ms) + 8 < fuel) :
    ∃ r new, bpu_tick_ex fuel b now_ms now_us = some (r, BPU_RC_OK) ∧
      r.tx_log = b.tx_log ++ new ∧
      tx_bytes_of new =
        cobs_blocks []
          (frame_raw (sched_job (b.stack_job b.st.job_in) (b.evq.buf b.evq.tail) now_ms).type b.seq
            (job_wire_len (sched_job (b.stack_job b.st.job_in) (b.evq.buf b.evq.tail) now_ms))
            (sched_job (b.stack_job b.st.job_in) (b.evq.buf b.evq.tail) now_ms).payload) ++ [0] ∧
      r.st.tx_frame_sent = u32_inc b.st.tx_frame_sent ∧
      r.st.tx_bytes =
        (b.st.tx_bytes + (job_wire_len (sched_job (b.stack_job b.st.job_in) (b.evq.buf b.evq.tail) now_ms) + 8)) %
          4294967296 ∧
      r.evq.count = 0 ∧ r.jobq.count = 0 ∧
      r.pending_have = 0 ∧ r.pending_len = 0 ∧ r.pending_pos = 0 ∧
      r.seq = (b.seq + 1) % 256 ∧ r.frames_built = b.frames_built + 1 ∧ A r.io.ctx := by
  obtain ⟨c0, hc0, hA0⟩ := tick_sample_eq b now_us
  obtain ⟨X, hX⟩ : ∃ X : Bpu σ, X =
      { b with
        io := { b.io with ctx := c0 }
        evq := { b.evq with tail := (b.evq.tail + 1) % 8, count := 0 }
        jobq := { b.jobq with
                  buf := arr_set b.jobq.buf b.jobq.head
                    (sched_job (b.stack_job b.st.job_in) (b.evq.buf b.evq.tail) now_ms)
                  head := ((b.jobq.head + 1) % 4) % 65536
                  count := 1 }
        st := { sched_aged b.st b.cfg (b.evq.buf b.evq.tail) now_ms with
                job_in := u32_inc (sched_aged b.st b.cfg (b.evq.buf b.evq.tail) now_ms).job_in
                ev_out := u32_inc b.st.ev_out } } := ⟨_, rfl⟩
  have hs : bpu_schedule_from_events (tick_sample b now_us).1 now_ms = some (X, BPU_RC_OK) := by
    rw [hc0, hX]
    exact bpu_schedule_from_events_single
      ({ b with io := { b.io with ctx := c0 } } : Bpu σ) now_ms he ht hj
  have hfr : jobq_front X = sched_job (b.stack_job b.st.job_in) (b.evq.buf b.evq.tail) now_ms := by
    rw [hX]
    show arr_set b.jobq.buf b.jobq.head (sched_job (b.stack_job b.st.job_in) (b.evq.buf b.evq.tail) now_ms)
      b.jobq.tail = _
    rw [hjt, arr_set_same]
  obtain ⟨k1, k2, _, _⟩ := sched_aged_keeps b.st b.cfg (b.evq.buf b.evq.tail) now_ms
  have x1 : X.cfg = b.cfg := by rw [hX]
  have x2 : X.io = { b.io with ctx := c0 } := by rw [hX]
  have x3 : X.st.tx_bytes = b.st.tx_bytes := by rw [hX]; exact k1
  have x4 : X.st.tx_frame_sent = b.st.tx_frame_sent := by rw [hX]; exact k2
  have x5 : X.evq.count = 0 := by rw [hX]
  have x6 : X.seq = b.seq := by rw [hX]
  have x7 : X.frames_built = b.frames_built := by rw [hX]
  have x8 : X.tx_log = b.tx_log := by rw [hX]
  obtain ⟨r, new, t1, t2, t3, t4, t5, _, _, t8, t9, t10, t11, t12, t13, t14, t15, _⟩ :=
    bpu_tick_ex_emit_accept A f g fuel b now_ms now_us X BPU_RC_OK hm hp hs hA
      (by rw [x1]; exact hG) (by rw [x2]; exact hT) (by rw [x2]; exact hf)
      (by rw [x2]; exact hg) (by rw [x2]; exact hA0 A hT hAc) (by rw [hX]; exact hp)
      (by rw [hX]) (by rw [hfr]; exact hw) hB16 (by rw [x3]; exact htb)
      (by rw [hfr]; exact hfuel)
  rw [hfr, x6] at t3
  rw [hfr, x3] at t5
  rw [x8] at t2
  rw [x4] at t4
  rw [x6] at t13
  rw [x7] at t14
  exact ⟨r, new, t1, t2, t3, t4, t5, by rw [t8, x5], t9, t10, t11, t12, t13, t14, t15⟩

theorem sched_job_hb_one (j0 : BpuJob) (e0 : BpuEvent) (payload : Nat → Nat) (now_ms t : Nat) :
    (sched_job j0 (push_event_record e0 BPU_EVT_HB payload 1 t) now_ms).type = BPU_JOB_HB ∧
    (sched_job j0 (push_event_record e0 BPU_EVT_HB payload 1 t) now_ms).len = 3 ∧
    arr_list (sched_job j0 (push_event_record e0 BPU_EVT_HB payload 1 t) now_ms).payload 3 =
      [2, 1, payload 0] := by
  refine ⟨rfl, rfl, ?_⟩
  rfl

set_option maxRecDepth 1000000 in
/-- C13. Scenario 1. For any memory handed to `bpu_init`, any configuration
with `12 ≤ tx_budget_bytes` (a 16-bit value) and any transport whose
`tx_free` always reports at least `tx_min_free` and whose `tx_write_some`
always takes every byte offered: `bpu_init` and the push of one HB event with
payload `[0x01]` at `t = 100` return OK, and the tick at `now_ms = 100` (fuel
at least 12, any `now_us`) returns OK having built exactly one frame. The
bytes handed to the transport by that tick are, in order,
`03 B2 03 07 03 02 01 01 5C 16 00`: the output of `bpu_cobs_encode` on the raw
packet `[0xB2, 3, 0, 3, 2, 1, 1, 0x5C, 0x16]` followed by `0x00`, where
`0x165C` is `bpu_crc16_ccitt` of `[3, 0, 3, 2, 1, 1]` (type 3, seq 0, len 3,
payload `[2, 1, 1]`) and the decoder gives the raw packet back. Afterwards
`tx_frame_sent = 1`, `tx_bytes = 11`, both queues are empty, the pending
buffer is empty and `seq = 1`. -/
theorem bpu_tick_ex_emits_hb {σ : Type} (mem : Bpu σ) (io : BpuIo σ) (cfg : BpuConfig)
    (f : σ → (Nat → Nat) → Nat → Nat × Nat × σ) (g : σ → Nat × Nat × σ)
    (payload : Nat → Nat) (fuel now_us : Nat)
    (hf : io.tx_write_some = some f) (hg : io.tx_free = some g)
    (hacc : ∀ c p w, (f c p w).1 = BPU_RC_OK ∧ (f c p w).2.1 = w)
    (hfree : ∀ c, (g c).1 = BPU_RC_OK ∧ cfg.tx_min_free ≤ (g c).2.1)
    (hB : 12 ≤ cfg.tx_budget_bytes) (hB16 : cfg.tx_budget_bytes < 65536)
    (hpl : payload 0 = 1) (hfuel : 12 ≤ fuel) :
    (bpu_init mem io cfg).2 = BPU_RC_OK ∧
    (bpu_push_event (bpu_init mem io cfg).1 BPU_EVT_HB payload 1 100).2 = BPU_RC_OK ∧
    ∃ r new,
      bpu_tick_ex fuel (bpu_push_event (bpu_init mem io cfg).1 BPU_EVT_HB payload 1 100).1
        100 now_us = some (r, BPU_RC_OK) ∧
      r.tx_log = mem.tx_log ++ new ∧
      tx_bytes_of new = [0x03, 0xB2, 0x03, 0x07, 0x03, 0x02, 0x01, 0x01, 0x5C, 0x16, 0x00] ∧
      bpu_crc16_ccitt (arr_of [3, 0, 3, 2, 1, 1]) 6 = 0x165C ∧
      frame_raw 3 0 3 (arr_of [2, 1, 1]) = [0xB2, 3, 0, 3, 2, 1, 1, 0x5C, 0x16] ∧
      tx_bytes_of new =
        arr_list (bpu_cobs_encode (arr_of [0xB2, 3, 0, 3, 2, 1, 1, 0x5C, 0x16]) 9
          (fun _ => 0) 87).2
          (bpu_cobs_encode (arr_of [0xB2, 3, 0, 3, 2, 1, 1, 0x5C, 0x16]) 9 (fun _ => 0) 87).1
          ++ [0] ∧
      cobs_decode (tx_bytes_of new).dropLast = [0xB2, 3, 0, 3, 2, 1, 1, 0x5C, 0x16] ∧
      r.frames_built = mem.frames_built + 1 ∧
      r.st.tx_frame_sent = 1 ∧ r.st.tx_bytes = 11 ∧
      r.evq.count = 0 ∧ r.jobq.count = 0 ∧
      r.pending_have = 0 ∧ r.pending_len = 0 ∧ r.pending_pos = 0 ∧
      r.seq = 1 := by
  obtain ⟨i1, i2, i3, i4, i5, i6, i7, i8, i9, i10, i11, i12, i13, i14, _, _, i17, i18⟩ :=
    bpu_init_ok_eq mem io cfg f g hf hg
  obtain ⟨st1, s1, s2, _, _, hpush⟩ :=
    bpu_push_event_first (bpu_init mem io cfg).1 BPU_EVT_HB payload 1 100 i4 i6
  refine ⟨i1, by rw [hpush], ?_⟩
  rw [hpush]
  simp only []
  generalize (bpu_init mem io cfg).1 = b0 at *
  obtain ⟨j1, j2, j3⟩ := sched_job_hb_one (b0.stack_job st1.job_in) b0.stack_evt payload 100 100
  have hbuf : arr_set b0.evq.buf b0.evq.head (push_event_record b0.stack_evt BPU_EVT_HB payload 1 100)
      b0.evq.tail = push_event_record b0.stack_evt BPU_EVT_HB payload 1 100 := by
    rw [i8, ← i7, arr_set_same]
  have hwl : job_wire_len (sched_job (b0.stack_job st1.job_in)
      (push_event_record b0.stack_evt BPU_EVT_HB payload 1 100) 100) = 3 := by
    unfold job_wire_len
    rw [j2]
    rfl
  obtain ⟨r, new, t1, t2, t3, t4, t5, t6, t7, t8, t9, t10, t11, t12, _⟩ :=
    bpu_tick_ex_one_event_accept (fun _ => True) f g fuel
      ({ b0 with
         st := st1
         evq := { b0.evq with
                  buf := arr_set b0.evq.buf b0.evq.head
                    (push_event_record b0.stack_evt BPU_EVT_HB payload 1 100)
                  head := (b0.evq.head + 1) % 8
                  count := 1 } } : Bpu σ) 100 now_us
      (by exact i4) (by exact i5) rfl (by show b0.evq.tail < 8; omega) (by exact i9)
      (by show b0.jobq.tail = b0.jobq.head; omega)
      (fun c p w _ => ⟨(hacc c p w).1, (hacc c p w).2, trivial⟩)
      (fun c _ => ⟨(hfree c).1, by show b0.cfg.tx_min_free ≤ _; rw [i3]; exact (hfree c).2,
        trivial⟩)
      (fun _ _ _ _ => trivial) (by show b0.io.tx_write_some = _; rw [i2]; exact hf)
      (by show b0.io.tx_free = _; rw [i2]; exact hg) trivial
      (by
        show worst_on_wire (sched_job (b0.stack_job st1.job_in) (arr_set b0.evq.buf b0.evq.head
          (push_event_record b0.stack_evt BPU_EVT_HB payload 1 100) b0.evq.tail) 100).len ≤
            b0.cfg.tx_budget_bytes
        rw [hbuf, j2, i3]
        exact hB)
      (by show b0.cfg.tx_budget_bytes < 65536; rw [i3]; exact hB16)
      (by show st1.tx_bytes < 4294967296; rw [s1, i13]; omega)
      (by
        show job_wire_len (sched_job (b0.stack_job st1.job_in) (arr_set b0.evq.buf b0.evq.head
          (push_event_record b0.stack_evt BPU_EVT_HB payload 1 100) b0.evq.tail) 100) + 8 < fuel
        rw [hbuf, hwl]
        omega)
  have hraw : frame_raw 3 0 3 (arr_of [2, 1, 1]) = [0xB2, 3, 0, 3, 2, 1, 1, 0x5C, 0x16] := by
    decide
  simp only [] at t2 t3 t4 t5 t11 t12
  rw [hbuf, hwl] at t5
  rw [hbuf, hwl, j1, i12,
    frame_raw_congr BPU_JOB_HB 0 3 _ (arr_of [2, 1, 1]) (by rw [j3, hpl]; rfl)] at t3
  have hbytes : tx_bytes_of new =
      [0x03, 0xB2, 0x03, 0x07, 0x03, 0x02, 0x01, 0x01, 0x5C, 0x16, 0x00] := by
    rw [t3]
    decide
  refine ⟨r, new, t1, ?_, hbytes, by decide, hraw, ?_, ?_, ?_, ?_, ?_, t6, t7, t8, t9, t10, ?_⟩
  · rw [t2, i17]
  · rw [hbytes]
    decide
  · rw [hbytes]
    decide
  · rw [t12, i18]
  · rw [t4, s2, i14]
    rfl
  · rw [t5, s1, i13]
  · rw [t11, i12]

set_option maxHeartbeats 4000000 in
set_option maxRecDepth 1000000 in
/-- Instance of `bpu_tick_ex_emits_hb`: zero-filled memory, the transport
`io_accept` and the example configuration (budget 200, `tx_min_free = 96`,
chunks of at most 128 bytes), fuel 201. -/
theorem bpu_tick_ex_emits_hb_witness :
    (io_accept.tx_write_some = some (fun c _ want => (BPU_RC_OK, want, c)) ∧
     io_accept.tx_free = some (fun c => (BPU_RC_OK, 4096, c)) ∧
     12 ≤ cfg_example.tx_budget_bytes ∧ cfg_example.tx_budget_bytes < 65536 ∧
     arr_of [1] 0 = 1 ∧ 12 ≤ 201) ∧
    (∃ r new, bpu_tick_ex 201 bpu_hb_pushed 100 0 = some (r, BPU_RC_OK) ∧
      r.tx_log = [] ++ new ∧
      tx_bytes_of new = [0x03, 0xB2, 0x03, 0x07, 0x03, 0x02, 0x01, 0x01, 0x5C, 0x16, 0x00] ∧
      r.st.tx_frame_sent = 1) ∧
    (bpu_tick_ex 201 bpu_hb_pushed 100 0).map
        (fun r => (r.2, tx_bytes_of r.1.tx_log, r.1.st.tx_frame_sent, r.1.evq.count,
          r.1.jobq.count, r.1.pending_have, r.1.seq)) =
      some (BPU_RC_OK, [3, 178, 3, 7, 3, 2, 1, 1, 92, 22, 0], 1, 0, 0, 0, 1) :=
  ⟨⟨rfl, rfl, by decide, by decide, by decide, by decide⟩,
   (bpu_tick_ex_emits_hb bpu_zeroed io_accept cfg_example
      (fun c _ want => (BPU_RC_OK, want, c)) (fun c => (BPU_RC_OK, 4096, c))
      (arr_of [1]) 201 0 rfl rfl (fun _ _ _ => ⟨rfl, rfl⟩)
      (fun _ => ⟨rfl, show (96 : Nat) ≤ 4096 by decide⟩) (by decide) (by decide) (by decide)
      (by decide)).2.2.imp
     (fun _ h => h.imp (fun _ h => ⟨h.1, h.2.1, h.2.2.1, h.2.2.2.2.2.2.2.2.1⟩)),
   by rfl⟩

theorem flush_skip_budget_st {σ : Type} (y : Bpu σ) (j : BpuJob) :
    (flush_skip_budget y j).st.tx_skip_budget = u32_inc y.st.tx_skip_budget ∧
    (flush_skip_budget y j).st.flush_try = y.st.flush_try ∧
    (flush_skip_budget y j).st.job_out = y.st.job_out ∧
    (y.cfg.enable_degrade ≠ 0 → j.type = BPU_JOB_TELEM →
      (flush_skip_budget y j).st.degrade_drop = u32_inc y.st.degrade_drop ∧
      (flush_skip_budget y j).jobq = y.jobq) := by
  obtain ⟨m, d, e⟩ := flush_requeue_eq
    ({ y with st := { y.st with tx_skip_budget := u32_inc y.st.tx_skip_budget } } : Bpu σ) j
  unfold flush_skip_budget
  simp only []
  by_cases hd : y.cfg.enable_degrade ≠ 0
  · by_cases ht : j.type = BPU_JOB_TELEM
    · rw [if_pos (by exact hd), if_pos ht]
      exact ⟨rfl, rfl, rfl, fun _ _ => ⟨rfl, rfl⟩⟩
    · rw [if_pos (by exact hd), if_neg ht, e]
      exact ⟨rfl, rfl, rfl, fun _ h => absurd h ht⟩
  · rw [if_neg (by exact hd), e]
    exact ⟨rfl, rfl, rfl, fun h _ => absurd h hd⟩

/-- A tick with nothing pending and no event queued, budget 0: the flush loop
stops at its first test and the tick only does its bookkeeping. -/
theorem bpu_tick_ex_zero_budget {σ : Type} (fuel : Nat) (b : Bpu σ) (now_ms now_us : Nat)
    (hm : b.init_magic = BPU_MAGIC) (hp : b.pending_have = 0) (he : b.evq.count = 0)
    (hf : 1 ≤ fuel) (hB : b.cfg.tx_budget_bytes = 0) :
    ∃ c wl wm, bpu_tick_ex fuel b now_ms now_us =
      some ({ b with
              io := { b.io with ctx := c }
              st := { b.st with
                      tick := u32_inc b.st.tick
                      dirty_mask_lo := bpu_dirty_mask b &&& 0xFFFFFFFF
                      dirty_mask_hi := (bpu_dirty_mask b >>> 32) &&& 0xFFFFFFFF
                      work_us_last := wl
                      work_us_max := wm } }, BPU_RC_OK) := by
  obtain ⟨c0, hc0, _⟩ := tick_sample_eq b now_us
  rw [bpu_tick_ex_no_pending fuel b now_ms now_us hm hp,
    bpu_schedule_from_events_empty _ now_ms (by rw [hc0]; exact he), hB]
  simp only [Option.some_bind, bpu_flush_jobs_zero _ _ hf, Option.map_some']
  obtain ⟨c, wl, wm, t1, _⟩ := tick_finish_eq (tick_sample b now_us).1 now_us
    (tick_sample b now_us).2.1 (tick_sample b now_us).2.2
  rw [t1, hc0]
  exact ⟨c, wl, wm, rfl⟩

/-- A tick with nothing pending and no event queued, whose non-zero budget is
below the worst-case size of the job at the front: the job is popped and the
over-budget branch is taken. -/
theorem bpu_tick_ex_short_budget {σ : Type} (fuel : Nat) (b : Bpu σ) (now_ms now_us : Nat)
    (hm : b.init_magic = BPU_MAGIC) (hp : b.pending_have = 0) (he : b.evq.count = 0)
    (hf : 1 ≤ fuel) (hB : b.cfg.tx_budget_bytes ≠ 0) (hc : b.jobq.count ≠ 0)
    (hw : b.cfg.tx_budget_bytes < worst_on_wire (jobq_front b).len) :
    ∃ r, bpu_tick_ex fuel b now_ms now_us = some (r, BPU_RC_OK) ∧
      r.st.tx_skip_budget = u32_inc b.st.tx_skip_budget ∧
      r.st.flush_try = u32_inc b.st.flush_try ∧
      r.st.job_out = u32_inc b.st.job_out ∧
      (b.cfg.enable_degrade ≠ 0 → (jobq_front b).type = BPU_JOB_TELEM →
        r.st.degrade_drop = u32_inc b.st.degrade_drop ∧
        r.jobq = (flush_popped b).jobq) := by
  obtain ⟨c0, hc0, _⟩ := tick_sample_eq b now_us
  obtain ⟨X, hX⟩ : ∃ X : Bpu σ, X = { b with io := { b.io with ctx := c0 } } := ⟨_, rfl⟩
  rw [← hX] at hc0
  have hj := flush_job_skip fuel X b.cfg.tx_budget_bytes BPU_RC_OK (by rw [hX]; exact hc)
    (by rw [hX]; exact hw)
  have hfl := bpu_flush_jobs_one fuel X b.cfg.tx_budget_bytes _ hf hB (by rw [hX]; exact hp)
    (by rw [hX]; exact hc) hj rfl
  rw [bpu_tick_ex_no_pending fuel b now_ms now_us hm hp,
    bpu_schedule_from_events_empty _ now_ms (by rw [hc0, hX]; exact he)]
  simp only [Option.some_bind, hc0, hfl, Option.map_some']
  obtain ⟨c, wl, wm, t1, _⟩ := tick_finish_eq (flush_skip_budget (flush_popped X) (jobq_front X))
    now_us (tick_sample b now_us).2.1 (tick_sample b now_us).2.2
  obtain ⟨k1, k2, k3, k4⟩ := flush_skip_budget_st (flush_popped X) (jobq_front X)
  refine ⟨_, rfl, ?_, ?_, ?_, ?_⟩
  · rw [t1]
    show (flush_skip_budget (flush_popped X) (jobq_front X)).st.tx_skip_budget = _
    rw [k1, hX]
    rfl
  · rw [t1]
    show (flush_skip_budget (flush_popped X) (jobq_front X)).st.flush_try = _
    rw [k2, hX]
    rfl
  · rw [t1]
    show (flush_skip_budget (flush_popped X) (jobq_front X)).st.job_out = _
    rw [k3, hX]
    rfl
  · intro hd ht
    obtain ⟨k5, k6⟩ := k4 (by rw [hX]; exact hd) (by rw [hX]; exact ht)
    rw [t1]
    constructor
    · show (flush_skip_budget (flush_popped X) (jobq_front X)).st.degrade_drop = _
      rw [k5, hX]
      rfl
    · show (flush_skip_budget (flush_popped X) (jobq_front X)).jobq = _
      rw [k6, hX]
      rfl

set_option maxRecDepth 1000000 in
/-- C15 (counterexample). The state `bpu_four_jobs` is reached through the
public calls alone (`bpu_init` with budget 0 and `enable_degrade = 1`, four
`bpu_push_event`, one tick): its job queue holds four jobs of distinct types
with the TELEM job at the front, no event is queued and nothing is pending. A
tick from it returns OK and leaves `tx_skip_budget = 0` (not 1),
`degrade_drop = 0`, `flush_try = 0`, and the same four jobs queued: the TELEM
job is neither popped nor dropped. -/
theorem tick_budget_zero_pops_nothing :
    (bpu_four_jobs.cfg.tx_budget_bytes, bpu_four_jobs.cfg.enable_degrade,
      (jobq_contents bpu_four_jobs.jobq).map (fun j => j.type), bpu_four_jobs.evq.count,
      bpu_four_jobs.pending_have, bpu_four_jobs.st.tx_skip_budget,
      bpu_four_jobs.st.degrade_drop) =
      (0, 1, [BPU_JOB_TELEM, BPU_JOB_HB, BPU_JOB_SENSOR, BPU_JOB_CMD], 0, 0, 0, 0) ∧
    (bpu_tick_ex 1 bpu_four_jobs 101 0).map
        (fun r => (r.2, r.1.st.tx_skip_budget, r.1.st.degrade_drop, r.1.st.flush_try,
          (jobq_contents r.1.jobq).map (fun j => j.type))) =
      some (BPU_RC_OK, 0, 0, 0, [BPU_JOB_TELEM, BPU_JOB_HB, BPU_JOB_SENSOR, BPU_JOB_CMD]) ∧
    ¬ ((bpu_tick_ex 1 bpu_four_jobs 101 0).map (fun r => r.1.st.tx_skip_budget) = some 1) :=
  ⟨by rfl, by rfl, by decide⟩

/-- C15 (amended). A tick from an initialised state with nothing pending and
no event queued (fuel at least 1), whatever the job queue holds, four jobs of
distinct types included. With `cfg.tx_budget_bytes = 0` the tick returns OK
and pops no job: `tx_skip_budget`, `degrade_drop`, `degrade_requeue`,
`flush_try`, `job_out` and the job queue are unchanged. With a budget that is
not 0 but below the worst-case wire size of the job at the front of a
non-empty queue, the tick returns OK, pops that one job (`flush_try` and
`job_out` incremented) and increments `tx_skip_budget`; with
`enable_degrade ≠ 0` a TELEM job at the front is dropped: `degrade_drop` is
incremented and the queue is left as the pop left it, which for a well-formed
ring is the old content without its first job. -/
theorem bpu_tick_ex_budget_short {σ : Type} (fuel : Nat) (b : Bpu σ) (now_ms now_us : Nat)
    (hm : b.init_magic = BPU_MAGIC) (hp : b.pending_have = 0) (he : b.evq.count = 0)
    (hf : 1 ≤ fuel) :
    (b.cfg.tx_budget_bytes = 0 →
      ∃ r, bpu_tick_ex fuel b now_ms now_us = some (r, BPU_RC_OK) ∧
        r.st.tx_skip_budget = b.st.tx_skip_budget ∧
        r.st.degrade_drop = b.st.degrade_drop ∧
        r.st.degrade_requeue = b.st.degrade_requeue ∧
        r.st.flush_try = b.st.flush_try ∧
        r.st.job_out = b.st.job_out ∧
        r.jobq = b.jobq) ∧
    (b.cfg.tx_budget_bytes ≠ 0 → b.jobq.count ≠ 0 →
      b.cfg.tx_budget_bytes < worst_on_wire (jobq_front b).len →
      ∃ r, bpu_tick_ex fuel b now_ms now_us = some (r, BPU_RC_OK) ∧
        r.st.tx_skip_budget = u32_inc b.st.tx_skip_budget ∧
        r.st.flush_try = u32_inc b.st.flush_try ∧
        r.st.job_out = u32_inc b.st.job_out ∧
        (b.cfg.enable_degrade ≠ 0 → (jobq_front b).type = BPU_JOB_TELEM →
          r.st.degrade_drop = u32_inc b.st.degrade_drop ∧
          r.jobq = (flush_popped b).jobq ∧
          (JobRingWf b.jobq → jobq_contents r.jobq = (jobq_contents b.jobq).tail))) := by
  constructor
  · intro hB
    obtain ⟨c, wl, wm, h⟩ := bpu_tick_ex_zero_budget fuel b now_ms now_us hm hp he hf hB
    exact ⟨_, h, rfl, rfl, rfl, rfl, rfl, rfl⟩
  · intro hB hc hw
    obtain ⟨r, h1, h2, h3, h4, h5⟩ :=
      bpu_tick_ex_short_budget fuel b now_ms now_us hm hp he hf hB hc hw
    refine ⟨r, h1, h2, h3, h4, fun hd ht => ⟨(h5 hd ht).1, (h5 hd ht).2, fun hwf => ?_⟩⟩
    rw [(h5 hd ht).2, (jobq_contents_popped b hc hwf).1]
    rfl

set_option maxRecDepth 1000000 in
/-- Instance of `bpu_tick_ex_budget_short` at the four-job queue with the TELEM
job at the front and `enable_degrade = 1`: with budget 0 the counters stay at
0 and the four jobs stay queued; with budget 5 (worst-case size of the TELEM
job: 12) `tx_skip_budget` and `degrade_drop` become 1 and the TELEM job is
gone. -/
theorem bpu_tick_ex_budget_short_witness :
    (bpu_four_jobs.init_magic = BPU_MAGIC ∧ bpu_four_jobs.pending_have = 0 ∧
      bpu_four_jobs.evq.count = 0 ∧ 1 ≤ 1 ∧ bpu_four_jobs.cfg.tx_budget_bytes = 0) ∧
    (∃ r, bpu_tick_ex 1 bpu_four_jobs 101 0 = some (r, BPU_RC_OK) ∧
      r.st.tx_skip_budget = bpu_four_jobs.st.tx_skip_budget ∧
      r.st.degrade_drop = bpu_four_jobs.st.degrade_drop ∧
      r.st.degrade_requeue = bpu_four_jobs.st.degrade_requeue ∧
      r.st.flush_try = bpu_four_jobs.st.flush_try ∧
      r.st.job_out = bpu_four_jobs.st.job_out ∧
      r.jobq = bpu_four_jobs.jobq) ∧
    (bpu_tick_ex 1 bpu_four_jobs_b5 101 0).map
        (fun r => (r.2, r.1.st.tx_skip_budget, r.1.st.degrade_drop, r.1.st.flush_try,
          (jobq_contents r.1.jobq).map (fun j => j.type))) =
      some (BPU_RC_OK, 1, 1, 1, [BPU_JOB_HB, BPU_JOB_SENSOR, BPU_JOB_CMD]) :=
  ⟨⟨by decide, by decide, by decide, by decide, by decide⟩,
   (bpu_tick_ex_budget_short 1 bpu_four_jobs 101 0 (by decide) (by decide) (by decide)
      (by decide)).1 (by decide),
   by rfl⟩

theorem jobq_contents_single (r : BpuJobRing) (hc : r.count = 1) (ht : r.tail < 4) :
    jobq_contents r = [r.buf r.tail] := by
  rw [jobq_contents_pop r 0 hc ht]
  rfl

theorem jobq_single_of_contents (r : BpuJobRing) (j : BpuJob) (ht : r.tail < 4)
    (h : jobq_contents r = [j]) : r.count = 1 ∧ r.buf r.tail = j := by
  have hl : (jobq_contents r).length = r.count := by
    unfold jobq_contents
    rw [List.length_map, List.length_range]
  have hc : r.count = 1 := by
    rw [← hl, h]
    rfl
  rw [jobq_contents_single r hc ht] at h
  exact ⟨hc, (List.cons.inj h).1⟩

theorem jobq_requeued_nil (j : BpuJob) : jobq_requeued [] j = [j] := by
  unfold jobq_requeued
  rw [if_neg (by simp)]
  rfl

theorem clockOk_of_time_us {σ : Type} (A : σ → Prop) (io io2 : BpuIo σ)
    (h : io2.time_us = io.time_us) (hT : ClockOk A io) : ClockOk A io2 := by
  intro t ht
  exact hT t (by rw [← h]; exact ht)

/-- A tick from an initialised state with no event queued, one job queued and
nothing pending, over a transport that has room and takes everything: the job
is framed with the current `seq` and sent whole. -/
theorem bpu_tick_ex_one_job_accept {σ : Type} (A : σ → Prop)
    (f : σ → (Nat → Nat) → Nat → Nat × Nat × σ) (g : σ → Nat × Nat × σ) (fuel : Nat)
    (b : Bpu σ) (now_ms now_us : Nat)
    (hm : b.init_magic = BPU_MAGIC) (hp : b.pending_have = 0)
    (he : b.evq.count = 0) (hc : b.jobq.count = 1)
    (hA : AcceptsAll A f) (hG : FreeOk A g b.cfg.tx_min_free) (hT : ClockOk A b.io)
    (hf : b.io.tx_write_some = some f) (hg : b.io.tx_free = some g) (hAc : A b.io.ctx)
    (hw : worst_on_wire (jobq_front b).len ≤ b.cfg.tx_budget_bytes)
    (hB16 : b.cfg.tx_budget_bytes < 65536) (htb : b.st.tx_bytes < 4294967296)
    (hfuel : job_wire_len (jobq_front b) + 8 < fuel) :
    ∃ r new, bpu_tick_ex fuel b now_ms now_us = some (r, BPU_RC_OK) ∧
      r.tx_log = b.tx_log ++ new ∧
      tx_bytes_of new =
        cobs_blocks []
          (frame_raw (jobq_front b).type b.seq (job_wire_len (jobq_front b))
            (jobq_front b).payload) ++ [0] ∧
      r.st.tx_frame_sent = u32_inc b.st.tx_frame_sent ∧
      r.st.tx_bytes = (b.st.tx_bytes + (job_wire_len (jobq_front b) + 8)) % 4294967296 ∧
      r.st.tx_skip_backpressure = b.st.tx_skip_backpressure ∧
      r.evq.count = 0 ∧ r.jobq.count = 0 ∧
      r.pending_have = 0 ∧ r.pending_len = 0 ∧ r.pending_pos = 0 ∧
      r.seq = (b.seq + 1) % 256 ∧ r.frames_built = b.frames_built + 1 ∧ A r.io.ctx := by
  obtain ⟨c0, hc0, hA0⟩ := tick_sample_eq b now_us
  have hs : bpu_schedule_from_events (tick_sample b now_us).1 now_ms =
      some (({ b with io := { b.io with ctx := c0 } } : Bpu σ), BPU_RC_OK) := by
    rw [hc0]
    exact bpu_schedule_from_events_empty _ now_ms he
  obtain ⟨r, new, t1, t2, t3, t4, t5, t6, _, t8, t9, t10, t11, t12, t13, t14, t15, _⟩ :=
    bpu_tick_ex_emit_accept A f g fuel b now_ms now_us _ _ hm hp hs hA
      (by exact hG) (by exact hT) (by exact hf) (by exact hg) (by exact hA0 A hT hAc)
      (by exact hp) (by exact hc) (by exact hw) hB16 (by exact htb) (by exact hfuel)
  exact ⟨r, new, t1, t2, t3, t4, t5, t6, by rw [t8]; exact he, t9, t10, t11, t12, t13, t14,
    t15⟩

/-- A tick from an initialised state with one event queued, an empty job
queue and nothing pending, over a transport that has room but takes nothing:
the event's job is framed, offered once, and requeued with the pending buffer
cleared. -/
theorem bpu_tick_ex_one_event_blocked {σ : Type} (Z : σ → Prop)
    (f : σ → (Nat → Nat) → Nat → Nat × Nat × σ) (g : σ → Nat × Nat × σ) (fuel : Nat)
    (b : Bpu σ) (now_ms now_us : Nat)
    (hm : b.init_magic = BPU_MAGIC) (hp : b.pending_have = 0)
    (he : b.evq.count = 1) (hj : b.jobq.count = 0) (hwf : RingWf b)
    (hZ : Blocks Z f) (hG : FreeOk Z g b.cfg.tx_min_free) (hT : ClockOk Z b.io)
    (hf : b.io.tx_write_some = some f) (hg : b.io.tx_free = some g) (hZc : Z b.io.ctx)
    (hw : worst_on_wire (sched_job (b.stack_job b.st.job_in) (b.evq.buf b.evq.tail) now_ms).len ≤ b.cfg.tx_budget_bytes)
    (hfuel : 1 ≤ fuel) :
    ∃ r call, bpu_tick_ex fuel b now_ms now_us = some (r, BPU_RC_OK) ∧
      r.tx_log = b.tx_log ++ [call] ∧ call.rc = BPU_RC_OK ∧ call.wrote = 0 ∧ call.pos = 0 ∧
      jobq_contents r.jobq = [sched_job (b.stack_job b.st.job_in) (b.evq.buf b.evq.tail) now_ms] ∧
      r.st.tx_frame_sent = b.st.tx_frame_sent ∧
      r.st.tx_bytes = b.st.tx_bytes ∧
      r.st.tx_skip_backpressure = u32_inc (u32_inc b.st.tx_skip_backpressure) ∧
      r.st.degrade_requeue = u32_inc b.st.degrade_requeue ∧
      r.evq.count = 0 ∧
      r.pending_have = 0 ∧ r.pending_len = 0 ∧ r.pending_pos = 0 ∧
      r.seq = (b.seq + 1) % 256 ∧ r.frames_built = b.frames_built + 1 ∧
      r.cfg = b.cfg ∧ r.init_magic = b.init_magic ∧
      r.io.tx_write_some = b.io.tx_write_some ∧ r.io.tx_free = b.io.tx_free ∧
      r.io.time_us = b.io.time_us ∧ RingWf r := by
  obtain ⟨⟨_, e2, _⟩, ⟨_, q2, q3⟩⟩ := hwf
  have hjt : b.jobq.tail = b.jobq.head := by rw [q3, hj]; omega
  obtain ⟨c0, hc0, hA0⟩ := tick_sample_eq b now_us
  obtain ⟨X, hX⟩ : ∃ X : Bpu σ, X =
      { b with
        io := { b.io with ctx := c0 }
        evq := { b.evq with tail := (b.evq.tail + 1) % 8, count := 0 }
        jobq := { b.jobq with
                  buf := arr_set b.jobq.buf b.jobq.head
                    (sched_job (b.stack_job b.st.job_in) (b.evq.buf b.evq.tail) now_ms)
                  head := ((b.jobq.head + 1) % 4) % 65536
                  count := 1 }
        st := { sched_aged b.st b.cfg (b.evq.buf b.evq.tail) now_ms with
                job_in := u32_inc (sched_aged b.st b.cfg (b.evq.buf b.evq.tail) now_ms).job_in
                ev_out := u32_inc b.st.ev_out } } := ⟨_, rfl⟩
  have hs : bpu_schedule_from_events (tick_sample b now_us).1 now_ms = some (X, BPU_RC_OK) := by
    rw [hc0, hX]
    exact bpu_schedule_from_events_single
      ({ b with io := { b.io with ctx := c0 } } : Bpu σ) now_ms he e2 hj
  have hfr : jobq_front X = sched_job (b.stack_job b.st.job_in) (b.evq.buf b.evq.tail) now_ms := by
    rw [hX]
    show arr_set b.jobq.buf b.jobq.head (sched_job (b.stack_job b.st.job_in) (b.evq.buf b.evq.tail) now_ms)
      b.jobq.tail = _
    rw [hjt, arr_set_same]
  obtain ⟨k1, k2, k3, k4⟩ := sched_aged_keeps b.st b.cfg (b.evq.buf b.evq.tail) now_ms
  have x1 : X.cfg = b.cfg := by rw [hX]
  have x2 : X.io = { b.io with ctx := c0 } := by rw [hX]
  have x3 : X.st.tx_bytes = b.st.tx_bytes := by rw [hX]; exact k1
  have x4 : X.st.tx_frame_sent = b.st.tx_frame_sent := by rw [hX]; exact k2
  have x5 : X.evq.count = 0 := by rw [hX]
  have x6 : X.seq = b.seq := by rw [hX]
  have x7 : X.frames_built = b.frames_built := by rw [hX]
  have x8 : X.tx_log = b.tx_log := by rw [hX]
  have x9 : X.st.tx_skip_backpressure = b.st.tx_skip_backpressure := by rw [hX]; exact k3
  have x10 : X.st.degrade_requeue = b.st.degrade_requeue := by rw [hX]; exact k4
  have x11 : X.init_magic = b.init_magic := by rw [hX]
  have x12 : X.jobq.count = 1 := by rw [hX]
  have x13 : JobRingWf X.jobq := by
    rw [hX]
    refine ⟨?_, ?_, ?_⟩
    · show 1 ≤ 4
      omega
    · exact q2
    · show (b.jobq.head + 1) % 4 % 65536 = (b.jobq.tail + 1) % 4
      rw [hjt]
      omega
  have x14 : X.jobq.tail = b.jobq.tail := by rw [hX]
  have hcont : jobq_contents X.jobq = [sched_job (b.stack_job b.st.job_in) (b.evq.buf b.evq.tail) now_ms] := by
    rw [jobq_contents_single X.jobq x12 (by rw [x14]; exact q2)]
    exact congrArg (fun j => [j]) hfr
  obtain ⟨r, call, t1, t2, t3, t4, t5, t6, t7, t8, t9, t10, t11, t12, t13, t14, t15, t16, t17,
      t18, t19, t20, t21⟩ :=
    bpu_tick_ex_emit_blocked Z f g fuel b now_ms now_us X BPU_RC_OK hm hp hs hZ
      (by rw [x1]; exact hG) (by rw [x2]; exact hf) (by rw [x2]; exact hg)
      (by rw [x2]; exact hA0 Z hT hZc) (by rw [hX]; exact hp) (by rw [x12]; decide)
      (by rw [hfr]; exact hw) hfuel
  have t6b := t6 x13
  rw [hcont, hfr] at t6b
  have hring : RingWf r :=
    bpu_tick_ex_closed ringWf_closed fuel b now_ms now_us (r, BPU_RC_OK) t1
      ⟨⟨by assumption, e2, by assumption⟩, ⟨by assumption, q2, q3⟩⟩
  refine ⟨r, call, t1, by rw [t2, x8], t3, t4, t5, ?_, by rw [t7, x4], by rw [t8, x3],
    by rw [t9, x9], by rw [t10, x10], by rw [t11, x5], t12, t13, t14, by rw [t15, x6],
    by rw [t16, x7], by rw [t17, x1], by rw [t18, x11], by rw [t19, x2], by rw [t20, x2],
    by rw [t21, x2], hring⟩
  rw [t6b]
  exact jobq_requeued_nil _

set_option maxHeartbeats 4000000 in
set_option maxRecDepth 1000000 in
/-- C14 (counterexample). Over the transport `io_valve` with the valve closed,
the tick that follows `bpu_init` and the push of one HB event builds a frame
and offers it once; `tx_write_some` returns OK with 0 bytes written. After
that tick `pending_have` is 0 (not 1): the frame has been discarded and the
job is back in the job queue, with `seq = 1`, `tx_skip_backpressure = 2`,
`degrade_requeue = 1` and `tx_bytes = 0`. Once the host has opened the valve,
the next tick builds a second frame for the job and sends it: the bytes that
reach the transport encode `[0xB2, 3, 1, 3, 2, 1, 1, 0x0D, 0xBC]`, the frame
with `seq = 1` and not the frame staged first (`seq = 0`), and `seq` has
advanced again, to 2, with two frames built for the one job. -/
theorem backpressure_clears_pending :
    bpu_valve_tick.map
        (fun r => (r.2, r.1.tx_log.map (fun c => (c.rc, c.want, c.wrote)), r.1.pending_have,
          r.1.st.tx_skip_backpressure, r.1.st.degrade_requeue, r.1.st.tx_bytes, r.1.seq,
          r.1.frames_built, (jobq_contents r.1.jobq).map (fun j => j.type))) =
      some (BPU_RC_OK, [(BPU_RC_OK, 11, 0)], 0, 2, 1, 0, 1, 1, [BPU_JOB_HB]) ∧
    bpu_valve_after.pending_have ≠ 1 ∧
    (bpu_tick_ex 201 bpu_valve_open 101 0).map
        (fun r => (r.2, tx_bytes_of r.1.tx_log, cobs_decode (tx_bytes_of r.1.tx_log).dropLast,
          r.1.seq, r.1.frames_built, r.1.st.tx_frame_sent, r.1.pending_have,
          r.1.jobq.count)) =
      some (BPU_RC_OK, [10, 0xB2, 3, 1, 3, 2, 1, 1, 0x0D, 0xBC, 0],
        [0xB2, 3, 1, 3, 2, 1, 1, 0x0D, 0xBC], 2, 2, 1, 0, 0) ∧
    ¬ ((bpu_tick_ex 201 bpu_valve_open 101 0).map (fun r => r.1.seq) =
        some bpu_valve_after.seq) :=
  ⟨by rfl, by decide, by rfl, by decide⟩

/-- C14 (amended). A tick from an initialised state with one event queued, an
empty job queue and nothing pending, whose job fits the budget, over a
transport that reports enough free space but whose `tx_write_some` returns OK
with 0 bytes written: the tick returns OK, builds one frame (`seq` advanced by
one) and offers it in a single call that takes nothing, so no byte is written
(`tx_bytes` and `tx_frame_sent` unchanged). After the tick the pending buffer
is cleared (`pending_have = 0`), the job is back in the job queue as its only
entry, `tx_skip_backpressure` has been incremented twice (once in
`bpu_send_pending`, once in `bpu_flush_jobs`) and `degrade_requeue` once. When
the host then puts the transport in a state where it takes every byte offered,
the next tick returns OK, builds a new frame for the same job with the next
sequence number and sends it whole: the bytes taken are the byte-stuffed
encoding of that new frame followed by `0x00`, `tx_frame_sent` is incremented,
`seq` has advanced a second time (two frames were built for the job) and the
queues and the pending buffer are empty. -/
theorem bpu_tick_ex_backpressure_rebuilds {σ : Type} (Z A : σ → Prop)
    (f : σ → (Nat → Nat) → Nat → Nat × Nat × σ) (g : σ → Nat × Nat × σ) (fuel : Nat)
    (b : Bpu σ) (now_ms now_us later_ms later_us : Nat) (c2 : σ)
    (hm : b.init_magic = BPU_MAGIC) (hp : b.pending_have = 0)
    (he : b.evq.count = 1) (hj : b.jobq.count = 0) (hwf : RingWf b)
    (hf : b.io.tx_write_some = some f) (hg : b.io.tx_free = some g)
    (hZ : Blocks Z f) (hGz : FreeOk Z g b.cfg.tx_min_free) (hTz : ClockOk Z b.io)
    (hZc : Z b.io.ctx)
    (hA : AcceptsAll A f) (hGa : FreeOk A g b.cfg.tx_min_free) (hTa : ClockOk A b.io)
    (hAc : A c2)
    (hw : worst_on_wire (sched_job (b.stack_job b.st.job_in) (b.evq.buf b.evq.tail) now_ms).len ≤ b.cfg.tx_budget_bytes)
    (hB16 : b.cfg.tx_budget_bytes < 65536) (htb : b.st.tx_bytes < 4294967296)
    (hfuel : job_wire_len (sched_job (b.stack_job b.st.job_in) (b.evq.buf b.evq.tail) now_ms) + 8 < fuel) :
    ∃ r1 call, bpu_tick_ex fuel b now_ms now_us = some (r1, BPU_RC_OK) ∧
      r1.tx_log = b.tx_log ++ [call] ∧ call.rc = BPU_RC_OK ∧ call.wrote = 0 ∧
      tx_bytes_of [call] = [] ∧
      r1.st.tx_bytes = b.st.tx_bytes ∧ r1.st.tx_frame_sent = b.st.tx_frame_sent ∧
      r1.pending_have = 0 ∧ r1.pending_len = 0 ∧ r1.pending_pos = 0 ∧
      r1.st.tx_skip_backpressure = u32_inc (u32_inc b.st.tx_skip_backpressure) ∧
      r1.st.degrade_requeue = u32_inc b.st.degrade_requeue ∧
      jobq_contents r1.jobq = [sched_job (b.stack_job b.st.job_in) (b.evq.buf b.evq.tail) now_ms] ∧
      r1.evq.count = 0 ∧
      r1.seq = (b.seq + 1) % 256 ∧ r1.frames_built = b.frames_built + 1 ∧
      ∃ r2 new,
        bpu_tick_ex fuel { r1 with io := { r1.io with ctx := c2 } } later_ms later_us =
          some (r2, BPU_RC_OK) ∧
        r2.tx_log = r1.tx_log ++ new ∧
        tx_bytes_of new =
          cobs_blocks []
            (frame_raw (sched_job (b.stack_job b.st.job_in) (b.evq.buf b.evq.tail) now_ms).type ((b.seq + 1) % 256)
              (job_wire_len (sched_job (b.stack_job b.st.job_in) (b.evq.buf b.evq.tail) now_ms))
              (sched_job (b.stack_job b.st.job_in) (b.evq.buf b.evq.tail) now_ms).payload) ++ [0] ∧
        r2.st.tx_frame_sent = u32_inc b.st.tx_frame_sent ∧
        r2.st.tx_skip_backpressure = u32_inc (u32_inc b.st.tx_skip_backpressure) ∧
        r2.seq = ((b.seq + 1) % 256 + 1) % 256 ∧ r2.frames_built = b.frames_built + 2 ∧
        r2.pending_have = 0 ∧ r2.pending_len = 0 ∧ r2.pending_pos = 0 ∧
        r2.evq.count = 0 ∧ r2.jobq.count = 0 := by
  obtain ⟨r1, call, t1, t2, t3, t4, _, t6, t7, t8, t9, t10, t11, t12, t13, t14, t15, t16, t17,
      t18, t19, t20, t21, ⟨_, ⟨_, w2, _⟩⟩⟩ :=
    bpu_tick_ex_one_event_blocked Z f g fuel b now_ms now_us hm hp he hj hwf hZ hGz hTz hf hg
      hZc hw (by omega)
  obtain ⟨q1, q2⟩ := jobq_single_of_contents r1.jobq _ w2 t6
  have hfr : jobq_front ({ r1 with io := { r1.io with ctx := c2 } } : Bpu σ) =
      sched_job (b.stack_job b.st.job_in) (b.evq.buf b.evq.tail) now_ms := q2
  obtain ⟨r2, new, u1, u2, u3, u4, _, u6, u7, u8, u9, u10, u11, u12, u13, _⟩ :=
    bpu_tick_ex_one_job_accept A f g fuel
      ({ r1 with io := { r1.io with ctx := c2 } } : Bpu σ) later_ms later_us
      (by show r1.init_magic = _; rw [t18]; exact hm) (by exact t12) (by exact t11)
      (by exact q1) hA (by show FreeOk A g r1.cfg.tx_min_free; rw [t17]; exact hGa)
      (clockOk_of_time_us A b.io _ (by exact t21) hTa)
      (by show r1.io.tx_write_some = _; rw [t19]; exact hf)
      (by show r1.io.tx_free = _; rw [t20]; exact hg) (by exact hAc)
      (by
        rw [hfr]
        show _ ≤ r1.cfg.tx_budget_bytes
        rw [t17]
        exact hw)
      (by show r1.cfg.tx_budget_bytes < 65536; rw [t17]; exact hB16)
      (by show r1.st.tx_bytes < 4294967296; rw [t8]; exact htb)
      (by rw [hfr]; exact hfuel)
  rw [hfr] at u3
  refine ⟨r1, call, t1, t2, t3, t4, ?_, t8, t7, t12, t13, t14, t9, t10, t6, t11, t15, t16,
    r2, new, u1, u2, ?_, ?_, ?_, ?_, ?_, u9, u10, u11, u7, u8⟩
  · unfold tx_bytes_of
    simp only [List.flatMap_cons, List.flatMap_nil, t3, t4, if_true, List.take_zero,
      List.append_nil]
  · rw [u3]
    show cobs_blocks [] (frame_raw _ r1.seq _ _) ++ [0] = _
    rw [t15]
  · rw [u4]
    show u32_inc r1.st.tx_frame_sent = _
    rw [t7]
  · rw [u6]
    show r1.st.tx_skip_backpressure = _
    rw [t9]
  · rw [u12]
    show (r1.seq + 1) % 256 = _
    rw [t15]
  · rw [u13]
    show r1.frames_built + 1 = _
    rw [t16]

theorem bpu_tick_ex_backpressure_rebuilds_witness :
    (bpu_valve_pushed.init_magic = BPU_MAGIC ∧ bpu_valve_pushed.pending_have = 0 ∧
      bpu_valve_pushed.evq.count = 1 ∧ bpu_valve_pushed.jobq.count = 0 ∧
      RingWf bpu_valve_pushed ∧
      worst_on_wire (sched_job (bpu_valve_pushed.stack_job bpu_valve_pushed.st.job_in) (bpu_valve_pushed.evq.buf bpu_valve_pushed.evq.tail) 100).len ≤
        bpu_valve_pushed.cfg.tx_budget_bytes ∧
      job_wire_len (sched_job (bpu_valve_pushed.stack_job bpu_valve_pushed.st.job_in) (bpu_valve_pushed.evq.buf bpu_valve_pushed.evq.tail) 100) + 8 <
        201) ∧
    (∃ r1 call, bpu_tick_ex 201 bpu_valve_pushed 100 0 = some (r1, BPU_RC_OK) ∧
      r1.tx_log = bpu_valve_pushed.tx_log ++ [call] ∧ call.wrote = 0 ∧
      r1.pending_have = 0 ∧ r1.seq = (bpu_valve_pushed.seq + 1) % 256 ∧
      ∃ r2 new,
        bpu_tick_ex 201 { r1 with io := { r1.io with ctx := 1 } } 101 0 =
          some (r2, BPU_RC_OK) ∧
        r2.seq = ((bpu_valve_pushed.seq + 1) % 256 + 1) % 256 ∧
        r2.frames_built = bpu_valve_pushed.frames_built + 2 ∧
        r2.tx_log = r1.tx_log ++ new) :=
  ⟨⟨by decide, by decide, by decide, by decide,
    ⟨⟨by decide, by decide, by decide⟩, ⟨by decide, by decide, by decide⟩⟩,
    by decide, by decide⟩,
   (bpu_tick_ex_backpressure_rebuilds (fun c => c = 0) (fun c => c ≠ 0)
      (fun c _ want => (BPU_RC_OK, if c = 0 then 0 else want, c))
      (fun c => (BPU_RC_OK, 4096, c)) 201 bpu_valve_pushed 100 0 101 0 1
      (by decide) (by decide) (by decide) (by decide)
      ⟨⟨by decide, by decide, by decide⟩, ⟨by decide, by decide, by decide⟩⟩
      rfl rfl
      (fun c _ _ hc => ⟨rfl, by show (if c = 0 then 0 else _) = 0; rw [if_pos hc]⟩)
      (fun _ hc => ⟨rfl, show (96 : Nat) ≤ 4096 by decide, hc⟩)
      (fun t ht => by
        rw [show bpu_valve_pushed.io.time_us = none from rfl] at ht
        cases ht)
      rfl
      (fun c _ w hc => ⟨rfl, by show (if c = 0 then 0 else w) = w; rw [if_neg hc], hc⟩)
      (fun _ hc => ⟨rfl, show (96 : Nat) ≤ 4096 by decide, hc⟩)
      (fun t ht => by
        rw [show bpu_valve_pushed.io.time_us = none from rfl] at ht
        cases ht)
      (by decide) (by decide) (by decide) (by decide) (by decide)).imp
     (fun _ h => h.imp (fun _ h =>
       ⟨h.1, h.2.1, h.2.2.2.1, h.2.2.2.2.2.2.2.1, h.2.2.2.2.2.2.2.2.2.2.2.2.2.2.1,
        h.2.2.2.2.2.2.2.2.2.2.2.2.2.2.2.2.imp (fun _ h2 => h2.imp (fun _ h2 =>
          ⟨h2.1, h2.2.2.2.2.2.1, h2.2.2.2.2.2.2.1, h2.2.1⟩))⟩))⟩

theorem cobs_blocks_length_le (xs : List Nat) : ∀ pend, pend.length ≤ 253 →
    (cobs_blocks pend xs).length ≤
      pend.length + xs.length + (pend.length + xs.length) / 254 + 1 := by
  induction xs with
  | nil => intro pend _; simp [cobs_blocks]
  | cons x xs ih =>
    intro pend hp
    simp only [List.length_cons]
    unfold cobs_blocks
    split
    · have := ih [] (by simp)
      simp at this ⊢
      omega
    · split
      · have := ih [] (by simp)
        simp at this ⊢
        omega
      · have := ih (pend ++ [x]) (by simp; omega)
        simp at this ⊢
        omega

theorem cobs_step_frame (input : Nat → Nat) (out_max : Nat) (s : CobsSt)
    (h : s.code_index < out_max) :
    (cobs_step input out_max s).code_index < out_max ∧
    ∀ i, out_max ≤ i → (cobs_step input out_max s).output i = s.output i := by
  unfold cobs_step
  by_cases h1 : s.write_index ≥ out_max
  · rw [if_pos h1]
    exact ⟨h, fun _ _ => rfl⟩
  · rw [if_neg h1]
    by_cases h2 : input s.read_index = 0
    · rw [if_pos h2]
      refine ⟨by show s.write_index < out_max; omega, fun i hi => ?_⟩
      show arr_set s.output s.code_index s.code i = _
      rw [arr_set_other _ _ _ _ (by omega)]
    · rw [if_neg h2]
      simp only []
      by_cases h3 : (s.code + 1) % 256 = 0xFF
      · rw [if_pos h3]
        by_cases h4 : s.write_index + 1 ≥ out_max
        · rw [if_pos h4]
          refine ⟨h, fun i hi => ?_⟩
          show arr_set s.output s.write_index (input s.read_index) i = _
          rw [arr_set_other _ _ _ _ (by omega)]
        · rw [if_neg h4]
          refine ⟨by show s.write_index + 1 < out_max; omega, fun i hi => ?_⟩
          show arr_set (arr_set s.output s.write_index (input s.read_index)) s.code_index
            ((s.code + 1) % 256) i = _
          rw [arr_set_other _ _ _ _ (by omega), arr_set_other _ _ _ _ (by omega)]
      · rw [if_neg h3]
        refine ⟨h, fun i hi => ?_⟩
        show arr_set s.output s.write_index (input s.read_index) i = _
        rw [arr_set_other _ _ _ _ (by omega)]

theorem cobs_loop_frame (input : Nat → Nat) (length out_max : Nat) :
    ∀ (fuel : Nat) (s : CobsSt), s.code_index < out_max →
    (cobs_loop input length out_max fuel s).code_index < out_max ∧
    ∀ i, out_max ≤ i → (cobs_loop input length out_max fuel s).output i = s.output i := by
  intro fuel
  induction fuel with
  | zero => intro s h; exact ⟨h, fun _ _ => rfl⟩
  | succ n ih =>
    intro s h
    rw [cobs_loop]
    split_ifs
    · obtain ⟨a1, a2⟩ := cobs_step_frame input out_max s h
      obtain ⟨b1, b2⟩ := ih _ a1
      exact ⟨b1, fun i hi => (b2 i hi).trans (a2 i hi)⟩
    · exact ⟨h, fun _ _ => rfl⟩

/-- `bpu_cobs_encode` stores nothing at an index `≥ out_max`, whether it
succeeds or fails. -/
theorem bpu_cobs_encode_frame (input : Nat → Nat) (length : Nat) (output : Nat → Nat)
    (out_max : Nat) (i : Nat) (hi : out_max ≤ i) :
    (bpu_cobs_encode input length output out_max).2 i = output i := by
  unfold bpu_cobs_encode
  by_cases h0 : out_max = 0
  · rw [if_pos h0]
  · rw [if_neg h0]
    obtain ⟨a1, a2⟩ := cobs_loop_frame input length out_max length
      { output := output, read_index := 0, write_index := 1, code_index := 0, code := 1,
        rc := BPU_RC_OK } (by show 0 < out_max; omega)
    simp only []
    split_ifs
    · exact a2 i hi
    · show arr_set _ _ _ i = _
      rw [arr_set_other _ _ _ _ (by omega)]
      exact a2 i hi
    · exact a2 i hi

/-- The length `bpu_cobs_encode` returns when it succeeds. -/
theorem bpu_cobs_encode_len (input : Nat → Nat) (length : Nat) (output : Nat → Nat)
    (out_max : Nat) (hok : (bpu_cobs_encode input length output out_max).1 ≠ 0) :
    (bpu_cobs_encode input length output out_max).1 =
      (cobs_blocks [] (arr_list input length)).length ∧
    (cobs_blocks [] (arr_list input length)).length ≤ out_max := by
  have spec := bpu_cobs_encode_spec input length output out_max
  by_cases hfit : (cobs_blocks [] (arr_list input length)).length ≤ out_max
  · exact ⟨(spec.1 hfit).1, hfit⟩
  · exact absurd (spec.2 (by omega)) hok

/-- C21. Whenever `bpu_cobs_encode` succeeds (returns a non-zero length) on an
input of `length` bytes, for any input bytes, previous buffer content and
capacity, the returned length is at least `length + 1` and at most
`length + ⌈length / 254⌉ + 1`; it is in fact at most
`length + ⌊length / 254⌋ + 1`. -/
theorem bpu_cobs_encode_length_bound (input : Nat → Nat) (length : Nat) (output : Nat → Nat)
    (out_max : Nat) (hok : (bpu_cobs_encode input length output out_max).1 ≠ 0) :
    length + 1 ≤ (bpu_cobs_encode input length output out_max).1 ∧
    (bpu_cobs_encode input length output out_max).1 ≤ length + (length + 253) / 254 + 1 ∧
    (bpu_cobs_encode input length output out_max).1 ≤ length + length / 254 + 1 := by
  obtain ⟨h1, _⟩ := bpu_cobs_encode_len input length output out_max hok
  have hge := cobs_blocks_length_ge (arr_list input length) []
  have hle := cobs_blocks_length_le (arr_list input length) [] (by simp)
  simp only [List.length_nil, arr_list_length, Nat.zero_add] at hge hle
  rw [h1]
  refine ⟨by omega, by omega, by omega⟩

set_option maxRecDepth 1000000 in
/-- Instance of `bpu_cobs_encode_length_bound`: 64 zero bytes into a buffer of
87 give 65 bytes, the lower bound; 254 bytes `0x11` into a buffer of 300 give
256 bytes, the upper bound. -/
theorem bpu_cobs_encode_length_bound_witness :
    (bpu_cobs_encode (fun _ => 0) 64 (fun _ => 0xAA) 87).1 ≠ 0 ∧
    (64 + 1 ≤ (bpu_cobs_encode (fun _ => 0) 64 (fun _ => 0xAA) 87).1 ∧
      (bpu_cobs_encode (fun _ => 0) 64 (fun _ => 0xAA) 87).1 ≤ 64 + (64 + 253) / 254 + 1 ∧
      (bpu_cobs_encode (fun _ => 0) 64 (fun _ => 0xAA) 87).1 ≤ 64 + 64 / 254 + 1) ∧
    (bpu_cobs_encode (fun _ => 0) 64 (fun _ => 0xAA) 87).1 = 65 ∧
    (bpu_cobs_encode (fun _ => 0x11) 254 (fun _ => 0) 300).1 = 254 + 254 / 254 + 1 :=
  ⟨by decide, bpu_cobs_encode_length_bound _ _ _ _ (by decide), by decide, by decide⟩

/-- C22. Let `n` be the length `bpu_cobs_encode` returns for the input when the
capacity `big` is at least `length + ⌊length / 254⌋ + 1` (enough for every
input of that length): `n` is not 0. For every capacity `out_max` and previous
buffer content: if `n ≤ out_max` the call returns `n` and stores the same `n`
bytes; if `out_max < n`, `out_max = 0` included, it returns 0; hence it
returns 0 exactly when `out_max < n`. In every case the cells at indices
`≥ out_max` are left as they were. -/
theorem bpu_cobs_encode_capacity (input : Nat → Nat) (length : Nat)
    (output output2 : Nat → Nat) (out_max big : Nat)
    (hbig : length + length / 254 + 1 ≤ big) :
    (bpu_cobs_encode input length output2 big).1 ≠ 0 ∧
    ((bpu_cobs_encode input length output2 big).1 ≤ out_max →
      (bpu_cobs_encode input length output out_max).1 =
        (bpu_cobs_encode input length output2 big).1 ∧
      arr_list (bpu_cobs_encode input length output out_max).2
          (bpu_cobs_encode input length output2 big).1 =
        arr_list (bpu_cobs_encode input length output2 big).2
          (bpu_cobs_encode input length output2 big).1) ∧
    (out_max < (bpu_cobs_encode input length output2 big).1 →
      (bpu_cobs_encode input length output out_max).1 = 0) ∧
    ((bpu_cobs_encode input length output out_max).1 = 0 ↔
      out_max < (bpu_cobs_encode input length output2 big).1) ∧
    (∀ i, out_max ≤ i → (bpu_cobs_encode input length output out_max).2 i = output i) := by
  have hge := cobs_blocks_length_ge (arr_list input length) []
  have hle := cobs_blocks_length_le (arr_list input length) [] (by simp)
  simp only [List.length_nil, arr_list_length, Nat.zero_add] at hge hle
  obtain ⟨b1, b2, _⟩ := (bpu_cobs_encode_spec input length output2 big).1 (by omega)
  have spec := bpu_cobs_encode_spec input length output out_max
  rw [b1, b2]
  refine ⟨by omega, fun h => ⟨(spec.1 h).1, (spec.1 h).2.1⟩, spec.2, ⟨fun h => ?_, spec.2⟩,
    fun i hi => bpu_cobs_encode_frame input length output out_max i hi⟩
  by_cases hfit : (cobs_blocks [] (arr_list input length)).length ≤ out_max
  · rw [(spec.1 hfit).1] at h
    omega
  · omega

set_option maxRecDepth 1000000 in
/-- Instance of `bpu_cobs_encode_capacity`: the 3 bytes `[5, 0, 7]` encode to
the 4 bytes `[2, 5, 2, 7]`; capacity 4 is enough, capacities 3 and 0 fail, and
the failing call with capacity 3 leaves cell 3 untouched. -/
theorem bpu_cobs_encode_capacity_witness :
    3 + 3 / 254 + 1 ≤ 10 ∧
    (bpu_cobs_encode (arr_of [5, 0, 7]) 3 (fun _ => 0) 10).1 ≠ 0 ∧
    (bpu_cobs_encode (arr_of [5, 0, 7]) 3 (fun _ => 0) 10).1 = 4 ∧
    ((bpu_cobs_encode (arr_of [5, 0, 7]) 3 (fun _ => 0xAA) 4).1,
      arr_list (bpu_cobs_encode (arr_of [5, 0, 7]) 3 (fun _ => 0xAA) 4).2 5) =
      (4, [2, 5, 2, 7, 0xAA]) ∧
    ((bpu_cobs_encode (arr_of [5, 0, 7]) 3 (fun _ => 0xAA) 3).1,
      arr_list (bpu_cobs_encode (arr_of [5, 0, 7]) 3 (fun _ => 0xAA) 3).2 5) =
      (0, [2, 5, 0xAA, 0xAA, 0xAA]) ∧
    (bpu_cobs_encode (arr_of [5, 0, 7]) 3 (fun _ => 0xAA) 0).1 = 0 :=
  ⟨by decide,
   (bpu_cobs_encode_capacity (arr_of [5, 0, 7]) 3 (fun _ => 0xAA) (fun _ => 0) 3 10
      (by decide)).1,
   by decide, by decide, by decide, by decide⟩

/-- In `flush_emit` everything after the call of `bpu_build_frame` is made of
queue, counter, log and pending-buffer updates. -/
theorem flush_emit_after_build {σ : Type} {R : Bpu σ → Bpu σ → Prop} (hR : QueueClosed R)
    (fuel : Nat) (b : Bpu σ) (B rc : Nat) (j : BpuJob) (s' : FlushSt σ)
    (h : flush_emit fuel b B rc j = some s') :
    R (bpu_build_frame b j.type j.payload (if j.len > 255 then 255 else j.len % 256)).1
      s'.bpu := by
  unfold flush_emit at h
  simp only [] at h
  obtain ⟨b1, _, _⟩ := bpu_build_frame_step b j.type j.payload
    (if j.len > 255 then 255 else j.len % 256) B
  have hq : ∀ x : Bpu σ, R x (inc_degrade_requeue (clear_pending (flush_requeue x j))) :=
    fun x => hR.comp_ok _ _ _ (hR.jobq_push_ok x j)
      (hR.comp_ok _ _ _ (hR.pend_ok _ 0 0 0) (hR.st_ok _ _))
  rw [if_neg (by rw [b1]; simp)] at h
  cases hs : bpu_send_pending fuel
      (bpu_build_frame b j.type j.payload (if j.len > 255 then 255 else j.len % 256)).1 B with
  | none => rw [hs] at h; cases h
  | some r =>
    rw [hs] at h
    have out := bpu_send_pending_closed hR _ _ _ _ hs
    simp only [] at h
    split_ifs at h
    · cases h
      exact hR.comp_ok _ _ _ out (hq _)
    · cases h
      exact hR.comp_ok _ _ _ out (hR.comp_ok _ _ _ (hq _) (hR.st_ok _ _))
    · cases h
      exact hR.comp_ok _ _ _ out (hR.st_ok _ _)

theorem tx_free_query_closed {σ : Type} {R : Bpu σ → Bpu σ → Prop} (hR : QueueClosed R)
    (y : Bpu σ) : R y (tx_free_query y).1 := by
  obtain ⟨c, h⟩ := tx_free_query_eq y
  rw [h]
  exact hR.ctx_ok _ _

theorem flush_popped_closed {σ : Type} {R : Bpu σ → Bpu σ → Prop} (hR : QueueClosed R)
    (b : Bpu σ) (hc : b.jobq.count ≠ 0) : R b (flush_popped b) := by
  have h := hR.comp_ok _ _ _
    (hR.st_ok b { b.st with flush_try := u32_inc b.st.flush_try })
    (hR.jobq_pop_ok { b with st := { b.st with flush_try := u32_inc b.st.flush_try } } default)
  rw [flush_pop_eq b hc] at h
  exact h

/-- The two ways `flush_job` ends on a non-empty queue: without building a
frame, by queue and counter updates only, or through `flush_emit` after the
budget check and the free-space check have passed. -/
theorem flush_job_cases {σ : Type} {R : Bpu σ → Bpu σ → Prop} (hR : QueueClosed R)
    (fuel : Nat) (b : Bpu σ) (B rc : Nat) (s' : FlushSt σ) (hc : b.jobq.count ≠ 0)
    (h : flush_job fuel b B rc = some s') :
    (R b s'.bpu ∧ s'.done = true ∧ s'.budget_left = B) ∨
    (worst_on_wire (jobq_front b).len ≤ B ∧
      (tx_free_query (flush_popped b)).2.2 = BPU_RC_OK ∧
      (tx_free_query (flush_popped b)).1.cfg.tx_min_free ≤ (tx_free_query (flush_popped b)).2.1 ∧
      flush_emit fuel (tx_free_query (flush_popped b)).1 B rc (jobq_front b) = some s') := by
  have hp := flush_popped_closed hR b hc
  have hq := tx_free_query_closed hR (flush_popped b)
  have hr : ∀ x : Bpu σ, R x (inc_degrade_requeue (flush_requeue x (jobq_front b))) :=
    fun x => hR.comp_ok _ _ _ (hR.jobq_push_ok x _) (hR.st_ok _ _)
  by_cases hw : worst_on_wire (jobq_front b).len > B
  · rw [flush_job_skip fuel b B rc hc hw] at h
    cases h
    exact Or.inl ⟨hR.comp_ok _ _ _ hp (flush_skip_budget_closed hR _ _), rfl, rfl⟩
  · rw [flush_job_fits fuel b B rc hc (by omega)] at h
    split_ifs at h with h1 h2
    · cases h
      exact Or.inl ⟨hR.comp_ok _ _ _ hp (hR.comp_ok _ _ _ hq (hr _)), rfl, rfl⟩
    · cases h
      exact Or.inl ⟨hR.comp_ok _ _ _ hp (hR.comp_ok _ _ _ hq
        (hR.comp_ok _ _ _ (hr _) (hR.st_ok _ _))), rfl, rfl⟩
    · exact Or.inr ⟨by omega, by simpa using h1, by omega, h⟩

/-- The ways one round of the loop of `bpu_flush_jobs` ends. -/
theorem flush_step_cases {σ : Type} {R : Bpu σ → Bpu σ → Prop} (hR : QueueClosed R)
    (fuel : Nat) (s s' : FlushSt σ) (h : flush_step fuel s = some s') :
    R s.bpu s'.bpu ∨
    (s.budget_left ≠ 0 ∧ s.bpu.pending_have = 0 ∧ s.bpu.jobq.count ≠ 0 ∧
      worst_on_wire (jobq_front s.bpu).len ≤ s.budget_left ∧
      (tx_free_query (flush_popped s.bpu)).2.2 = BPU_RC_OK ∧
      (tx_free_query (flush_popped s.bpu)).1.cfg.tx_min_free ≤
        (tx_free_query (flush_popped s.bpu)).2.1 ∧
      flush_emit fuel (tx_free_query (flush_popped s.bpu)).1 s.budget_left s.rc
        (jobq_front s.bpu) = some s') := by
  unfold flush_step at h
  split_ifs at h with h1 h2 h3
  · cases h
    exact Or.inl (hR.id_ok _)
  · cases hs : bpu_send_pending fuel s.bpu s.budget_left with
    | none => rw [hs] at h; cases h
    | some r =>
      rw [hs] at h
      have out := bpu_send_pending_closed hR _ _ _ _ hs
      simp only [] at h
      split_ifs at h <;> cases h <;> exact Or.inl out
  · cases h
    exact Or.inl (hR.id_ok _)
  · rcases flush_job_cases hR fuel s.bpu s.budget_left s.rc s' h3 h with hh | hh
    · exact Or.inl hh.1
    · exact Or.inr ⟨h1, by simpa using h2, h3, hh⟩

/-- The frame `bpu_flush_jobs` has `bpu_build_frame` stage for a job is within
one byte of the worst-case estimate, whatever the job's length. -/
theorem build_frame_job_len {σ : Type} (y : Bpu σ) (j : BpuJob) :
    (bpu_build_frame y j.type j.payload (if j.len > 255 then 255 else j.len % 256)).2 =
      BPU_RC_OK ∧
    (bpu_build_frame y j.type j.payload
      (if j.len > 255 then 255 else j.len % 256)).1.pending_len = job_wire_len j + 8 ∧
    (bpu_build_frame y j.type j.payload
      (if j.len > 255 then 255 else j.len % 256)).1.frames_built = y.frames_built + 1 ∧
    job_wire_len j + 8 < worst_on_wire j.len := by
  obtain ⟨buf, h, _, _⟩ := bpu_build_frame_eq y j.type j.payload
    (if j.len > 255 then 255 else j.len % 256)
  rw [h]
  have := job_wire_len_le j
  exact ⟨rfl, rfl, rfl, by omega⟩

/-- C25. For a job `j` with `len ≤ 32` at the front of the job queue, in any
round of the loop of `bpu_flush_jobs`: the worst-case estimate is
`on_wire = (4 + j.len + 2) + ((4 + j.len + 2) / 254 + 2) + 1 = j.len + 9`;
`bpu_build_frame`, called as `bpu_flush_jobs` calls it, succeeds from any state
and stages `pending_len = j.len + 8 ≤ on_wire` bytes, terminator included; and
in that round either no frame is built, or exactly one is, which happens only
with nothing pending, after the estimate has been found to be at most the
remaining budget, so that the staged frame fits the remaining budget. -/
theorem frame_within_estimate {σ : Type} (inner : Nat) (s s' : FlushSt σ)
    (hlen : (jobq_front s.bpu).len ≤ 32) (h : flush_step inner s = some s') :
    worst_on_wire (jobq_front s.bpu).len = (jobq_front s.bpu).len + 9 ∧
    (∀ y : Bpu σ,
      (bpu_build_frame y (jobq_front s.bpu).type (jobq_front s.bpu).payload
        (if (jobq_front s.bpu).len > 255 then 255 else (jobq_front s.bpu).len % 256)).2 =
        BPU_RC_OK ∧
      (bpu_build_frame y (jobq_front s.bpu).type (jobq_front s.bpu).payload
        (if (jobq_front s.bpu).len > 255 then 255
         else (jobq_front s.bpu).len % 256)).1.pending_len = (jobq_front s.bpu).len + 8 ∧
      (bpu_build_frame y (jobq_front s.bpu).type (jobq_front s.bpu).payload
        (if (jobq_front s.bpu).len > 255 then 255
         else (jobq_front s.bpu).len % 256)).1.pending_len ≤
        worst_on_wire (jobq_front s.bpu).len) ∧
    (s'.bpu.frames_built = s.bpu.frames_built ∨
      (s'.bpu.frames_built = s.bpu.frames_built + 1 ∧
        s.bpu.pending_have = 0 ∧ s.bpu.jobq.count ≠ 0 ∧
        worst_on_wire (jobq_front s.bpu).len ≤ s.budget_left ∧
        (bpu_build_frame (tx_free_query (flush_popped s.bpu)).1 (jobq_front s.bpu).type
          (jobq_front s.bpu).payload
          (if (jobq_front s.bpu).len > 255 then 255
           else (jobq_front s.bpu).len % 256)).1.pending_len ≤ s.budget_left)) := by
  have hwl : job_wire_len (jobq_front s.bpu) = (jobq_front s.bpu).len := by
    unfold job_wire_len
    rw [if_neg (by omega)]
    omega
  have hww : worst_on_wire (jobq_front s.bpu).len = (jobq_front s.bpu).len + 9 := by
    unfold worst_on_wire
    simp only []
    omega
  refine ⟨hww, fun y => ?_, ?_⟩
  · obtain ⟨a1, a2, _, _⟩ := build_frame_job_len y (jobq_front s.bpu)
    rw [hwl] at a2
    exact ⟨a1, a2, by rw [a2, hww]; omega⟩
  · rcases flush_step_cases seqKept_closed inner s s' h with hh | ⟨_, c2, c3, c4, _, _, c7⟩
    · exact Or.inl hh.2
    · right
      obtain ⟨_, a2, a3, _⟩ := build_frame_job_len (tx_free_query (flush_popped s.bpu)).1
        (jobq_front s.bpu)
      have k := flush_emit_after_build seqKept_closed inner _ _ _ _ _ c7
      have k1 := seqKept_closed.comp_ok _ _ _ (flush_popped_closed seqKept_closed s.bpu c3)
        (tx_free_query_closed seqKept_closed (flush_popped s.bpu))
      refine ⟨?_, c2, c3, c4, ?_⟩
      · rw [k.2, a3, k1.2]
      · rw [a2, hwl]
        omega

set_option maxRecDepth 1000000 in
/-- Instance of `frame_within_estimate`: for the HB job with `len = 2` the
estimate is 11, the round builds one frame of 10 bytes and the budget goes
from 200 to 190. -/
theorem frame_within_estimate_witness :
    (jobq_front (bpu_one_job io_accept)).len ≤ 32 ∧
    (∃ s', flush_step_example = some s' ∧
      worst_on_wire (jobq_front (bpu_one_job io_accept)).len =
        (jobq_front (bpu_one_job io_accept)).len + 9 ∧
      (s'.bpu.frames_built = (bpu_one_job io_accept).frames_built ∨
        (s'.bpu.frames_built = (bpu_one_job io_accept).frames_built + 1 ∧
          (bpu_one_job io_accept).pending_have = 0 ∧
          (bpu_one_job io_accept).jobq.count ≠ 0 ∧
          worst_on_wire (jobq_front (bpu_one_job io_accept)).len ≤ 200 ∧
          (bpu_build_frame (tx_free_query (flush_popped (bpu_one_job io_accept))).1
            (jobq_front (bpu_one_job io_accept)).type
            (jobq_front (bpu_one_job io_accept)).payload
            (if (jobq_front (bpu_one_job io_accept)).len > 255 then 255
             else (jobq_front (bpu_one_job io_accept)).len % 256)).1.pending_len ≤ 200))) ∧
    flush_step_example.map
        (fun s => (s.bpu.frames_built, s.budget_left, s.bpu.pending_have,
          worst_on_wire (jobq_front (bpu_one_job io_accept)).len)) =
      some (1, 190, 0, 11) :=
  ⟨by decide,
   (Option.isSome_iff_exists.mp (show flush_step_example.isSome = true by decide)).imp
     (fun s' h =>
       ⟨h, (frame_within_estimate 201 _ s' (by decide) h).1,
        (frame_within_estimate 201 _ s' (by decide) h).2.2⟩),
   by rfl⟩

theorem bpu_bit64_eq (n : Nat) (h : n ≤ 63) : bpu_bit64 n = 2 ^ n := by
  unfold bpu_bit64
  have hlt : 2 ^ n < 2 ^ 64 := Nat.pow_lt_pow_right (by decide) (by omega)
  rw [if_pos (by omega), Nat.shiftLeft_eq, Nat.one_mul]
  exact Nat.mod_eq_of_lt hlt

theorem dirty_add_testBit (m : Nat) (j : BpuJob) (t : Nat) :
    (dirty_add m j).testBit t = (m.testBit t || decide (1 ≤ t ∧ t ≤ 63 ∧ j.type = t)) := by
  unfold dirty_add
  by_cases h : j.type ≥ 1 ∧ j.type ≤ 63
  · rw [if_pos h, Nat.testBit_or, bpu_bit64_eq _ h.2, Nat.testBit_two_pow]
    congr 1
    by_cases ht : j.type = t
    · subst ht
      simp [h.1, h.2]
    · simp [ht]
  · rw [if_neg h]
    have : decide (1 ≤ t ∧ t ≤ 63 ∧ j.type = t) = false := by
      simp only [decide_eq_false_iff_not]
      intro hh
      exact h (by omega)
    rw [this, Bool.or_false]

theorem dirty_add_lt (m : Nat) (j : BpuJob) (h : m < 2 ^ 64) : dirty_add m j < 2 ^ 64 := by
  unfold dirty_add
  split_ifs with hc
  · rw [bpu_bit64_eq _ hc.2]
    exact Nat.or_lt_two_pow h (Nat.pow_lt_pow_right (by decide) (by omega))
  · exact h

theorem dirty_fold_testBit (t : Nat) : ∀ (l : List BpuJob) (m : Nat),
    (l.foldl dirty_add m).testBit t =
      (m.testBit t || decide (1 ≤ t ∧ t ≤ 63 ∧ ∃ j ∈ l, j.type = t)) := by
  intro l
  induction l with
  | nil => intro m; simp
  | cons j l ih =>
    intro m
    rw [List.foldl_cons, ih, dirty_add_testBit, Bool.or_assoc]
    congr 1
    by_cases h1 : 1 ≤ t ∧ t ≤ 63
    · by_cases h2 : j.type = t
      · simp [h1, h2]
      · simp [h1, h2]
    · have e1 : ¬ (1 ≤ t ∧ t ≤ 63 ∧ j.type = t) := fun h => h1 ⟨h.1, h.2.1⟩
      have e2 : ¬ (1 ≤ t ∧ t ≤ 63 ∧ ∃ x ∈ l, x.type = t) := fun h => h1 ⟨h.1, h.2.1⟩
      have e3 : ¬ (1 ≤ t ∧ t ≤ 63 ∧ ∃ x ∈ j :: l, x.type = t) := fun h => h1 ⟨h.1, h.2.1⟩
      simp only [e1, e2, e3, decide_False, Bool.or_false]

theorem dirty_fold_lt : ∀ (l : List BpuJob) (m : Nat), m < 2 ^ 64 →
    l.foldl dirty_add m < 2 ^ 64 := by
  intro l
  induction l with
  | nil => intro m h; exact h
  | cons j l ih => intro m h; exact ih _ (dirty_add_lt m j h)

/-- `bpu_dirty_mask` as a fold over the queued jobs in pop order. -/
theorem bpu_dirty_mask_eq {σ : Type} (b : Bpu σ) :
    bpu_dirty_mask b =
      if b.pending_have ≠ 0 then (jobq_contents b.jobq).foldl dirty_add 0 ||| bpu_bit64 63
      else (jobq_contents b.jobq).foldl dirty_add 0 := by
  unfold bpu_dirty_mask jobq_contents
  simp only [List.foldl_map]
  rfl

/-- The bits of `bpu_dirty_mask`. -/
theorem bpu_dirty_mask_testBit {σ : Type} (b : Bpu σ) (t : Nat) :
    ((bpu_dirty_mask b).testBit t = true ↔
      (1 ≤ t ∧ t ≤ 63 ∧ ∃ j ∈ jobq_contents b.jobq, j.type = t) ∨
      (t = 63 ∧ b.pending_have ≠ 0)) ∧
    bpu_dirty_mask b < 2 ^ 64 := by
  rw [bpu_dirty_mask_eq]
  have hl := dirty_fold_lt (jobq_contents b.jobq) 0 (by decide)
  by_cases hp : b.pending_have ≠ 0
  · rw [if_pos hp, Nat.testBit_or, dirty_fold_testBit, bpu_bit64_eq 63 (by decide),
      Nat.testBit_two_pow]
    refine ⟨?_, Nat.or_lt_two_pow hl (by decide)⟩
    simp only [Nat.zero_testBit, Bool.false_or, Bool.or_eq_true, decide_eq_true_eq]
    constructor
    · rintro (h | h)
      · exact Or.inl h
      · exact Or.inr ⟨h.symm, hp⟩
    · rintro (h | h)
      · exact Or.inl h
      · exact Or.inr h.1.symm
  · rw [if_neg hp, dirty_fold_testBit]
    refine ⟨?_, hl⟩
    simp only [Nat.zero_testBit, Bool.false_or, decide_eq_true_eq]
    constructor
    · intro h
      exact Or.inl h
    · rintro (h | h)
      · exact h
      · exact absurd h.2 hp

/-- The two 32-bit halves stored by `bpu_tick_ex` put together give the mask. -/
theorem dirty_halves (d : Nat) (h : d < 2 ^ 64) :
    ((d >>> 32) &&& 0xFFFFFFFF) * 2 ^ 32 + (d &&& 0xFFFFFFFF) = d ∧
    d &&& 0xFFFFFFFF < 2 ^ 32 ∧ (d >>> 32) &&& 0xFFFFFFFF < 2 ^ 32 := by
  have e1 : d &&& 0xFFFFFFFF = d % 2 ^ 32 := Nat.and_pow_two_sub_one_eq_mod d 32
  have e2 : (d >>> 32) &&& 0xFFFFFFFF = (d >>> 32) % 2 ^ 32 :=
    Nat.and_pow_two_sub_one_eq_mod (d >>> 32) 32
  rw [e1, e2, Nat.shiftRight_eq_div_pow]
  have h3 : d / 2 ^ 32 < 2 ^ 32 := by
    rw [Nat.div_lt_iff_lt_mul (by decide)]
    exact h
  rw [Nat.mod_eq_of_lt h3]
  refine ⟨?_, Nat.mod_lt _ (by decide), h3⟩
  rw [Nat.mul_comm]
  exact Nat.div_add_mod d (2 ^ 32)

/-- Every return of `bpu_tick_ex` on an initialised BPU goes through
`tick_finish`: either the initial `bpu_send_pending` failed and the status is
ERR, or the scheduler and the flush ran and the status is OK. -/
theorem bpu_tick_ex_cases {σ : Type} (fuel : Nat) (b : Bpu σ) (now_ms now_us : Nat)
    (r : Bpu σ × Nat) (hm : b.init_magic = BPU_MAGIC)
    (h : bpu_tick_ex fuel b now_ms now_us = some r) :
    (b.pending_have ≠ 0 ∧
      ∃ sr, bpu_send_pending fuel (tick_sample b now_us).1 b.cfg.tx_budget_bytes = some sr ∧
        sr.rc ≠ BPU_RC_OK ∧
        r = (tick_finish sr.bpu now_us (tick_sample b now_us).2.1 (tick_sample b now_us).2.2,
          BPU_RC_ERR)) ∨
    (∃ y B sch fl,
      ((b.pending_have = 0 ∧ y = (tick_sample b now_us).1 ∧ B = b.cfg.tx_budget_bytes) ∨
       (b.pending_have ≠ 0 ∧
        ∃ sr, bpu_send_pending fuel (tick_sample b now_us).1 b.cfg.tx_budget_bytes = some sr ∧
          sr.rc = BPU_RC_OK ∧ y = sr.bpu ∧ B = sr.budget_left)) ∧
      bpu_schedule_from_events y now_ms = some sch ∧
      bpu_flush_jobs fuel sch.1 B = some fl ∧
      r = (tick_finish fl.1 now_us (tick_sample b now_us).2.1 (tick_sample b now_us).2.2,
        BPU_RC_OK)) := by
  obtain ⟨c0, hc0, _⟩ := tick_sample_eq b now_us
  have hph : (tick_sample b now_us).1.pending_have = b.pending_have := by rw [hc0]
  have hcfg : (tick_sample b now_us).1.cfg = b.cfg := by rw [hc0]
  unfold bpu_tick_ex at h
  rw [if_neg (by rw [hm]; decide)] at h
  simp only [] at h
  rw [hcfg, hph] at h
  by_cases hp : b.pending_have ≠ 0
  · rw [if_pos hp] at h
    cases hs : bpu_send_pending fuel (tick_sample b now_us).1 b.cfg.tx_budget_bytes with
    | none => rw [hs] at h; simp at h
    | some sr =>
      rw [hs] at h
      simp only [Option.map_some'] at h
      by_cases hrc : sr.rc ≠ BPU_RC_OK
      · rw [if_pos hrc, if_neg (by decide)] at h
        cases h
        exact Or.inl ⟨hp, sr, rfl, hrc, rfl⟩
      · rw [if_neg hrc, if_pos rfl] at h
        cases hsch : bpu_schedule_from_events sr.bpu now_ms with
        | none => rw [hsch] at h; simp at h
        | some sch =>
          rw [hsch] at h
          simp only [] at h
          cases hfl : bpu_flush_jobs fuel sch.1 sr.budget_left with
          | none => rw [hfl] at h; simp at h
          | some fl =>
            rw [hfl] at h
            cases h
            exact Or.inr ⟨sr.bpu, sr.budget_left, sch, fl,
              Or.inr ⟨hp, sr, rfl, by simpa using hrc, rfl, rfl⟩, hsch, hfl, rfl⟩
  · rw [if_neg hp] at h
    simp only [if_true] at h
    cases hsch : bpu_schedule_from_events (tick_sample b now_us).1 now_ms with
    | none => rw [hsch] at h; simp at h
    | some sch =>
      rw [hsch] at h
      simp only [] at h
      cases hfl : bpu_flush_jobs fuel sch.1 b.cfg.tx_budget_bytes with
      | none => rw [hfl] at h; simp at h
      | some fl =>
        rw [hfl] at h
        cases h
        exact Or.inr ⟨_, _, sch, fl, Or.inl ⟨by simpa using hp, rfl, rfl⟩, hsch, hfl, rfl⟩

theorem bpu_tick_ex_finish {σ : Type} (fuel : Nat) (b : Bpu σ) (now_ms now_us : Nat)
    (r : Bpu σ × Nat) (hm : b.init_magic = BPU_MAGIC)
    (h : bpu_tick_ex fuel b now_ms now_us = some r) :
    ∃ x t0 h0, r.1 = tick_finish x now_us t0 h0 := by
  rcases bpu_tick_ex_cases fuel b now_ms now_us r hm h with ⟨_, sr, _, _, e⟩ |
    ⟨_, _, _, fl, _, _, _, e⟩
  · exact ⟨sr.bpu, _, _, by rw [e]⟩
  · exact ⟨fl.1, _, _, by rw [e]⟩

/-- C24. On an initialised BPU, `bpu_tick_ex` returns for every well-behaved
transport (fuel `tx_budget_bytes + 1`), and after every return of it the
64-bit value `dirty_mask_hi : dirty_mask_lo` (both halves are 32-bit values)
has bit `t` set if and only if `1 ≤ t ≤ 63` and some job in the job queue at
the end of the tick has type `t`, or `t = 63` and the pending buffer is
occupied at the end of the tick. In particular bit 0 and the bits from 64 on
are never set. -/
theorem tick_dirty_mask {σ : Type} (fuel : Nat) (b : Bpu σ) (now_ms now_us : Nat)
    (r : Bpu σ × Nat) (hm : b.init_magic = BPU_MAGIC)
    (h : bpu_tick_ex fuel b now_ms now_us = some r) :
    (WellBehaved b.io →
      ∃ r0, bpu_tick_ex (b.cfg.tx_budget_bytes + 1) b now_ms now_us = some r0) ∧
    r.1.st.dirty_mask_lo < 2 ^ 32 ∧ r.1.st.dirty_mask_hi < 2 ^ 32 ∧
    (∀ t, (r.1.st.dirty_mask_hi * 2 ^ 32 + r.1.st.dirty_mask_lo).testBit t = true ↔
      (1 ≤ t ∧ t ≤ 63 ∧ ∃ j ∈ jobq_contents r.1.jobq, j.type = t) ∨
      (t = 63 ∧ r.1.pending_have ≠ 0)) ∧
    (r.1.st.dirty_mask_hi * 2 ^ 32 + r.1.st.dirty_mask_lo).testBit 0 = false := by
  obtain ⟨x, t0, h0, e⟩ := bpu_tick_ex_finish fuel b now_ms now_us r hm h
  obtain ⟨c, wl, wm, e2, _⟩ := tick_finish_eq x now_us t0 h0
  rw [e2] at e
  obtain ⟨d1, d2, d3⟩ := dirty_halves (bpu_dirty_mask x) (bpu_dirty_mask_testBit x 0).2
  have hbits : ∀ t, (r.1.st.dirty_mask_hi * 2 ^ 32 + r.1.st.dirty_mask_lo).testBit t = true ↔
      (1 ≤ t ∧ t ≤ 63 ∧ ∃ j ∈ jobq_contents r.1.jobq, j.type = t) ∨
      (t = 63 ∧ r.1.pending_have ≠ 0) := by
    intro t
    rw [e]
    show (((bpu_dirty_mask x >>> 32) &&& 0xFFFFFFFF) * 2 ^ 32 +
      (bpu_dirty_mask x &&& 0xFFFFFFFF)).testBit t = true ↔
      (1 ≤ t ∧ t ≤ 63 ∧ ∃ j ∈ jobq_contents x.jobq, j.type = t) ∨
      (t = 63 ∧ x.pending_have ≠ 0)
    rw [d1]
    exact (bpu_dirty_mask_testBit x t).1
  refine ⟨fun hw => bpu_tick_ex_total b now_ms now_us hw, ?_, ?_, hbits, ?_⟩
  · rw [e]
    exact d2
  · rw [e]
    exact d3
  · cases hb : (r.1.st.dirty_mask_hi * 2 ^ 32 + r.1.st.dirty_mask_lo).testBit 0 with
    | false => rfl
    | true =>
      rcases (hbits 0).1 hb with hh | hh
      · omega
      · omega

set_option maxRecDepth 1000000 in
/-- Instance of `tick_dirty_mask`. After the tick from `bpu_four_events`
(budget 0) the job queue holds jobs of types 4, 3, 2, 1 and nothing is
pending: the mask is `0x1E`. After the tick from `bpu_room_pushed` (the
transport takes 4 bytes) the job queue is empty and the pending buffer is
occupied: the mask is bit 63 alone. -/
theorem tick_dirty_mask_witness :
    bpu_four_events.init_magic = BPU_MAGIC ∧
    (∃ r, bpu_four_tick = some r ∧
      r.1.st.dirty_mask_lo < 2 ^ 32 ∧ r.1.st.dirty_mask_hi < 2 ^ 32 ∧
      (r.1.st.dirty_mask_hi * 2 ^ 32 + r.1.st.dirty_mask_lo).testBit 0 = false) ∧
    bpu_four_tick.map
        (fun r => (r.1.st.dirty_mask_hi, r.1.st.dirty_mask_lo,
          (jobq_contents r.1.jobq).map (fun j => j.type), r.1.pending_have)) =
      some (0, 0x1E, [4, 3, 2, 1], 0) ∧
    bpu_room_tick.map
        (fun r => (r.1.st.dirty_mask_hi, r.1.st.dirty_mask_lo,
          (jobq_contents r.1.jobq).map (fun j => j.type), r.1.pending_have)) =
      some (0x80000000, 0, [], 1) :=
  ⟨by decide,
   (Option.isSome_iff_exists.mp (show bpu_four_tick.isSome = true by decide)).imp
     (fun r h =>
       ⟨h, (tick_dirty_mask 1 bpu_four_events 100 0 r (by decide) h).2.1,
        (tick_dirty_mask 1 bpu_four_events 100 0 r (by decide) h).2.2.1,
        (tick_dirty_mask 1 bpu_four_events 100 0 r (by decide) h).2.2.2.2⟩),
   by rfl, by rfl⟩

theorem send_after_self {σ : Type} (b : Bpu σ) :
    b = send_after b b.io.ctx [] b.pending_pos b.st.tx_bytes false := by
  unfold send_after
  simp only [List.append_nil, Bool.false_eq_true, if_false]

theorem sendTrace_same {σ : Type} (s s' : SendSt σ) (hb : s'.bpu = s.bpu)
    (hB : s'.budget_left = s.budget_left) (hp : s'.progress = s.progress)
    (hrc : s'.rc = BPU_RC_OK) : SendTrace s s' := by
  refine ⟨[], none, s.bpu.io.ctx, by simp, by simp, ?_, ?_, ?_, ?_, ?_⟩
  · rw [hb]
    simpa using send_after_self s.bpu
  · rw [hrc]
    simp
  · rw [hp]
    simp
  · intro _
    rw [hb]
    exact ⟨hB, rfl, rfl⟩
  · intro _ _ _ htb
    rw [hb, hB, tx_written_nil]
    exact ⟨rfl, rfl, (Nat.mod_eq_of_lt htb).symm, fun h => h⟩

/-- A call that ends the drain loop, alone in the trace. -/
theorem sendTrace_last {σ : Type} (s s' : SendSt σ) (call : TxCall) (c : σ)
    (hcall : call.rc ≠ BPU_RC_OK ∨ call.wrote = 0)
    (hb : s'.bpu = send_after s.bpu c [call] s.bpu.pending_pos s.bpu.st.tx_bytes
      (decide (call.rc = BPU_RC_OK)))
    (hB : s'.budget_left = s.budget_left) (hp : s'.progress = s.progress)
    (hrc : s'.rc = if call.rc ≠ BPU_RC_OK then BPU_RC_ERR else BPU_RC_OK) :
    SendTrace s s' := by
  have e1 : (∃ x, some call = some x ∧ x.rc = BPU_RC_OK) ↔ call.rc = BPU_RC_OK := by
    constructor
    · rintro ⟨x, hx, hxr⟩
      cases hx
      exact hxr
    · intro h
      exact ⟨call, rfl, h⟩
  have e2 : (∃ x, some call = some x ∧ x.rc ≠ BPU_RC_OK) ↔ call.rc ≠ BPU_RC_OK := by
    constructor
    · rintro ⟨x, hx, hxr⟩
      cases hx
      exact hxr
    · intro h
      exact ⟨call, rfl, h⟩
  have hpos : s'.bpu.pending_pos = s.bpu.pending_pos := by rw [hb]; rfl
  have htb : s'.bpu.st.tx_bytes = s.bpu.st.tx_bytes := by rw [hb]; rfl
  refine ⟨[], some call, c, by simp, ?_, ?_, ?_, ?_, ?_, ?_⟩
  · intro x hx
    cases hx
    exact hcall
  · rw [hpos, htb, hb]
    simp only [List.nil_append, Option.toList_some, e1]
  · rw [hrc]
    simp only [e2]
  · rw [hp]
    simp
  · intro _
    exact ⟨hB, hpos, htb⟩
  · intro _ _ _ h4
    rw [tx_written_nil]
    exact ⟨hpos, hB, by rw [htb]; exact (Nat.mod_eq_of_lt h4).symm, fun h => by rw [hpos]; exact h⟩

theorem tx_written_cons (c : TxCall) (l : List TxCall) :
    tx_written (c :: l) = call_written c + tx_written l := by
  simp [tx_written]

/-- A call that took `w ≠ 0` bytes, followed by the rest of the loop. -/
theorem sendTrace_cons {σ : Type} (s s1 s' : SendSt σ) (call : TxCall) (c1 : σ)
    (p1 tb1 : Nat) (hok : call.rc = BPU_RC_OK) (hw : call.wrote ≠ 0)
    (hb : s1.bpu = send_after s.bpu c1 [call] p1 tb1 false)
    (hp : s1.progress = true)
    (hnum : WellBehaved s.bpu.io → s.bpu.pending_len < 65536 → s.budget_left < 65536 →
      s.bpu.st.tx_bytes < 4294967296 →
      s1.bpu.pending_pos = s.bpu.pending_pos + call.wrote ∧
      s1.budget_left + call.wrote = s.budget_left ∧
      s1.bpu.st.tx_bytes = (s.bpu.st.tx_bytes + call.wrote) % 4294967296 ∧
      (s.bpu.pending_pos ≤ s.bpu.pending_len → s1.bpu.pending_pos ≤ s.bpu.pending_len))
    (ht : SendTrace s1 s') : SendTrace s s' := by
  obtain ⟨good, last, c, g1, g2, g3, g4, g5, _, g7⟩ := ht
  have hio : s1.bpu.io.tx_write_some = s.bpu.io.tx_write_some := by rw [hb]; rfl
  have hlen : s1.bpu.pending_len = s.bpu.pending_len := by rw [hb]; rfl
  refine ⟨call :: good, last, c, ?_, g2, ?_, g4, ?_, ?_, ?_⟩
  · intro x hx
    rcases List.mem_cons.1 hx with h | h
    · rw [h]
      exact ⟨hok, hw⟩
    · exact g1 x h
  · refine g3.trans ?_
    rw [hb]
    unfold send_after
    simp only [List.append_assoc, List.singleton_append, List.cons_append, Bool.false_eq_true,
      if_false]
    rfl
  · rw [g5, hp]
    simp
  · intro h
    cases h
  · intro h1 h2 h3 h4
    obtain ⟨n1, n2, n3, n4⟩ := hnum h1 h2 h3 h4
    obtain ⟨m1, m2, m3, m4⟩ := g7 (wellBehaved_congr _ _ hio h1) (by rw [hlen]; exact h2)
      (by omega) (by rw [n3]; exact Nat.mod_lt _ (by decide))
    have hcw : call_written call = call.wrote := by
      unfold call_written
      rw [if_pos hok]
    rw [tx_written_cons, hcw]
    refine ⟨by omega, by omega, by rw [m3, n3]; omega, fun hle => ?_⟩
    rw [hlen] at m4
    exact m4 (n4 hle)

theorem send_loop_trace {σ : Type} (f : σ → (Nat → Nat) → Nat → Nat × Nat × σ) :
    ∀ (fuel : Nat) (s s' : SendSt σ), s.bpu.io.tx_write_some = some f → s.rc = BPU_RC_OK →
    send_loop f fuel s = some s' → SendTrace s s' := by
  intro fuel
  induction fuel with
  | zero =>
    intro s s' _ hrc h
    rw [send_loop] at h
    split_ifs at h with hc
    cases h
    exact sendTrace_same s s rfl rfl rfl hrc
  | succ n ih =>
    intro s s' hf hrc h
    rw [send_loop] at h
    split_ifs at h with hc
    · have hpos : s.bpu.pending_pos < s.bpu.pending_len := by
        simp only [send_cond, Bool.and_eq_true, decide_eq_true_eq] at hc
        exact hc.1.2
      obtain ⟨w1, w2, _, _, _⟩ := send_want_le s.bpu s.budget_left
      by_cases hw0 : send_want s.bpu s.budget_left = 0
      · have hstep : send_step f s = { s with done := true } := by
          unfold send_step
          simp only [hw0, if_true]
        rw [hstep, send_loop_stop f n _ (by simp [send_cond])] at h
        cases h
        exact sendTrace_same s _ rfl rfl rfl hrc
      · by_cases hrc1 : (f s.bpu.io.ctx (fun k => s.bpu.pending_buf (s.bpu.pending_pos + k))
            (send_want s.bpu s.budget_left)).1 = BPU_RC_OK
        · by_cases hwr : (f s.bpu.io.ctx (fun k => s.bpu.pending_buf (s.bpu.pending_pos + k))
              (send_want s.bpu s.budget_left)).2.1 = 0
          · -- backpressure: the call ends the loop
            have hs1 : send_cond (send_step f s) = false := by
              unfold send_step
              simp only [hw0, if_false, hrc1, hwr, ne_eq, not_true_eq_false, if_true]
              simp [send_cond]
            rw [send_loop_stop f n _ hs1] at h
            cases h
            refine sendTrace_last s _
              { pos := s.bpu.pending_pos, plen := s.bpu.pending_len, budget := s.budget_left,
                want := send_want s.bpu s.budget_left,
                data := arr_list (fun k => s.bpu.pending_buf (s.bpu.pending_pos + k))
                  (send_want s.bpu s.budget_left),
                rc := BPU_RC_OK, wrote := 0 }
              (f s.bpu.io.ctx (fun k => s.bpu.pending_buf (s.bpu.pending_pos + k))
                (send_want s.bpu s.budget_left)).2.2 (Or.inr rfl) ?_ ?_ ?_ ?_
            · unfold send_step send_after
              simp only [hw0, if_false, hrc1, hwr, ne_eq, not_true_eq_false, if_true,
                decide_True]
            · unfold send_step
              simp only [hw0, if_false, hrc1, hwr, ne_eq, not_true_eq_false, if_true]
            · unfold send_step
              simp only [hw0, if_false, hrc1, hwr, ne_eq, not_true_eq_false, if_true]
            · unfold send_step
              simp only [hw0, if_false, hrc1, hwr, ne_eq, not_true_eq_false, if_true]
              exact hrc
          · -- progress
            have hio : (send_step f s).bpu.io.tx_write_some = some f := by
              unfold send_step
              simp only [hw0, if_false, hrc1, hwr, ne_eq, not_true_eq_false]
              exact hf
            have hr1 : (send_step f s).rc = BPU_RC_OK := by
              unfold send_step
              simp only [hw0, if_false, hrc1, hwr, ne_eq, not_true_eq_false]
              exact hrc
            refine sendTrace_cons s (send_step f s) s'
              { pos := s.bpu.pending_pos, plen := s.bpu.pending_len, budget := s.budget_left,
                want := send_want s.bpu s.budget_left,
                data := arr_list (fun k => s.bpu.pending_buf (s.bpu.pending_pos + k))
                  (send_want s.bpu s.budget_left),
                rc := (f s.bpu.io.ctx (fun k => s.bpu.pending_buf (s.bpu.pending_pos + k))
                  (send_want s.bpu s.budget_left)).1,
                wrote := (f s.bpu.io.ctx (fun k => s.bpu.pending_buf (s.bpu.pending_pos + k))
                  (send_want s.bpu s.budget_left)).2.1 }
              (f s.bpu.io.ctx (fun k => s.bpu.pending_buf (s.bpu.pending_pos + k))
                (send_want s.bpu s.budget_left)).2.2
              ((s.bpu.pending_pos +
                (f s.bpu.io.ctx (fun k => s.bpu.pending_buf (s.bpu.pending_pos + k))
                  (send_want s.bpu s.budget_left)).2.1 % 65536) % 65536)
              ((s.bpu.st.tx_bytes +
                (f s.bpu.io.ctx (fun k => s.bpu.pending_buf (s.bpu.pending_pos + k))
                  (send_want s.bpu s.budget_left)).2.1 % 4294967296) % 4294967296)
              hrc1 hwr ?_ ?_ ?_ (ih _ _ hio hr1 h)
            · unfold send_step send_after
              simp only [hw0, if_false, hrc1, hwr, ne_eq, not_true_eq_false, Bool.false_eq_true]
            · unfold send_step
              simp only [hw0, if_false, hrc1, hwr, ne_eq, not_true_eq_false]
            · intro hwb h2 h3 _
              have hle := hwb f hf s.bpu.io.ctx
                (fun k => s.bpu.pending_buf (s.bpu.pending_pos + k))
                (send_want s.bpu s.budget_left) hrc1
              unfold send_step
              simp only [hw0, if_false, hrc1, hwr, ne_eq, not_true_eq_false]
              refine ⟨?_, ?_, ?_, fun _ => ?_⟩
              · show (s.bpu.pending_pos + _ % 65536) % 65536 = _
                omega
              · show u16_sub s.budget_left _ + _ = _
                unfold u16_sub
                omega
              · show (s.bpu.st.tx_bytes + _ % 4294967296) % 4294967296 = _
                omega
              · show (s.bpu.pending_pos + _ % 65536) % 65536 ≤ _
                omega
        · -- transport error: the call ends the loop
          have hs1 : send_cond (send_step f s) = false := by
            unfold send_step
            simp only [hw0, if_false, hrc1, ne_eq, not_false_eq_true, if_true]
            simp [send_cond]
          rw [send_loop_stop f n _ hs1] at h
          cases h
          refine sendTrace_last s _
            { pos := s.bpu.pending_pos, plen := s.bpu.pending_len, budget := s.budget_left,
              want := send_want s.bpu s.budget_left,
              data := arr_list (fun k => s.bpu.pending_buf (s.bpu.pending_pos + k))
                (send_want s.bpu s.budget_left),
              rc := (f s.bpu.io.ctx (fun k => s.bpu.pending_buf (s.bpu.pending_pos + k))
                (send_want s.bpu s.budget_left)).1,
              wrote := (f s.bpu.io.ctx (fun k => s.bpu.pending_buf (s.bpu.pending_pos + k))
                (send_want s.bpu s.budget_left)).2.1 }
            (f s.bpu.io.ctx (fun k => s.bpu.pending_buf (s.bpu.pending_pos + k))
              (send_want s.bpu s.budget_left)).2.2 (Or.inl hrc1) ?_ ?_ ?_ ?_
          · unfold send_step send_after
            simp only [hw0, if_false, hrc1, ne_eq, not_false_eq_true, if_true, decide_False,
              Bool.false_eq_true]
          · unfold send_step
            simp only [hw0, if_false, hrc1, ne_eq, not_false_eq_true, if_true]
          · unfold send_step
            simp only [hw0, if_false, hrc1, ne_eq, not_false_eq_true, if_true]
          · unfold send_step
            simp only [hw0, if_false, hrc1, ne_eq, not_false_eq_true, if_true]
    · cases h
      exact sendTrace_same s s rfl rfl rfl hrc

theorem tx_written_append_last (good : List TxCall) (last : Option TxCall)
    (h : ∀ x, last = some x → x.rc ≠ BPU_RC_OK ∨ x.wrote = 0) :
    tx_written (good ++ last.toList) = tx_written good := by
  rw [tx_written_append]
  cases last with
  | none => simp [tx_written_nil]
  | some x =>
    have : call_written x = 0 := by
      unfold call_written
      rcases h x rfl with h1 | h1
      · rw [if_neg h1]
      · split_ifs <;> simp [h1]
    simp [tx_written, this]

theorem tx_written_good_pos (good : List TxCall)
    (h : ∀ x ∈ good, x.rc = BPU_RC_OK ∧ x.wrote ≠ 0) :
    (0 < tx_written good ↔ good ≠ []) := by
  cases good with
  | nil => simp [tx_written_nil]
  | cons x l =>
    rw [tx_written_cons]
    have h1 := h x (List.mem_cons_self _ _)
    have : call_written x = x.wrote := by
      unfold call_written
      rw [if_pos h1.1]
    constructor
    · intro _ hh
      cases hh
    · intro _
      omega

/-- The call of `bpu_send_pending` on an occupied buffer with a write callback
is the drain loop followed by `send_finish`. -/
theorem bpu_send_pending_trace {σ : Type} (fuel : Nat) (b : Bpu σ) (B : Nat) (r : SendRes σ)
    (f : σ → (Nat → Nat) → Nat → Nat × Nat × σ) (hp : b.pending_have ≠ 0)
    (hf : b.io.tx_write_some = some f) (h : bpu_send_pending fuel b B = some r) :
    ∃ s', SendTrace
        { bpu := b, budget_left := B, progress := false, done := false, rc := BPU_RC_OK } s' ∧
      send_cond s' = false ∧ r = send_finish s' := by
  unfold bpu_send_pending at h
  rw [if_neg hp, hf] at h
  simp only [Option.map_eq_some'] at h
  obtain ⟨s', hl, rfl⟩ := h
  exact ⟨s', send_loop_trace f fuel _ s' hf rfl hl, (send_loop_rel f fuel _ s' hf hl).2, rfl⟩

/-- An occupied buffer without a write callback: `bpu_send_pending` fails
without touching the state. -/
theorem bpu_send_pending_no_callback {σ : Type} (fuel : Nat) (b : Bpu σ) (B : Nat)
    (hp : b.pending_have ≠ 0) (hf : b.io.tx_write_some = none) :
    bpu_send_pending fuel b B =
      some { bpu := b, budget_left := B, progress := false, rc := BPU_RC_ERR } := by
  unfold bpu_send_pending
  rw [if_neg hp, hf]

theorem send_finish_backpressure {σ : Type} (s : SendSt σ) :
    (send_finish s).bpu.st.tx_skip_backpressure = s.bpu.st.tx_skip_backpressure ∧
    (send_finish s).bpu.st.job_out = s.bpu.st.job_out := by
  unfold send_finish
  simp only []
  split_ifs <;> exact ⟨rfl, rfl⟩

/-- C30. When `bpu_send_pending` returns OK on an occupied pending buffer, over
a transport that reports `wrote ≤ want` (with `pending_len`, `budget_left` and
`st.tx_bytes` within their 16- and 32-bit types): the calls of `tx_write_some`
it made are the calls `good`, each of which took at least one byte, followed
by at most one call `last` that took 0 bytes; such a call increments
`tx_skip_backpressure` and is the last one. With `W` the bytes written in this
call of `bpu_send_pending`: the budget is reduced by `W`, the buffer contents
are kept, and progress is reported exactly when `W > 0`. If
`pending_pos + W` has reached `pending_len` the buffer is cleared
(`pending_have = 0`, `pending_len = pending_pos = 0`) and `tx_frame_sent` is
incremented, `tx_frame_partial` unchanged. Otherwise `pending_have` and
`pending_len` are kept, `pending_pos` has advanced by `W`, `tx_frame_sent` is
unchanged and `tx_frame_partial` is incremented exactly when `W > 0`. -/
theorem bpu_send_pending_ok {σ : Type} (fuel : Nat) (b : Bpu σ) (B : Nat) (r : SendRes σ)
    (hp : b.pending_have ≠ 0) (h : bpu_send_pending fuel b B = some r)
    (hrc : r.rc = BPU_RC_OK) (hwb : WellBehaved b.io) (hlen : b.pending_len < 65536)
    (hB : B < 65536) (htb : b.st.tx_bytes < 4294967296) :
    ∃ (good : List TxCall) (last : Option TxCall),
      r.bpu.tx_log = b.tx_log ++ good ++ last.toList ∧
      (∀ x ∈ good, x.rc = BPU_RC_OK ∧ x.wrote ≠ 0) ∧
      (∀ x, last = some x → x.rc = BPU_RC_OK ∧ x.wrote = 0) ∧
      r.bpu.st.tx_skip_backpressure =
        (if last.isSome then u32_inc b.st.tx_skip_backpressure
         else b.st.tx_skip_backpressure) ∧
      (r.progress = true ↔ 0 < tx_written (good ++ last.toList)) ∧
      r.budget_left + tx_written (good ++ last.toList) = B ∧
      r.bpu.st.tx_bytes = (b.st.tx_bytes + tx_written (good ++ last.toList)) % 4294967296 ∧
      r.bpu.pending_buf = b.pending_buf ∧
      (b.pending_len ≤ b.pending_pos + tx_written (good ++ last.toList) →
        r.bpu.pending_have = 0 ∧ r.bpu.pending_len = 0 ∧ r.bpu.pending_pos = 0 ∧
        r.bpu.st.tx_frame_sent = u32_inc b.st.tx_frame_sent ∧
        r.bpu.st.tx_frame_partial = b.st.tx_frame_partial) ∧
      (b.pending_pos + tx_written (good ++ last.toList) < b.pending_len →
        r.bpu.pending_have = b.pending_have ∧ r.bpu.pending_len = b.pending_len ∧
        r.bpu.pending_pos = b.pending_pos + tx_written (good ++ last.toList) ∧
        r.bpu.st.tx_frame_sent = b.st.tx_frame_sent ∧
        r.bpu.st.tx_frame_partial =
          (if 0 < tx_written (good ++ last.toList) then u32_inc b.st.tx_frame_partial
           else b.st.tx_frame_partial)) := by
  cases hf : b.io.tx_write_some with
  | none =>
    rw [bpu_send_pending_no_callback fuel b B hp hf] at h
    cases h
    exact absurd hrc (by show ¬ (1 : Nat) = 0; omega)
  | some f =>
    obtain ⟨s', ⟨good, last, c, g1, g2, g3, g4, g5, _, g7⟩, _, rfl⟩ :=
      bpu_send_pending_trace fuel b B r f hp hf h
    obtain ⟨n1, n2, n3, _⟩ := g7 hwb hlen hB htb
    simp only [] at n1 n2 n3 g5
    have hW := tx_written_append_last good last g2
    have hpos := tx_written_good_pos good g1
    -- the call returned OK: no failed call
    have hrc' : s'.rc = BPU_RC_OK := by
      have := (send_finish_frame s').2.2.2.2.2.2.2.2.2.2.2
      rw [← this]
      exact hrc
    have hlast : ∀ x, last = some x → x.rc = BPU_RC_OK ∧ x.wrote = 0 := by
      intro x hx
      have hne : ¬ ∃ y, last = some y ∧ y.rc ≠ BPU_RC_OK := by
        intro hex
        rw [g4, if_pos hex] at hrc'
        exact absurd hrc' (by decide)
      have hxr : x.rc = BPU_RC_OK := by
        by_contra hh
        exact hne ⟨x, hx, hh⟩
      rcases g2 x hx with h1 | h1
      · exact absurd hxr h1
      · exact ⟨hxr, h1⟩
    have hbp : decide (∃ x, last = some x ∧ x.rc = BPU_RC_OK) = last.isSome := by
      cases last with
      | none => simp
      | some x => simp [(hlast x rfl).1]
    have hlen' : s'.bpu.pending_len = b.pending_len := by rw [g3]; rfl
    have hhave : s'.bpu.pending_have = b.pending_have := by rw [g3]; rfl
    have hbuf : s'.bpu.pending_buf = b.pending_buf := by rw [g3]; rfl
    have hlog : s'.bpu.tx_log = b.tx_log ++ (good ++ last.toList) := by rw [g3]; rfl
    have hfs : s'.bpu.st.tx_frame_sent = b.st.tx_frame_sent := by rw [g3]; rfl
    have hfp : s'.bpu.st.tx_frame_partial = b.st.tx_frame_partial := by rw [g3]; rfl
    have hsb : s'.bpu.st.tx_skip_backpressure =
        (if last.isSome then u32_inc b.st.tx_skip_backpressure
         else b.st.tx_skip_backpressure) := by
      rw [g3]
      show (if decide (∃ x, last = some x ∧ x.rc = BPU_RC_OK) = true then _ else _) = _
      rw [hbp]
    have hprog : (s'.progress = true ↔ 0 < tx_written good) := by
      rw [g5, hpos]
      cases good <;> simp
    obtain ⟨f1, f2, f3, f4, f5, f6, f7, f8, f9, f10, f11, f12⟩ := send_finish_frame s'
    refine ⟨good, last, by rw [f8, hlog, List.append_assoc], g1, hlast, ?_,
      by rw [f11, hW]; exact hprog, by rw [f10, hW]; exact n2, by rw [f9, hW]; exact n3,
      by rw [f4]; exact hbuf, ?_, ?_⟩
    · rw [(send_finish_backpressure s').1]
      exact hsb
    · rw [hW]
      intro hreach
      have hge : s'.bpu.pending_pos ≥ s'.bpu.pending_len := by
        rw [n1, hlen']
        exact hreach
      unfold send_finish
      simp only [hrc', if_true, if_pos hge]
      exact ⟨trivial, trivial, trivial, by rw [hfs], hfp⟩
    · rw [hW]
      intro hshort
      have hlt : ¬ s'.bpu.pending_pos ≥ s'.bpu.pending_len := by
        rw [n1, hlen']
        omega
      unfold send_finish
      simp only [hrc', if_true, if_neg hlt]
      refine ⟨hhave, hlen', n1, ?_, ?_⟩
      · split_ifs <;> exact hfs
      · by_cases hpr : s'.progress = true
        · rw [if_pos hpr, if_pos (hprog.1 hpr)]
          show u32_inc s'.bpu.st.tx_frame_partial = _
          rw [hfp]
        · rw [if_neg hpr, if_neg (fun hh => hpr (hprog.2 hh))]
          exact hfp

set_option maxRecDepth 1000000 in
/-- Instance of `bpu_send_pending_ok`. Over `io_room` (room for 4 bytes) the
11-byte frame is offered whole, 4 bytes are taken, the next call takes 0: the
buffer is kept with `pending_pos = 4`, `tx_frame_partial` and
`tx_skip_backpressure` become 1, the budget goes from 200 to 196. Over
`io_accept` one call takes the 11 bytes: the buffer is cleared and
`tx_frame_sent` becomes 1. -/
theorem bpu_send_pending_ok_witness :
    (bpu_room_staged.pending_have ≠ 0 ∧ bpu_room_staged.pending_len < 65536 ∧
      (200 : Nat) < 65536 ∧ bpu_room_staged.st.tx_bytes < 4294967296) ∧
    (∃ r, bpu_send_pending 201 bpu_room_staged 200 = some r ∧ r.rc = BPU_RC_OK ∧
      ∃ (good : List TxCall) (last : Option TxCall),
        r.bpu.tx_log = bpu_room_staged.tx_log ++ good ++ last.toList ∧
        (∀ x, last = some x → x.rc = BPU_RC_OK ∧ x.wrote = 0) ∧
        r.budget_left + tx_written (good ++ last.toList) = 200) ∧
    (bpu_send_pending 201 bpu_room_staged 200).map
        (fun r => (r.rc, r.progress, r.budget_left, r.bpu.pending_have, r.bpu.pending_len,
          r.bpu.pending_pos, r.bpu.st.tx_frame_sent, r.bpu.st.tx_frame_partial,
          r.bpu.st.tx_skip_backpressure, r.bpu.tx_log.map (fun c => (c.want, c.wrote)))) =
      some (BPU_RC_OK, true, 196, 1, 11, 4, 0, 1, 1, [(11, 4), (7, 0)]) ∧
    (bpu_send_pending 201 bpu_staged 200).map
        (fun r => (r.rc, r.progress, r.budget_left, r.bpu.pending_have, r.bpu.pending_len,
          r.bpu.pending_pos, r.bpu.st.tx_frame_sent, r.bpu.st.tx_frame_partial,
          r.bpu.st.tx_skip_backpressure, r.bpu.tx_log.map (fun c => (c.want, c.wrote)))) =
      some (BPU_RC_OK, true, 189, 0, 0, 0, 1, 0, 0, [(11, 11)]) := by
  refine ⟨⟨by decide, by decide, by decide, by decide⟩, ?_, by rfl, by rfl⟩
  obtain ⟨r, h⟩ := Option.isSome_iff_exists.mp
    (show (bpu_send_pending 201 bpu_room_staged 200).isSome = true by decide)
  have hrc : r.rc = BPU_RC_OK := by
    have e : (bpu_send_pending 201 bpu_room_staged 200).map (fun r => r.rc) =
        some BPU_RC_OK := by decide
    rw [h] at e
    exact Option.some.inj e
  obtain ⟨good, last, a1, _, a3, _, _, a6, _⟩ :=
    bpu_send_pending_ok 201 bpu_room_staged 200 r (by decide) h hrc io_room_wellBehaved
      (by decide) (by decide) (by decide)
  exact ⟨r, h, hrc, good, last, a1, a3, a6⟩

/-- The status of `bpu_send_pending` on an occupied buffer: ERR exactly when
the write callback is missing or one of the calls it made failed. -/
theorem bpu_send_pending_rc {σ : Type} (fuel : Nat) (b : Bpu σ) (B : Nat) (r : SendRes σ)
    (hp : b.pending_have ≠ 0) (h : bpu_send_pending fuel b B = some r) :
    (r.rc = BPU_RC_OK ∨ r.rc = BPU_RC_ERR) ∧
    ∃ new, r.bpu.tx_log = b.tx_log ++ new ∧
      (r.rc ≠ BPU_RC_OK ↔ b.io.tx_write_some = none ∨ ∃ c ∈ new, c.rc ≠ BPU_RC_OK) := by
  cases hf : b.io.tx_write_some with
  | none =>
    rw [bpu_send_pending_no_callback fuel b B hp hf] at h
    cases h
    refine ⟨Or.inr rfl, [], by simp, ?_⟩
    simp
  | some f =>
    obtain ⟨s', ⟨good, last, c, g1, g2, g3, g4, _⟩, _, rfl⟩ :=
      bpu_send_pending_trace fuel b B r f hp hf h
    obtain ⟨_, _, _, _, _, _, _, f8, _, _, _, f12⟩ := send_finish_frame s'
    have hlog : s'.bpu.tx_log = b.tx_log ++ (good ++ last.toList) := by rw [g3]; rfl
    rw [f12]
    refine ⟨?_, good ++ last.toList, by rw [f8, hlog], ?_⟩
    · rw [g4]
      split_ifs
      · exact Or.inr rfl
      · exact Or.inl rfl
    · have e : (∃ c ∈ good ++ last.toList, c.rc ≠ BPU_RC_OK) ↔
          ∃ x, last = some x ∧ x.rc ≠ BPU_RC_OK := by
        constructor
        · rintro ⟨x, hx, hxr⟩
          rcases List.mem_append.1 hx with h1 | h1
          · exact absurd (g1 x h1).1 hxr
          · exact ⟨x, by simpa using h1, hxr⟩
        · rintro ⟨x, hx, hxr⟩
          exact ⟨x, List.mem_append.2 (Or.inr (by simp [hx])), hxr⟩
      rw [e, g4]
      constructor
      · intro hne
        right
        by_contra hh
        rw [if_neg hh] at hne
        exact hne rfl
      · rintro (hh | hh)
        · cases hh
        · rw [if_pos hh]
          decide

/-- C23. `bpu_tick_ex` returns for every well-behaved transport (fuel
`tx_budget_bytes + 1`), and whenever it returns its status is OK or ERR, and it
is ERR if and only if the BPU is not initialised (`init_magic` differs from the
magic value) or the pending buffer was occupied at entry and the initial
`bpu_send_pending` returned ERR. That call returns ERR exactly when the write
callback is missing or one of its `tx_write_some` calls failed. In every other
case the status is OK, whatever `bpu_schedule_from_events` and `bpu_flush_jobs`
return: their statuses are discarded. -/
theorem bpu_tick_ex_status {σ : Type} (b : Bpu σ) (now_ms now_us : Nat) :
    (WellBehaved b.io →
      ∃ r, bpu_tick_ex (b.cfg.tx_budget_bytes + 1) b now_ms now_us = some r) ∧
    ∀ fuel r, bpu_tick_ex fuel b now_ms now_us = some r →
      (r.2 = BPU_RC_OK ∨ r.2 = BPU_RC_ERR) ∧
      (r.2 = BPU_RC_ERR ↔
        b.init_magic ≠ BPU_MAGIC ∨
        (b.pending_have ≠ 0 ∧
          ∃ sr, bpu_send_pending fuel (tick_sample b now_us).1 b.cfg.tx_budget_bytes =
              some sr ∧ sr.rc ≠ BPU_RC_OK)) ∧
      (b.pending_have ≠ 0 →
        ∀ sr, bpu_send_pending fuel (tick_sample b now_us).1 b.cfg.tx_budget_bytes = some sr →
          ∃ new, sr.bpu.tx_log = b.tx_log ++ new ∧
            (sr.rc ≠ BPU_RC_OK ↔
              b.io.tx_write_some = none ∨ ∃ c ∈ new, c.rc ≠ BPU_RC_OK)) ∧
      (r.2 = BPU_RC_OK →
        ∃ y B sch fl, bpu_schedule_from_events y now_ms = some sch ∧
          bpu_flush_jobs fuel sch.1 B = some fl ∧
          r.1 = tick_finish fl.1 now_us (tick_sample b now_us).2.1
            (tick_sample b now_us).2.2) := by
  refine ⟨fun hw => bpu_tick_ex_total b now_ms now_us hw, fun fuel r h => ?_⟩
  obtain ⟨c0, hc0, _⟩ := tick_sample_eq b now_us
  have hsend : b.pending_have ≠ 0 →
      ∀ sr, bpu_send_pending fuel (tick_sample b now_us).1 b.cfg.tx_budget_bytes = some sr →
        ∃ new, sr.bpu.tx_log = b.tx_log ++ new ∧
          (sr.rc ≠ BPU_RC_OK ↔
            b.io.tx_write_some = none ∨ ∃ c ∈ new, c.rc ≠ BPU_RC_OK) := by
    intro hp sr hs
    have := (bpu_send_pending_rc fuel _ _ sr (by rw [hc0]; exact hp) hs).2
    rw [hc0] at this
    exact this
  by_cases hm : b.init_magic = BPU_MAGIC
  · rcases bpu_tick_ex_cases fuel b now_ms now_us r hm h with ⟨hp, sr, hs, hrc, e⟩ |
      ⟨y, B, sch, fl, hy, hsch, hfl, e⟩
    · rw [e]
      refine ⟨Or.inr rfl, ⟨fun _ => Or.inr ⟨hp, sr, hs, hrc⟩, fun _ => rfl⟩, hsend,
        fun hh => absurd hh (by show ¬ (1 : Nat) = 0; omega)⟩
    · rw [e]
      refine ⟨Or.inl rfl, ⟨fun hh => absurd hh (by show ¬ (0 : Nat) = 1; omega), ?_⟩, hsend,
        fun _ => ⟨y, B, sch, fl, hsch, hfl, rfl⟩⟩
      rintro (hh | ⟨hp, sr, hs, hrc⟩)
      · exact absurd hm hh
      · rcases hy with ⟨hp0, _, _⟩ | ⟨_, sr2, hs2, hrc2, _, _⟩
        · exact absurd hp0 hp
        · rw [hs] at hs2
          cases hs2
          exact absurd hrc2 hrc
  · unfold bpu_tick_ex at h
    rw [if_pos hm] at h
    cases h
    exact ⟨Or.inr rfl, ⟨fun _ => Or.inl hm, fun _ => rfl⟩, hsend,
      fun hh => absurd hh (by show ¬ (1 : Nat) = 0; omega)⟩

theorem io_faulty_wellBehaved : WellBehaved io_faulty := by
  intro f hf c p want h
  have e : f = fun c _ want =>
      if c ≥ 1000 then (BPU_RC_ERR, 0, c) else (BPU_RC_OK, min want c, c - min want c) :=
    (Option.some.inj hf).symm
  rw [e]
  simp only []
  split_ifs
  · exact Nat.zero_le _
  · exact Nat.min_le_left _ _

set_option maxHeartbeats 4000000 in
set_option maxRecDepth 1000000 in
/-- Instance of `bpu_tick_ex_status`, with the four situations of the claim.
A job dropped by the scheduler (job queue full, event of a fifth type): OK,
`job_drop = 1`. A `tx_free` failure in the flush: OK, `degrade_requeue = 1`. A
write error on a newly built frame: OK, the frame is discarded and the job
requeued. A write error on the frame pending at entry: ERR. An uninitialised
BPU: ERR. -/
theorem bpu_tick_ex_status_witness :
    (∃ r, bpu_tick_ex (bpu_faulty_broken.cfg.tx_budget_bytes + 1) bpu_faulty_broken 101 0 =
      some r) ∧
    (bpu_tick_ex 1 bpu_four_jobs_plus 102 0).map
        (fun r => (r.2, r.1.st.job_drop, r.1.jobq.count, r.1.evq.count)) =
      some (BPU_RC_OK, 1, 4, 0) ∧
    (bpu_tick_ex 201 (bpu_one_job io_free_err) 100 0).map
        (fun r => (r.2, r.1.st.degrade_requeue, r.1.jobq.count, r.1.frames_built)) =
      some (BPU_RC_OK, 1, 1, 0) ∧
    (bpu_tick_ex 201 bpu_faulty_fresh 100 0).map
        (fun r => (r.2, r.1.tx_log.map (fun c => c.rc), r.1.pending_have, r.1.jobq.count,
          r.1.frames_built)) =
      some (BPU_RC_OK, [BPU_RC_ERR], 0, 1, 1) ∧
    (bpu_faulty_broken.init_magic, bpu_faulty_broken.pending_have,
      bpu_faulty_broken.pending_pos, bpu_faulty_broken.pending_len) =
      (BPU_MAGIC, 1, 4, 11) ∧
    (bpu_tick_ex 201 bpu_faulty_broken 101 0).map
        (fun r => (r.2, (r.1.tx_log.drop bpu_faulty_broken.tx_log.length).map (fun c => c.rc),
          r.1.pending_have, r.1.pending_pos)) =
      some (BPU_RC_ERR, [BPU_RC_ERR], 1, 4) ∧
    (bpu_tick_ex 201 bpu_zeroed 100 0).map (fun r => r.2) = some BPU_RC_ERR :=
  ⟨(bpu_tick_ex_status bpu_faulty_broken 101 0).1 io_faulty_wellBehaved,
   by rfl, by rfl, by rfl, by rfl, by rfl, by rfl⟩

/-- With bytes left to send and a non-zero budget, the drain loop of
`bpu_send_pending` calls `tx_write_some` at least once. -/
theorem send_loop_first_call {σ : Type} (f : σ → (Nat → Nat) → Nat → Nat × Nat × σ)
    (fuel : Nat) (s s' : SendSt σ) (hf : s.bpu.io.tx_write_some = some f)
    (hrc : s.rc = BPU_RC_OK) (hd : s.done = false)
    (hpos : s.bpu.pending_pos < s.bpu.pending_len) (hB : s.budget_left ≠ 0)
    (h : send_loop f fuel s = some s') :
    ∃ call new, s'.bpu.tx_log = s.bpu.tx_log ++ call :: new := by
  have hc : send_cond s = true := by
    simp [send_cond, hd, hpos, hrc]
  obtain ⟨_, _, _, _, w5⟩ := send_want_le s.bpu s.budget_left
  have hw0 : send_want s.bpu s.budget_left ≠ 0 := by
    rw [w5 hB]
    split_ifs with hcm <;> omega
  cases fuel with
  | zero =>
    rw [send_loop, if_pos hc] at h
    cases h
  | succ n =>
    rw [send_loop, if_pos hc] at h
    have hlog : ∃ call, (send_step f s).bpu.tx_log = s.bpu.tx_log ++ [call] ∧
        (send_step f s).bpu.io.tx_write_some = some f := by
      unfold send_step
      simp only [hw0, if_false]
      split_ifs <;> exact ⟨_, rfl, hf⟩
    obtain ⟨call, e1, e2⟩ := hlog
    obtain ⟨new, e3, _⟩ := (send_loop_rel f n _ s' e2 h).1.log
    exact ⟨call, new, by rw [e3, e1, List.append_assoc, List.singleton_append]⟩

theorem bpu_send_pending_loop {σ : Type} (fuel : Nat) (b : Bpu σ) (B : Nat) (r : SendRes σ)
    (f : σ → (Nat → Nat) → Nat → Nat × Nat × σ) (hp : b.pending_have ≠ 0)
    (hf : b.io.tx_write_some = some f) (h : bpu_send_pending fuel b B = some r) :
    ∃ s', send_loop f fuel
        { bpu := b, budget_left := B, progress := false, done := false, rc := BPU_RC_OK } =
        some s' ∧ r = send_finish s' := by
  unfold bpu_send_pending at h
  rw [if_neg hp, hf] at h
  simp only [Option.map_eq_some'] at h
  obtain ⟨s', hl, rfl⟩ := h
  exact ⟨s', hl, rfl⟩

theorem send_finish_counters {σ : Type} (s : SendSt σ) :
    (send_finish s).bpu.st.degrade_requeue = s.bpu.st.degrade_requeue ∧
    (send_finish s).bpu.st.degrade_drop = s.bpu.st.degrade_drop ∧
    (send_finish s).bpu.st.flush_try = s.bpu.st.flush_try ∧
    (send_finish s).bpu.st.flush_ok = s.bpu.st.flush_ok ∧
    (send_finish s).bpu.st.job_out = s.bpu.st.job_out ∧
    (send_finish s).bpu.st.job_in = s.bpu.st.job_in ∧
    (send_finish s).bpu.st.job_drop = s.bpu.st.job_drop ∧
    (send_finish s).bpu.st.tx_skip_budget = s.bpu.st.tx_skip_budget ∧
    (send_finish s).bpu.st.tx_skip_backpressure = s.bpu.st.tx_skip_backpressure ∧
    (s.rc ≠ BPU_RC_OK → (send_finish s).bpu = s.bpu) ∧
    (s.rc = BPU_RC_OK → s.bpu.pending_pos < s.bpu.pending_len →
      (send_finish s).bpu.pending_have = s.bpu.pending_have ∧
      (send_finish s).bpu.pending_len = s.bpu.pending_len ∧
      (send_finish s).bpu.pending_pos = s.bpu.pending_pos) := by
  unfold send_finish
  simp only []
  split_ifs with h1 h2 h3
  · exact ⟨rfl, rfl, rfl, rfl, rfl, rfl, rfl, rfl, rfl, fun h => absurd h1 h,
      fun _ h => by omega⟩
  · exact ⟨rfl, rfl, rfl, rfl, rfl, rfl, rfl, rfl, rfl, fun h => absurd h1 h,
      fun _ _ => ⟨rfl, rfl, rfl⟩⟩
  · exact ⟨rfl, rfl, rfl, rfl, rfl, rfl, rfl, rfl, rfl, fun h => absurd h1 h,
      fun _ _ => ⟨rfl, rfl, rfl⟩⟩
  · exact ⟨rfl, rfl, rfl, rfl, rfl, rfl, rfl, rfl, rfl, fun _ => rfl, fun h => absurd h h1⟩

/-- What a call of `bpu_send_pending` on an occupied buffer leaves alone, and
what it does to `tx_skip_backpressure` when it fails or makes no progress. -/
theorem bpu_send_pending_fields {σ : Type} (fuel : Nat) (y : Bpu σ) (B : Nat) (r : SendRes σ)
    (hp : y.pending_have ≠ 0) (h : bpu_send_pending fuel y B = some r) :
    r.bpu.st.degrade_requeue = y.st.degrade_requeue ∧
    r.bpu.st.degrade_drop = y.st.degrade_drop ∧
    r.bpu.st.flush_try = y.st.flush_try ∧ r.bpu.st.flush_ok = y.st.flush_ok ∧
    r.bpu.st.job_out = y.st.job_out ∧ r.bpu.st.job_in = y.st.job_in ∧
    r.bpu.st.job_drop = y.st.job_drop ∧ r.bpu.st.tx_skip_budget = y.st.tx_skip_budget ∧
    r.bpu.jobq = y.jobq ∧ r.bpu.evq = y.evq ∧ r.bpu.cfg = y.cfg ∧
    r.bpu.seq = y.seq ∧ r.bpu.frames_built = y.frames_built ∧
    r.bpu.pending_buf = y.pending_buf ∧
    (r.rc ≠ BPU_RC_OK →
      r.bpu.st.tx_skip_backpressure = y.st.tx_skip_backpressure ∧
      r.bpu.pending_have = y.pending_have ∧ r.bpu.pending_len = y.pending_len) ∧
    (r.rc = BPU_RC_OK → r.progress = false → y.pending_pos < y.pending_len → B ≠ 0 →
      r.bpu.st.tx_skip_backpressure = u32_inc y.st.tx_skip_backpressure ∧
      r.budget_left = B ∧ r.bpu.st.tx_bytes = y.st.tx_bytes ∧
      r.bpu.pending_have = y.pending_have ∧ r.bpu.pending_len = y.pending_len ∧
      r.bpu.pending_pos = y.pending_pos ∧
      ∃ call, r.bpu.tx_log = y.tx_log ++ [call] ∧ call.rc = BPU_RC_OK ∧ call.wrote = 0) := by
  cases hf : y.io.tx_write_some with
  | none =>
    rw [bpu_send_pending_no_callback fuel y B hp hf] at h
    cases h
    exact ⟨rfl, rfl, rfl, rfl, rfl, rfl, rfl, rfl, rfl, rfl, rfl, rfl, rfl, rfl,
      fun _ => ⟨rfl, rfl, rfl⟩, fun hh => absurd hh (by show ¬ (1 : Nat) = 0; omega)⟩
  | some f =>
    obtain ⟨s', hl, rfl⟩ := bpu_send_pending_loop fuel y B r f hp hf h
    obtain ⟨good, last, c, g1, g2, g3, g4, g5, g6, _⟩ := send_loop_trace f fuel _ s' hf rfl hl
    simp only [] at g3 g5 g6
    obtain ⟨f1, f2, f3, f4, f5, _, _, f8, f9, f10, f11, f12⟩ := send_finish_frame s'
    obtain ⟨k1, k2, k3, k4, k5, k6, k7, k8, k9, k10, k11⟩ := send_finish_counters s'
    have hbp : s'.bpu.st.tx_skip_backpressure =
        (if decide (∃ x, last = some x ∧ x.rc = BPU_RC_OK) = true
         then u32_inc y.st.tx_skip_backpressure else y.st.tx_skip_backpressure) := by
      rw [g3]; rfl
    have hlog : s'.bpu.tx_log = y.tx_log ++ (good ++ last.toList) := by rw [g3]; rfl
    have hhave : s'.bpu.pending_have = y.pending_have := by rw [g3]; rfl
    have hlen : s'.bpu.pending_len = y.pending_len := by rw [g3]; rfl
    refine ⟨by rw [k1, g3]; rfl, by rw [k2, g3]; rfl, by rw [k3, g3]; rfl, by rw [k4, g3]; rfl,
      by rw [k5, g3]; rfl, by rw [k6, g3]; rfl, by rw [k7, g3]; rfl, by rw [k8, g3]; rfl,
      by rw [f3, g3]; rfl, by rw [f2, g3]; rfl, by rw [f1, g3]; rfl, by rw [f5, g3]; rfl,
      (bpu_send_pending_closed seqKept_closed fuel y B _ h).2, by rw [f4, g3]; rfl, ?_, ?_⟩
    · intro hrc
      rw [f12] at hrc
      have hex : ∃ x, last = some x ∧ x.rc ≠ BPU_RC_OK := by
        by_contra hh
        rw [g4, if_neg hh] at hrc
        exact hrc rfl
      obtain ⟨x, hx, hxr⟩ := hex
      have hno : ¬ ∃ x, last = some x ∧ x.rc = BPU_RC_OK := by
        rintro ⟨z, hz, hzr⟩
        rw [hx] at hz
        cases hz
        exact hxr hzr
      rw [k10 hrc]
      refine ⟨?_, hhave, hlen⟩
      rw [hbp, if_neg (by simpa using hno)]
    · intro hrc hprog hpos hB
      rw [f12] at hrc
      rw [f11, g5] at hprog
      have hgood : good = [] := by
        cases good with
        | nil => rfl
        | cons a l => simp at hprog
      obtain ⟨q1, q2, q3⟩ := g6 hgood
      obtain ⟨call, new, hfirst⟩ := send_loop_first_call f fuel _ s' hf rfl rfl hpos hB hl
      simp only [] at hfirst
      rw [hlog, hgood, List.nil_append] at hfirst
      have hl2 := List.append_cancel_left hfirst
      cases hlast : last with
      | none =>
        rw [hlast] at hl2
        cases hl2
      | some x =>
        rw [hlast] at hl2
        simp only [Option.toList_some, List.cons.injEq] at hl2
        have hxr : x.rc = BPU_RC_OK := by
          by_contra hh
          rw [g4, if_pos ⟨x, hlast, hh⟩] at hrc
          exact absurd hrc (by show ¬ (1 : Nat) = 0; omega)
        have hxw : x.wrote = 0 := by
          rcases g2 x hlast with h1 | h1
          · exact absurd hxr h1
          · exact h1
        obtain ⟨p1, p2, p3⟩ := k11 hrc (by rw [q2, hlen]; exact hpos)
        refine ⟨?_, by rw [f10]; exact q1, by rw [f9]; exact q3, by rw [p1]; exact hhave,
          by rw [p2]; exact hlen, by rw [p3]; exact q2, x, ?_, hxr, hxw⟩
        · rw [k9, hbp, if_pos (by simp [hlast, hxr])]
        · rw [f8, hlog, hgood, hlast]
          rfl

/-- C27. In `bpu_flush_jobs` (non-zero budget, nothing pending, job queue not
empty), when the job `j` at the front passes the budget check and the
free-space check, so that a frame is built from it, and the
`bpu_send_pending` that follows returns ERR or reports no progress (no byte
written): the call returns after that one pop with status OK; the pending
buffer is cleared (`pending_have = 0`, `pending_len = pending_pos = 0`); `j`
is requeued through `bpu_jobq_push_coalesce`; `degrade_requeue` is
incremented; `tx_skip_backpressure` is left as `bpu_send_pending` left it in
the error case and incremented once more in the no-progress case, which makes
two increments in that tick since the call that took nothing was counted by
`bpu_send_pending` already. One frame was built (`seq` and `frames_built`
advanced by one) and `flush_ok` is unchanged. -/
theorem bpu_flush_jobs_send_fails {σ : Type} (fuel : Nat) (b : Bpu σ) (B : Nat)
    (sr : SendRes σ) (hf : 1 ≤ fuel) (hB : B ≠ 0) (hp : b.pending_have = 0)
    (hc : b.jobq.count ≠ 0) (hw : worst_on_wire (jobq_front b).len ≤ B)
    (hfree : (tx_free_query (flush_popped b)).2.2 = BPU_RC_OK)
    (hroom : (tx_free_query (flush_popped b)).1.cfg.tx_min_free ≤
      (tx_free_query (flush_popped b)).2.1)
    (hs : bpu_send_pending fuel
      (bpu_build_frame (tx_free_query (flush_popped b)).1 (jobq_front b).type
        (jobq_front b).payload
        (if (jobq_front b).len > 255 then 255 else (jobq_front b).len % 256)).1 B = some sr)
    (hfail : sr.rc ≠ BPU_RC_OK ∨ sr.progress = false) :
    ∃ b', bpu_flush_jobs fuel b B = some (b', sr.budget_left, BPU_RC_OK) ∧
      b'.pending_have = 0 ∧ b'.pending_len = 0 ∧ b'.pending_pos = 0 ∧
      b'.jobq = (bpu_jobq_push_coalesce sr.bpu (jobq_front b)).1.jobq ∧
      (JobRingWf b.jobq →
        jobq_contents b'.jobq = jobq_requeued (jobq_contents b.jobq).tail (jobq_front b) ∧
        jobq_front b ∈ jobq_contents b'.jobq) ∧
      b'.st.degrade_requeue = u32_inc b.st.degrade_requeue ∧
      b'.st.tx_skip_backpressure =
        (if sr.rc ≠ BPU_RC_OK then sr.bpu.st.tx_skip_backpressure
         else u32_inc sr.bpu.st.tx_skip_backpressure) ∧
      b'.st.tx_skip_backpressure =
        (if sr.rc ≠ BPU_RC_OK then b.st.tx_skip_backpressure
         else u32_inc (u32_inc b.st.tx_skip_backpressure)) ∧
      b'.st.flush_try = u32_inc b.st.flush_try ∧ b'.st.job_out = u32_inc b.st.job_out ∧
      b'.st.flush_ok = b.st.flush_ok ∧
      b'.seq = (b.seq + 1) % 256 ∧ b'.frames_built = b.frames_built + 1 ∧
      b'.tx_log = sr.bpu.tx_log ∧ b'.evq = b.evq := by
  obtain ⟨c0, hY⟩ := tx_free_query_eq (flush_popped b)
  obtain ⟨buf, hbf, _, _⟩ := bpu_build_frame_eq (tx_free_query (flush_popped b)).1
    (jobq_front b).type (jobq_front b).payload
    (if (jobq_front b).len > 255 then 255 else (jobq_front b).len % 256)
  have hn : min (if (jobq_front b).len > 255 then 255 else (jobq_front b).len % 256) 64 =
      job_wire_len (jobq_front b) := rfl
  rw [hn] at hbf
  have hbf1 := congrArg Prod.fst hbf
  simp only [] at hbf1
  rw [hbf1] at hs
  obtain ⟨d1, _, d3, d4, d5, _, _, _, d9, d10, _, d12, d13, _, d15, d16⟩ :=
    bpu_send_pending_fields fuel _ B sr (by show (1 : Nat) ≠ 0; omega) hs
  simp only [] at d1 d3 d4 d5 d9 d10 d12 d13 d15 d16
  rw [hY] at d1 d3 d4 d5 d9 d10 d12 d13 d15 d16
  simp only [] at d1 d3 d4 d5 d9 d10 d12 d13 d15 d16
  obtain ⟨m, d, hfr⟩ := flush_requeue_eq sr.bpu (jobq_front b)
  -- the state the branch leaves
  have hemit : ∃ s1, flush_emit fuel (tx_free_query (flush_popped b)).1 B BPU_RC_OK
        (jobq_front b) = some s1 ∧ s1.done = true ∧ s1.rc = BPU_RC_OK ∧
      s1.budget_left = sr.budget_left ∧
      s1.bpu = { sr.bpu with
                 jobq := (flush_requeue sr.bpu (jobq_front b)).jobq
                 pending_len := 0
                 pending_pos := 0
                 pending_have := 0
                 st := { sr.bpu.st with
                         job_in := u32_inc sr.bpu.st.job_in
                         job_merge := m
                         job_drop := d
                         degrade_requeue := u32_inc sr.bpu.st.degrade_requeue
                         tx_skip_backpressure :=
                           if sr.rc ≠ BPU_RC_OK then sr.bpu.st.tx_skip_backpressure
                           else u32_inc sr.bpu.st.tx_skip_backpressure } } := by
    unfold flush_emit
    simp only [hbf, ne_eq, not_true_eq_false, if_false]
    rw [hs]
    simp only []
    by_cases hrc : sr.rc = BPU_RC_OK
    · have hpr : sr.progress = false := by
        rcases hfail with h1 | h1
        · exact absurd hrc h1
        · exact h1
      simp only [hrc, not_true_eq_false, if_false, hpr, Bool.not_false, if_true]
      refine ⟨_, rfl, rfl, rfl, rfl, ?_⟩
      unfold inc_tx_skip_backpressure inc_degrade_requeue clear_pending
      rw [hfr]
    · simp only [hrc, not_false_eq_true, if_true]
      refine ⟨_, rfl, rfl, rfl, rfl, ?_⟩
      unfold inc_degrade_requeue clear_pending
      rw [hfr]
  obtain ⟨s1, e1, e2, e3, e4, e5⟩ := hemit
  have hjob : flush_job fuel b B BPU_RC_OK = some s1 := by
    rw [flush_job_fits fuel b B BPU_RC_OK hc hw, if_neg (by rw [hfree]; decide),
      if_neg (by omega)]
    exact e1
  have hres := bpu_flush_jobs_one fuel b B s1 hf hB hp hc hjob e2
  rw [e3, e4] at hres
  have hq : sr.bpu.jobq = (flush_popped b).jobq := d9
  refine ⟨s1.bpu, hres, ?_, ?_, ?_, ?_, ?_, ?_, ?_, ?_, ?_, ?_, ?_, ?_, ?_, ?_, ?_⟩
  · rw [e5]
  · rw [e5]
  · rw [e5]
  · rw [e5]
    rfl
  · intro hwf
    obtain ⟨p1, p2, p3⟩ := jobq_contents_popped b hc hwf
    have : jobq_contents s1.bpu.jobq =
        jobq_requeued (jobq_contents b.jobq).tail (jobq_front b) := by
      rw [e5]
      show jobq_contents (flush_requeue sr.bpu (jobq_front b)).jobq = _
      rw [jobq_contents_requeue sr.bpu _ (by rw [hq]; exact p2) (by rw [hq]; exact p3), hq, p1]
      rfl
    rw [this]
    exact ⟨rfl, jobq_requeued_mem _ _⟩
  · rw [e5]
    show u32_inc sr.bpu.st.degrade_requeue = _
    rw [d1]
    rfl
  · rw [e5]
  · rw [e5]
    show (if sr.rc ≠ BPU_RC_OK then sr.bpu.st.tx_skip_backpressure
      else u32_inc sr.bpu.st.tx_skip_backpressure) = _
    by_cases hrc : sr.rc = BPU_RC_OK
    · have hpr : sr.progress = false := by
        rcases hfail with h1 | h1
        · exact absurd hrc h1
        · exact h1
      rw [if_neg (by simpa using hrc), if_neg (by simpa using hrc),
        (d16 hrc hpr (by omega) hB).1]
      rfl
    · rw [if_pos hrc, if_pos hrc, (d15 hrc).1]
      rfl
  · rw [e5]
    show sr.bpu.st.flush_try = _
    rw [d3]
    rfl
  · rw [e5]
    show sr.bpu.st.job_out = _
    rw [d5]
    rfl
  · rw [e5]
    show sr.bpu.st.flush_ok = _
    rw [d4]
    rfl
  · rw [e5]
    show sr.bpu.seq = _
    rw [d12]
    rfl
  · rw [e5]
    show sr.bpu.frames_built = _
    rw [d13]
    rfl
  · rw [e5]
  · rw [e5]
    show sr.bpu.evq = _
    rw [d10]
    rfl

set_option maxHeartbeats 4000000 in
set_option maxRecDepth 1000000 in
/-- Instance of `bpu_flush_jobs_send_fails`. Over the broken link the write
of the new frame fails: the frame is discarded, the HB job is requeued,
`degrade_requeue = 1`, `tx_skip_backpressure = 0`. Over the closed valve the
write takes nothing: the same, with `tx_skip_backpressure = 2`. In both cases
the budget is still 200, `bpu_flush_jobs` returns OK and `seq = 1`. -/
theorem bpu_flush_jobs_send_fails_witness :
    ((1 : Nat) ≤ 201 ∧ (200 : Nat) ≠ 0 ∧ bpu_faulty_job.pending_have = 0 ∧
      bpu_faulty_job.jobq.count ≠ 0 ∧ worst_on_wire (jobq_front bpu_faulty_job).len ≤ 200 ∧
      (tx_free_query (flush_popped bpu_faulty_job)).2.2 = BPU_RC_OK ∧
      (tx_free_query (flush_popped bpu_faulty_job)).1.cfg.tx_min_free ≤
        (tx_free_query (flush_popped bpu_faulty_job)).2.1) ∧
    (∃ (sr : SendRes Nat) (b' : Bpu Nat), sr.rc ≠ BPU_RC_OK ∧
      bpu_flush_jobs 201 bpu_faulty_job 200 = some (b', sr.budget_left, BPU_RC_OK) ∧
      b'.pending_have = 0 ∧ b'.pending_len = 0 ∧ b'.pending_pos = 0 ∧
      b'.st.degrade_requeue = u32_inc bpu_faulty_job.st.degrade_requeue) ∧
    (bpu_flush_jobs 201 bpu_faulty_job 200).map
        (fun r => (r.2.2, r.2.1, r.1.pending_have, r.1.pending_len, r.1.pending_pos,
          (jobq_contents r.1.jobq).map (fun j => j.type), r.1.st.degrade_requeue,
          r.1.st.tx_skip_backpressure, r.1.seq, r.1.frames_built,
          r.1.tx_log.map (fun c => (c.rc, c.wrote)))) =
      some (BPU_RC_OK, 200, 0, 0, 0, [BPU_JOB_HB], 1, 0, 1, 1, [(BPU_RC_ERR, 0)]) ∧
    (bpu_flush_jobs 201 bpu_valve_job 200).map
        (fun r => (r.2.2, r.2.1, r.1.pending_have, r.1.pending_len, r.1.pending_pos,
          (jobq_contents r.1.jobq).map (fun j => j.type), r.1.st.degrade_requeue,
          r.1.st.tx_skip_backpressure, r.1.seq, r.1.frames_built,
          r.1.tx_log.map (fun c => (c.rc, c.wrote)))) =
      some (BPU_RC_OK, 200, 0, 0, 0, [BPU_JOB_HB], 1, 2, 1, 1, [(BPU_RC_OK, 0)]) := by
  refine ⟨⟨by decide, by decide, by decide, by decide, by decide, by decide, by decide⟩, ?_,
    by rfl, by rfl⟩
  obtain ⟨sr, hs⟩ := Option.isSome_iff_exists.mp
    (show (bpu_send_pending 201
      (bpu_build_frame (tx_free_query (flush_popped bpu_faulty_job)).1
        (jobq_front bpu_faulty_job).type (jobq_front bpu_faulty_job).payload
        (if (jobq_front bpu_faulty_job).len > 255 then 255
         else (jobq_front bpu_faulty_job).len % 256)).1 200).isSome = true by decide)
  have hrc : sr.rc ≠ BPU_RC_OK := by
    have e : (bpu_send_pending 201
        (bpu_build_frame (tx_free_query (flush_popped bpu_faulty_job)).1
          (jobq_front bpu_faulty_job).type (jobq_front bpu_faulty_job).payload
          (if (jobq_front bpu_faulty_job).len > 255 then 255
           else (jobq_front bpu_faulty_job).len % 256)).1 200).map (fun r => r.rc) =
        some BPU_RC_ERR := by decide
    rw [hs] at e
    have e2 : sr.rc = BPU_RC_ERR := Option.some.inj e
    rw [e2]
    decide
  obtain ⟨b', a1, a2, a3, a4, _, _, a7, _⟩ :=
    bpu_flush_jobs_send_fails 201 bpu_faulty_job 200 sr (by decide) (by decide) (by decide)
      (by decide) (by decide) (by decide) (by decide) hs (Or.inl hrc)
  exact ⟨sr, b', hrc, a1, a2, a3, a4, a7⟩

theorem Stalled.rfl_stalled {σ : Type} (Z : σ → Prop) (a : Bpu σ) : Stalled Z 0 a a where
  pending_buf := rfl
  pending_len := rfl
  pending_pos := rfl
  pending_have := rfl
  seq := rfl
  frames_built := rfl
  cfg := rfl
  init_magic := rfl
  tx_write_some := rfl
  time_us := rfl
  job_out := rfl
  flush_try := rfl
  tx_bytes := rfl
  tx_frame_sent := rfl
  tx_frame_partial := rfl
  backpressure := rfl
  log := ⟨[], by simp, by simp⟩
  ctx := id

theorem Stalled.trans_stalled {σ : Type} {Z : σ → Prop} {k m : Nat} {a b c : Bpu σ}
    (h1 : Stalled Z k a b) (h2 : Stalled Z m b c) : Stalled Z (m + k) a c where
  pending_buf := h2.pending_buf.trans h1.pending_buf
  pending_len := h2.pending_len.trans h1.pending_len
  pending_pos := h2.pending_pos.trans h1.pending_pos
  pending_have := h2.pending_have.trans h1.pending_have
  seq := h2.seq.trans h1.seq
  frames_built := h2.frames_built.trans h1.frames_built
  cfg := h2.cfg.trans h1.cfg
  init_magic := h2.init_magic.trans h1.init_magic
  tx_write_some := h2.tx_write_some.trans h1.tx_write_some
  time_us := h2.time_us.trans h1.time_us
  job_out := h2.job_out.trans h1.job_out
  flush_try := h2.flush_try.trans h1.flush_try
  tx_bytes := h2.tx_bytes.trans h1.tx_bytes
  tx_frame_sent := h2.tx_frame_sent.trans h1.tx_frame_sent
  tx_frame_partial := h2.tx_frame_partial.trans h1.tx_frame_partial
  backpressure := by
    rw [h2.backpressure, h1.backpressure, Function.iterate_add_apply]
  log := by
    obtain ⟨n1, e1, p1⟩ := h1.log
    obtain ⟨n2, e2, p2⟩ := h2.log
    refine ⟨n1 ++ n2, by rw [e2, e1, List.append_assoc], fun x hx => ?_⟩
    rcases List.mem_append.mp hx with hx | hx
    · exact p1 x hx
    · have := p2 x hx
      rw [h1.pending_pos] at this
      exact this
  ctx := fun h => h2.ctx (h1.ctx h)

/-- A change of the host state within `Z` is a stalled step. -/
theorem stalled_ctx {σ : Type} (Z : σ → Prop) (a : Bpu σ) (c : σ) (h : Z a.io.ctx → Z c) :
    Stalled Z 0 a { a with io := { a.io with ctx := c } } where
  pending_buf := rfl
  pending_len := rfl
  pending_pos := rfl
  pending_have := rfl
  seq := rfl
  frames_built := rfl
  cfg := rfl
  init_magic := rfl
  tx_write_some := rfl
  time_us := rfl
  job_out := rfl
  flush_try := rfl
  tx_bytes := rfl
  tx_frame_sent := rfl
  tx_frame_partial := rfl
  backpressure := rfl
  log := ⟨[], by simp, by simp⟩
  ctx := h

/-- A change of the rings and of counters other than the kept ones is a
stalled step. -/
theorem stalled_queue {σ : Type} (Z : σ → Prop) (a b : Bpu σ) (hq : QueueOnly a b)
    (hs : StatsKept a.st b.st) : Stalled Z 0 a b := by
  obtain ⟨eq, jq, st', rfl, _⟩ := hq
  obtain ⟨s1, s2, s3, s4, s5, s6⟩ := hs
  exact
    { pending_buf := rfl, pending_len := rfl, pending_pos := rfl, pending_have := rfl,
      seq := rfl, frames_built := rfl, cfg := rfl, init_magic := rfl, tx_write_some := rfl,
      time_us := rfl, job_out := s1, flush_try := s2, tx_bytes := s3, tx_frame_sent := s4,
      tx_frame_partial := s5, backpressure := s6, log := ⟨[], by simp, by simp⟩, ctx := id }

theorem statsKept_rfl (s : BpuStats) : StatsKept s s :=
  ⟨rfl, rfl, rfl, rfl, rfl, rfl⟩

theorem statsKept_trans {s t u : BpuStats} (h1 : StatsKept s t) (h2 : StatsKept t u) :
    StatsKept s u :=
  ⟨h2.1.trans h1.1, h2.2.1.trans h1.2.1, h2.2.2.1.trans h1.2.2.1,
   h2.2.2.2.1.trans h1.2.2.2.1, h2.2.2.2.2.1.trans h1.2.2.2.2.1,
   h2.2.2.2.2.2.trans h1.2.2.2.2.2⟩

theorem sched_aged_statsKept (st : BpuStats) (cfg : BpuConfig) (e : BpuEvent) (now_ms : Nat) :
    StatsKept st (sched_aged st cfg e now_ms) := by
  unfold sched_aged
  simp only []
  split_ifs <;> exact ⟨rfl, rfl, rfl, rfl, rfl, rfl⟩

theorem bpu_evq_pop_statsKept {σ : Type} (b : Bpu σ) (out : BpuEvent) :
    StatsKept b.st (bpu_evq_pop b out).1.st := by
  unfold bpu_evq_pop
  simp only []
  split_ifs <;> exact ⟨rfl, rfl, rfl, rfl, rfl, rfl⟩

theorem bpu_jobq_push_coalesce_statsKept {σ : Type} (b : Bpu σ) (j : BpuJob) :
    StatsKept b.st (bpu_jobq_push_coalesce b j).1.st := by
  obtain ⟨m, d, h⟩ := bpu_jobq_push_coalesce_st b j
  rw [h]
  exact ⟨rfl, rfl, rfl, rfl, rfl, rfl⟩

theorem sched_event_statsKept {σ : Type} (now_ms : Nat) (s : Bpu σ × Nat) (e : BpuEvent) :
    StatsKept s.1.st (sched_event now_ms s e).1.st := by
  have h1 := sched_aged_statsKept s.1.st s.1.cfg e now_ms
  have h2 := bpu_jobq_push_coalesce_statsKept
    { s.1 with st := sched_aged s.1.st s.1.cfg e now_ms } (sched_job (s.1.stack_job s.1.st.job_in) e now_ms)
  have e1 : (sched_event now_ms s e).1 =
      (bpu_jobq_push_coalesce { s.1 with st := sched_aged s.1.st s.1.cfg e now_ms }
        (sched_job (s.1.stack_job s.1.st.job_in) e now_ms)).1 := by
    unfold sched_event
    simp only []
    split_ifs <;> rfl
  rw [e1]
  exact statsKept_trans h1 h2

theorem sched_loop_statsKept {σ : Type} (now_ms : Nat) : ∀ (fuel : Nat) (s r : Bpu σ × Nat),
    sched_loop now_ms fuel s = some r → StatsKept s.1.st r.1.st := by
  intro fuel
  induction fuel with
  | zero => intro s r h; simp [sched_loop] at h
  | succ n ih =>
    intro s r h
    rw [sched_loop] at h
    have p1 := bpu_evq_pop_statsKept s.1 default
    split_ifs at h
    · cases h
      exact p1
    · have e1 := sched_event_statsKept now_ms ((bpu_evq_pop s.1 default).1, s.2)
        (bpu_evq_pop s.1 default).2.1
      exact statsKept_trans (statsKept_trans p1 e1) (ih _ _ h)

theorem pendSame_trans {σ : Type} {a b c : Bpu σ} (h1 : PendSame a b) (h2 : PendSame b c) :
    PendSame a c :=
  ⟨h2.1.trans h1.1, h2.2.1.trans h1.2.1, h2.2.2.trans h1.2.2⟩

theorem pendSame_strict {σ : Type} {a b : Bpu σ} (h : PendSame a b) (ha : PendStrict a) :
    PendStrict b := by
  intro hb
  rw [h.2.1, h.2.2]
  exact ha (by rw [← h.1]; exact hb)

theorem pendSame_queueOnly {σ : Type} {a b : Bpu σ} (h : QueueOnly a b) : PendSame a b := by
  obtain ⟨eq, jq, st', rfl, _⟩ := h
  exact ⟨rfl, rfl, rfl⟩

theorem pendSame_requeue {σ : Type} (x : Bpu σ) (j : BpuJob) :
    PendSame x (flush_requeue x j) :=
  pendSame_queueOnly (bpu_jobq_push_coalesce_queueOnly x j).1

theorem pendSame_free_query {σ : Type} (x : Bpu σ) : PendSame x (tx_free_query x).1 := by
  obtain ⟨c, e⟩ := tx_free_query_eq x
  rw [e]
  exact ⟨rfl, rfl, rfl⟩

theorem pendSame_skip_budget {σ : Type} (x : Bpu σ) (j : BpuJob) :
    PendSame x (flush_skip_budget x j) := by
  have h1 := pendSame_requeue
    ({ x with st := { x.st with tx_skip_budget := u32_inc x.st.tx_skip_budget } } : Bpu σ) j
  unfold flush_skip_budget
  simp only []
  split_ifs
  · exact ⟨rfl, rfl, rfl⟩
  · exact h1
  · exact h1

theorem send_step_strict {σ : Type} (f : σ → (Nat → Nat) → Nat → Nat × Nat × σ) (s : SendSt σ)
    (hc : send_cond s = true) (h : (send_step f s).rc ≠ BPU_RC_OK) :
    (send_step f s).bpu.pending_pos < (send_step f s).bpu.pending_len := by
  have hc2 : s.bpu.pending_pos < s.bpu.pending_len ∧ s.rc = BPU_RC_OK := by
    simp [send_cond] at hc
    exact ⟨hc.1.2, hc.2⟩
  unfold send_step at h ⊢
  simp only [] at h ⊢
  split_ifs at h ⊢
  · exact absurd hc2.2 h
  · exact hc2.1
  · exact absurd hc2.2 h
  · exact absurd hc2.2 h

theorem send_loop_strict {σ : Type} (f : σ → (Nat → Nat) → Nat → Nat × Nat × σ) :
    ∀ (fuel : Nat) (s s' : SendSt σ), send_loop f fuel s = some s' →
    (s.rc ≠ BPU_RC_OK → s.bpu.pending_pos < s.bpu.pending_len) →
    (s'.rc ≠ BPU_RC_OK → s'.bpu.pending_pos < s'.bpu.pending_len) := by
  intro fuel
  induction fuel with
  | zero =>
    intro s s' h hs
    rw [send_loop] at h
    split_ifs at h
    cases h
    exact hs
  | succ n ih =>
    intro s s' h hs
    rw [send_loop] at h
    split_ifs at h with hc
    · exact ih _ _ h (send_step_strict f s hc)
    · cases h
      exact hs

theorem send_finish_strict {σ : Type} (s : SendSt σ)
    (h : s.rc ≠ BPU_RC_OK → s.bpu.pending_pos < s.bpu.pending_len) :
    PendStrict (send_finish s).bpu := by
  unfold send_finish PendStrict
  simp only []
  split_ifs with h1 h2 h3
  · intro hh
    exact absurd rfl hh
  · intro _
    show s.bpu.pending_pos < s.bpu.pending_len
    omega
  · intro _
    show s.bpu.pending_pos < s.bpu.pending_len
    omega
  · intro _
    exact h h1

/-- After `bpu_send_pending` an occupied pending buffer has bytes left. -/
theorem bpu_send_pending_strict {σ : Type} (fuel : Nat) (b : Bpu σ) (B : Nat) (r : SendRes σ)
    (h : bpu_send_pending fuel b B = some r) (hb : PendStrict b) : PendStrict r.bpu := by
  by_cases hp : b.pending_have = 0
  · unfold bpu_send_pending at h
    rw [if_pos hp] at h
    cases h
    intro hh
    exact absurd hp hh
  · cases hf : b.io.tx_write_some with
    | none =>
      rw [bpu_send_pending_no_callback fuel b B hp hf] at h
      cases h
      exact hb
    | some f =>
      obtain ⟨s', hl, rfl⟩ := bpu_send_pending_loop fuel b B r f hp hf h
      exact send_finish_strict s'
        (send_loop_strict f fuel _ s' hl (fun hh => absurd rfl hh))

theorem flush_emit_strict {σ : Type} (fuel : Nat) (x : Bpu σ) (B rc : Nat) (j : BpuJob)
    (s' : FlushSt σ) (h : flush_emit fuel x B rc j = some s') : PendStrict s'.bpu := by
  obtain ⟨b1, b2, _, _⟩ := build_frame_job_len x j
  have hpos : (bpu_build_frame x j.type j.payload
      (if j.len > 255 then 255 else j.len % 256)).1.pending_pos = 0 := by
    obtain ⟨buf, e, _, _⟩ := bpu_build_frame_eq x j.type j.payload
      (if j.len > 255 then 255 else j.len % 256)
    rw [e]
  have hst : PendStrict (bpu_build_frame x j.type j.payload
      (if j.len > 255 then 255 else j.len % 256)).1 := by
    intro _
    rw [hpos, b2]
    omega
  unfold flush_emit at h
  simp only [] at h
  rw [if_neg (by rw [b1]; simp)] at h
  cases hs : bpu_send_pending fuel
      (bpu_build_frame x j.type j.payload (if j.len > 255 then 255 else j.len % 256)).1 B with
  | none => rw [hs] at h; cases h
  | some r =>
    rw [hs] at h
    have hr := bpu_send_pending_strict fuel _ B r hs hst
    simp only [] at h
    split_ifs at h
    · cases h
      intro hh
      exact absurd rfl hh
    · cases h
      intro hh
      exact absurd rfl hh
    · cases h
      exact hr

theorem flush_job_strict {σ : Type} (fuel : Nat) (b : Bpu σ) (B rc : Nat) (s' : FlushSt σ)
    (hc : b.jobq.count ≠ 0) (hb : PendStrict b)
    (h : flush_job fuel b B rc = some s') : PendStrict s'.bpu := by
  have hp : PendSame b (flush_popped b) := ⟨rfl, rfl, rfl⟩
  have hq := pendSame_trans hp (pendSame_free_query (flush_popped b))
  have hr := pendSame_trans hq
    (pendSame_requeue (tx_free_query (flush_popped b)).1 (jobq_front b))
  by_cases hw : worst_on_wire (jobq_front b).len > B
  · rw [flush_job_skip fuel b B rc hc hw] at h
    cases h
    exact pendSame_strict (pendSame_trans hp (pendSame_skip_budget _ _)) hb
  · rw [flush_job_fits fuel b B rc hc (by omega)] at h
    split_ifs at h
    · cases h
      exact pendSame_strict hr hb
    · cases h
      exact pendSame_strict hr hb
    · exact flush_emit_strict fuel _ B rc _ s' h

theorem flush_step_strict {σ : Type} (fuel : Nat) (s s' : FlushSt σ) (hb : PendStrict s.bpu)
    (h : flush_step fuel s = some s') : PendStrict s'.bpu := by
  unfold flush_step at h
  split_ifs at h with h1 h2 h3
  · cases h
    exact hb
  · cases hs : bpu_send_pending fuel s.bpu s.budget_left with
    | none => rw [hs] at h; cases h
    | some r =>
      rw [hs] at h
      have out := bpu_send_pending_strict fuel _ _ r hs hb
      simp only [] at h
      split_ifs at h <;> cases h <;> exact out
  · cases h
    exact hb
  · exact flush_job_strict fuel s.bpu s.budget_left s.rc s' h3 hb h

theorem flush_loop_strict {σ : Type} (inner : Nat) : ∀ (fuel : Nat) (s s' : FlushSt σ),
    PendStrict s.bpu → flush_loop inner fuel s = some s' → PendStrict s'.bpu := by
  intro fuel
  induction fuel with
  | zero =>
    intro s s' hb h
    rw [flush_loop] at h
    split_ifs at h
    cases h
    exact hb
  | succ n ih =>
    intro s s' hb h
    rw [flush_loop] at h
    split_ifs at h
    · cases h
      exact hb
    · cases hs : flush_step inner s with
      | none => rw [hs] at h; cases h
      | some s1 =>
        rw [hs] at h
        exact ih s1 s' (flush_step_strict inner s s1 hb hs) h

theorem bpu_flush_jobs_strict {σ : Type} (fuel : Nat) (b : Bpu σ) (B : Nat)
    (r : Bpu σ × Nat × Nat) (hb : PendStrict b) (h : bpu_flush_jobs fuel b B = some r) :
    PendStrict r.1 := by
  unfold bpu_flush_jobs at h
  cases hl : flush_loop fuel fuel
      { bpu := b, budget_left := B, rc := BPU_RC_OK, done := false } with
  | none => rw [hl] at h; cases h
  | some s' =>
    rw [hl] at h
    cases h
    exact flush_loop_strict fuel fuel _ s' hb hl

theorem tick_finish_strict {σ : Type} (x : Bpu σ) (now_us t0 : Nat) (have_t0 : Bool)
    (hx : PendStrict x) : PendStrict (tick_finish x now_us t0 have_t0) := by
  obtain ⟨c, wl, wm, e, _⟩ := tick_finish_eq x now_us t0 have_t0
  rw [e]
  exact hx

theorem bpu_tick_ex_strict {σ : Type} (fuel : Nat) (b : Bpu σ) (now_ms now_us : Nat)
    (r : Bpu σ × Nat) (hb : PendStrict b) (h : bpu_tick_ex fuel b now_ms now_us = some r) :
    PendStrict r.1 := by
  by_cases hm : b.init_magic = BPU_MAGIC
  · obtain ⟨c0, hc0, _⟩ := tick_sample_eq b now_us
    have h0 : PendStrict (tick_sample b now_us).1 := by
      rw [hc0]
      exact hb
    rcases bpu_tick_ex_cases fuel b now_ms now_us r hm h with ⟨_, sr, hs, _, e⟩ |
      ⟨y, B, sch, fl, hy, hsch, hfl, e⟩
    · rw [e]
      exact tick_finish_strict _ _ _ _ (bpu_send_pending_strict fuel _ _ sr hs h0)
    · have hy2 : PendStrict y := by
        rcases hy with ⟨_, rfl, _⟩ | ⟨_, sr, hs, _, rfl, _⟩
        · exact h0
        · exact bpu_send_pending_strict fuel _ _ sr hs h0
      have hsc : PendStrict sch.1 :=
        pendSame_strict (pendSame_queueOnly (sched_loop_queueOnly now_ms _ _ _ hsch).1) hy2
      rw [e]
      exact tick_finish_strict _ _ _ _ (bpu_flush_jobs_strict fuel _ _ fl hsc hfl)
  · unfold bpu_tick_ex at h
    rw [if_pos hm] at h
    cases h
    exact hb

theorem bpu_push_event_pendSame {σ : Type} (b : Bpu σ) (evt_type : Nat)
    (payload : Nat → Nat) (len now_ms : Nat) :
    PendSame b (bpu_push_event b evt_type payload len now_ms).1 := by
  have h0 : ∀ st' : BpuStats, PendSame b (bpu_evq_push_coalesce { b with st := st' }
      (push_event_record b.stack_evt evt_type payload len now_ms)).1 := fun st' =>
    pendSame_trans (⟨rfl, rfl, rfl⟩ : PendSame b { b with st := st' })
      (pendSame_queueOnly (bpu_evq_push_coalesce_queueOnly _ _).1)
  unfold bpu_push_event
  by_cases hm : b.init_magic ≠ BPU_MAGIC
  · rw [if_pos hm]
    exact ⟨rfl, rfl, rfl⟩
  · rw [if_neg hm]
    simp only []
    rw [ite_pair_fst]
    exact h0 _

theorem bpu_init_pending_have {σ : Type} (mem : Bpu σ) (io : BpuIo σ) (cfg : BpuConfig)
    (h : (bpu_init mem io cfg).2 = BPU_RC_OK) : (bpu_init mem io cfg).1.pending_have = 0 := by
  unfold bpu_init at h ⊢
  by_cases h1 : io.tx_free.isNone = true
  · rw [if_pos h1] at h
    exact absurd h (by show ¬ (1 : Nat) = 0; omega)
  · by_cases h2 : io.tx_write_some.isNone = true
    · rw [if_neg h1, if_pos h2] at h
      exact absurd h (by show ¬ (1 : Nat) = 0; omega)
    · rw [if_neg h1, if_neg h2]

theorem reachable_pendStrict {σ : Type} (b : Bpu σ) (h : Reachable b) : PendStrict b := by
  induction h with
  | init mem io cfg h =>
    intro hh
    exact absurd (bpu_init_pending_have mem io cfg h) hh
  | push_event b evt_type payload len now_ms _ ih =>
    exact pendSame_strict (bpu_push_event_pendSame b evt_type payload len now_ms) ih
  | tick_ex b fuel now_ms now_us r _ h ih => exact bpu_tick_ex_strict fuel b now_ms now_us r ih h
  | host b c _ ih => exact ih
  | stack b e0 j0 _ ih => exact ih

/-- In every reachable state an occupied pending buffer has bytes left to
send: `bpu_send_pending` clears the buffer as soon as the send position
reaches the staged length. -/
theorem reachable_pending_strict {σ : Type} (b : Bpu σ) (h : Reachable b)
    (hp : b.pending_have ≠ 0) : b.pending_pos < b.pending_len :=
  reachable_pendStrict b h hp

theorem sched_loop_evq_empty {σ : Type} (now_ms : Nat) : ∀ (fuel : Nat) (s r : Bpu σ × Nat),
    sched_loop now_ms fuel s = some r → r.1.evq.count = 0 := by
  intro fuel
  induction fuel with
  | zero => intro s r h; simp [sched_loop] at h
  | succ n ih =>
    intro s r h
    rw [sched_loop] at h
    by_cases hc : s.1.evq.count = 0
    · rw [bpu_evq_pop_empty s.1 default hc] at h
      simp only [ne_eq, not_false_eq_true, if_true] at h
      rw [if_pos (by decide)] at h
      cases h
      exact hc
    · rw [bpu_evq_pop_nonempty s.1 default hc] at h
      simp only [ne_eq, not_true_eq_false, if_false] at h
      exact ih _ _ h

/-- The scheduler is a stalled step, and it returns. -/
theorem bpu_schedule_from_events_stalled {σ : Type} (Z : σ → Prop) (b : Bpu σ) (now_ms : Nat) :
    ∃ r, bpu_schedule_from_events b now_ms = some r ∧ Stalled Z 0 b r.1 ∧ r.1.evq.count = 0 := by
  obtain ⟨r, hr⟩ := sched_loop_total now_ms b.evq.count (b, BPU_RC_OK) (le_refl _)
  refine ⟨r, hr, stalled_queue Z b r.1 (sched_loop_queueOnly now_ms _ _ _ hr).1
    (sched_loop_statsKept now_ms _ _ _ hr), ?_⟩
  exact sched_loop_evq_empty now_ms _ _ _ hr

/-- One call of `bpu_send_pending` on an occupied buffer with bytes left, over
a transport that takes nothing: it returns OK without progress and leaves the
budget alone; with a budget of 0 it makes no call at all. -/
theorem bpu_send_pending_stalled {σ : Type} (Z : σ → Prop)
    (f : σ → (Nat → Nat) → Nat → Nat × Nat × σ) (hZ : Blocks Z f)
    (hZs : ∀ c p w, Z c → Z (f c p w).2.2) (fuel : Nat) (b : Bpu σ) (B : Nat)
    (hp : b.pending_have ≠ 0) (hf : b.io.tx_write_some = some f) (hZc : Z b.io.ctx)
    (hpos : b.pending_pos < b.pending_len) (hfuel : 1 ≤ fuel) :
    ∃ r, bpu_send_pending fuel b B = some r ∧ r.rc = BPU_RC_OK ∧ r.progress = false ∧
      r.budget_left = B ∧ Stalled Z (if B = 0 then 0 else 1) b r.bpu := by
  obtain ⟨n, rfl⟩ : ∃ n, fuel = n + 1 := ⟨fuel - 1, by omega⟩
  obtain ⟨_, _, _, w4, w5⟩ := send_want_le b B
  by_cases hB : B = 0
  · have hw0 : send_want b B = 0 := w4 hB
    have hstep : send_step f
        { bpu := b, budget_left := B, progress := false, done := false, rc := BPU_RC_OK } =
        { bpu := b, budget_left := B, progress := false, done := true, rc := BPU_RC_OK } := by
      unfold send_step
      simp only [hw0, if_true]
    have he : bpu_send_pending (n + 1) b B = some
        { bpu := { b with
                   st := { b.st with
                           pending_active := 1
                           pending_len := b.pending_len % 4294967296
                           pending_pos := b.pending_pos % 4294967296 } }
          budget_left := B
          progress := false
          rc := BPU_RC_OK } := by
      unfold bpu_send_pending
      rw [if_neg hp, hf]
      simp only []
      rw [send_loop, if_pos (by simp [send_cond, hpos]), hstep,
        send_loop_stop f n _ (by simp [send_cond])]
      simp only [Option.map_some']
      unfold send_finish
      simp only [if_true]
      rw [if_neg (by show ¬ b.pending_pos ≥ b.pending_len; omega)]
      simp only [Bool.false_eq_true, if_false]
    refine ⟨_, he, rfl, rfl, rfl, ?_⟩
    rw [if_pos hB]
    exact
      { pending_buf := rfl, pending_len := rfl, pending_pos := rfl, pending_have := rfl,
        seq := rfl, frames_built := rfl, cfg := rfl, init_magic := rfl, tx_write_some := rfl,
        time_us := rfl, job_out := rfl, flush_try := rfl, tx_bytes := rfl,
        tx_frame_sent := rfl, tx_frame_partial := rfl, backpressure := rfl,
        log := ⟨[], by simp, by simp⟩, ctx := id }
  · have hw := w5 hB
    have hw0 : send_want b B ≠ 0 := by
      rw [hw]
      split_ifs with hc <;> omega
    obtain ⟨z1, z2⟩ := hZ b.io.ctx (fun k => b.pending_buf (b.pending_pos + k)) (send_want b B)
      hZc
    have z3 := hZs b.io.ctx (fun k => b.pending_buf (b.pending_pos + k)) (send_want b B) hZc
    have hstep : send_step f
        { bpu := b, budget_left := B, progress := false, done := false, rc := BPU_RC_OK } =
        { bpu := { b with
                   io := { b.io with
                           ctx := (f b.io.ctx (fun k => b.pending_buf (b.pending_pos + k))
                             (send_want b B)).2.2 }
                   tx_log := b.tx_log ++
                     [{ pos := b.pending_pos, plen := b.pending_len, budget := B,
                        want := send_want b B,
                        data := arr_list (fun k => b.pending_buf (b.pending_pos + k))
                          (send_want b B),
                        rc := BPU_RC_OK, wrote := 0 }]
                   st := { b.st with
                           tx_skip_backpressure := u32_inc b.st.tx_skip_backpressure } }
          budget_left := B, progress := false, done := true, rc := BPU_RC_OK } := by
      unfold send_step
      simp only [hw0, if_false, z1, z2, ne_eq, not_true_eq_false, if_true]
    have he : bpu_send_pending (n + 1) b B = some
        { bpu := { b with
                   io := { b.io with
                           ctx := (f b.io.ctx (fun k => b.pending_buf (b.pending_pos + k))
                             (send_want b B)).2.2 }
                   tx_log := b.tx_log ++
                     [{ pos := b.pending_pos, plen := b.pending_len, budget := B,
                        want := send_want b B,
                        data := arr_list (fun k => b.pending_buf (b.pending_pos + k))
                          (send_want b B),
                        rc := BPU_RC_OK, wrote := 0 }]
                   st := { b.st with
                           tx_skip_backpressure := u32_inc b.st.tx_skip_backpressure
                           pending_active := 1
                           pending_len := b.pending_len % 4294967296
                           pending_pos := b.pending_pos % 4294967296 } }
          budget_left := B
          progress := false
          rc := BPU_RC_OK } := by
      unfold bpu_send_pending
      rw [if_neg hp, hf]
      simp only []
      rw [send_loop, if_pos (by simp [send_cond, hpos]), hstep,
        send_loop_stop f n _ (by simp [send_cond])]
      simp only [Option.map_some']
      unfold send_finish
      simp only [if_true]
      rw [if_neg (by show ¬ b.pending_pos ≥ b.pending_len; omega)]
      simp only [Bool.false_eq_true, if_false]
    refine ⟨_, he, rfl, rfl, rfl, ?_⟩
    rw [if_neg hB]
    exact
      { pending_buf := rfl, pending_len := rfl, pending_pos := rfl, pending_have := rfl,
        seq := rfl, frames_built := rfl, cfg := rfl, init_magic := rfl, tx_write_some := rfl,
        time_us := rfl, job_out := rfl, flush_try := rfl, tx_bytes := rfl,
        tx_frame_sent := rfl, tx_frame_partial := rfl, backpressure := rfl,
        log := ⟨_, rfl, fun x hx => by
          rw [List.mem_singleton] at hx
          subst hx
          exact ⟨rfl, rfl, rfl⟩⟩,
        ctx := fun _ => z3 }

/-- The flush loop on an occupied buffer with bytes left, over a transport
that takes nothing: one `bpu_send_pending` without progress (none when the
budget is 0), then the loop stops; no job is popped and no frame is built. -/
theorem bpu_flush_jobs_stalled {σ : Type} (Z : σ → Prop)
    (f : σ → (Nat → Nat) → Nat → Nat × Nat × σ) (hZ : Blocks Z f)
    (hZs : ∀ c p w, Z c → Z (f c p w).2.2) (fuel : Nat) (b : Bpu σ) (B : Nat)
    (hp : b.pending_have ≠ 0) (hf : b.io.tx_write_some = some f) (hZc : Z b.io.ctx)
    (hpos : b.pending_pos < b.pending_len) (hfuel : 1 ≤ fuel) :
    ∃ y, bpu_flush_jobs fuel b B = some (y, B, BPU_RC_OK) ∧
      Stalled Z (if B = 0 then 0 else 1) b y := by
  by_cases hB : B = 0
  · subst hB
    exact ⟨b, bpu_flush_jobs_zero fuel b hfuel, Stalled.rfl_stalled Z b⟩
  · obtain ⟨r, hs, h1, h2, h3, h4⟩ :=
      bpu_send_pending_stalled Z f hZ hZs fuel b B hp hf hZc hpos hfuel
    obtain ⟨n, rfl⟩ : ∃ n, fuel = n + 1 := ⟨fuel - 1, by omega⟩
    refine ⟨r.bpu, ?_, h4⟩
    unfold bpu_flush_jobs
    rw [flush_loop_one (n + 1) n _
      { bpu := r.bpu, budget_left := r.budget_left, rc := BPU_RC_OK, done := true } rfl
      (by
        unfold flush_step
        simp only []
        rw [if_neg hB, if_pos hp, hs]
        simp only []
        rw [if_neg (by rw [h1]; decide), if_pos (by rw [h2]; rfl)]) rfl]
    simp only [Option.map_some', h3]

/-- The end of a tick is a stalled step. -/
theorem tick_finish_stalled {σ : Type} (Z : σ → Prop) (x : Bpu σ) (now_us t0 : Nat)
    (have_t0 : Bool) (hT : ClockOk Z x.io) :
    Stalled Z 0 x (tick_finish x now_us t0 have_t0) := by
  obtain ⟨c, wl, wm, e, hA⟩ := tick_finish_eq x now_us t0 have_t0
  rw [e]
  exact
    { pending_buf := rfl, pending_len := rfl, pending_pos := rfl, pending_have := rfl,
      seq := rfl, frames_built := rfl, cfg := rfl, init_magic := rfl, tx_write_some := rfl,
      time_us := rfl, job_out := rfl, flush_try := rfl, tx_bytes := rfl,
      tx_frame_sent := rfl, tx_frame_partial := rfl, backpressure := rfl,
      log := ⟨[], by simp, by simp⟩, ctx := hA Z hT }

/-- A tick that starts with the pending buffer occupied, bytes left to send,
over a transport that takes nothing: the tick returns and is a stalled step;
`tx_skip_backpressure` goes up twice unless the budget is 0. -/
theorem bpu_tick_ex_stalled {σ : Type} (Z : σ → Prop)
    (f : σ → (Nat → Nat) → Nat → Nat × Nat × σ) (fuel : Nat) (b : Bpu σ)
    (now_ms now_us : Nat) (hm : b.init_magic = BPU_MAGIC)
    (hp : b.pending_have ≠ 0) (hpos : b.pending_pos < b.pending_len)
    (hf : b.io.tx_write_some = some f) (hZ : Blocks Z f)
    (hZs : ∀ c p w, Z c → Z (f c p w).2.2) (hT : ClockOk Z b.io) (hZc : Z b.io.ctx)
    (hfuel : 1 ≤ fuel) :
    ∃ r, bpu_tick_ex fuel b now_ms now_us = some (r, BPU_RC_OK) ∧
      Stalled Z (if b.cfg.tx_budget_bytes = 0 then 0 else 2) b r := by
  obtain ⟨c0, hc0, hA0⟩ := tick_sample_eq b now_us
  have s0 : Stalled Z 0 b (tick_sample b now_us).1 := by
    rw [hc0]
    exact stalled_ctx Z b c0 (hA0 Z hT)
  have hph : (tick_sample b now_us).1.pending_have = b.pending_have := s0.pending_have
  have hcfg : (tick_sample b now_us).1.cfg = b.cfg := s0.cfg
  obtain ⟨sr, hs, r1, r2, r3, s1⟩ := bpu_send_pending_stalled Z f hZ hZs fuel
    (tick_sample b now_us).1 b.cfg.tx_budget_bytes (by rw [hph]; exact hp)
    (by rw [s0.tx_write_some]; exact hf) (s0.ctx hZc)
    (by rw [s0.pending_pos, s0.pending_len]; exact hpos) hfuel
  have s01 := s0.trans_stalled s1
  obtain ⟨sch, hsch, s2, _⟩ := bpu_schedule_from_events_stalled Z sr.bpu now_ms
  have s02 := s01.trans_stalled s2
  obtain ⟨y, hfl, s3⟩ := bpu_flush_jobs_stalled Z f hZ hZs fuel sch.1 b.cfg.tx_budget_bytes
    (by rw [s02.pending_have]; exact hp) (by rw [s02.tx_write_some]; exact hf) (s02.ctx hZc)
    (by rw [s02.pending_pos, s02.pending_len]; exact hpos) hfuel
  have s03 := s02.trans_stalled s3
  have s4 := tick_finish_stalled Z y now_us (tick_sample b now_us).2.1
    (tick_sample b now_us).2.2
    (clockOk_of_time_us Z b.io y.io s03.time_us hT)
  have s04 := s03.trans_stalled s4
  refine ⟨tick_finish y now_us (tick_sample b now_us).2.1 (tick_sample b now_us).2.2, ?_, ?_⟩
  · unfold bpu_tick_ex
    rw [if_neg (by rw [hm]; decide)]
    simp only []
    rw [hcfg, hph, if_pos hp, hs]
    simp only [Option.map_some', r1, ne_eq, not_true_eq_false, if_false, if_true, hsch, r3,
      hfl]
  · have hk : (0 + ((if b.cfg.tx_budget_bytes = 0 then 0 else 1) +
        (0 + ((if b.cfg.tx_budget_bytes = 0 then 0 else 1) + 0)))) =
        (if b.cfg.tx_budget_bytes = 0 then 0 else 2) := by
      split_ifs <;> rfl
    rw [← hk]
    exact s04

/-- C26. If `bpu_tick_ex` starts with the pending buffer occupied (in a
reachable state, or in any state whose send position is short of the staged
length) and `tx_write_some` returns OK with 0 bytes written on every call (`Z`
is any set of host states that holds the current one, is closed under the
callbacks and on which `tx_write_some` does so; `Z` may be all host states),
then the tick returns with any fuel of at least 1, and after it `pending_buf`,
`pending_len`, `pending_pos`, `pending_have` and `seq` are unchanged, no job
has been popped (`job_out` and `flush_try` unchanged), no frame has been built,
`tx_bytes`, `tx_frame_sent` and `tx_frame_partial` are unchanged, and every
`tx_write_some` call of the tick was made at the old send position and
returned OK with 0 bytes. On an initialised BPU the tick returns OK and
`tx_skip_backpressure` has gone up twice (not at all when the budget is 0). -/
theorem bpu_tick_ex_pending_blocks {σ : Type} (Z : σ → Prop)
    (f : σ → (Nat → Nat) → Nat → Nat × Nat × σ) (fuel : Nat) (b : Bpu σ)
    (now_ms now_us : Nat)
    (hp : b.pending_have ≠ 0) (hpos : Reachable b ∨ b.pending_pos < b.pending_len)
    (hf : b.io.tx_write_some = some f) (hZ : Blocks Z f)
    (hZs : ∀ c p w, Z c → Z (f c p w).2.2) (hT : ClockOk Z b.io) (hZc : Z b.io.ctx)
    (hfuel : 1 ≤ fuel) :
    ∃ r, bpu_tick_ex fuel b now_ms now_us = some r ∧
      r.1.pending_buf = b.pending_buf ∧ r.1.pending_len = b.pending_len ∧
      r.1.pending_pos = b.pending_pos ∧ r.1.pending_have = b.pending_have ∧
      r.1.seq = b.seq ∧ r.1.st.job_out = b.st.job_out ∧ r.1.st.flush_try = b.st.flush_try ∧
      r.1.frames_built = b.frames_built ∧ r.1.st.tx_bytes = b.st.tx_bytes ∧
      r.1.st.tx_frame_sent = b.st.tx_frame_sent ∧
      r.1.st.tx_frame_partial = b.st.tx_frame_partial ∧
      (∃ new, r.1.tx_log = b.tx_log ++ new ∧
        ∀ x ∈ new, x.rc = BPU_RC_OK ∧ x.wrote = 0 ∧ x.pos = b.pending_pos) ∧
      (b.init_magic = BPU_MAGIC →
        r.2 = BPU_RC_OK ∧
        r.1.st.tx_skip_backpressure =
          (if b.cfg.tx_budget_bytes = 0 then b.st.tx_skip_backpressure
           else u32_inc (u32_inc b.st.tx_skip_backpressure))) := by
  have hpos2 : b.pending_pos < b.pending_len := by
    rcases hpos with h | h
    · exact reachable_pending_strict b h hp
    · exact h
  by_cases hm : b.init_magic = BPU_MAGIC
  · obtain ⟨r, hr, s⟩ := bpu_tick_ex_stalled Z f fuel b now_ms now_us hm hp hpos2 hf hZ hZs hT
      hZc hfuel
    refine ⟨(r, BPU_RC_OK), hr, s.pending_buf, s.pending_len, s.pending_pos, s.pending_have,
      s.seq, s.job_out, s.flush_try, s.frames_built, s.tx_bytes, s.tx_frame_sent,
      s.tx_frame_partial, s.log, fun _ => ⟨rfl, ?_⟩⟩
    have hb := s.backpressure
    split_ifs at hb ⊢ with h0
    · exact hb
    · exact hb
  · refine ⟨(b, BPU_RC_ERR), ?_, rfl, rfl, rfl, rfl, rfl, rfl, rfl, rfl, rfl, rfl, rfl,
      ⟨[], by simp, by simp⟩, fun h => absurd h hm⟩
    unfold bpu_tick_ex
    rw [if_pos hm]

set_option maxHeartbeats 4000000 in
set_option maxRecDepth 1000000 in
/-- Instance of `bpu_tick_ex_pending_blocks`: the reachable state
`bpu_room_after` (frame of 11 bytes staged, 4 sent, transport room used up; on
the host state 0 the transport of `io_room` takes nothing). The tick at
`now_ms = 101` with fuel 1 returns OK, makes two `tx_write_some` calls that
return 0, and leaves the pending buffer, `seq`, `job_out`, `frames_built` and
`tx_bytes` as they were. -/
theorem bpu_tick_ex_pending_blocks_witness :
    bpu_room_after.pending_have ≠ 0 ∧ Reachable bpu_room_after ∧
    bpu_room_after.io.ctx = 0 ∧
    (bpu_room_after.pending_pos, bpu_room_after.pending_len, bpu_room_after.seq,
      bpu_room_after.st.job_out, bpu_room_after.frames_built, bpu_room_after.st.tx_bytes,
      bpu_room_after.st.tx_skip_backpressure) = (4, 11, 1, 1, 1, 4, 2) ∧
    (bpu_tick_ex 1 bpu_room_after 101 0).map
      (fun r => (r.2, r.1.pending_have, r.1.pending_pos, r.1.pending_len, r.1.seq,
        r.1.st.job_out, r.1.frames_built, r.1.st.tx_bytes, r.1.st.tx_skip_backpressure,
        (r.1.tx_log.drop bpu_room_after.tx_log.length).map (fun x => (x.rc, x.wrote)))) =
      some (BPU_RC_OK, 1, 4, 11, 1, 1, 1, 4, 4, [(BPU_RC_OK, 0), (BPU_RC_OK, 0)]) ∧
    (∃ r, bpu_tick_ex 1 bpu_room_after 101 0 = some r ∧
      r.1.pending_buf = bpu_room_after.pending_buf ∧
      r.1.pending_len = bpu_room_after.pending_len ∧
      r.1.pending_pos = bpu_room_after.pending_pos ∧
      r.1.pending_have = bpu_room_after.pending_have ∧
      r.1.seq = bpu_room_after.seq ∧ r.1.st.job_out = bpu_room_after.st.job_out ∧
      r.1.st.flush_try = bpu_room_after.st.flush_try ∧
      r.1.frames_built = bpu_room_after.frames_built ∧
      r.1.st.tx_bytes = bpu_room_after.st.tx_bytes ∧
      r.1.st.tx_frame_sent = bpu_room_after.st.tx_frame_sent ∧
      r.1.st.tx_frame_partial = bpu_room_after.st.tx_frame_partial ∧
      (∃ new, r.1.tx_log = bpu_room_after.tx_log ++ new ∧
        ∀ x ∈ new, x.rc = BPU_RC_OK ∧ x.wrote = 0 ∧ x.pos = bpu_room_after.pending_pos) ∧
      (bpu_room_after.init_magic = BPU_MAGIC →
        r.2 = BPU_RC_OK ∧
        r.1.st.tx_skip_backpressure =
          (if bpu_room_after.cfg.tx_budget_bytes = 0 then bpu_room_after.st.tx_skip_backpressure
           else u32_inc (u32_inc bpu_room_after.st.tx_skip_backpressure)))) :=
  ⟨by decide, bpu_room_after_reachable, by rfl, by rfl, by rfl,
   bpu_tick_ex_pending_blocks (fun c => c = 0)
     (fun c _ want => (BPU_RC_OK, min want c, c - min want c)) 1 bpu_room_after 101 0
     (by decide) (Or.inl bpu_room_after_reachable) (by rfl)
     (fun c p w hc => by subst hc; exact ⟨rfl, Nat.min_zero w⟩)
     (fun c p w hc => by subst hc; exact Nat.zero_sub _)
     (fun t ht => absurd ht (by rw [show bpu_room_after.io.time_us = none by rfl]; simp))
     (by rfl) (le_refl 1)⟩

theorem jobq_contents_length (r : BpuJobRing) : (jobq_contents r).length = r.count := by
  unfold jobq_contents
  simp

theorem jobq_contents_mem (r : BpuJobRing) (x : BpuJob) :
    x ∈ jobq_contents r ↔ ∃ i, i < r.count ∧ r.buf (bpu_jor_at r i) = x := by
  unfold jobq_contents
  simp [List.mem_map, List.mem_range]

theorem jobqInv_push {σ : Type} (b : Bpu σ) (j : BpuJob) (h : JobqInv b) :
    JobqInv (bpu_jobq_push_coalesce b j).1 := by
  obtain ⟨hw, hn⟩ := h
  refine ⟨bpu_jobq_push_coalesce_wf b j hw, ?_⟩
  obtain ⟨h1, h2⟩ := jobq_contents_push_coalesce b j hw
  by_cases hex : ∃ x ∈ jobq_contents b.jobq, x.type = j.type
  · rw [h1 hex, List.map_map]
    have e : (jobq_contents b.jobq).map
        ((fun x : BpuJob => x.type) ∘ (fun x => if x.type = j.type then j else x)) =
        (jobq_contents b.jobq).map (fun x => x.type) := by
      apply List.map_congr_left
      intro x _
      simp only [Function.comp]
      split_ifs with hx
      · exact hx.symm
      · rfl
    rw [e]
    exact hn
  · have hno : ∀ x ∈ jobq_contents b.jobq, x.type ≠ j.type := fun x hx hxt => hex ⟨x, hx, hxt⟩
    by_cases hc : b.jobq.count < 4
    · rw [h2 hno hc, List.map_append, List.nodup_append]
      refine ⟨hn, by simp, ?_⟩
      intro t ht hj
      rw [List.mem_map] at ht
      obtain ⟨x, hx, rfl⟩ := ht
      simp only [List.map_cons, List.map_nil, List.mem_singleton] at hj
      exact hno x hx hj
    · have hno2 : ∀ i, i < b.jobq.count → (b.jobq.buf (bpu_jor_at b.jobq i)).type ≠ j.type :=
        fun i hi => hno _ ((jobq_contents_mem _ _).mpr ⟨i, hi, rfl⟩)
      rw [bpu_jobq_push_coalesce_not_merged b j hw.1 hno2,
        jobq_append_full _ j (by show b.jobq.count ≥ 4; omega)]
      exact hn

theorem jobqInv_pop {σ : Type} (b : Bpu σ) (out : BpuJob) (h : JobqInv b) :
    JobqInv (bpu_jobq_pop b out).1 := by
  obtain ⟨hw, hn⟩ := h
  refine ⟨bpu_jobq_pop_wf b out hw, ?_⟩
  by_cases hc : b.jobq.count = 0
  · rw [bpu_jobq_pop_empty b out hc]
    exact hn
  · rw [bpu_jobq_pop_nonempty b out hc]
    rw [jobq_contents_pop b.jobq (b.jobq.count - 1) (by omega) hw.2.1, List.map_cons,
      List.nodup_cons] at hn
    exact hn.2

theorem jobqInv_closed {σ : Type} : StepClosed (fun a b : Bpu σ => JobqInv a → JobqInv b) where
  id_ok := fun _ h => h
  comp_ok := fun _ _ _ h1 h2 h => h2 (h1 h)
  ctx_ok := fun _ _ h => h
  stack_ok := fun _ _ _ h => h
  st_ok := fun _ _ h => h
  log_ok := fun _ _ h => h
  pend_ok := fun _ _ _ _ h => h
  build_ok := by
    intro b t p l h
    obtain ⟨buf, heq, _, _⟩ := bpu_build_frame_eq b t p l
    rw [heq]
    exact h
  evq_push_ok := by
    intro b e h
    obtain ⟨_, h2, _⟩ := bpu_evq_push_coalesce_queueOnly b e
    unfold JobqInv
    rw [h2]
    exact h
  evq_pop_ok := by
    intro b out h
    obtain ⟨_, h2, _⟩ := bpu_evq_pop_queueOnly b out
    unfold JobqInv
    rw [h2]
    exact h
  jobq_push_ok := fun b j h => jobqInv_push b j h
  jobq_pop_ok := fun b out h => jobqInv_pop b out h

theorem reachable_jobqInv {σ : Type} (b : Bpu σ) (hr : Reachable b) : JobqInv b := by
  refine reachable_of_closed JobqInv ?_ jobqInv_closed b hr
  intro mem io cfg h
  unfold bpu_init at h ⊢
  by_cases h1 : io.tx_free.isNone
  · rw [if_pos h1] at h
    exact absurd h (by show ¬ (1 : Nat) = 0; omega)
  · by_cases h2 : io.tx_write_some.isNone
    · rw [if_neg h1, if_pos h2] at h
      exact absurd h (by show ¬ (1 : Nat) = 0; omega)
    · rw [if_neg h1, if_neg h2]
      exact ⟨⟨Nat.zero_le _, Nat.zero_lt_succ _, rfl⟩, List.nodup_nil⟩

/-- The job-queue invariant holds wherever a round of the flush loop starts. -/
theorem tickState_jobqInv {σ : Type} (b : Bpu σ) (h : TickState b) : JobqInv b := by
  induction h with
  | entry b hr => exact reachable_jobqInv b hr
  | sample b now_us _ ih =>
    obtain ⟨c, hc, _⟩ := tick_sample_eq b now_us
    rw [hc]
    exact ih
  | send b fuel B r _ h ih =>
    exact bpu_send_pending_closed jobqInv_closed.toQueueClosed fuel b B r h ih
  | sched b now_ms r _ h ih =>
    exact bpu_schedule_from_events_closed jobqInv_closed.toQueueClosed b now_ms r h ih
  | round inner s s' _ h ih => exact flush_step_closed jobqInv_closed inner s s' h ih

/-- The coalescing push of the job popped last, onto a state whose job ring is
the ring left by the pop: by the invariant no queued job has the type of the
popped job, and the pop has made room, so the job is appended. -/
theorem requeue_after_pop {σ : Type} (b y : Bpu σ) (hi : JobqInv b) (hc : b.jobq.count ≠ 0)
    (hq : y.jobq = (flush_popped b).jobq) (hd : y.st.job_drop = b.st.job_drop) :
    Requeued b (flush_requeue y (jobq_front b)) := by
  obtain ⟨hw, hn⟩ := hi
  obtain ⟨p1, p2, p3⟩ := jobq_contents_popped b hc hw
  rw [← hq] at p1 p2 p3
  have htail : (jobq_contents b.jobq).tail = jobq_contents y.jobq := by rw [p1]; rfl
  rw [p1, List.map_cons, List.nodup_cons] at hn
  have hno : ∀ x ∈ jobq_contents y.jobq, x.type ≠ (jobq_front b).type := by
    intro x hx hxt
    apply hn.1
    rw [List.mem_map]
    exact ⟨x, hx, hxt⟩
  have hcont : jobq_contents (flush_requeue y (jobq_front b)).jobq =
      jobq_contents y.jobq ++ [jobq_front b] := by
    rw [jobq_contents_requeue y (jobq_front b) p2 p3]
    unfold jobq_requeued
    rw [if_neg (fun ⟨x, hx, hxt⟩ => hno x hx hxt)]
  have hno2 : ∀ i, i < y.jobq.count →
      (y.jobq.buf (bpu_jor_at y.jobq i)).type ≠ (jobq_front b).type :=
    fun i hi => hno _ ((jobq_contents_mem _ _).mpr ⟨i, hi, rfl⟩)
  refine ⟨by rw [hcont, htail], ?_, ?_⟩
  · have hl := congrArg List.length hcont
    rw [jobq_contents_length, List.length_append, jobq_contents_length] at hl
    rw [hl, hq]
    show b.jobq.count - 1 + 1 = b.jobq.count
    omega
  · unfold flush_requeue
    rw [bpu_jobq_push_coalesce_not_merged y (jobq_front b) p2.1 hno2,
      jobq_append_room _ (jobq_front b) (by exact p3)]
    exact hd

theorem requeued_st {σ : Type} (b y : Bpu σ) (st' : BpuStats) (h : Requeued b y)
    (hd : st'.job_drop = y.st.job_drop) : Requeued b { y with st := st' } :=
  ⟨h.1, h.2.1, hd.trans h.2.2⟩

/-- The ways `flush_job` ends for the job `j` it pops, under the job-queue
invariant: by a requeue that appends `j` behind the other jobs, or with `j`
gone from the queue (dropped by the degrade policy, or sent at least in part). -/
theorem flush_job_requeue {σ : Type} (inner : Nat) (b : Bpu σ) (B rc : Nat) (s' : FlushSt σ)
    (hi : JobqInv b) (hc : b.jobq.count ≠ 0) (h : flush_job inner b B rc = some s') :
    (worst_on_wire (jobq_front b).len > B → b.cfg.enable_degrade ≠ 0 →
      (jobq_front b).type = BPU_JOB_TELEM →
      jobq_contents s'.bpu.jobq = (jobq_contents b.jobq).tail ∧
      s'.bpu.st.job_drop = b.st.job_drop ∧
      s'.bpu.st.degrade_drop = u32_inc b.st.degrade_drop) ∧
    (worst_on_wire (jobq_front b).len > B →
      (b.cfg.enable_degrade = 0 ∨ (jobq_front b).type ≠ BPU_JOB_TELEM) →
      Requeued b s'.bpu) ∧
    (worst_on_wire (jobq_front b).len ≤ B →
      ((tx_free_query (flush_popped b)).2.2 ≠ BPU_RC_OK ∨
       (tx_free_query (flush_popped b)).2.1 < b.cfg.tx_min_free) →
      Requeued b s'.bpu) ∧
    (worst_on_wire (jobq_front b).len ≤ B →
      (tx_free_query (flush_popped b)).2.2 = BPU_RC_OK →
      b.cfg.tx_min_free ≤ (tx_free_query (flush_popped b)).2.1 →
      ∃ r, bpu_send_pending inner
          (bpu_build_frame (tx_free_query (flush_popped b)).1 (jobq_front b).type
            (jobq_front b).payload
            (if (jobq_front b).len > 255 then 255 else (jobq_front b).len % 256)).1 B =
          some r ∧
        ((r.rc ≠ BPU_RC_OK ∨ r.progress = false) → Requeued b s'.bpu) ∧
        (r.rc = BPU_RC_OK → r.progress = true →
          jobq_contents s'.bpu.jobq = (jobq_contents b.jobq).tail ∧
          s'.bpu.st.job_drop = b.st.job_drop)) := by
  obtain ⟨p1, _, _⟩ := jobq_contents_popped b hc hi.1
  have htail : (jobq_contents b.jobq).tail = jobq_contents (flush_popped b).jobq := by
    rw [p1]; rfl
  obtain ⟨c, hq⟩ := tx_free_query_eq (flush_popped b)
  have hqj : (tx_free_query (flush_popped b)).1.jobq = (flush_popped b).jobq := by rw [hq]
  have hqd : (tx_free_query (flush_popped b)).1.st.job_drop = b.st.job_drop := by rw [hq]; rfl
  have hqc : (tx_free_query (flush_popped b)).1.cfg = b.cfg := by rw [hq]; rfl
  have hrq := requeue_after_pop b (tx_free_query (flush_popped b)).1 hi hc hqj hqd
  by_cases hw : worst_on_wire (jobq_front b).len > B
  · rw [flush_job_skip inner b B rc hc hw] at h
    cases h
    refine ⟨fun _ hd ht => ?_, fun _ hor => ?_, fun h1 => absurd hw (by omega),
      fun h1 => absurd hw (by omega)⟩
    · unfold flush_skip_budget
      simp only []
      rw [if_pos (by exact hd), if_pos ht]
      exact ⟨htail.symm, rfl, rfl⟩
    · have hx := requeue_after_pop b
        ({ flush_popped b with
           st := { (flush_popped b).st with
                   tx_skip_budget := u32_inc (flush_popped b).st.tx_skip_budget } } : Bpu σ)
        hi hc rfl rfl
      unfold flush_skip_budget
      simp only []
      by_cases hd : b.cfg.enable_degrade ≠ 0
      · have ht : (jobq_front b).type ≠ BPU_JOB_TELEM := by
          rcases hor with h0 | h0
          · exact absurd h0 hd
          · exact h0
        rw [if_pos (by exact hd), if_neg ht]
        exact requeued_st b _ _ hx rfl
      · rw [if_neg (by exact hd)]
        exact hx
  · rw [flush_job_fits inner b B rc hc (by omega)] at h
    refine ⟨fun h1 => absurd h1 hw, fun h1 => absurd h1 hw, fun _ hor => ?_,
      fun _ hok hroom => ?_⟩
    · rw [hqc] at h
      split_ifs at h with h1 h2
      · cases h
        exact requeued_st b _ _ hrq rfl
      · cases h
        exact requeued_st b _ _ (requeued_st b _ _ hrq rfl) rfl
      · rcases hor with h0 | h0
        · exact absurd h0 h1
        · exact absurd h0 h2
    · rw [hqc, if_neg (by rw [hok]; decide), if_neg (by omega)] at h
      obtain ⟨buf, hbf, _, _⟩ := bpu_build_frame_eq (tx_free_query (flush_popped b)).1
        (jobq_front b).type (jobq_front b).payload
        (if (jobq_front b).len > 255 then 255 else (jobq_front b).len % 256)
      unfold flush_emit at h
      simp only [] at h
      rw [if_neg (by rw [hbf]; simp)] at h
      cases hs : bpu_send_pending inner
          (bpu_build_frame (tx_free_query (flush_popped b)).1 (jobq_front b).type
            (jobq_front b).payload
            (if (jobq_front b).len > 255 then 255 else (jobq_front b).len % 256)).1 B with
      | none => rw [hs] at h; cases h
      | some r =>
        rw [hs] at h
        simp only [] at h
        have hrj : r.bpu.jobq = (flush_popped b).jobq := by
          rw [(bpu_send_pending_out inner _ B r hs).jobq, hbf]
          exact hqj
        have hrd : r.bpu.st.job_drop = b.st.job_drop := by
          obtain ⟨_, _, _, _, _, _, f7, _⟩ := bpu_send_pending_fields inner _ B r
            (by rw [hbf]; show ¬ (1 : Nat) = 0; omega) hs
          rw [f7, hbf]
          exact hqd
        have hrr := requeue_after_pop b r.bpu hi hc hrj hrd
        refine ⟨r, rfl, fun hfail => ?_, fun hrc hpr => ?_⟩
        · split_ifs at h with h1 h2
          · cases h
            exact requeued_st b _ _ hrr rfl
          · cases h
            exact requeued_st b _ _ (requeued_st b _ _ hrr rfl) rfl
          · rcases hfail with h0 | h0
            · exact absurd h0 h1
            · rw [h0] at h2
              exact absurd rfl h2
        · rw [if_neg (by rw [hrc]; decide), if_neg (by rw [hpr]; decide)] at h
          cases h
          exact ⟨by rw [htail]; exact congrArg jobq_contents hrj, hrd⟩

/-- C28. In every state a round of the loop of `bpu_flush_jobs` starts from
during a tick from a reachable state (`TickState`), the job ring is well
formed and no two queued jobs share a type. When the round pops the job `j` at
the front (budget not 0, nothing pending, queue not empty), then: `j` is the
head of the queue in pop order; `bpu_build_frame` does not fail for it; and the
round ends in one of these ways. Budget skip (`worst_on_wire > budget_left`):
with `enable_degrade` set and `j` of type TELEM the job is dropped by the
degrade policy (the queue is the rest, `job_drop` unchanged, `degrade_drop`
incremented), otherwise `j` is requeued. `tx_free` failure or low free space:
`j` is requeued. Send failure (`bpu_send_pending` on the built frame returns an
error or makes no progress): `j` is requeued; after a send with progress the
queue is the rest. Every requeue (`Requeued`) leaves `job_drop` unchanged, the
count equal to its value before the pop, and the queue in pop order equal to
the other jobs in their old order followed by `j`. -/
theorem flush_requeue_never_drops {σ : Type} (inner : Nat) (s s' : FlushSt σ)
    (hb : TickState s.bpu) (hB : s.budget_left ≠ 0) (hp : s.bpu.pending_have = 0)
    (hc : s.bpu.jobq.count ≠ 0) (h : flush_step inner s = some s') :
    JobqInv s.bpu ∧
    jobq_contents s.bpu.jobq = jobq_front s.bpu :: (jobq_contents s.bpu.jobq).tail ∧
    (bpu_build_frame (tx_free_query (flush_popped s.bpu)).1 (jobq_front s.bpu).type
      (jobq_front s.bpu).payload
      (if (jobq_front s.bpu).len > 255 then 255 else (jobq_front s.bpu).len % 256)).2 =
      BPU_RC_OK ∧
    (worst_on_wire (jobq_front s.bpu).len > s.budget_left → s.bpu.cfg.enable_degrade ≠ 0 →
      (jobq_front s.bpu).type = BPU_JOB_TELEM →
      jobq_contents s'.bpu.jobq = (jobq_contents s.bpu.jobq).tail ∧
      s'.bpu.st.job_drop = s.bpu.st.job_drop ∧
      s'.bpu.st.degrade_drop = u32_inc s.bpu.st.degrade_drop) ∧
    (worst_on_wire (jobq_front s.bpu).len > s.budget_left →
      (s.bpu.cfg.enable_degrade = 0 ∨ (jobq_front s.bpu).type ≠ BPU_JOB_TELEM) →
      Requeued s.bpu s'.bpu) ∧
    (worst_on_wire (jobq_front s.bpu).len ≤ s.budget_left →
      ((tx_free_query (flush_popped s.bpu)).2.2 ≠ BPU_RC_OK ∨
       (tx_free_query (flush_popped s.bpu)).2.1 < s.bpu.cfg.tx_min_free) →
      Requeued s.bpu s'.bpu) ∧
    (worst_on_wire (jobq_front s.bpu).len ≤ s.budget_left →
      (tx_free_query (flush_popped s.bpu)).2.2 = BPU_RC_OK →
      s.bpu.cfg.tx_min_free ≤ (tx_free_query (flush_popped s.bpu)).2.1 →
      ∃ r, bpu_send_pending inner
          (bpu_build_frame (tx_free_query (flush_popped s.bpu)).1 (jobq_front s.bpu).type
            (jobq_front s.bpu).payload
            (if (jobq_front s.bpu).len > 255 then 255
             else (jobq_front s.bpu).len % 256)).1 s.budget_left = some r ∧
        ((r.rc ≠ BPU_RC_OK ∨ r.progress = false) → Requeued s.bpu s'.bpu) ∧
        (r.rc = BPU_RC_OK → r.progress = true →
          jobq_contents s'.bpu.jobq = (jobq_contents s.bpu.jobq).tail ∧
          s'.bpu.st.job_drop = s.bpu.st.job_drop)) := by
  have hi := tickState_jobqInv s.bpu hb
  obtain ⟨p1, _, _⟩ := jobq_contents_popped s.bpu hc hi.1
  unfold flush_step at h
  rw [if_neg hB, if_neg (by rw [hp]; decide), if_neg hc] at h
  obtain ⟨c1, c2, c3, c4⟩ := flush_job_requeue inner s.bpu s.budget_left s.rc s' hi hc h
  refine ⟨hi, ?_, (build_frame_job_len _ _).1, c1, c2, c3, c4⟩
  rw [p1]
  rfl

set_option maxHeartbeats 4000000 in
set_option maxRecDepth 1000000 in
/-- Instance of `flush_requeue_never_drops`: the state `bpu_two_jobs` (after the
scheduler, queue SENSOR, CMD) with 5 bytes of budget left. The SENSOR job at
the front does not fit (estimate 13), it is not a TELEM job, so it is
requeued: the queue becomes CMD, SENSOR, the count stays 2 and `job_drop`
stays 0. -/
theorem flush_requeue_never_drops_witness :
    TickState bpu_two_jobs ∧
    ((jobq_contents bpu_two_jobs.jobq).map (fun x => x.type), bpu_two_jobs.jobq.count,
      bpu_two_jobs.st.job_drop, worst_on_wire (jobq_front bpu_two_jobs).len) =
      ([BPU_JOB_SENSOR, BPU_JOB_CMD], 2, 0, 13) ∧
    flush_step_short.map
      (fun s' => ((jobq_contents s'.bpu.jobq).map (fun x => x.type), s'.bpu.jobq.count,
        s'.bpu.st.job_drop, s'.bpu.st.degrade_requeue, s'.done)) =
      some ([BPU_JOB_CMD, BPU_JOB_SENSOR], 2, 0, 1, true) ∧
    (∃ s', flush_step_short = some s' ∧
      jobq_contents s'.bpu.jobq =
        (jobq_contents bpu_two_jobs.jobq).tail ++ [jobq_front bpu_two_jobs] ∧
      s'.bpu.jobq.count = bpu_two_jobs.jobq.count ∧
      s'.bpu.st.job_drop = bpu_two_jobs.st.job_drop) := by
  have ht : TickState bpu_two_jobs :=
    TickState.sched bpu_two_events 120 _
      (TickState.entry _ (Reachable.push_event _ _ _ _ _ (Reachable.push_event _ _ _ _ _
        (Reachable.init bpu_zeroed io_accept cfg_example rfl))))
      (Option.some_get _).symm
  refine ⟨ht, by rfl, by rfl, ?_⟩
  obtain ⟨s', hs⟩ := Option.isSome_iff_exists.mp (show flush_step_short.isSome = true by rfl)
  exact ⟨s', hs,
    (flush_requeue_never_drops 201
      { bpu := bpu_two_jobs, budget_left := 5, rc := BPU_RC_OK, done := false } s' ht
      (by decide) (by rfl) (by decide) hs).2.2.2.2.1 (by decide) (Or.inr (by decide))⟩

/-- The counted loop computes what `sched_loop` computes. -/
theorem sched_rounds_loop {σ : Type} (now_ms : Nat) : ∀ (fuel : Nat) (s : Bpu σ × Nat),
    (sched_rounds now_ms fuel s).map (fun r => r.1) = sched_loop now_ms fuel s := by
  intro fuel
  induction fuel with
  | zero => intro s; rfl
  | succ n ih =>
    intro s
    rw [sched_rounds, sched_loop]
    split_ifs
    · rfl
    · rw [← ih, Option.map_map]
      rfl

/-- With `n` events queued the loop of the scheduler takes `n + 1` rounds: it
does not finish within `n` rounds, and with more fuel it finishes in round
`n + 1`. -/
theorem sched_rounds_count {σ : Type} (now_ms : Nat) : ∀ (n : Nat) (s : Bpu σ × Nat),
    s.1.evq.count = n →
    (∀ fuel, fuel ≤ n → sched_rounds now_ms fuel s = none) ∧
    (∀ fuel, n < fuel → ∃ r, sched_rounds now_ms fuel s = some (r, n + 1)) := by
  intro n
  induction n with
  | zero =>
    intro s hc
    refine ⟨fun fuel hf => ?_, fun fuel hf => ?_⟩
    · obtain rfl : fuel = 0 := by omega
      rfl
    · obtain ⟨m, rfl⟩ : ∃ m, fuel = m + 1 := ⟨fuel - 1, by omega⟩
      rw [sched_rounds, bpu_evq_pop_empty s.1 default hc]
      simp only [ne_eq, not_false_eq_true, if_true]
      exact ⟨_, rfl⟩
  | succ n ih =>
    intro s hc
    have hne : s.1.evq.count ≠ 0 := by omega
    have hcnt : (sched_event now_ms
        ((bpu_evq_pop s.1 default).1, s.2) (bpu_evq_pop s.1 default).2.1).1.evq.count = n := by
      rw [(sched_event_queueOnly now_ms _ _).2.2, bpu_evq_pop_nonempty s.1 default hne]
      show s.1.evq.count - 1 = n
      omega
    obtain ⟨i1, i2⟩ := ih _ hcnt
    have hrc : (bpu_evq_pop s.1 default).2.2 = BPU_RC_OK := by
      rw [bpu_evq_pop_nonempty s.1 default hne]
    refine ⟨fun fuel hf => ?_, fun fuel hf => ?_⟩
    · cases fuel with
      | zero => rfl
      | succ m =>
        rw [sched_rounds]
        rw [if_neg (by rw [hrc]; decide), i1 m (by omega)]
        rfl
    · obtain ⟨m, rfl⟩ : ∃ m, fuel = m + 1 := ⟨fuel - 1, by omega⟩
      obtain ⟨r, hr⟩ := i2 m (by omega)
      rw [sched_rounds]
      rw [if_neg (by rw [hrc]; decide), hr]
      exact ⟨r, rfl⟩

/-- A round of the drain loop of `bpu_send_pending` that does not stop the loop
has written at least one byte: the budget went down and the send position up. -/
theorem send_step_progress {σ : Type} (f : σ → (Nat → Nat) → Nat → Nat × Nat × σ)
    (s : SendSt σ) (hf : s.bpu.io.tx_write_some = some f) (hw : WellBehaved s.bpu.io)
    (hc : send_cond s = true) (hd : (send_step f s).done = false)
    (hr : (send_step f s).rc = BPU_RC_OK) :
    (send_step f s).budget_left < s.budget_left ∧ (send_step f s).progress = true ∧
    (s.bpu.pending_len < 65536 →
      s.bpu.pending_pos < (send_step f s).bpu.pending_pos ∧
      (send_step f s).bpu.pending_pos ≤ s.bpu.pending_len) := by
  have hc2 : s.bpu.pending_pos < s.bpu.pending_len := by
    simp [send_cond] at hc
    exact hc.1.2
  obtain ⟨w1, w2, _, _, _⟩ := send_want_le s.bpu s.budget_left
  have hle := hw f hf s.bpu.io.ctx (fun k => s.bpu.pending_buf (s.bpu.pending_pos + k))
    (send_want s.bpu s.budget_left)
  unfold send_step at hd hr ⊢
  simp only [] at hd hr ⊢
  split_ifs at hd hr ⊢ with h1 h2 h3
  · have hle2 := hle (by simpa using h2)
    have hu := u16_sub_le s.budget_left _ (le_trans hle2 w1)
    refine ⟨?_, rfl, fun hlen => ?_⟩
    · show u16_sub s.budget_left (_ % 65536) < s.budget_left
      omega
    · show s.bpu.pending_pos < (s.bpu.pending_pos + _ % 65536) % 65536 ∧
        (s.bpu.pending_pos + _ % 65536) % 65536 ≤ s.bpu.pending_len
      omega

/-- After a send with progress the check `before == *budget_left` of
`bpu_flush_jobs` is false and the loop goes on. -/
theorem flush_emit_check {σ : Type} (inner : Nat) (x : Bpu σ) (B rc : Nat) (j : BpuJob)
    (s' : FlushSt σ) (r : SendRes σ) (hw : WellBehaved x.io)
    (h : flush_emit inner x B rc j = some s')
    (hs : bpu_send_pending inner
      (bpu_build_frame x j.type j.payload (if j.len > 255 then 255 else j.len % 256)).1 B =
      some r)
    (hrc : r.rc = BPU_RC_OK) (hp : r.progress = true) :
    r.budget_left < B ∧ s'.done = false ∧ s'.budget_left = r.budget_left := by
  obtain ⟨buf, hbf, _, _⟩ := bpu_build_frame_eq x j.type j.payload
    (if j.len > 255 then 255 else j.len % 256)
  have hw2 : WellBehaved (bpu_build_frame x j.type j.payload
      (if j.len > 255 then 255 else j.len % 256)).1.io := by
    rw [hbf]
    exact hw
  have hlt := (bpu_send_pending_out inner _ B r hs).progress hw2 hp
  unfold flush_emit at h
  simp only [] at h
  rw [if_neg (by rw [hbf]; simp), hs] at h
  simp only [] at h
  rw [if_neg (by rw [hrc]; decide), if_neg (by rw [hp]; decide)] at h
  cases h
  exact ⟨hlt, by simp; omega, rfl⟩

set_option maxRecDepth 1000000 in
/-- C29 (counterexample). Against "bpu_schedule_from_events runs exactly
evq.count iterations": with one event queued (`bpu_hb_pushed`) the loop body runs twice,
once for the event and once for the `bpu_evq_pop` that fails and sets `done`;
one round does not finish the loop. -/
theorem schedule_one_event_two_rounds :
    bpu_hb_pushed.evq.count = 1 ∧
    (sched_rounds 100 2 (bpu_hb_pushed, BPU_RC_OK)).map (fun r => r.2) = some 2 ∧
    (sched_rounds 100 1 (bpu_hb_pushed, BPU_RC_OK)).isNone = true ∧
    (sched_loop 100 1 (bpu_hb_pushed, BPU_RC_OK)).isNone = true ∧
    (bpu_schedule_from_events bpu_hb_pushed 100).isSome = true ∧
    (sched_rounds 100 1 (bpu_fresh, BPU_RC_OK)).map (fun r => r.2) = some 1 ∧
    bpu_fresh.evq.count = 0 :=
  ⟨by decide, by rfl, by rfl, by rfl, by rfl, by rfl, by decide⟩

/-- C29 (amended). Assuming `tx_write_some` reports `wrote ≤ want` on every
call that returns OK, for every state `b` and budget `B`: the loops of
`bpu_send_pending` and `bpu_flush_jobs` terminate (any fuel above `B` is
enough); a round of the drain loop of `bpu_send_pending` that does not stop
the loop (it leaves `done` false and `rc` OK) strictly decreases `budget_left`
and, `pending_len` being a 16-bit value, strictly increases `pending_pos`; a
round of the loop of `bpu_flush_jobs` that leaves `done` false strictly
decreases `budget_left`; whenever `bpu_send_pending` reports progress
`budget_left` has strictly decreased; and after a send with progress in
`bpu_flush_jobs` the check `before == *budget_left` is false, so that the loop
goes on. The loop of `bpu_schedule_from_events` runs exactly `evq.count + 1`
rounds: one for each queued event and a last one, whose `bpu_evq_pop` fails and
ends the loop; it does not finish within `evq.count` rounds, and it leaves the
event queue empty. -/
theorem tick_loops_terminate {σ : Type} (b : Bpu σ) (B now_ms : Nat)
    (hw : WellBehaved b.io) :
    (∀ fuel, B < fuel → ∃ r, bpu_send_pending fuel b B = some r) ∧
    (∀ fuel, B < fuel → ∃ r, bpu_flush_jobs fuel b B = some r) ∧
    (∀ f progress, b.io.tx_write_some = some f → b.pending_pos < b.pending_len →
      (send_step f { bpu := b, budget_left := B, progress := progress, done := false,
                     rc := BPU_RC_OK }).done = false →
      (send_step f { bpu := b, budget_left := B, progress := progress, done := false,
                     rc := BPU_RC_OK }).rc = BPU_RC_OK →
      (send_step f { bpu := b, budget_left := B, progress := progress, done := false,
                     rc := BPU_RC_OK }).budget_left < B ∧
      (b.pending_len < 65536 →
        b.pending_pos <
          (send_step f { bpu := b, budget_left := B, progress := progress, done := false,
                         rc := BPU_RC_OK }).bpu.pending_pos)) ∧
    (∀ inner rc s',
      flush_step inner { bpu := b, budget_left := B, rc := rc, done := false } = some s' →
      s'.done = false → s'.budget_left < B) ∧
    (∀ fuel r, bpu_send_pending fuel b B = some r → r.progress = true → r.budget_left < B) ∧
    (∀ inner rc j s' r, flush_emit inner b B rc j = some s' →
      bpu_send_pending inner
        (bpu_build_frame b j.type j.payload (if j.len > 255 then 255 else j.len % 256)).1 B =
        some r →
      r.rc = BPU_RC_OK → r.progress = true → B ≠ r.budget_left ∧ s'.done = false) ∧
    (∀ fuel, fuel ≤ b.evq.count → sched_rounds now_ms fuel (b, BPU_RC_OK) = none) ∧
    (∃ r, bpu_schedule_from_events b now_ms = some r ∧
      sched_rounds now_ms (b.evq.count + 1) (b, BPU_RC_OK) = some (r, b.evq.count + 1) ∧
      r.1.evq.count = 0) := by
  obtain ⟨i1, i2⟩ := sched_rounds_count now_ms b.evq.count (b, BPU_RC_OK) rfl
  obtain ⟨r, hr⟩ := i2 (b.evq.count + 1) (Nat.lt_succ_self _)
  have hsch : bpu_schedule_from_events b now_ms = some r := by
    unfold bpu_schedule_from_events
    rw [← sched_rounds_loop, hr]
    rfl
  refine ⟨fun fuel hf => bpu_send_pending_total fuel b B hw hf,
    fun fuel hf => bpu_flush_jobs_total fuel b B hw hf,
    fun f progress hf hpos hd hrc => ?_,
    fun inner rc s' h hd => (flush_step_step inner _ s' h).2 hw hd,
    fun fuel r h hp => (bpu_send_pending_out fuel b B r h).progress hw hp,
    fun inner rc j s' r h hs hrc hp => ?_,
    i1, r, hsch, hr, sched_loop_evq_empty now_ms _ _ _ hsch⟩
  · obtain ⟨p1, _, p3⟩ := send_step_progress f
      { bpu := b, budget_left := B, progress := progress, done := false, rc := BPU_RC_OK }
      hf hw (by simp [send_cond, hpos]) hd hrc
    exact ⟨p1, fun hlen => (p3 hlen).1⟩
  · obtain ⟨q1, q2, _⟩ := flush_emit_check inner b B rc j s' r hw h hs hrc hp
    exact ⟨by omega, q2⟩

set_option maxHeartbeats 4000000 in
set_option maxRecDepth 1000000 in
/-- Instance of `tick_loops_terminate`: the state `bpu_staged` (an 11-byte
frame staged, transport `io_accept`) with a budget of 5. `bpu_send_pending`
returns with fuel 6; its one round that goes on writes 5 bytes, which takes
the budget from 5 to 0 and the send position from 0 to 5. The scheduler on
`bpu_hb_pushed` (one event queued) takes two rounds. -/
theorem tick_loops_terminate_witness :
    WellBehaved bpu_staged.io ∧
    (∃ r, bpu_send_pending 6 bpu_staged 5 = some r) ∧
    (bpu_send_pending 6 bpu_staged 5).map
      (fun r => (r.rc, r.progress, r.budget_left, r.bpu.pending_pos, r.bpu.pending_len)) =
      some (BPU_RC_OK, true, 0, 5, 11) ∧
    (∃ r, bpu_flush_jobs 6 bpu_staged 5 = some r) ∧
    (∃ r, bpu_schedule_from_events bpu_staged 100 = some r ∧
      sched_rounds 100 (bpu_staged.evq.count + 1) (bpu_staged, BPU_RC_OK) =
        some (r, bpu_staged.evq.count + 1) ∧
      r.1.evq.count = 0) ∧
    bpu_staged.evq.count = 0 :=
  ⟨wellBehaved_congr io_accept _ rfl io_accept_wellBehaved,
   (tick_loops_terminate bpu_staged 5 100
      (wellBehaved_congr io_accept _ rfl io_accept_wellBehaved)).1 6 (by decide),
   by rfl,
   (tick_loops_terminate bpu_staged 5 100
      (wellBehaved_congr io_accept _ rfl io_accept_wellBehaved)).2.1 6 (by decide),
   (tick_loops_terminate bpu_staged 5 100
      (wellBehaved_congr io_accept _ rfl io_accept_wellBehaved)).2.2.2.2.2.2.2,
   by decide⟩

/-- The encoder call of `bpu_build_frame`: on the `n + 6` staged bytes
(`n ≤ 64`) with the capacity of the pending buffer it returns `n + 7`. -/
theorem build_frame_encoder_len (type seq n : Nat) (payload : Nat → Nat) (out : Nat → Nat)
    (hn : n ≤ 64) :
    (bpu_cobs_encode (build_decoded type seq n payload) (4 + n + 2) out PENDING_CAP).1 =
      n + 7 := by
  have hrl : (frame_raw type seq n payload).length = n + 6 := frame_raw_length _ _ _ _
  have hblk : (cobs_blocks [] (frame_raw type seq n payload)).length = n + 7 := by
    rw [cobs_blocks_length_short _ [] (by simp; omega)]
    simp; omega
  have hfit : (cobs_blocks [] (arr_list (build_decoded type seq n payload)
      (4 + n + 2))).length ≤ PENDING_CAP := by
    rw [build_decoded_list, hblk]; show n + 7 ≤ 87; omega
  rw [((bpu_cobs_encode_spec _ _ out PENDING_CAP).1 hfit).1, build_decoded_list, hblk]

/-- C34. `bpu_build_frame` never fails: for every state, type, payload and
`len` it returns OK with `pending_len = min len 64 + 8 ≤ 72`, which is within
the 87 bytes of the pending buffer (`pending_pos = 0`, `pending_have = 1`). The
encoder call inside it returns `min len 64 + 7`, so neither the branch
`enc_len == 0` nor the branch `enc_len + 1 > sizeof pending_buf` is taken. In
`bpu_flush_jobs` the branch that requeues the job after a failed
`bpu_build_frame` is therefore never taken: the emit path always goes on to
`bpu_send_pending` on the state with the frame staged. -/
theorem bpu_build_frame_never_fails {σ : Type} (b : Bpu σ) (type : Nat) (payload : Nat → Nat)
    (len : Nat) :
    (bpu_build_frame b type payload len).2 = BPU_RC_OK ∧
    (bpu_build_frame b type payload len).1.pending_len = min len 64 + 8 ∧
    min len 64 + 8 ≤ 72 ∧ 72 ≤ PENDING_CAP ∧ PENDING_CAP = 87 ∧
    (bpu_build_frame b type payload len).1.pending_pos = 0 ∧
    (bpu_build_frame b type payload len).1.pending_have = 1 ∧
    (bpu_cobs_encode (build_decoded type b.seq (min len 64) payload) (4 + min len 64 + 2)
      b.pending_buf PENDING_CAP).1 = min len 64 + 7 ∧
    (bpu_cobs_encode (build_decoded type b.seq (min len 64) payload) (4 + min len 64 + 2)
      b.pending_buf PENDING_CAP).1 ≠ 0 ∧
    ¬ (bpu_cobs_encode (build_decoded type b.seq (min len 64) payload) (4 + min len 64 + 2)
      b.pending_buf PENDING_CAP).1 + 1 > PENDING_CAP ∧
    (∀ (fuel B rc : Nat) (j : BpuJob),
      flush_emit fuel b B rc j =
        (bpu_send_pending fuel
          (bpu_build_frame b j.type j.payload
            (if j.len > 255 then 255 else j.len % 256)).1 B).bind
          (fun r =>
            if r.rc ≠ BPU_RC_OK then
              some { bpu := inc_degrade_requeue (clear_pending (flush_requeue r.bpu j))
                     budget_left := r.budget_left, rc := rc, done := true }
            else if !r.progress then
              some { bpu := inc_tx_skip_backpressure
                              (inc_degrade_requeue (clear_pending (flush_requeue r.bpu j)))
                     budget_left := r.budget_left, rc := rc, done := true }
            else
              some { bpu := { r.bpu with
                              st := { r.bpu.st with flush_ok := u32_inc r.bpu.st.flush_ok } }
                     budget_left := r.budget_left, rc := rc
                     done := decide (B = r.budget_left) })) := by
  have hn64 : min len 64 ≤ 64 := Nat.min_le_right _ _
  have henc := build_frame_encoder_len type b.seq (min len 64) payload b.pending_buf hn64
  obtain ⟨buf, h, _, _⟩ := bpu_build_frame_eq b type payload len
  refine ⟨by rw [h], by rw [h], by omega, by decide, rfl, by rw [h], by rw [h], henc,
    by rw [henc]; omega, by rw [henc]; show ¬ min len 64 + 7 + 1 > 87; omega, ?_⟩
  intro fuel B rc j
  obtain ⟨buf2, h2, _, _⟩ := bpu_build_frame_eq b j.type j.payload
    (if j.len > 255 then 255 else j.len % 256)
  unfold flush_emit
  simp only []
  rw [if_neg (by rw [h2]; simp)]
  cases bpu_send_pending fuel
    (bpu_build_frame b j.type j.payload (if j.len > 255 then 255 else j.len % 256)).1 B with
  | none => rfl
  | some r => rfl

theorem jobq_scan_step_with_aged {σ : Type} (j : BpuJob) (b : Bpu σ) (m : Bool)
    (pa hs hh ht i : Nat) :
    jobq_scan_step j (with_aged b pa hs hh ht, m) i =
      (with_aged (jobq_scan_step j (b, m) i).1 pa hs hh ht, (jobq_scan_step j (b, m) i).2) := by
  unfold jobq_scan_step
  simp only []
  by_cases h : (b.jobq.buf (bpu_jor_at b.jobq i)).type = j.type
  · rw [if_pos h, if_pos (by exact h)]
    rfl
  · rw [if_neg h, if_neg (by exact h)]

theorem jobq_scan_fold_with_aged {σ : Type} (j : BpuJob) (pa hs hh ht : Nat) :
    ∀ (l : List Nat) (b : Bpu σ) (m : Bool),
    l.foldl (jobq_scan_step j) (with_aged b pa hs hh ht, m) =
      (with_aged (l.foldl (jobq_scan_step j) (b, m)).1 pa hs hh ht,
       (l.foldl (jobq_scan_step j) (b, m)).2) := by
  intro l
  induction l with
  | nil => intro b m; rfl
  | cons i t ih =>
    intro b m
    simp only [List.foldl_cons]
    rw [jobq_scan_step_with_aged, ih]

theorem jobq_append_with_aged {σ : Type} (j : BpuJob) (b : Bpu σ) (pa hs hh ht : Nat) :
    jobq_append (with_aged b pa hs hh ht) j =
      (with_aged (jobq_append b j).1 pa hs hh ht, (jobq_append b j).2) := by
  simp only [jobq_append]
  by_cases h : (bpu_jor_push b.jobq j).2 ≠ BPU_RC_OK
  · rw [if_pos h, if_pos (by exact h)]
    rfl
  · rw [if_neg h, if_neg (by exact h)]
    rfl

/-- The coalescing push neither reads nor writes the aging counters. -/
theorem bpu_jobq_push_coalesce_with_aged {σ : Type} (j : BpuJob) (b : Bpu σ)
    (pa hs hh ht : Nat) :
    bpu_jobq_push_coalesce (with_aged b pa hs hh ht) j =
      (with_aged (bpu_jobq_push_coalesce b j).1 pa hs hh ht,
       (bpu_jobq_push_coalesce b j).2) := by
  rw [bpu_jobq_push_coalesce_unfold, bpu_jobq_push_coalesce_unfold]
  have e : ({ with_aged b pa hs hh ht with
      st := { (with_aged b pa hs hh ht).st with
              job_in := u32_inc (with_aged b pa hs hh ht).st.job_in } } : Bpu σ)
      = with_aged { b with st := { b.st with job_in := u32_inc b.st.job_in } } pa hs hh ht :=
    rfl
  rw [e]
  show (if _ then _ else _) = _
  rw [show (with_aged b pa hs hh ht).jobq.count = b.jobq.count from rfl,
    jobq_scan_fold_with_aged]
  simp only []
  split_ifs
  · rfl
  · rw [jobq_append_with_aged]

theorem jobq_scan_step_with_cfg {σ : Type} (j : BpuJob) (b : Bpu σ) (m : Bool)
    (c : BpuConfig) (i : Nat) :
    jobq_scan_step j (with_cfg b c, m) i =
      (with_cfg (jobq_scan_step j (b, m) i).1 c, (jobq_scan_step j (b, m) i).2) := by
  unfold jobq_scan_step
  simp only []
  by_cases h : (b.jobq.buf (bpu_jor_at b.jobq i)).type = j.type
  · rw [if_pos h, if_pos (by exact h)]
    rfl
  · rw [if_neg h, if_neg (by exact h)]

theorem jobq_scan_fold_with_cfg {σ : Type} (j : BpuJob) (c : BpuConfig) :
    ∀ (l : List Nat) (b : Bpu σ) (m : Bool),
    l.foldl (jobq_scan_step j) (with_cfg b c, m) =
      (with_cfg (l.foldl (jobq_scan_step j) (b, m)).1 c,
       (l.foldl (jobq_scan_step j) (b, m)).2) := by
  intro l
  induction l with
  | nil => intro b m; rfl
  | cons i t ih =>
    intro b m
    simp only [List.foldl_cons]
    rw [jobq_scan_step_with_cfg, ih]

theorem jobq_append_with_cfg {σ : Type} (j : BpuJob) (b : Bpu σ) (c : BpuConfig) :
    jobq_append (with_cfg b c) j =
      (with_cfg (jobq_append b j).1 c, (jobq_append b j).2) := by
  simp only [jobq_append]
  by_cases h : (bpu_jor_push b.jobq j).2 ≠ BPU_RC_OK
  · rw [if_pos h, if_pos (by exact h)]
    rfl
  · rw [if_neg h, if_neg (by exact h)]
    rfl

/-- The coalescing push of a job does not read the configuration. -/
theorem bpu_jobq_push_coalesce_with_cfg {σ : Type} (j : BpuJob) (b : Bpu σ) (c : BpuConfig) :
    bpu_jobq_push_coalesce (with_cfg b c) j =
      (with_cfg (bpu_jobq_push_coalesce b j).1 c, (bpu_jobq_push_coalesce b j).2) := by
  rw [bpu_jobq_push_coalesce_unfold, bpu_jobq_push_coalesce_unfold]
  have e : ({ with_cfg b c with
      st := { (with_cfg b c).st with job_in := u32_inc (with_cfg b c).st.job_in } } : Bpu σ)
      = with_cfg { b with st := { b.st with job_in := u32_inc b.st.job_in } } c := rfl
  rw [e]
  show (if _ then _ else _) = _
  rw [show (with_cfg b c).jobq.count = b.jobq.count from rfl, jobq_scan_fold_with_cfg]
  simp only []
  split_ifs
  · rfl
  · rw [jobq_append_with_cfg]

/-- The counters after the aging test, as values. -/
theorem sched_aged_fields (st : BpuStats) (cfg : BpuConfig) (e : BpuEvent) (now_ms : Nat) :
    (sched_aged st cfg e now_ms).pick_aged =
      (if u32_sub now_ms e.t_ms ≥ cfg.aged_ms then u32_inc st.pick_aged else st.pick_aged) ∧
    (sched_aged st cfg e now_ms).aged_hit_sensor =
      (if u32_sub now_ms e.t_ms ≥ cfg.aged_ms ∧ e.type = BPU_EVT_SENSOR then
        u32_inc st.aged_hit_sensor else st.aged_hit_sensor) ∧
    (sched_aged st cfg e now_ms).aged_hit_hb =
      (if u32_sub now_ms e.t_ms ≥ cfg.aged_ms ∧ e.type = BPU_EVT_HB then
        u32_inc st.aged_hit_hb else st.aged_hit_hb) ∧
    (sched_aged st cfg e now_ms).aged_hit_telem =
      (if u32_sub now_ms e.t_ms ≥ cfg.aged_ms ∧ e.type = BPU_EVT_TELEM then
        u32_inc st.aged_hit_telem else st.aged_hit_telem) ∧
    sched_aged st cfg e now_ms =
      { st with pick_aged := (sched_aged st cfg e now_ms).pick_aged
                aged_hit_sensor := (sched_aged st cfg e now_ms).aged_hit_sensor
                aged_hit_hb := (sched_aged st cfg e now_ms).aged_hit_hb
                aged_hit_telem := (sched_aged st cfg e now_ms).aged_hit_telem } := by
  refine ⟨?_, ?_, ?_, ?_, ?_⟩ <;> unfold sched_aged <;> simp only [] <;> split_ifs <;>
    first
    | rfl
    | (exfalso; simp_all)

/-- `u32_sub` is the difference modulo `2^32`. -/
theorem u32_sub_int (a b : Nat) :
    (u32_sub a b : Int) = ((a : Int) - (b : Int)) % 4294967296 := by
  unfold u32_sub
  omega

/-- The body of the scheduler loop for a popped event, with the aging counters
separated from the job push. -/
theorem sched_event_eq {σ : Type} (now_ms : Nat) (s : Bpu σ × Nat) (e : BpuEvent) :
    sched_event now_ms s e =
      (with_aged (bpu_jobq_push_coalesce s.1 (sched_job (s.1.stack_job s.1.st.job_in) e now_ms)).1
        (sched_aged s.1.st s.1.cfg e now_ms).pick_aged
        (sched_aged s.1.st s.1.cfg e now_ms).aged_hit_sensor
        (sched_aged s.1.st s.1.cfg e now_ms).aged_hit_hb
        (sched_aged s.1.st s.1.cfg e now_ms).aged_hit_telem,
       if (bpu_jobq_push_coalesce s.1 (sched_job (s.1.stack_job s.1.st.job_in) e now_ms)).2 ≠ BPU_RC_OK then BPU_RC_ERR
       else s.2) := by
  have e1 : ({ s.1 with st := sched_aged s.1.st s.1.cfg e now_ms } : Bpu σ) =
      with_aged s.1 (sched_aged s.1.st s.1.cfg e now_ms).pick_aged
        (sched_aged s.1.st s.1.cfg e now_ms).aged_hit_sensor
        (sched_aged s.1.st s.1.cfg e now_ms).aged_hit_hb
        (sched_aged s.1.st s.1.cfg e now_ms).aged_hit_telem := by
    unfold with_aged
    rw [← (sched_aged_fields s.1.st s.1.cfg e now_ms).2.2.2.2]
  unfold sched_event
  simp only []
  rw [e1, bpu_jobq_push_coalesce_with_aged]
  simp only []
  split_ifs <;> rfl

/-- C31. In the body of the loop of `bpu_schedule_from_events`, for the popped
event `e`: the age is `u32_sub now_ms e.t_ms`, which is `now_ms - e.t_ms`
modulo `2^32` (`e.t_ms = 0xFFFFFF00` and `now_ms = 0x00000100` give 512);
`pick_aged` is incremented exactly when the age is at least `cfg.aged_ms`, and
then the `aged_hit` counter of the type of `e` is incremented with it
(SENSOR, HB or TELEM; none for CMD or any other type), otherwise the four
counters are unchanged. The job pushed is `sched_job j0 e now_ms`, with `j0`
what the local `j` held on entry; it does not depend on the aging test, and the state and status after the body are those of
the coalescing push on the state before the aging test, the four aging counters
apart: the job ring, the job counters and the status are the same whether or
not `e` is aged, and the same under any other configuration (any `aged_ms`). -/
theorem sched_event_aged {σ : Type} (now_ms : Nat) (s : Bpu σ × Nat) (e : BpuEvent) :
    (u32_sub now_ms e.t_ms : Int) = ((now_ms : Int) - (e.t_ms : Int)) % 4294967296 ∧
    u32_sub 0x00000100 0xFFFFFF00 = 512 ∧
    (sched_event now_ms s e).1.st.pick_aged =
      (if u32_sub now_ms e.t_ms ≥ s.1.cfg.aged_ms then u32_inc s.1.st.pick_aged
       else s.1.st.pick_aged) ∧
    (sched_event now_ms s e).1.st.aged_hit_sensor =
      (if u32_sub now_ms e.t_ms ≥ s.1.cfg.aged_ms ∧ e.type = BPU_EVT_SENSOR then
        u32_inc s.1.st.aged_hit_sensor else s.1.st.aged_hit_sensor) ∧
    (sched_event now_ms s e).1.st.aged_hit_hb =
      (if u32_sub now_ms e.t_ms ≥ s.1.cfg.aged_ms ∧ e.type = BPU_EVT_HB then
        u32_inc s.1.st.aged_hit_hb else s.1.st.aged_hit_hb) ∧
    (sched_event now_ms s e).1.st.aged_hit_telem =
      (if u32_sub now_ms e.t_ms ≥ s.1.cfg.aged_ms ∧ e.type = BPU_EVT_TELEM then
        u32_inc s.1.st.aged_hit_telem else s.1.st.aged_hit_telem) ∧
    (e.type = BPU_EVT_CMD →
      (sched_event now_ms s e).1.st.aged_hit_sensor = s.1.st.aged_hit_sensor ∧
      (sched_event now_ms s e).1.st.aged_hit_hb = s.1.st.aged_hit_hb ∧
      (sched_event now_ms s e).1.st.aged_hit_telem = s.1.st.aged_hit_telem) ∧
    sched_event now_ms s e =
      (with_aged (bpu_jobq_push_coalesce s.1 (sched_job (s.1.stack_job s.1.st.job_in) e now_ms)).1
        (sched_event now_ms s e).1.st.pick_aged
        (sched_event now_ms s e).1.st.aged_hit_sensor
        (sched_event now_ms s e).1.st.aged_hit_hb
        (sched_event now_ms s e).1.st.aged_hit_telem,
       if (bpu_jobq_push_coalesce s.1 (sched_job (s.1.stack_job s.1.st.job_in) e now_ms)).2 ≠ BPU_RC_OK then BPU_RC_ERR
       else s.2) ∧
    (∀ c : BpuConfig,
      (sched_event now_ms (with_cfg s.1 c, s.2) e).1.jobq = (sched_event now_ms s e).1.jobq ∧
      (sched_event now_ms (with_cfg s.1 c, s.2) e).2 = (sched_event now_ms s e).2 ∧
      (sched_event now_ms (with_cfg s.1 c, s.2) e).1.st.job_in =
        (sched_event now_ms s e).1.st.job_in ∧
      (sched_event now_ms (with_cfg s.1 c, s.2) e).1.st.job_merge =
        (sched_event now_ms s e).1.st.job_merge ∧
      (sched_event now_ms (with_cfg s.1 c, s.2) e).1.st.job_drop =
        (sched_event now_ms s e).1.st.job_drop) := by
  obtain ⟨f1, f2, f3, f4, _⟩ := sched_aged_fields s.1.st s.1.cfg e now_ms
  have heq := sched_event_eq now_ms s e
  have hst : ∀ x : Bpu σ × Nat, (sched_event now_ms x e).1.st.pick_aged =
        (sched_aged x.1.st x.1.cfg e now_ms).pick_aged ∧
      (sched_event now_ms x e).1.st.aged_hit_sensor =
        (sched_aged x.1.st x.1.cfg e now_ms).aged_hit_sensor ∧
      (sched_event now_ms x e).1.st.aged_hit_hb =
        (sched_aged x.1.st x.1.cfg e now_ms).aged_hit_hb ∧
      (sched_event now_ms x e).1.st.aged_hit_telem =
        (sched_aged x.1.st x.1.cfg e now_ms).aged_hit_telem := by
    intro x
    rw [sched_event_eq now_ms x e]
    exact ⟨rfl, rfl, rfl, rfl⟩
  obtain ⟨g1, g2, g3, g4⟩ := hst s
  have hcmd : e.type = BPU_EVT_CMD →
      (sched_event now_ms s e).1.st.aged_hit_sensor = s.1.st.aged_hit_sensor ∧
      (sched_event now_ms s e).1.st.aged_hit_hb = s.1.st.aged_hit_hb ∧
      (sched_event now_ms s e).1.st.aged_hit_telem = s.1.st.aged_hit_telem := by
    intro hc
    rw [g2, g3, g4, f2, f3, f4, hc]
    refine ⟨if_neg ?_, if_neg ?_, if_neg ?_⟩ <;> rintro ⟨_, h⟩ <;> exact absurd h (by decide)
  refine ⟨u32_sub_int _ _, by decide, g1.trans f1, g2.trans f2, g3.trans f3, g4.trans f4,
    hcmd, ?_, fun c => ?_⟩
  · rw [g1, g2, g3, g4]
    exact heq
  · rw [sched_event_eq now_ms (with_cfg s.1 c, s.2) e, heq]
    simp only []
    rw [bpu_jobq_push_coalesce_with_cfg]
    exact ⟨rfl, rfl, rfl, rfl, rfl⟩

set_option maxRecDepth 1000000 in
/-- Instance of `sched_event_aged` across the wrap of the millisecond clock:
an HB event stamped `0xFFFFFF00`, scheduled at `now_ms = 0x100` with
`aged_ms = 200`. The age is 512, so `pick_aged` and `aged_hit_hb` become 1 and
`aged_hit_sensor`, `aged_hit_telem` stay 0; the HB job is appended. At
`now_ms = 0xFFFFFF10` the age is 16, the four counters stay 0 and the job is
queued in the same way. -/
theorem sched_event_aged_witness :
    (sched_event 0x100 ((bpu_evq_pop bpu_wrap_pushed default).1, BPU_RC_OK)
        (bpu_evq_pop bpu_wrap_pushed default).2.1).1.st.aged_hit_sensor =
      bpu_wrap_pushed.st.aged_hit_sensor ∧
    ((bpu_evq_pop bpu_wrap_pushed default).2.1.type,
      (bpu_evq_pop bpu_wrap_pushed default).2.1.t_ms,
      u32_sub 0x100 (bpu_evq_pop bpu_wrap_pushed default).2.1.t_ms,
      bpu_wrap_pushed.cfg.aged_ms) = (BPU_EVT_HB, 0xFFFFFF00, 512, 200) ∧
    (fun r : Bpu Unit × Nat =>
      (r.2, r.1.st.pick_aged, r.1.st.aged_hit_sensor, r.1.st.aged_hit_hb,
        r.1.st.aged_hit_telem, (jobq_contents r.1.jobq).map (fun j => (j.type, j.len)),
        r.1.st.job_in, r.1.st.job_drop))
      (sched_event 0x100 ((bpu_evq_pop bpu_wrap_pushed default).1, BPU_RC_OK)
        (bpu_evq_pop bpu_wrap_pushed default).2.1) =
      (BPU_RC_OK, 1, 0, 1, 0, [(BPU_JOB_HB, 3)], 1, 0) ∧
    (fun r : Bpu Unit × Nat =>
      (r.2, r.1.st.pick_aged, r.1.st.aged_hit_sensor, r.1.st.aged_hit_hb,
        r.1.st.aged_hit_telem, (jobq_contents r.1.jobq).map (fun j => (j.type, j.len)),
        r.1.st.job_in, r.1.st.job_drop))
      (sched_event 0xFFFFFF10 ((bpu_evq_pop bpu_wrap_pushed default).1, BPU_RC_OK)
        (bpu_evq_pop bpu_wrap_pushed default).2.1) =
      (BPU_RC_OK, 0, 0, 0, 0, [(BPU_JOB_HB, 3)], 1, 0) :=
  ⟨((sched_event_aged 0x100 ((bpu_evq_pop bpu_wrap_pushed default).1, BPU_RC_OK)
      (bpu_evq_pop bpu_wrap_pushed default).2.1).2.2.2.1).trans (by rfl),
   by rfl, by rfl, by rfl⟩

/-- Under the job-queue invariant the slot holding a job of a given type is
unique. -/
theorem jobqInv_unique {σ : Type} (b : Bpu σ) (hi : JobqInv b) (i k : Nat)
    (hil : i < b.jobq.count) (hkl : k < b.jobq.count)
    (h : (b.jobq.buf (bpu_jor_at b.jobq i)).type = (b.jobq.buf (bpu_jor_at b.jobq k)).type) :
    i = k := by
  have hn := hi.2
  unfold jobq_contents at hn
  rw [List.map_map] at hn
  exact List.inj_on_of_nodup_map hn (List.mem_range.mpr hil) (List.mem_range.mpr hkl) h

theorem filter_range_unique (n i : Nat) (p : Nat → Bool) (hi : i < n) (hp : p i = true)
    (hu : ∀ k, k < n → p k = true → k = i) : ((List.range n).filter p).length = 1 := by
  have e : (List.range n).filter p = (List.range n).filter (fun k => decide (k = i)) := by
    apply List.filter_congr
    intro k hk
    rw [List.mem_range] at hk
    by_cases hki : k = i
    · subst hki
      simp [hp]
    · have : p k = false := by
        by_contra hh
        exact hki (hu k hk (by simpa using hh))
      simp [this, hki]
  rw [e]
  have hc : (List.range n).count i = 1 :=
    List.count_eq_one_of_mem (List.nodup_range n) (List.mem_range.mpr hi)
  have e2 : (List.range n).filter (fun k => decide (k = i)) =
      List.replicate ((List.range n).count i) i := by
    rw [← List.filter_eq]
  rw [e2, hc]
  rfl

/-- A coalescing push that merges, in a state with the job-queue invariant:
the slot `i` holding the job of the same type is the only slot written. -/
theorem bpu_jobq_push_coalesce_one_slot {σ : Type} (b : Bpu σ) (j : BpuJob) (hi : JobqInv b)
    (i : Nat) (hil : i < b.jobq.count)
    (ht : (b.jobq.buf (bpu_jor_at b.jobq i)).type = j.type) :
    (bpu_jobq_push_coalesce b j).2 = BPU_RC_OK ∧
    (bpu_jobq_push_coalesce b j).1.jobq =
      { b.jobq with buf := arr_set b.jobq.buf (bpu_jor_at b.jobq i) j } ∧
    (bpu_jobq_push_coalesce b j).1.st.job_merge = u32_inc b.st.job_merge ∧
    (bpu_jobq_push_coalesce b j).1.st.job_drop = b.st.job_drop := by
  have hcap := hi.1.1
  have hu : ∀ k, k < b.jobq.count → (b.jobq.buf (bpu_jor_at b.jobq k)).type = j.type → k = i :=
    fun k hk hkt => jobqInv_unique b hi k i hk hil (hkt.trans ht.symm)
  obtain ⟨i1, i2, i3, i4, _, i6, i7, i8, i9, _⟩ := jobq_scan_inv_fold
    { b with st := { b.st with job_in := u32_inc b.st.job_in } } j hcap b.jobq.count (le_refl _)
  simp only [] at i1 i2 i3 i4 i6 i7 i8 i9
  rw [bpu_jobq_push_coalesce_unfold, if_pos (i9.2 ⟨i, hil, ht⟩)]
  simp only []
  generalize (List.range b.jobq.count).foldl (jobq_scan_step j)
    ({ b with st := { b.st with job_in := u32_inc b.st.job_in } }, false) = s
    at i1 i2 i3 i4 i6 i7 i8 i9
  have hbuf : s.1.jobq.buf = arr_set b.jobq.buf (bpu_jor_at b.jobq i) j := by
    funext k
    by_cases hk : k = bpu_jor_at b.jobq i
    · subst hk
      rw [arr_set_same]
      exact i6 i hil ht
    · rw [arr_set_other _ _ _ _ hk]
      apply i7
      intro i' hi' heq hty
      have := hu i' hi' hty
      subst this
      exact hk heq.symm
  refine ⟨trivial, ?_, ?_, i4⟩
  · cases hs : s.1.jobq with
    | mk buf head tail count =>
      rw [hs] at i1 i2 i3 hbuf
      simp only [] at i1 i2 i3 hbuf
      rw [hbuf, i1, i2, i3]
  · rw [i8, filter_range_unique b.jobq.count i _ hil (by simpa using ht)
      (fun k hk hp => hu k hk (by simpa using hp))]
    rfl

/-- C32. Let `b` be a state reachable from a successful `bpu_init` by calls of
`bpu_push_event` and `bpu_tick_ex`, and `x` any state the code gets to from `b`
by the elementary state changes those calls are made of (`x = b` included; the
states inside a call, between two queue operations, are of this kind). Then
the job ring of `x` is well formed and the jobs queued in `x` have pairwise
distinct types. A coalescing push of a job `j` in `x` keeps this; if a queued
job has the type of `j`, it sits in exactly one slot `i`, and the push returns
OK having overwritten that one slot and nothing else of the ring (`head`,
`tail`, `count` and every other slot unchanged), with `job_merge` incremented
once; if no queued job has the type of `j` and there is room, `j` is appended
and its type was not yet present. -/
theorem jobq_types_distinct {σ : Type} (b x : Bpu σ) (hr : Reachable b)
    (hx : ∀ R : Bpu σ → Bpu σ → Prop, StepClosed R → R b x) :
    JobRingWf x.jobq ∧
    ((jobq_contents x.jobq).map (fun j => j.type)).Nodup ∧
    (∀ i k, i < x.jobq.count → k < x.jobq.count →
      (x.jobq.buf (bpu_jor_at x.jobq i)).type = (x.jobq.buf (bpu_jor_at x.jobq k)).type →
      i = k) ∧
    (∀ j : BpuJob,
      ((jobq_contents (bpu_jobq_push_coalesce x j).1.jobq).map (fun j => j.type)).Nodup ∧
      (∀ i, i < x.jobq.count → (x.jobq.buf (bpu_jor_at x.jobq i)).type = j.type →
        (∀ k, k < x.jobq.count → (x.jobq.buf (bpu_jor_at x.jobq k)).type = j.type → k = i) ∧
        (bpu_jobq_push_coalesce x j).2 = BPU_RC_OK ∧
        (bpu_jobq_push_coalesce x j).1.jobq =
          { x.jobq with buf := arr_set x.jobq.buf (bpu_jor_at x.jobq i) j } ∧
        (bpu_jobq_push_coalesce x j).1.st.job_merge = u32_inc x.st.job_merge ∧
        (bpu_jobq_push_coalesce x j).1.st.job_drop = x.st.job_drop) ∧
      ((∀ i, i < x.jobq.count → (x.jobq.buf (bpu_jor_at x.jobq i)).type ≠ j.type) →
        x.jobq.count < 4 →
        jobq_contents (bpu_jobq_push_coalesce x j).1.jobq = jobq_contents x.jobq ++ [j] ∧
        (bpu_jobq_push_coalesce x j).2 = BPU_RC_OK)) := by
  have hi : JobqInv x := hx _ jobqInv_closed (reachable_jobqInv b hr)
  refine ⟨hi.1, hi.2, fun i k hil hkl h => jobqInv_unique x hi i k hil hkl h, fun j => ?_⟩
  refine ⟨(jobqInv_push x j hi).2, fun i hil ht => ?_, fun hno hc => ?_⟩
  · exact ⟨fun k hk hkt => jobqInv_unique x hi k i hk hil (hkt.trans ht.symm),
      bpu_jobq_push_coalesce_one_slot x j hi i hil ht⟩
  · refine ⟨(jobq_contents_push_coalesce x j hi.1).2 ?_ hc, ?_⟩
    · intro y hy
      obtain ⟨i, hil, rfl⟩ := (jobq_contents_mem _ _).mp hy
      exact hno i hil
    · rw [bpu_jobq_push_coalesce_not_merged x j hi.1.1 hno, jobq_append_room _ j (by exact hc)]

set_option maxHeartbeats 4000000 in
set_option maxRecDepth 1000000 in
/-- Instance of `jobq_types_distinct`: `bpu_two_events` is reachable and the
scheduler takes it to `bpu_two_jobs`, whose queue holds a SENSOR job and a CMD
job. Pushing another SENSOR job overwrites slot 0 and nothing else
(`job_merge` goes from 0 to 1); the types stay SENSOR, CMD. -/
theorem jobq_types_distinct_witness :
    Reachable bpu_two_events ∧
    (jobq_contents bpu_two_jobs.jobq).map (fun j => j.type) = [BPU_JOB_SENSOR, BPU_JOB_CMD] ∧
    ((jobq_contents bpu_two_jobs.jobq).map (fun j => j.type)).Nodup ∧
    (bpu_jobq_push_coalesce bpu_two_jobs (job_of_type BPU_JOB_SENSOR 130)).1.jobq =
      { bpu_two_jobs.jobq with
        buf := arr_set bpu_two_jobs.jobq.buf (bpu_jor_at bpu_two_jobs.jobq 0)
          (job_of_type BPU_JOB_SENSOR 130) } ∧
    ((bpu_jobq_push_coalesce bpu_two_jobs (job_of_type BPU_JOB_SENSOR 130)).2,
      (jobq_contents (bpu_jobq_push_coalesce bpu_two_jobs
        (job_of_type BPU_JOB_SENSOR 130)).1.jobq).map (fun j => (j.type, j.t_ms)),
      bpu_two_jobs.st.job_merge,
      (bpu_jobq_push_coalesce bpu_two_jobs (job_of_type BPU_JOB_SENSOR 130)).1.st.job_merge) =
      (BPU_RC_OK, [(BPU_JOB_SENSOR, 130), (BPU_JOB_CMD, 120)], 0, 1) := by
  have hr : Reachable bpu_two_events :=
    Reachable.push_event _ _ _ _ _ (Reachable.push_event _ _ _ _ _
      (Reachable.init bpu_zeroed io_accept cfg_example rfl))
  have h := jobq_types_distinct bpu_two_events bpu_two_jobs hr
    (fun R hR => bpu_schedule_from_events_closed hR.toQueueClosed bpu_two_events 120 _
      (Option.some_get _).symm)
  exact ⟨hr, by rfl, h.2.1,
    ((h.2.2.2 (job_of_type BPU_JOB_SENSOR 130)).2.1 0 (by decide) (by rfl)).2.2.1, by rfl⟩

theorem sched_aged_job_drop (st : BpuStats) (cfg : BpuConfig) (e : BpuEvent) (now_ms : Nat) :
    (sched_aged st cfg e now_ms).job_drop = st.job_drop := by
  unfold sched_aged
  simp only []
  split_ifs <;> rfl

theorem bpu_send_pending_job_drop {σ : Type} (fuel : Nat) (b : Bpu σ) (B : Nat)
    (r : SendRes σ) (h : bpu_send_pending fuel b B = some r) :
    r.bpu.st.job_drop = b.st.job_drop := by
  by_cases hp : b.pending_have = 0
  · unfold bpu_send_pending at h
    rw [if_pos hp] at h
    cases h
    rfl
  · exact (bpu_send_pending_fields fuel b B r hp h).2.2.2.2.2.2.1

theorem evq_contents_mem (r : BpuEvRing) (x : BpuEvent) :
    x ∈ evq_contents r ↔ ∃ i, i < r.count ∧ r.buf (bpu_evr_at r i) = x := by
  unfold evq_contents
  simp [List.mem_map, List.mem_range]

/-- After a coalescing push of `e` every queued event is `e` or was queued. -/
theorem evq_contents_push_coalesce_mem {σ : Type} (b : Bpu σ) (e : BpuEvent)
    (hw : EvRingWf b.evq) :
    ∀ x ∈ evq_contents (bpu_evq_push_coalesce b e).1.evq, x = e ∨ x ∈ evq_contents b.evq := by
  intro x hx
  by_cases hm : evq_merges b e
  · rw [evq_contents_merged b e hw.1 hm, List.mem_map] at hx
    obtain ⟨y, hy, rfl⟩ := hx
    split_ifs
    · exact Or.inl rfl
    · exact Or.inr hy
  · rw [bpu_evq_push_coalesce_not_merged b e hw.1 hm] at hx
    by_cases hc : b.evq.count < 8
    · rw [evq_append_room _ _ (by exact hc)] at hx
      have := evq_contents_push b.evq e hw hc
      simp only [] at hx
      rw [this, List.mem_append, List.mem_singleton] at hx
      rcases hx with hx | hx
      · exact Or.inr hx
      · exact Or.inl hx
    · rw [evq_append_full _ _ (by show 8 ≤ b.evq.count; omega)] at hx
      exact Or.inr hx

/-- After a coalescing push of `j` every queued job is `j` or was queued. -/
theorem jobq_contents_push_coalesce_mem {σ : Type} (b : Bpu σ) (j : BpuJob)
    (hw : JobRingWf b.jobq) :
    ∀ x ∈ jobq_contents (bpu_jobq_push_coalesce b j).1.jobq,
      x = j ∨ x ∈ jobq_contents b.jobq := by
  intro x hx
  obtain ⟨h1, h2⟩ := jobq_contents_push_coalesce b j hw
  by_cases hex : ∃ y ∈ jobq_contents b.jobq, y.type = j.type
  · rw [h1 hex, List.mem_map] at hx
    obtain ⟨y, hy, rfl⟩ := hx
    split_ifs
    · exact Or.inl rfl
    · exact Or.inr hy
  · have hno : ∀ y ∈ jobq_contents b.jobq, y.type ≠ j.type := fun y hy hyt => hex ⟨y, hy, hyt⟩
    by_cases hc : b.jobq.count < 4
    · rw [h2 hno hc, List.mem_append, List.mem_singleton] at hx
      rcases hx with hx | hx
      · exact Or.inr hx
      · exact Or.inl hx
    · have hno2 : ∀ i, i < b.jobq.count → (b.jobq.buf (bpu_jor_at b.jobq i)).type ≠ j.type :=
        fun i hi => hno _ ((jobq_contents_mem _ _).mpr ⟨i, hi, rfl⟩)
      rw [bpu_jobq_push_coalesce_not_merged b j hw.1 hno2,
        jobq_append_full _ j (by show b.jobq.count ≥ 4; omega)] at hx
      exact Or.inr hx

/-- The queue-wise property `QueueAll PE PJ` is a guarded invariant as soon as
the scheduler turns events that satisfy `PE` into jobs that satisfy `PJ`. -/
theorem queueAll_guarded {σ : Type} (PE : BpuEvent → Prop) (PJ : BpuJob → Prop)
    (hs : ∀ (j0 : BpuJob) (e : BpuEvent) (now_ms : Nat), PE e → PJ (sched_job j0 e now_ms)) :
    Guarded PE PJ (QueueAll PE PJ : Bpu σ → Prop) where
  ext_ok := by
    intro a b h he hj _
    unfold QueueAll RingWf
    rw [he, hj]
    exact h
  evq_push_ok := by
    intro b e h he
    obtain ⟨⟨w1, w2⟩, h1, h2⟩ := h
    obtain ⟨_, q2, _⟩ := bpu_evq_push_coalesce_queueOnly b e
    refine ⟨⟨bpu_evq_push_coalesce_wf b e w1, by rw [q2]; exact w2⟩, fun x hx => ?_,
      by rw [q2]; exact h2⟩
    rcases evq_contents_push_coalesce_mem b e w1 x hx with rfl | hx
    · exact he
    · exact h1 x hx
  evq_pop_ok := by
    intro b h hc
    obtain ⟨⟨w1, w2⟩, h1, h2⟩ := h
    have hcont := evq_contents_pop b.evq (b.evq.count - 1) (by omega) w1.2.1
    obtain ⟨_, q2, _⟩ := bpu_evq_pop_queueOnly b default
    refine ⟨h1 _ (by rw [hcont]; exact List.mem_cons_self _ _),
      ⟨bpu_evq_pop_wf b default w1, by rw [q2]; exact w2⟩, fun x hx => ?_,
      by rw [q2]; exact h2⟩
    rw [bpu_evq_pop_nonempty b default hc] at hx
    exact h1 x (by rw [hcont]; exact List.mem_cons_of_mem _ hx)
  jobq_push_ok := by
    intro b j h hj
    obtain ⟨⟨w1, w2⟩, h1, h2⟩ := h
    obtain ⟨_, q2, _⟩ := bpu_jobq_push_coalesce_queueOnly b j
    refine ⟨⟨by rw [q2]; exact w1, bpu_jobq_push_coalesce_wf b j w2⟩, by rw [q2]; exact h1,
      fun x hx => ?_⟩
    rcases jobq_contents_push_coalesce_mem b j w2 x hx with rfl | hx
    · exact hj
    · exact h2 x hx
  jobq_pop_ok := by
    intro b h hc
    obtain ⟨⟨w1, w2⟩, h1, h2⟩ := h
    obtain ⟨p1, p2, _⟩ := jobq_contents_popped b hc w2
    exact ⟨h2 _ (by rw [p1]; exact List.mem_cons_self _ _), ⟨w1, p2⟩, h1,
      fun x hx => h2 x (by rw [p1]; exact List.mem_cons_of_mem _ hx)⟩
  sched_ok := hs

theorem guarded_send {σ : Type} {PE : BpuEvent → Prop} {PJ : BpuJob → Prop}
    {I : Bpu σ → Prop} (hG : Guarded PE PJ I) (fuel : Nat) (b : Bpu σ) (B : Nat)
    (r : SendRes σ) (hb : I b) (h : bpu_send_pending fuel b B = some r) : I r.bpu := by
  have out := bpu_send_pending_out fuel b B r h
  exact hG.ext_ok b r.bpu hb out.evq out.jobq (bpu_send_pending_job_drop fuel b B r h)

theorem guarded_sched_event {σ : Type} {PE : BpuEvent → Prop} {PJ : BpuJob → Prop}
    {I : Bpu σ → Prop} (hG : Guarded PE PJ I) (now_ms : Nat) (s : Bpu σ × Nat)
    (e : BpuEvent) (hb : I s.1) (he : PE e) : I (sched_event now_ms s e).1 := by
  have e1 : (sched_event now_ms s e).1 =
      (bpu_jobq_push_coalesce { s.1 with st := sched_aged s.1.st s.1.cfg e now_ms }
        (sched_job (s.1.stack_job s.1.st.job_in) e now_ms)).1 := by
    unfold sched_event
    simp only []
    split_ifs <;> rfl
  rw [e1]
  exact hG.jobq_push_ok _ _
    (hG.ext_ok s.1 _ hb rfl rfl (sched_aged_job_drop _ _ _ _)) (hG.sched_ok _ e now_ms he)

theorem guarded_sched_loop {σ : Type} {PE : BpuEvent → Prop} {PJ : BpuJob → Prop}
    {I : Bpu σ → Prop} (hG : Guarded PE PJ I) (now_ms : Nat) :
    ∀ (fuel : Nat) (s r : Bpu σ × Nat), I s.1 → sched_loop now_ms fuel s = some r → I r.1 := by
  intro fuel
  induction fuel with
  | zero => intro s r _ h; simp [sched_loop] at h
  | succ n ih =>
    intro s r hb h
    rw [sched_loop] at h
    by_cases hc : s.1.evq.count = 0
    · rw [bpu_evq_pop_empty s.1 default hc] at h
      simp only [ne_eq, not_false_eq_true, if_true] at h
      rw [if_pos (by decide)] at h
      cases h
      exact hG.ext_ok s.1 _ hb rfl rfl rfl
    · obtain ⟨p1, p2⟩ := hG.evq_pop_ok s.1 hb hc
      have hev : (bpu_evq_pop s.1 default).2.1 = s.1.evq.buf s.1.evq.tail := by
        rw [bpu_evq_pop_nonempty s.1 default hc]
      have hrc : (bpu_evq_pop s.1 default).2.2 = BPU_RC_OK := by
        rw [bpu_evq_pop_nonempty s.1 default hc]
      rw [if_neg (by rw [hrc]; decide)] at h
      exact ih _ r (guarded_sched_event hG now_ms _ _ p2 (by rw [hev]; exact p1)) h

theorem guarded_requeue {σ : Type} {PE : BpuEvent → Prop} {PJ : BpuJob → Prop}
    {I : Bpu σ → Prop} (hG : Guarded PE PJ I) (y : Bpu σ) (j : BpuJob) (hy : I y)
    (hj : PJ j) : I (flush_requeue y j) :=
  hG.jobq_push_ok y j hy hj

theorem guarded_flush_emit {σ : Type} {PE : BpuEvent → Prop} {PJ : BpuJob → Prop}
    {I : Bpu σ → Prop} (hG : Guarded PE PJ I) (fuel : Nat) (x : Bpu σ) (B rc : Nat)
    (j : BpuJob) (s' : FlushSt σ) (hx : I x) (hj : PJ j)
    (h : flush_emit fuel x B rc j = some s') : I s'.bpu := by
  obtain ⟨buf, hbf, _, _⟩ := bpu_build_frame_eq x j.type j.payload
    (if j.len > 255 then 255 else j.len % 256)
  have hW : I (bpu_build_frame x j.type j.payload
      (if j.len > 255 then 255 else j.len % 256)).1 := by
    rw [hbf]
    exact hG.ext_ok _ _ hx rfl rfl rfl
  unfold flush_emit at h
  simp only [] at h
  rw [if_neg (by rw [hbf]; simp)] at h
  cases hs : bpu_send_pending fuel
      (bpu_build_frame x j.type j.payload (if j.len > 255 then 255 else j.len % 256)).1 B with
  | none => rw [hs] at h; cases h
  | some r =>
    rw [hs] at h
    simp only [] at h
    have hr := guarded_send hG fuel _ B r hW hs
    have hrr := guarded_requeue hG r.bpu j hr hj
    have hcl : I (inc_degrade_requeue (clear_pending (flush_requeue r.bpu j))) :=
      hG.ext_ok _ _ hrr rfl rfl rfl
    split_ifs at h
    · cases h
      exact hcl
    · cases h
      exact hG.ext_ok _ _ hcl rfl rfl rfl
    · cases h
      exact hG.ext_ok _ _ hr rfl rfl rfl

theorem guarded_flush_job {σ : Type} {PE : BpuEvent → Prop} {PJ : BpuJob → Prop}
    {I : Bpu σ → Prop} (hG : Guarded PE PJ I) (fuel : Nat) (b : Bpu σ) (B rc : Nat)
    (s' : FlushSt σ) (hb : I b) (hc : b.jobq.count ≠ 0)
    (h : flush_job fuel b B rc = some s') : I s'.bpu := by
  obtain ⟨hj, hp⟩ := hG.jobq_pop_ok b hb hc
  obtain ⟨c, hq⟩ := tx_free_query_eq (flush_popped b)
  have hQ : I (tx_free_query (flush_popped b)).1 := by
    rw [hq]
    exact hG.ext_ok _ _ hp rfl rfl rfl
  by_cases hw : worst_on_wire (jobq_front b).len > B
  · rw [flush_job_skip fuel b B rc hc hw] at h
    cases h
    have hX : I ({ flush_popped b with
        st := { (flush_popped b).st with
                tx_skip_budget := u32_inc (flush_popped b).st.tx_skip_budget } } : Bpu σ) :=
      hG.ext_ok _ _ hp rfl rfl rfl
    unfold flush_skip_budget
    simp only []
    split_ifs
    · exact hG.ext_ok _ _ hX rfl rfl rfl
    · exact hG.ext_ok _ _ (guarded_requeue hG _ _ hX hj) rfl rfl rfl
    · exact guarded_requeue hG _ _ hX hj
  · rw [flush_job_fits fuel b B rc hc (by omega)] at h
    have hR := guarded_requeue hG _ (jobq_front b) hQ hj
    split_ifs at h
    · cases h
      exact hG.ext_ok _ _ hR rfl rfl rfl
    · cases h
      exact hG.ext_ok _ _ hR rfl rfl rfl
    · exact guarded_flush_emit hG fuel _ B rc _ s' hQ hj h

theorem guarded_flush_step {σ : Type} {PE : BpuEvent → Prop} {PJ : BpuJob → Prop}
    {I : Bpu σ → Prop} (hG : Guarded PE PJ I) (fuel : Nat) (s s' : FlushSt σ)
    (hb : I s.bpu) (h : flush_step fuel s = some s') : I s'.bpu := by
  unfold flush_step at h
  split_ifs at h with h1 h2 h3
  · cases h
    exact hb
  · cases hs : bpu_send_pending fuel s.bpu s.budget_left with
    | none => rw [hs] at h; cases h
    | some r =>
      rw [hs] at h
      have out := guarded_send hG fuel _ _ r hb hs
      simp only [] at h
      split_ifs at h <;> cases h <;> exact out
  · cases h
    exact hb
  · exact guarded_flush_job hG fuel s.bpu s.budget_left s.rc s' hb h3 h

theorem guarded_flush_loop {σ : Type} {PE : BpuEvent → Prop} {PJ : BpuJob → Prop}
    {I : Bpu σ → Prop} (hG : Guarded PE PJ I) (inner : Nat) :
    ∀ (fuel : Nat) (s s' : FlushSt σ), I s.bpu → flush_loop inner fuel s = some s' →
      I s'.bpu := by
  intro fuel
  induction fuel with
  | zero =>
    intro s s' hb h
    rw [flush_loop] at h
    split_ifs at h
    cases h
    exact hb
  | succ n ih =>
    intro s s' hb h
    rw [flush_loop] at h
    split_ifs at h
    · cases h
      exact hb
    · cases hs : flush_step inner s with
      | none => rw [hs] at h; cases h
      | some s1 =>
        rw [hs] at h
        exact ih s1 s' (guarded_flush_step hG inner s s1 hb hs) h

theorem guarded_flush_jobs {σ : Type} {PE : BpuEvent → Prop} {PJ : BpuJob → Prop}
    {I : Bpu σ → Prop} (hG : Guarded PE PJ I) (fuel : Nat) (b : Bpu σ) (B : Nat)
    (r : Bpu σ × Nat × Nat) (hb : I b) (h : bpu_flush_jobs fuel b B = some r) : I r.1 := by
  unfold bpu_flush_jobs at h
  cases hl : flush_loop fuel fuel
      { bpu := b, budget_left := B, rc := BPU_RC_OK, done := false } with
  | none => rw [hl] at h; cases h
  | some s' =>
    rw [hl] at h
    cases h
    exact guarded_flush_loop hG fuel fuel _ s' hb hl

theorem guarded_tick_sample {σ : Type} {PE : BpuEvent → Prop} {PJ : BpuJob → Prop}
    {I : Bpu σ → Prop} (hG : Guarded PE PJ I) (b : Bpu σ) (now_us : Nat) (hb : I b) :
    I (tick_sample b now_us).1 := by
  obtain ⟨c0, hc0, _⟩ := tick_sample_eq b now_us
  rw [hc0]
  exact hG.ext_ok b _ hb rfl rfl rfl

theorem guarded_tick_finish {σ : Type} {PE : BpuEvent → Prop} {PJ : BpuJob → Prop}
    {I : Bpu σ → Prop} (hG : Guarded PE PJ I) (x : Bpu σ) (now_us t0 : Nat) (have_t0 : Bool)
    (hx : I x) : I (tick_finish x now_us t0 have_t0) := by
  obtain ⟨c, wl, wm, e, _⟩ := tick_finish_eq x now_us t0 have_t0
  rw [e]
  exact hG.ext_ok x _ hx rfl rfl rfl

/-- A guarded invariant is kept by a whole tick. -/
theorem guarded_tick {σ : Type} {PE : BpuEvent → Prop} {PJ : BpuJob → Prop}
    {I : Bpu σ → Prop} (hG : Guarded PE PJ I) (fuel : Nat) (b : Bpu σ) (now_ms now_us : Nat)
    (r : Bpu σ × Nat) (hb : I b) (h : bpu_tick_ex fuel b now_ms now_us = some r) : I r.1 := by
  by_cases hm : b.init_magic = BPU_MAGIC
  · have h0 := guarded_tick_sample hG b now_us hb
    rcases bpu_tick_ex_cases fuel b now_ms now_us r hm h with ⟨_, sr, hs, _, e⟩ |
      ⟨y, B, sch, fl, hy, hsch, hfl, e⟩
    · rw [e]
      exact guarded_tick_finish hG _ _ _ _ (guarded_send hG fuel _ _ sr h0 hs)
    · have hy2 : I y := by
        rcases hy with ⟨_, rfl, _⟩ | ⟨_, sr, hs, _, rfl, _⟩
        · exact h0
        · exact guarded_send hG fuel _ _ sr h0 hs
      have hsc : I sch.1 := guarded_sched_loop hG now_ms _ _ sch hy2 hsch
      rw [e]
      exact guarded_tick_finish hG _ _ _ _ (guarded_flush_jobs hG fuel _ _ fl hsc hfl)
  · unfold bpu_tick_ex at h
    rw [if_pos hm] at h
    cases h
    exact hb

/-- A guarded invariant is kept by `bpu_push_event` when the event record it
builds satisfies `PE`. -/
theorem guarded_push_event {σ : Type} {PE : BpuEvent → Prop} {PJ : BpuJob → Prop}
    {I : Bpu σ → Prop} (hG : Guarded PE PJ I) (b : Bpu σ) (evt_type : Nat)
    (payload : Nat → Nat) (len now_ms : Nat) (hb : I b)
    (he : PE (push_event_record b.stack_evt evt_type payload len now_ms)) :
    I (bpu_push_event b evt_type payload len now_ms).1 := by
  have h0 : ∀ st' : BpuStats, st'.job_drop = b.st.job_drop →
      I (bpu_evq_push_coalesce { b with st := st' }
        (push_event_record b.stack_evt evt_type payload len now_ms)).1 := fun st' hd =>
    hG.evq_push_ok _ _ (hG.ext_ok b _ hb rfl rfl hd) he
  unfold bpu_push_event
  by_cases hm : b.init_magic ≠ BPU_MAGIC
  · rw [if_pos hm]
    exact hb
  · rw [if_neg hm]
    simp only []
    rw [ite_pair_fst]
    exact h0 _ (by split_ifs <;> rfl)

/-- The staging array of `bpu_build_frame` depends on the payload through its
first `n` bytes only. -/
theorem build_decoded_congr (type seq n : Nat) (p q : Nat → Nat)
    (h : ∀ i, i < n → p i = q i) :
    build_decoded type seq n p = build_decoded type seq n q := by
  have hd : ∀ d : Nat → Nat,
      (List.range n).foldl (fun d i => arr_set d (4 + i) (p i)) d =
      (List.range n).foldl (fun d i => arr_set d (4 + i) (q i)) d := by
    intro d
    funext k
    rw [foldl_copy_apply, foldl_copy_apply]
    split_ifs with hk
    · exact h _ (by omega)
    · rfl
  unfold build_decoded
  simp only []
  rw [hd]

/-- `bpu_build_frame` reads the payload below `min len 64` only. -/
theorem bpu_build_frame_congr {σ : Type} (b : Bpu σ) (type : Nat) (p q : Nat → Nat)
    (len : Nat) (h : ∀ i, i < min len 64 → p i = q i) :
    bpu_build_frame b type p len = bpu_build_frame b type q len := by
  have hn : (if len > 64 then 64 else len) = min len 64 := by
    split <;> omega
  unfold bpu_build_frame
  simp only [hn]
  rw [build_decoded_congr type b.seq (min len 64) p q h]

/-- The scheduler leaves every payload cell behind the copied bytes as the
local `j` held it on entry. -/
theorem sched_job_payload_rest (j0 : BpuJob) (e : BpuEvent) (now_ms k : Nat)
    (hk : 2 + min 30 e.len ≤ k) : (sched_job j0 e now_ms).payload k = j0.payload k := by
  have hc : (if e.len > (32 - 2) % 65536 then (32 - 2) % 65536 else e.len) = min 30 e.len := by
    split <;> omega
  unfold sched_job
  simp only [hc]
  rw [foldl_copy_apply, if_neg (by omega)]
  simp only [arr_set]
  rw [if_neg (by omega), if_neg (by omega)]

/-- The payload cells the scheduler stores to do not depend on what the local
`j` held on entry. -/
theorem sched_job_payload_written (j0 j1 : BpuJob) (e : BpuEvent) (now_ms k : Nat)
    (hk : k < 2 + min 30 e.len) :
    (sched_job j0 e now_ms).payload k = (sched_job j1 e now_ms).payload k := by
  have hc : (if e.len > (32 - 2) % 65536 then (32 - 2) % 65536 else e.len) = min 30 e.len := by
    split <;> omega
  unfold sched_job
  simp only [hc]
  rw [foldl_copy_apply, foldl_copy_apply]
  by_cases h2 : 2 ≤ k
  · have hp : 2 ≤ k ∧ k < 2 + min 30 e.len := ⟨h2, hk⟩
    simp only [if_pos hp]
  · have hn : ¬ (2 ≤ k ∧ k < 2 + min 30 e.len) := fun h => h2 h.1
    simp only [if_neg hn, arr_set]
    by_cases h1 : k = 1
    · simp only [if_pos h1]
    · have h0 : k = 0 := by omega
      simp only [if_neg h1, if_pos h0]

/-- The job the scheduler builds depends on the event through its type, flags,
length and the payload bytes below the length (at most 30) only. -/
theorem sched_job_congr (j0 : BpuJob) (e e' : BpuEvent) (now_ms : Nat) (ht : e'.type = e.type)
    (hf : e'.flags = e.flags) (hl : e'.len = e.len)
    (hp : ∀ i, i < min 30 e.len → e'.payload i = e.payload i) :
    sched_job j0 e' now_ms = sched_job j0 e now_ms := by
  have hd : ∀ (n : Nat) (d : Nat → Nat), n ≤ min 30 e.len →
      (List.range n).foldl (fun p i => arr_set p (2 + i) (e'.payload i)) d =
      (List.range n).foldl (fun p i => arr_set p (2 + i) (e.payload i)) d := by
    intro n d hn
    funext k
    rw [foldl_copy_apply, foldl_copy_apply]
    split_ifs with hk
    · exact hp _ (by omega)
    · rfl
  unfold sched_job
  simp only [ht, hf, hl]
  rw [hd _ _ (by split <;> omega)]

/-- A successful `bpu_init` leaves both queues empty. -/
theorem bpu_init_queues_empty {σ : Type} (mem : Bpu σ) (io : BpuIo σ) (cfg : BpuConfig)
    (h : (bpu_init mem io cfg).2 = BPU_RC_OK) :
    (bpu_init mem io cfg).1.evq.count = 0 ∧ (bpu_init mem io cfg).1.jobq.count = 0 ∧
    (bpu_init mem io cfg).1.st.job_drop = 0 := by
  unfold bpu_init at h ⊢
  by_cases h1 : io.tx_free.isNone = true
  · rw [if_pos h1] at h
    exact absurd h (by show ¬ (1 : Nat) = 0; omega)
  · by_cases h2 : io.tx_write_some.isNone = true
    · rw [if_neg h1, if_pos h2] at h
      exact absurd h (by show ¬ (1 : Nat) = 0; omega)
    · rw [if_neg h1, if_neg h2]
      exact ⟨rfl, rfl, rfl⟩

/-- C35. In every state reachable from a successful `bpu_init` by calls of
`bpu_push_event` and `bpu_tick_ex`, and in every state a tick passes through
from there (`TickState`: after the clock sample, after `bpu_send_pending`,
after the scheduler, after any round of the flush loop), every queued event
has `len ≤ 16` and every queued job has `2 ≤ len ≤ 18`, whatever the
uninitialised locals held. Hence, for every queued event `e` and every initial
content `j0` of the local `j`, the job the scheduler builds has
`len = 2 + e.len`; it depends on the payload of `e` through the indices below
`e.len ≤ 16` only (the copy reads no index from 16 on); the cells below
`2 + e.len` do not depend on `j0`, and every cell from index `2 + e.len ≤ 18`
on is as in `j0` (the copy stores to no index from 18 on, so to none from 32
on). For every queued job `j`, `bpu_flush_jobs` calls `bpu_build_frame` with
the length `j.len`, and `bpu_build_frame` depends on the payload of `j` through
the indices below `j.len ≤ 18` only (it reads no index from 32 on). -/
theorem queued_lengths_bounded {σ : Type} (x : Bpu σ) (hx : TickState x) :
    (∀ e ∈ evq_contents x.evq, e.len ≤ 16) ∧
    (∀ j ∈ jobq_contents x.jobq, 2 ≤ j.len ∧ j.len ≤ 18 ∧ j.len ≤ 32) ∧
    (∀ e ∈ evq_contents x.evq, ∀ (j0 : BpuJob) (now_ms : Nat),
      (sched_job j0 e now_ms).len = 2 + e.len ∧
      (∀ e' : BpuEvent, e'.type = e.type → e'.flags = e.flags → e'.len = e.len →
        (∀ i, i < 16 → e'.payload i = e.payload i) →
        sched_job j0 e' now_ms = sched_job j0 e now_ms) ∧
      (∀ (j1 : BpuJob) (k : Nat), k < 2 + e.len →
        (sched_job j0 e now_ms).payload k = (sched_job j1 e now_ms).payload k) ∧
      (∀ k, 2 + e.len ≤ k → (sched_job j0 e now_ms).payload k = j0.payload k) ∧
      (∀ k, 32 ≤ k → (sched_job j0 e now_ms).payload k = j0.payload k)) ∧
    (∀ j ∈ jobq_contents x.jobq,
      (if j.len > 255 then 255 else j.len % 256) = j.len ∧
      ∀ (y : Bpu σ) (q : Nat → Nat), (∀ i, i < 32 → q i = j.payload i) →
        bpu_build_frame y j.type q (if j.len > 255 then 255 else j.len % 256) =
          bpu_build_frame y j.type j.payload
            (if j.len > 255 then 255 else j.len % 256)) := by
  have hG : Guarded (fun e : BpuEvent => e.len ≤ 16)
      (fun j : BpuJob => 2 ≤ j.len ∧ j.len ≤ 18)
      (QueueAll (fun e : BpuEvent => e.len ≤ 16) (fun j : BpuJob => 2 ≤ j.len ∧ j.len ≤ 18) :
        Bpu σ → Prop) :=
    queueAll_guarded _ _ (fun j0 e now_ms he => by
      have := (sched_job_fields j0 e now_ms).2.2.2.2.2.2.2.2.2
      have he1 : e.len ≤ 16 := he
      show 2 ≤ (sched_job j0 e now_ms).len ∧ (sched_job j0 e now_ms).len ≤ 18
      omega)
  have hI : QueueAll (fun e : BpuEvent => e.len ≤ 16)
      (fun j : BpuJob => 2 ≤ j.len ∧ j.len ≤ 18) x := by
    induction hx with
    | entry b hr =>
      induction hr with
      | init mem io cfg h =>
        have hw := reachable_ringWf _ (Reachable.init mem io cfg h)
        have hq := bpu_init_queues_empty mem io cfg h
        refine ⟨hw, fun e he => ?_, fun j hj => ?_⟩
        · unfold evq_contents at he
          rw [hq.1] at he
          simp at he
        · unfold jobq_contents at hj
          rw [hq.2.1] at hj
          simp at hj
      | push_event b t p l n _ ih =>
        exact guarded_push_event hG b t p l n ih (by
          have := (push_event_record_fields b.stack_evt t p l n).2.2.2.1
          show (push_event_record b.stack_evt t p l n).len ≤ 16
          omega)
      | tick_ex b fuel ms us r _ h ih => exact guarded_tick hG fuel b ms us r ih h
      | host b c _ ih => exact hG.ext_ok b _ ih rfl rfl rfl
      | stack b e0 j0 _ ih => exact hG.ext_ok b _ ih rfl rfl rfl
    | sample b now_us _ ih => exact guarded_tick_sample hG b now_us ih
    | send b fuel B r _ h ih => exact guarded_send hG fuel b B r ih h
    | sched b now_ms r _ h ih => exact guarded_sched_loop hG now_ms _ _ r ih h
    | round inner s s' _ h ih => exact guarded_flush_step hG inner s s' ih h
  obtain ⟨_, hE, hJ⟩ := hI
  refine ⟨hE, fun j hj => ⟨(hJ j hj).1, (hJ j hj).2, by have := (hJ j hj).2; omega⟩,
    fun e he j0 now_ms => ?_, fun j hj => ?_⟩
  · have hl : e.len ≤ 16 := hE e he
    have hmin : min 30 e.len = e.len := by omega
    refine ⟨by rw [(sched_job_fields j0 e now_ms).2.2.2.2.2.2.2.2.2, hmin],
      fun e' ht hf hlen hp => sched_job_congr j0 e e' now_ms ht hf hlen
        (fun i hi => hp i (by omega)),
      fun j1 k hk => sched_job_payload_written j0 j1 e now_ms k (by omega),
      fun k hk => ?_, fun k hk => ?_⟩
    · exact sched_job_payload_rest j0 e now_ms k (by omega)
    · exact sched_job_payload_rest j0 e now_ms k (by omega)
  · obtain ⟨h2, h18⟩ := hJ j hj
    have hwl : (if j.len > 255 then 255 else j.len % 256) = j.len := by
      rw [if_neg (by omega)]
      omega
    refine ⟨hwl, fun y q hq => ?_⟩
    rw [hwl]
    exact bpu_build_frame_congr y j.type q j.payload j.len (fun i hi => hq i (by omega))

set_option maxHeartbeats 4000000 in
set_option maxRecDepth 1000000 in
/-- Instance of `queued_lengths_bounded`, with the stack holding `0xAA` bytes.
A SENSOR event pushed with a 40-byte payload is queued with `len = 16`, an HB
event pushed with the payload `[7]` with `len = 1` (its payload cells from
index 1 on hold stale bytes); `bpu_stale_events` is that state. The scheduler
turns them into a job of `len = 18` and a job of `len = 3` (`bpu_stale_jobs`),
whose payload cells from index 18 and from index 3 on hold the stale bytes of
the local `j`. Both states satisfy the bounds. -/
theorem queued_lengths_bounded_witness :
    TickState bpu_stale_events ∧ TickState bpu_stale_jobs ∧
    (evq_contents bpu_stale_events.evq).map (fun e => (e.type, e.len, arr_list e.payload 3)) =
      [(BPU_EVT_SENSOR, 16, [1, 2, 3]), (BPU_EVT_HB, 1, [7, 0xAA, 0xAA])] ∧
    (jobq_contents bpu_stale_jobs.jobq).map (fun j => (j.type, j.len, arr_list j.payload 20)) =
      [(BPU_JOB_SENSOR, 18,
        [1, 16, 1, 2, 3, 4, 5, 6, 7, 8, 9, 10, 11, 12, 13, 14, 15, 16, 0xAA, 0xAA]),
       (BPU_JOB_HB, 3,
        [2, 1, 7, 0xAA, 0xAA, 0xAA, 0xAA, 0xAA, 0xAA, 0xAA, 0xAA, 0xAA, 0xAA, 0xAA, 0xAA,
          0xAA, 0xAA, 0xAA, 0xAA, 0xAA])] ∧
    (∀ e ∈ evq_contents bpu_stale_events.evq, e.len ≤ 16) ∧
    (∀ j ∈ jobq_contents bpu_stale_jobs.jobq, 2 ≤ j.len ∧ j.len ≤ 18 ∧ j.len ≤ 32) := by
  have h1 : TickState bpu_stale_events :=
    TickState.entry _ (Reachable.push_event _ _ _ _ _ (Reachable.push_event _ _ _ _ _
      (Reachable.stack _ evt_stale (fun _ => job_stale)
        (Reachable.init bpu_zeroed io_accept cfg_example rfl))))
  have h2 : TickState bpu_stale_jobs :=
    TickState.sched bpu_stale_events 120 _ h1 (Option.some_get _).symm
  exact ⟨h1, h2, by rfl, by rfl, (queued_lengths_bounded bpu_stale_events h1).1,
    (queued_lengths_bounded bpu_stale_jobs h2).2.1⟩

theorem typeKnown_iff (t : Nat) :
    TypeKnown t ↔
      t = BPU_EVT_CMD ∨ t = BPU_EVT_SENSOR ∨ t = BPU_EVT_HB ∨ t = BPU_EVT_TELEM := by
  show 1 ≤ t ∧ t ≤ 4 ↔ t = 1 ∨ t = 2 ∨ t = 3 ∨ t = 4
  omega

/-- The function `bpu_job_for_evt` maps the four event types to the four job
types. -/
theorem bpu_job_for_evt_known (t : Nat) (h : TypeKnown t) : TypeKnown (bpu_job_for_evt t) := by
  have h4 : t = 1 ∨ t = 2 ∨ t = 3 ∨ t = 4 := by
    obtain ⟨h1, h2⟩ := h
    omega
  rcases h4 with rfl | rfl | rfl | rfl <;> exact ⟨by decide, by decide⟩

theorem sched_job_known (j0 : BpuJob) (e : BpuEvent) (now_ms : Nat) (h : TypeKnown e.type) :
    TypeKnown (sched_job j0 e now_ms).type := by
  rw [(sched_job_fields j0 e now_ms).1]
  exact bpu_job_for_evt_known e.type h

theorem evq_scan_step_job_drop {σ : Type} (e : BpuEvent) (s : Bpu σ × Bool) (i : Nat) :
    (evq_scan_step e s i).1.st.job_drop = s.1.st.job_drop := by
  unfold evq_scan_step
  simp only []
  split_ifs <;> rfl

theorem evq_scan_fold_job_drop {σ : Type} (e : BpuEvent) :
    ∀ (l : List Nat) (s : Bpu σ × Bool),
      (l.foldl (evq_scan_step e) s).1.st.job_drop = s.1.st.job_drop := by
  intro l
  induction l with
  | nil => intro s; rfl
  | cons i l ih =>
    intro s
    rw [List.foldl_cons, ih, evq_scan_step_job_drop]

theorem evq_append_job_drop {σ : Type} (b : Bpu σ) (e : BpuEvent) :
    (evq_append b e).1.st.job_drop = b.st.job_drop := by
  unfold evq_append
  simp only []
  split_ifs <;> rfl

theorem bpu_evq_push_coalesce_job_drop {σ : Type} (b : Bpu σ) (e : BpuEvent) :
    (bpu_evq_push_coalesce b e).1.st.job_drop = b.st.job_drop := by
  unfold bpu_evq_push_coalesce
  simp only []
  split_ifs
  · rw [evq_append_job_drop, evq_scan_fold_job_drop]
  · rw [evq_scan_fold_job_drop]
  · rw [evq_append_job_drop]

theorem bpu_evq_pop_job_drop {σ : Type} (b : Bpu σ) (out : BpuEvent) :
    (bpu_evq_pop b out).1.st.job_drop = b.st.job_drop := by
  unfold bpu_evq_pop
  simp only []
  split_ifs <;> rfl

/-- Pigeonhole: a duplicate-free list of type codes of the enum that misses
one of them has fewer than 4 entries. -/
theorem known_types_room (l : List Nat) (hn : l.Nodup) (hk : ∀ t ∈ l, TypeKnown t)
    (t0 : Nat) (h0 : TypeKnown t0) (hno : t0 ∉ l) : l.length < 4 := by
  have hn2 : (t0 :: l).Nodup := List.nodup_cons.mpr ⟨hno, hn⟩
  have hsub : (t0 :: l) ⊆ [1, 2, 3, 4] := by
    intro t ht
    have hkt : TypeKnown t := by
      rcases List.mem_cons.mp ht with rfl | ht
      · exact h0
      · exact hk t ht
    obtain ⟨h1, h2⟩ := hkt
    have h4 : t = 1 ∨ t = 2 ∨ t = 3 ∨ t = 4 := by omega
    rcases h4 with rfl | rfl | rfl | rfl <;> simp
  have hl := (List.subperm_of_subset hn2 hsub).length_le
  simp only [List.length_cons, List.length_nil] at hl
  omega

/-- With distinct queued job types, all of the enum, a coalescing push of a
job with a type of the enum returns OK and drops nothing: either the type is
queued (merge) or fewer than 4 slots are taken (append with room). -/
theorem push_known_ok {σ : Type} (b : Bpu σ) (j : BpuJob) (hi : JobqInv b)
    (hk : ∀ x ∈ jobq_contents b.jobq, TypeKnown x.type) (hj : TypeKnown j.type) :
    (bpu_jobq_push_coalesce b j).2 = BPU_RC_OK ∧
    (bpu_jobq_push_coalesce b j).1.st.job_drop = b.st.job_drop := by
  by_cases hex : ∃ i, i < b.jobq.count ∧ (b.jobq.buf (bpu_jor_at b.jobq i)).type = j.type
  · obtain ⟨r1, _, _, _, r5, _⟩ := bpu_jobq_push_coalesce_merged b j hi.1.1 hex
    exact ⟨r1, r5⟩
  · have hno : ∀ i, i < b.jobq.count → (b.jobq.buf (bpu_jor_at b.jobq i)).type ≠ j.type :=
      fun i hil ht => hex ⟨i, hil, ht⟩
    have hroom : b.jobq.count < 4 := by
      have hl := known_types_room ((jobq_contents b.jobq).map (fun x => x.type)) hi.2
        (by
          intro t ht
          rw [List.mem_map] at ht
          obtain ⟨x, hx, rfl⟩ := ht
          exact hk x hx)
        j.type hj
        (by
          intro hm
          rw [List.mem_map] at hm
          obtain ⟨x, hx, hxt⟩ := hm
          rw [jobq_contents_mem] at hx
          obtain ⟨i, hil, rfl⟩ := hx
          exact hno i hil hxt)
      rw [List.length_map, jobq_contents_length] at hl
      exact hl
    rw [bpu_jobq_push_coalesce_not_merged b j hi.1.1 hno]
    rw [jobq_append_room { b with st := { b.st with job_in := u32_inc b.st.job_in } } j hroom]
    exact ⟨rfl, rfl⟩

/-- A requeue after a pop returns OK and drops nothing, whatever the types:
the pop freed a slot and no queued job has the type of the popped one. -/
theorem requeue_push_ok {σ : Type} (b y : Bpu σ) (hi : JobqInv b) (hc : b.jobq.count ≠ 0)
    (hq : y.jobq = (flush_popped b).jobq) :
    (bpu_jobq_push_coalesce y (jobq_front b)).2 = BPU_RC_OK ∧
    (bpu_jobq_push_coalesce y (jobq_front b)).1.st.job_drop = y.st.job_drop := by
  obtain ⟨hw, hn⟩ := hi
  obtain ⟨p1, p2, p3⟩ := jobq_contents_popped b hc hw
  rw [← hq] at p1 p2 p3
  rw [p1, List.map_cons, List.nodup_cons] at hn
  have hno : ∀ i, i < y.jobq.count →
      (y.jobq.buf (bpu_jor_at y.jobq i)).type ≠ (jobq_front b).type := by
    intro i hil ht
    apply hn.1
    rw [List.mem_map]
    exact ⟨y.jobq.buf (bpu_jor_at y.jobq i), (jobq_contents_mem _ _).mpr ⟨i, hil, rfl⟩, ht⟩
  rw [bpu_jobq_push_coalesce_not_merged y _ (by omega) hno]
  rw [jobq_append_room { y with st := { y.st with job_in := u32_inc y.st.job_in } } _ p3]
  exact ⟨rfl, rfl⟩

theorem typed_guarded {σ : Type} :
    Guarded (fun e : BpuEvent => TypeKnown e.type) (fun j : BpuJob => TypeKnown j.type)
      (QueueAll (fun e : BpuEvent => TypeKnown e.type) (fun j : BpuJob => TypeKnown j.type) :
        Bpu σ → Prop) :=
  queueAll_guarded _ _ (fun j0 e now_ms he => sched_job_known j0 e now_ms he)

theorem noDrop_guarded {σ : Type} :
    Guarded (fun e : BpuEvent => TypeKnown e.type) (fun j : BpuJob => TypeKnown j.type)
      (NoDrop : Bpu σ → Prop) where
  ext_ok := by
    intro a b h he hj hd
    obtain ⟨hq, hi, h0⟩ := h
    refine ⟨typed_guarded.ext_ok a b hq he hj hd, ?_, by rw [hd]; exact h0⟩
    unfold JobqInv
    rw [hj]
    exact hi
  evq_push_ok := by
    intro b e h he
    obtain ⟨hq, hi, h0⟩ := h
    refine ⟨typed_guarded.evq_push_ok b e hq he, ?_,
      by rw [bpu_evq_push_coalesce_job_drop]; exact h0⟩
    unfold JobqInv
    rw [(bpu_evq_push_coalesce_queueOnly b e).2.1]
    exact hi
  evq_pop_ok := by
    intro b h hc
    obtain ⟨hq, hi, h0⟩ := h
    obtain ⟨g1, g2⟩ := typed_guarded.evq_pop_ok b hq hc
    refine ⟨g1, g2, ?_, by rw [bpu_evq_pop_job_drop]; exact h0⟩
    unfold JobqInv
    rw [(bpu_evq_pop_queueOnly b default).2.1]
    exact hi
  jobq_push_ok := by
    intro b j h hj
    obtain ⟨hq, hi, h0⟩ := h
    exact ⟨typed_guarded.jobq_push_ok b j hq hj, jobqInv_push b j hi,
      by rw [(push_known_ok b j hi hq.2.2 hj).2]; exact h0⟩
  jobq_pop_ok := by
    intro b h hc
    obtain ⟨hq, hi, h0⟩ := h
    obtain ⟨g1, g2⟩ := typed_guarded.jobq_pop_ok b hq hc
    obtain ⟨p1, p2, _⟩ := jobq_contents_popped b hc hi.1
    have hn := hi.2
    rw [p1, List.map_cons, List.nodup_cons] at hn
    exact ⟨g1, g2, ⟨p2, hn.2⟩, h0⟩
  sched_ok := fun j0 e now_ms he => sched_job_known j0 e now_ms he

/-- One scheduler round from a `NoDrop` state keeps the status and the
invariant: the push of the job returns OK. -/
theorem noDrop_sched_event {σ : Type} (now_ms : Nat) (s : Bpu σ × Nat) (e : BpuEvent)
    (h : NoDrop s.1) (he : TypeKnown e.type) :
    (sched_event now_ms s e).2 = s.2 ∧ NoDrop (sched_event now_ms s e).1 := by
  refine ⟨?_, guarded_sched_event noDrop_guarded now_ms s e h he⟩
  rw [sched_event_eq]
  simp only []
  rw [(push_known_ok s.1 (sched_job (s.1.stack_job s.1.st.job_in) e now_ms) h.2.1 h.1.2.2
    (sched_job_known _ e now_ms he)).1]
  rw [if_neg (by decide)]

theorem noDrop_sched_loop {σ : Type} (now_ms : Nat) :
    ∀ (fuel : Nat) (s r : Bpu σ × Nat), NoDrop s.1 → sched_loop now_ms fuel s = some r →
      r.2 = s.2 ∧ NoDrop r.1 := by
  intro fuel
  induction fuel with
  | zero => intro s r _ h; simp [sched_loop] at h
  | succ n ih =>
    intro s r hb h
    rw [sched_loop] at h
    by_cases hc : s.1.evq.count = 0
    · rw [bpu_evq_pop_empty s.1 default hc] at h
      simp only [ne_eq, not_false_eq_true, if_true] at h
      rw [if_pos (by decide)] at h
      cases h
      exact ⟨rfl, noDrop_guarded.ext_ok s.1 _ hb rfl rfl rfl⟩
    · obtain ⟨p1, p2⟩ := noDrop_guarded.evq_pop_ok s.1 hb hc
      have hev : (bpu_evq_pop s.1 default).2.1 = s.1.evq.buf s.1.evq.tail := by
        rw [bpu_evq_pop_nonempty s.1 default hc]
      have hrc : (bpu_evq_pop s.1 default).2.2 = BPU_RC_OK := by
        rw [bpu_evq_pop_nonempty s.1 default hc]
      rw [if_neg (by rw [hrc]; decide)] at h
      obtain ⟨e1, e2⟩ := noDrop_sched_event now_ms ((bpu_evq_pop s.1 default).1, s.2)
        (bpu_evq_pop s.1 default).2.1 p2 (by rw [hev]; exact p1)
      obtain ⟨i1, i2⟩ := ih _ r e2 h
      exact ⟨i1.trans e1, i2⟩

theorem typedReachable_noDrop {σ : Type} (b : Bpu σ) (h : TypedReachable b) : NoDrop b := by
  induction h with
  | init mem io cfg h =>
    have hw := reachable_ringWf _ (Reachable.init mem io cfg h)
    have hi := reachable_jobqInv _ (Reachable.init mem io cfg h)
    have hq := bpu_init_queues_empty mem io cfg h
    refine ⟨⟨hw, fun e he => ?_, fun j hj => ?_⟩, hi, hq.2.2⟩
    · unfold evq_contents at he
      rw [hq.1] at he
      simp at he
    · unfold jobq_contents at hj
      rw [hq.2.1] at hj
      simp at hj
  | push_event b t p l n _ ht ih =>
    exact guarded_push_event noDrop_guarded b t p l n ih (by
      show TypeKnown (push_event_record b.stack_evt t p l n).type
      rw [(push_event_record_fields b.stack_evt t p l n).1]
      exact ht)
  | tick_ex b fuel ms us r _ h ih => exact guarded_tick noDrop_guarded fuel b ms us r ih h
  | host b c _ ih => exact noDrop_guarded.ext_ok b _ ih rfl rfl rfl
  | stack b e0 j0 _ ih => exact noDrop_guarded.ext_ok b _ ih rfl rfl rfl

theorem typedTick_noDrop {σ : Type} (b : Bpu σ) (h : TypedTick b) : NoDrop b := by
  induction h with
  | entry b hr => exact typedReachable_noDrop b hr
  | sample b now_us _ ih => exact guarded_tick_sample noDrop_guarded b now_us ih
  | send b fuel B r _ h ih => exact guarded_send noDrop_guarded fuel b B r ih h
  | sched_round b now_ms rc _ hc ih =>
    obtain ⟨p1, p2⟩ := noDrop_guarded.evq_pop_ok b ih hc
    have hev : (bpu_evq_pop b default).2.1 = b.evq.buf b.evq.tail := by
      rw [bpu_evq_pop_nonempty b default hc]
    exact guarded_sched_event noDrop_guarded now_ms _ _ p2 (by rw [hev]; exact p1)
  | sched b now_ms r _ h ih => exact (noDrop_sched_loop now_ms _ _ r ih h).2
  | round inner s s' _ h ih => exact guarded_flush_step noDrop_guarded inner s s' ih h

/-- C33. Along every run from a successful `bpu_init` in which every
`bpu_push_event` call passes an event type of the enum (`TypeKnown`: 1 to 4,
that is CMD, SENSOR, HB or TELEM), in every state between API calls and in
every state a tick passes through (`TypedTick`: after the clock sample, after
`bpu_send_pending`, after each round of the scheduler loop, after the
scheduler, after each round of the flush loop): `job_drop` is 0; every queued
event and every queued job has a type of the enum; the queued jobs have
pairwise distinct types and there are at most 4 of them. Every
`bpu_jobq_push_coalesce` call made from such a state returns OK and leaves
`job_drop` at 0: a push of any job with a type of the enum; the push the
scheduler makes for the event at the front of the event queue (on the state
after the pop and the aged counters, the local `j` holding whatever the stack
held); and the requeue of the job at the front
of the job queue on any state whose job queue is the one left by the pop.
`bpu_schedule_from_events` returns, with status OK and `job_drop` 0. -/
theorem typed_run_never_drops {σ : Type} (x : Bpu σ) (hx : TypedTick x) :
    (∀ t, TypeKnown t ↔
      t = BPU_EVT_CMD ∨ t = BPU_EVT_SENSOR ∨ t = BPU_EVT_HB ∨ t = BPU_EVT_TELEM) ∧
    x.st.job_drop = 0 ∧
    (∀ e ∈ evq_contents x.evq, TypeKnown e.type) ∧
    (∀ j ∈ jobq_contents x.jobq, TypeKnown j.type) ∧
    ((jobq_contents x.jobq).map (fun j => j.type)).Nodup ∧
    x.jobq.count ≤ 4 ∧
    (∀ j : BpuJob, TypeKnown j.type →
      (bpu_jobq_push_coalesce x j).2 = BPU_RC_OK ∧
      (bpu_jobq_push_coalesce x j).1.st.job_drop = 0) ∧
    (x.evq.count ≠ 0 → ∀ now_ms : Nat,
      (bpu_jobq_push_coalesce
        { (bpu_evq_pop x default).1 with
          st := sched_aged (bpu_evq_pop x default).1.st (bpu_evq_pop x default).1.cfg
            (bpu_evq_pop x default).2.1 now_ms }
        (sched_job ((bpu_evq_pop x default).1.stack_job (bpu_evq_pop x default).1.st.job_in)
          (bpu_evq_pop x default).2.1 now_ms)).2 = BPU_RC_OK ∧
      (bpu_jobq_push_coalesce
        { (bpu_evq_pop x default).1 with
          st := sched_aged (bpu_evq_pop x default).1.st (bpu_evq_pop x default).1.cfg
            (bpu_evq_pop x default).2.1 now_ms }
        (sched_job ((bpu_evq_pop x default).1.stack_job (bpu_evq_pop x default).1.st.job_in)
          (bpu_evq_pop x default).2.1 now_ms)).1.st.job_drop = 0) ∧
    (x.jobq.count ≠ 0 → ∀ y : Bpu σ, y.jobq = (flush_popped x).jobq →
      (bpu_jobq_push_coalesce y (jobq_front x)).2 = BPU_RC_OK ∧
      (flush_requeue y (jobq_front x)).st.job_drop = y.st.job_drop) ∧
    (∀ now_ms : Nat, ∃ r, bpu_schedule_from_events x now_ms = some r ∧
      r.2 = BPU_RC_OK ∧ r.1.st.job_drop = 0) := by
  have hN := typedTick_noDrop x hx
  obtain ⟨hq, hi, h0⟩ := hN
  refine ⟨typeKnown_iff, h0, hq.2.1, hq.2.2, hi.2, hi.1.1, fun j hj => ?_, fun hc now_ms => ?_,
    fun hc y hy => requeue_push_ok x y hi hc hy, fun now_ms => ?_⟩
  · obtain ⟨r1, r2⟩ := push_known_ok x j hi hq.2.2 hj
    exact ⟨r1, by rw [r2]; exact h0⟩
  · obtain ⟨p1, p2⟩ := noDrop_guarded.evq_pop_ok x ⟨hq, hi, h0⟩ hc
    have hev : (bpu_evq_pop x default).2.1 = x.evq.buf x.evq.tail := by
      rw [bpu_evq_pop_nonempty x default hc]
    have hA : NoDrop { (bpu_evq_pop x default).1 with
        st := sched_aged (bpu_evq_pop x default).1.st (bpu_evq_pop x default).1.cfg
          (bpu_evq_pop x default).2.1 now_ms } :=
      noDrop_guarded.ext_ok _ _ p2 rfl rfl (sched_aged_job_drop _ _ _ _)
    obtain ⟨r1, r2⟩ := push_known_ok _
      (sched_job ((bpu_evq_pop x default).1.stack_job (bpu_evq_pop x default).1.st.job_in)
        (bpu_evq_pop x default).2.1 now_ms) hA.2.1
      hA.1.2.2 (sched_job_known _ _ now_ms (by rw [hev]; exact p1))
    exact ⟨r1, by rw [r2]; exact hA.2.2⟩
  · obtain ⟨r, hr⟩ := sched_loop_total now_ms x.evq.count (x, BPU_RC_OK) (Nat.le_refl _)
    obtain ⟨e1, e2⟩ := noDrop_sched_loop now_ms _ _ r ⟨hq, hi, h0⟩ hr
    exact ⟨r, hr, e1, e2.2.2⟩

set_option maxHeartbeats 4000000 in
set_option maxRecDepth 1000000 in
/-- Instance of `typed_run_never_drops`: the state `bpu_four_jobs`, reached by
four `bpu_push_event` calls of types TELEM, HB, SENSOR, CMD and one tick. The
job queue is full with four distinct types and `job_drop` is 0; a further push
of an HB job merges into the queued HB job and returns OK with `job_drop`
still 0. -/
theorem typed_run_never_drops_witness :
    TypedTick bpu_four_jobs ∧
    ((jobq_contents bpu_four_jobs.jobq).map (fun j => j.type), bpu_four_jobs.jobq.count,
      bpu_four_jobs.st.job_drop) =
      ([BPU_JOB_TELEM, BPU_JOB_HB, BPU_JOB_SENSOR, BPU_JOB_CMD], 4, 0) ∧
    ((jobq_contents (bpu_jobq_push_coalesce bpu_four_jobs
        (job_of_type BPU_JOB_HB 130)).1.jobq).map (fun j => (j.type, j.t_ms)) =
      [(BPU_JOB_TELEM, 100), (BPU_JOB_HB, 130), (BPU_JOB_SENSOR, 100), (BPU_JOB_CMD, 100)]) ∧
    (bpu_jobq_push_coalesce bpu_four_jobs (job_of_type BPU_JOB_HB 130)).2 = BPU_RC_OK ∧
    (bpu_jobq_push_coalesce bpu_four_jobs (job_of_type BPU_JOB_HB 130)).1.st.job_drop = 0 := by
  have ht : TypedTick bpu_four_jobs :=
    TypedTick.entry _ (TypedReachable.tick_ex bpu_four_events 1 100 0 _
      (TypedReachable.push_event _ _ _ _ _ (TypedReachable.push_event _ _ _ _ _
        (TypedReachable.push_event _ _ _ _ _ (TypedReachable.push_event _ _ _ _ _
          (TypedReachable.init bpu_zeroed io_accept cfg_budget0 rfl)
          ⟨by decide, by decide⟩) ⟨by decide, by decide⟩) ⟨by decide, by decide⟩)
        ⟨by decide, by decide⟩)
      (Option.some_get _).symm)
  exact ⟨ht, by rfl, by rfl,
    (typed_run_never_drops bpu_four_jobs ht).2.2.2.2.2.2.1 (job_of_type BPU_JOB_HB 130)
      ⟨by decide, by decide⟩⟩

end BpuEspidf
